import Mathlib

/-!
RUI3 AT-command driver: a verification development

A shallow embedding of the protocol engine of `src/src/rui3_at.cpp`
(class `RUI3`) and theorems about it.

Conventions of the embedding

* A byte (`char`) is a natural number `0..255`; a C string is the list of the
  bytes before its first NUL.  `char` is taken to be unsigned, as it is on the
  ESP32 and ARM targets of the example applications.
* `ret` is the 1024-byte member `char ret[1024]`, a list of 1024 cells.  A write
  at an index outside `0..1023` is undefined behaviour in C; the embedding
  stops there and reports `Fault.oob idx`.
* The link `_serial1` is a queue of pending bytes, each with the time (in ms)
  at which it becomes available, and a log of the bytes printed to the module.
* `millis()` is the field `now`; only `delay(n)` advances it.  The clock does
  not wrap during a call.
* `_serial` (and the global `Serial`) is the debug console, a stream other than
  the module link; what is printed to it is not part of the state.
* An `int` argument is an integer; a `uint8_t` result is a natural number.
-/

namespace RUI3

/-! ## Bytes, C strings and the C library -/

/-- The bytes of an ASCII string literal. -/
def ascii (s : String) : List Nat := s.toList.map Char.toNat

/-- The test `strncmp(hay, needle, strlen(needle)) == 0`. -/
def startsWith : List Nat → List Nat → Bool
  | _, [] => true
  | [], _ :: _ => false
  | h :: hs, n :: ns => h == n && startsWith hs ns

/-- The test `strstr(hay, needle) != NULL` on C strings given as byte lists. -/
def strstr : List Nat → List Nat → Bool
  | [], needle => startsWith [] needle
  | h :: hs, needle => startsWith (h :: hs) needle || strstr hs needle

/-- The C string stored at the start of a buffer: the bytes before the first NUL. -/
def cstr (buf : List Nat) : List Nat := buf.takeWhile (fun b => b != 0)

/-- The effect of `snprintf(buf, 1024, s)` for a literal `s` shorter than the
buffer: the bytes of `s` and a NUL, the rest of the buffer untouched. -/
def snprintfLit (buf : List Nat) (s : List Nat) : List Nat :=
  s ++ 0 :: buf.drop (s.length + 1)

/-- The C predicate `isspace` in the "C" locale. -/
def isspace (c : Nat) : Bool := c == 32 || (9 ≤ c && c ≤ 13)

/-- Value of a character as a digit of `strtol`, 36 and more when it is none. -/
def digitVal (c : Nat) : Nat :=
  if 48 ≤ c ∧ c ≤ 57 then c - 48
  else if 65 ≤ c ∧ c ≤ 90 then c - 55
  else if 97 ≤ c ∧ c ≤ 122 then c - 87
  else 36

/-- The digit loop of `strtol`: accumulate digits below `base`. -/
def strtolDigits (base : Nat) : Nat → List Nat → Nat
  | acc, [] => acc
  | acc, c :: cs => if digitVal c < base then strtolDigits base (acc * base + digitVal c) cs else acc

/-- Largest value of `long` on the 32-bit targets. -/
def LONG_MAX : Int := 2147483647

/-- The C library function `strtol(s, NULL, base)` for `base` 0, 10 or 16 on a
C string: white space, optional sign, optional `0x` prefix, digits; the value
is clamped to the range of `long`. -/
def strtol (s : List Nat) (base : Nat) : Int :=
  let s1 := s.dropWhile isspace
  let neg := s1.head? == some 45
  let s2 := if s1.head? == some 45 || s1.head? == some 43 then s1.tail else s1
  let hexPrefix := (base == 0 || base == 16) && s2.head? == some 48 &&
    (s2.tail.head? == some 120 || s2.tail.head? == some 88)
  let s3 := if hexPrefix then s2.tail.tail else s2
  let base1 := if hexPrefix then 16 else if base == 0 then (if s2.head? == some 48 then 8 else 10) else base
  let v : Int := strtolDigits base1 0 s3
  if neg then max (-v) (-LONG_MAX - 1) else min v LONG_MAX

/-! ## The hexadecimal codec -/

/-- The caller's memory seen through a `char *`: the byte at each index. -/
abbrev Mem := Nat → Nat

/-- The assignment `p[i] = v`. -/
def Mem.write (mem : Mem) (i v : Nat) : Mem := fun j => if j = i then v else mem j

/-- The bytes `p[0] .. p[n-1]`. -/
def Mem.bytes (mem : Mem) (n : Nat) : List Nat := (List.range n).map mem

/-- Upper-case hexadecimal digit of a value below 16, as `%X` prints it. -/
def hexDigit (d : Nat) : Nat := if d < 10 then 48 + d else 55 + d

/-- The call `sprintf(&a[pos], "%02X", v)` for a `char` value `v`: two digits and a NUL. -/
def sprintf02X (a : Mem) (pos v : Nat) : Mem :=
  ((a.write pos (hexDigit (v / 16))).write (pos + 1) (hexDigit (v % 16))).write (pos + 2) 0

/-- The `for` loop of `byteArrayToAscii`, from `index` for `count` more rounds. -/
def byteArrayToAsciiLoop (b : Mem) : Nat → Nat → Mem → Mem
  | 0, _, a => a
  | count + 1, index, a =>
    byteArrayToAsciiLoop b count (index + 1) (sprintf02X a (index * 2) (b index % 256))

/-- `RUI3::byteArrayToAscii`: the return value and the text array afterwards. -/
def byteArrayToAscii (b a : Mem) (b_array_len a_array_len : Nat) : Bool × Mem :=
  if (a_array_len : Int) < (b_array_len : Int) * 2 - 1 then (false, a)
  else (true, byteArrayToAsciiLoop b b_array_len 0 a)

/-- The C string held by `char doublet[3]` after the three assignments. -/
def doublet (a : Mem) (index : Nat) : List Nat :=
  cstr [a (index * 2), a (index * 2 + 1), 0]

/-- Conversion of a `long` to `char` on assignment. -/
def toChar (v : Int) : Nat := (v % 256).toNat

/-- The `for` loop of `asciiArrayToByte`, from `index` for `count` more rounds. -/
def asciiArrayToByteLoop (a : Mem) : Nat → Nat → Mem → Mem
  | 0, _, b => b
  | count + 1, index, b =>
    asciiArrayToByteLoop a count (index + 1)
      ((b.write index (toChar (strtol (doublet a index) 16))).write (index + 1) 0)

/-- `RUI3::asciiArrayToByte`: the return value and the byte array afterwards. -/
def asciiArrayToByte (b a : Mem) (b_array_len a_array_len : Nat) : Bool × Mem :=
  if a_array_len % 2 ≠ 0 then (false, b)
  else if (b_array_len : Int) < ((a_array_len / 2 : Nat) : Int) - 1 then (false, b)
  else (true, asciiArrayToByteLoop a a_array_len 0 b)

/-! ## The engine, its response buffer and the module link -/

/-- A run of the embedding that cannot be continued: a write outside `ret`
(undefined behaviour in C), or a loop that exhausted its fuel. -/
inductive Fault where
  | oob (idx : Nat)
  | fuel
  deriving DecidableEq, Repr

instance instDecidableEqExcept {ε α : Type} [DecidableEq ε] [DecidableEq α] :
    DecidableEq (Except ε α)
  | .ok a, .ok b =>
    if h : a = b then isTrue (by rw [h]) else isFalse (fun h2 => h (Except.ok.inj h2))
  | .error a, .error b =>
    if h : a = b then isTrue (by rw [h]) else isFalse (fun h2 => h (Except.error.inj h2))
  | .ok _, .error _ => isFalse (fun h => Except.noConfusion h)
  | .error _, .ok _ => isFalse (fun h => Except.noConfusion h)

/-- The engine instance together with the world it talks to. -/
structure Machine where
  /-- Value of `millis()`. -/
  now : Nat
  /-- Bytes the module has sent and the engine has not read, each with its arrival time. -/
  rx : List (Nat × Nat)
  /-- Bytes printed to `_serial1` so far. -/
  tx : List Nat
  /-- Member `char ret[1024]`. -/
  ret : List Nat
  _devADDR : List Nat
  _devEUI : List Nat
  _appEUI : List Nat
  _nwksKEY : List Nat
  _appKEY : List Nat
  _appsKEY : List Nat
  deriving DecidableEq, Repr

/-- Size of `ret`. -/
def RET_SIZE : Nat := 1024

/-- The call `_serial1.available()` as a truth value. -/
def available (m : Machine) : Bool :=
  match m.rx with
  | [] => false
  | (t, _) :: _ => decide (t ≤ m.now)

/-- The call `delay(ms)`. -/
def delay (ms : Nat) (m : Machine) : Machine := { m with now := m.now + ms }

/-- The assignment `ret[i] = v`. -/
def poke (m : Machine) (i v : Nat) : Except Fault Machine :=
  if i < RET_SIZE then .ok { m with ret := m.ret.set i v } else .error (.oob i)

/-- The call `snprintf(ret, 1024, s)` for a literal `s`. -/
def setRetLit (m : Machine) (s : String) : Machine :=
  { m with ret := snprintfLit m.ret (ascii s) }

/-- The test `strstr(text, s) != NULL` for a literal `s`. -/
def hasTok (text : List Nat) (s : String) : Bool := strstr text (ascii s)

/-- The test `strstr(ret, s) != NULL` for a literal `s`. -/
def retHas (m : Machine) (s : String) : Bool := hasTok (cstr m.ret) s

/-- The bytes the engine read from the link between two states of one run. -/
def consumed (before after : Machine) : List Nat :=
  (before.rx.take (before.rx.length - after.rx.length)).map Prod.snd

/-! ### `RUI3::recvRX` -/

/-- The test `(c == '\r') || (c == '\n')`. -/
def isEol (c : Nat) : Bool := c == 13 || c == 10

/-- Local variables of `recvRX`. -/
structure RxVars where
  ret_index : Nat
  rx_ok : Bool
  wait_eol : Bool
  cont_while : Bool
  deriving DecidableEq, Repr

/-- The block `if (_serial1.available()) { ... }` of `recvRX`. -/
def recvRXRead (m : Machine) (v : RxVars) : Except Fault (Machine × RxVars) :=
  match m.rx with
  | [] => .ok (m, v)
  | (t, rx_byte) :: rest =>
    if t ≤ m.now then do
      let m ← poke { m with rx := rest } v.ret_index rx_byte
      let eol := v.wait_eol && isEol rx_byte
      let m ← if eol then poke m (v.ret_index + 1) 0 else .ok m
      let ret_index := (if eol then v.ret_index + 1 else v.ret_index) + 1
      let cont_while := v.cont_while && !eol && !decide (ret_index > 1024)
      let m ← poke m ret_index 0
      let wait_eol := v.wait_eol || (retHas m "+EVT:RX" && !v.wait_eol)
      let cont_while := cont_while && !retHas m "+EVT:RXP2P_RECEIVE_TIMEOUT"
      .ok (delay 20 m, { ret_index := ret_index, rx_ok := true, wait_eol := wait_eol,
                         cont_while := cont_while })
    else .ok (m, v)

/-- The loop `while (cont_while)` of `recvRX`; `start` is `start_listen`. -/
def recvRXLoop (timeout start : Nat) : Nat → Machine → RxVars → Except Fault (Machine × RxVars)
  | 0, _, _ => .error .fuel
  | fuel + 1, m, v =>
    if v.cont_while then
      match recvRXRead m v with
      | .error e => .error e
      | .ok (m, v) =>
        let m := delay 20 m
        if v.wait_eol then
          if m.now - start > 120000 then
            .ok (setRetLit m "FAILED_RX", { v with cont_while := false })
          else recvRXLoop timeout start fuel m v
        else
          if m.now - start > timeout then
            .ok (setRetLit m "NO_RX", { v with cont_while := false })
          else recvRXLoop timeout start fuel m v
    else .ok (m, v)

/-- `RUI3::recvRX(timeout)`.  Every round of the loop takes at least 20 ms and
the loop ends once 120000 ms and the timeout have both passed, which bounds the rounds. -/
def recvRX (timeout : Nat) (m : Machine) : Except Fault Machine :=
  match poke m 0 0 with
  | .error e => .error e
  | .ok m0 =>
    match recvRXLoop timeout m0.now (max timeout 120000 / 20 + 2) m0
        { ret_index := 0, rx_ok := false, wait_eol := false, cont_while := true } with
    | .error e => .error e
    | .ok (m1, v) => .ok (if !v.rx_ok then setRetLit m1 "NO_RX" else m1)

/-! ### `RUI3::recvResponse` and `RUI3::flushRX` -/

/-- The block `if (_serial1.available()) { ... }` shared by `recvResponse` and
`flushRX`; the result carries `ret_index` and whether a byte was read. -/
def respRead (m : Machine) (ret_index : Nat) : Except Fault (Machine × Nat × Bool) :=
  match m.rx with
  | [] => .ok (m, ret_index, false)
  | (t, b) :: rest =>
    if t ≤ m.now then do
      let m ← poke { m with rx := rest } ret_index b
      let ret_index := if b ≠ 13 ∨ b ≠ 10 then ret_index + 1 else ret_index
      let m ← poke m ret_index 0
      .ok (m, ret_index, true)
    else .ok (m, ret_index, false)

/-- What the sentinel tests of `recvResponse` decide for the text in `ret`. -/
inductive Verdict where
  | pendingRx
  | success
  | failure
  | none
  deriving DecidableEq, Repr

/-- The chain of `strstr` tests of `recvResponse` on the text in `ret`, in the
order of the source. -/
def verdictOf (text : List Nat) : Verdict :=
  if hasTok text "+EVT:TX_DONE" || hasTok text "+EVT:SEND_CONFIRMED_OK" then .pendingRx
  else if hasTok text "+EVT:TXP2P DONE" then .success
  else if hasTok text "OK" then .success
  else if hasTok text "AT_COMMAND_NOT_FOUND" || hasTok text "AT_PARAM_ERROR" ||
      hasTok text "SEND_CONFIRMED_FAILED" || hasTok text "AT_NO_NETWORK_JOINED" then .failure
  else .none

/-- The sentinel tests of `recvResponse` applied to `ret`. -/
def verdict (m : Machine) : Verdict := verdictOf (cstr m.ret)

/-- The loop `while ((millis() - start_listen) < timeout)` of `recvResponse`
followed by the code after it. -/
def recvResponseLoop (timeout start : Nat) :
    Nat → Machine → Nat → Bool → Except Fault (Bool × Machine)
  | 0, _, _, _ => .error .fuel
  | fuel + 1, m, ret_index, rx_ok =>
    if m.now - start < timeout then
      match respRead m ret_index with
      | .error e => .error e
      | .ok (m, ret_index, got) =>
        match verdict m with
        | .pendingRx =>
          match recvRX 5000 m with
          | .error e => .error e
          | .ok m => .ok (true, m)
        | .success => .ok (true, m)
        | .failure => .ok (false, m)
        | .none => recvResponseLoop timeout start fuel (delay 20 m) ret_index (rx_ok || got)
    else .ok (false, if !rx_ok then setRetLit m "NO_RESPONSE" else m)

/-- `RUI3::recvResponse(timeout)`.  Every round of the loop that does not
return takes 20 ms, which bounds the rounds. -/
def recvResponse (timeout : Nat) (m : Machine) : Except Fault (Bool × Machine) :=
  match poke m 0 0 with
  | .error e => .error e
  | .ok m0 => recvResponseLoop timeout m0.now (timeout / 20 + 2) m0 0 false

/-- The chain of `strstr` tests of `flushRX` on the text in `ret`: true when
the drain stops. -/
def flushStopOf (text : List Nat) : Bool :=
  (hasTok text "+EVT:TX_DONE" || hasTok text "+EVT:SEND_CONFIRMED_OK") || hasTok text "OK" ||
  (hasTok text "AT_COMMAND_NOT_FOUND" || hasTok text "AT_PARAM_ERROR")

/-- The sentinel tests of `flushRX` applied to `ret`. -/
def flushStop (m : Machine) : Bool := flushStopOf (cstr m.ret)

/-- The loop of `flushRX`. -/
def flushRXLoop (timeout start : Nat) : Nat → Machine → Nat → Except Fault Machine
  | 0, _, _ => .error .fuel
  | fuel + 1, m, ret_index =>
    if m.now - start < timeout then
      match respRead m ret_index with
      | .error e => .error e
      | .ok (m, ret_index, _) =>
        if flushStop m then .ok m
        else flushRXLoop timeout start fuel (delay 20 m) ret_index
    else .ok m

/-- `RUI3::flushRX(timeout)`. -/
def flushRX (timeout : Nat) (m : Machine) : Except Fault Machine :=
  match poke m 0 0 with
  | .error e => .error e
  | .ok m0 => flushRXLoop timeout m0.now (timeout / 20 + 2) m0 0

/-! ### Sending commands -/

/-- The call `_serial1.print(s)`. -/
def print (m : Machine) (s : List Nat) : Machine := { m with tx := m.tx ++ s }

/-- The text `snprintf(command, 1024, "<verb>%s\r\n", value.c_str())` leaves in
the global `command`: the verb, the C string of the value and the line
terminator, cut to the 1023 characters that fit. -/
def commandLine (verb : String) (value : List Nat) : List Nat :=
  (ascii verb ++ cstr value ++ ascii "\r\n").take 1023

/-- `RUI3::sendRawCommand(cmd)`: a bare line terminator, the drain of stale
input, the command, and a pause of 50 ms. -/
def sendRawCommand (cmd : List Nat) (m : Machine) : Except Fault (Bool × Machine) :=
  match flushRX 1000 (print m (ascii "\r\n")) with
  | .error e => .error e
  | .ok m => .ok (true, delay 50 (print m cmd))

/-- The statement pair `sendRawCommand(command); recvResponse();` with the
default timeout of 10 s. -/
def exchange (cmd : List Nat) (m : Machine) : Except Fault Machine :=
  match sendRawCommand cmd m with
  | .error e => .error e
  | .ok (_, m) =>
    match recvResponse 10000 m with
    | .error e => .error e
    | .ok (_, m) => .ok m

/-- The statement pair `sendRawCommand(cmd); recvResponse();` together with the
value `recvResponse` returns, which the verbs of the library do not look at. -/
def transact (cmd : List Nat) (m : Machine) : Except Fault (Bool × Machine) :=
  match sendRawCommand cmd m with
  | .error e => .error e
  | .ok (_, a) => recvResponse 10000 a

/-- `RUI3::initOTAA(devEUI, appEUI, appKEY)`.  The messages printed to the debug
stream `_serial` are not part of the state. -/
def initOTAA (devEUI appEUI appKEY : List Nat) (m : Machine) : Except Fault (Bool × Machine) :=
  if devEUI.length = 16 then
    let m := { m with _devEUI := devEUI }
    if appEUI.length = 16 then
      let m := { m with _appEUI := appEUI }
      if appKEY.length = 32 then
        let m := { m with _appKEY := appKEY }
        match exchange (commandLine "at+deveui=" m._devEUI) m with
        | .error e => .error e
        | .ok m =>
          if retHas m "OK" then
            match exchange (commandLine "at+appeui=" m._devEUI) m with
            | .error e => .error e
            | .ok m =>
              if retHas m "OK" then
                match exchange (commandLine "at+appkey=" m._appKEY) m with
                | .error e => .error e
                | .ok m => if retHas m "OK" then .ok (true, m) else .ok (false, m)
              else .ok (false, m)
          else .ok (false, m)
      else .ok (false, m)
    else .ok (false, m)
  else .ok (false, m)

/-- `RUI3::initABP(devADDR, nwksKEY, appsKEY)`. -/
def initABP (devADDR nwksKEY appsKEY : List Nat) (m : Machine) : Except Fault (Bool × Machine) :=
  if devADDR.length = 8 then
    let m := { m with _devADDR := devADDR }
    if nwksKEY.length = 32 then
      let m := { m with _nwksKEY := nwksKEY }
      if appsKEY.length = 32 then
        let m := { m with _appsKEY := appsKEY }
        match exchange (commandLine "at+devaddr=" m._devADDR) m with
        | .error e => .error e
        | .ok m =>
          if retHas m "OK" then
            match exchange (commandLine "at+nwkskey=" m._nwksKEY) m with
            | .error e => .error e
            | .ok m =>
              if retHas m "OK" then
                match exchange (commandLine "at+appskey=" m._appsKEY) m with
                | .error e => .error e
                | .ok m => if retHas m "OK" then .ok (true, m) else .ok (false, m)
              else .ok (false, m)
          else .ok (false, m)
      else .ok (false, m)
    else .ok (false, m)
  else .ok (false, m)

/-! ### Set verbs -/

/-- The characters `printf` produces for the conversion `%d`. -/
def fmtInt (v : Int) : List Nat :=
  if v < 0 then 45 :: (Nat.toDigits 10 v.natAbs).map Char.toNat
  else (Nat.toDigits 10 v.natAbs).map Char.toNat

/-- The text `snprintf(command, 1024, "<verb>%d\r\n", v)` leaves in the global
`command`, cut to the 1023 characters that fit. -/
def commandInt (verb : String) (v : Int) : List Nat :=
  (ascii verb ++ fmtInt v ++ ascii "\r\n").take 1023

/-- The tail shared by the set verbs: `sendRawCommand(command); recvResponse();`
and then `if (strstr(ret, "OK") != NULL) return true; else return false;`. -/
def sendAndCheckOK (cmd : List Nat) (m : Machine) : Except Fault (Bool × Machine) :=
  match exchange cmd m with
  | .error e => .error e
  | .ok m => if retHas m "OK" then .ok (true, m) else .ok (false, m)

/-- The tail of `setLPM`, `setLPMLevel` and `setWorkingMode`: as `sendAndCheckOK`
with the test `(strstr(ret, "Initialization OK") != NULL) || (strstr(ret, "OK") != NULL)`. -/
def sendAndCheckInitOK (cmd : List Nat) (m : Machine) : Except Fault (Bool × Machine) :=
  match exchange cmd m with
  | .error e => .error e
  | .ok m => if retHas m "Initialization OK" || retHas m "OK" then .ok (true, m) else .ok (false, m)

/-- `RUI3::setDataRate(rate)`. -/
def setDataRate (rate : Int) (m : Machine) : Except Fault (Bool × Machine) :=
  if rate < 0 ∨ rate > 15 then .ok (false, m)
  else sendAndCheckOK (commandInt "at+dr=" rate) m

/-- `RUI3::setClass(classMode)`. -/
def setClass (classMode : Int) (m : Machine) : Except Fault (Bool × Machine) :=
  if classMode = 0 then sendAndCheckOK (ascii "at+class=a\r\n") m
  else if classMode = 1 then sendAndCheckOK (ascii "at+class=b\r\n") m
  else if classMode = 2 then sendAndCheckOK (ascii "at+class=c\r\n") m
  else .ok (false, m)

/-- `RUI3::setRegion(region)`. -/
def setRegion (region : Int) (m : Machine) : Except Fault (Bool × Machine) :=
  if region > 12 then .ok (false, m)
  else sendAndCheckOK (commandInt "at+band=" region) m

/-- `RUI3::setLPM(mode)`. -/
def setLPM (mode : Int) (m : Machine) : Except Fault (Bool × Machine) :=
  if mode > 1 then .ok (false, m)
  else sendAndCheckInitOK (commandInt "at+lpm=" mode) m

/-- `RUI3::setLPMLevel(mode)`. -/
def setLPMLevel (mode : Int) (m : Machine) : Except Fault (Bool × Machine) :=
  if mode > 2 ∨ mode = 0 then .ok (false, m)
  else sendAndCheckInitOK (commandInt "at+lpmlvl=" mode) m

/-- `RUI3::setWorkingMode(mode)`. -/
def setWorkingMode (mode : Int) (m : Machine) : Except Fault (Bool × Machine) :=
  if mode = 0 then sendAndCheckInitOK (ascii "at+nwm=0\r\n") m
  else if mode = 1 then sendAndCheckInitOK (ascii "at+nwm=1\r\n") m
  else .ok (false, m)

/-- `RUI3::setJoinMode(mode)`. -/
def setJoinMode (mode : Int) (m : Machine) : Except Fault (Bool × Machine) :=
  if mode = 0 then sendAndCheckOK (ascii "at+njm=0\r\n") m
  else if mode = 1 then sendAndCheckOK (ascii "at+njm=1\r\n") m
  else .ok (false, m)

/-- `RUI3::setConfirmed(type)`. -/
def setConfirmed (type : Int) (m : Machine) : Except Fault (Bool × Machine) :=
  if type = 0 then sendAndCheckOK (ascii "at+cfm=0\r\n") m
  else if type = 1 then sendAndCheckOK (ascii "at+cfm=1\r\n") m
  else .ok (false, m)

/-! ### Get verbs -/

/-- The macro `NO_RESPONSE`. -/
def NO_RESPONSE : Nat := 255

/-- The macro `LoRaWAN`. -/
def LoRaWAN : Nat := 1

/-- The macro `LoRaP2P`. -/
def LoRaP2P : Nat := 0

/-- The macro `OTAA`. -/
def OTAA : Nat := 1

/-- The macro `ABP`. -/
def ABP : Nat := 0

/-- The macro `CONF`. -/
def CONF : Nat := 1

/-- The macro `UNCONF`. -/
def UNCONF : Nat := 0

/-- The macro `LPM_LVL_1`. -/
def LPM_LVL_1 : Nat := 1

/-- The macro `LPM_LVL_2`. -/
def LPM_LVL_2 : Nat := 2

/-- The macro `LPM_OFF`. -/
def LPM_OFF : Nat := 0

/-- The macro `LPM_ON`. -/
def LPM_ON : Nat := 1

/-- The pointer `strstr(hay, needle)` as the C string it points to: the text
from the first occurrence of `needle` on, or `none` for `NULL`. -/
def strstrAt : List Nat → List Nat → Option (List Nat)
  | [], needle => if startsWith [] needle then some [] else none
  | h :: hs, needle => if startsWith (h :: hs) needle then some (h :: hs) else strstrAt hs needle

/-- Conversion of a `long` to `uint8_t` on assignment. -/
def toUint8 (v : Int) : Nat := (v % 256).toNat

/-- The tail of `getDataRate` and `getRegion` after the response was read:
the number after the first `=` of `ret`, stored in a `uint8_t`, when it is at
most `top`, else `NO_RESPONSE`. -/
def decimalAfterEquals (m : Machine) (top : Nat) : Nat :=
  match strstrAt (cstr m.ret) (ascii "=") with
  | some str_ptr =>
    let v := toUint8 (strtol str_ptr.tail 10)
    if 0 ≤ v ∧ v ≤ top then v else NO_RESPONSE
  | none => NO_RESPONSE

/-- `RUI3::getDataRate()`. -/
def getDataRate (m : Machine) : Except Fault (Nat × Machine) :=
  match exchange (ascii "at+dr=?\r\n") m with
  | .error e => .error e
  | .ok m => .ok (decimalAfterEquals m 15, m)

/-- `RUI3::getRegion()`. -/
def getRegion (m : Machine) : Except Fault (Nat × Machine) :=
  match exchange (ascii "at+band=?\r\n") m with
  | .error e => .error e
  | .ok m => .ok (decimalAfterEquals m 12, m)

/-- `RUI3::getClass()`; `str_ptr[1]` is the character after the `=`, the
terminating NUL when `ret` ends there. -/
def getClass (m : Machine) : Except Fault (Nat × Machine) :=
  match exchange (ascii "at+class=?\r\n") m with
  | .error e => .error e
  | .ok m =>
    match strstrAt (cstr m.ret) (ascii "=") with
    | some str_ptr =>
      let c := str_ptr.tail.headD 0
      if c = 65 then .ok (0, m)
      else if c = 66 then .ok (1, m)
      else if c = 67 then .ok (2, m)
      else .ok (NO_RESPONSE, m)
    | none => .ok (NO_RESPONSE, m)

/-- `RUI3::getLPM()`. -/
def getLPM (m : Machine) : Except Fault (Nat × Machine) :=
  match exchange (ascii "at+lpm=?\r\n") m with
  | .error e => .error e
  | .ok m =>
    if retHas m "AT+LPM=1" then .ok (LPM_ON, m)
    else if retHas m "AT+LPM=0" then .ok (LPM_OFF, m)
    else .ok (NO_RESPONSE, m)

/-- `RUI3::getLPMLevel()`. -/
def getLPMLevel (m : Machine) : Except Fault (Nat × Machine) :=
  match exchange (ascii "at+lpmlvl=?\r\n") m with
  | .error e => .error e
  | .ok m =>
    if retHas m "AT+LPMLVL=1" then .ok (LPM_LVL_1, m)
    else if retHas m "AT+LPMLVL=2" then .ok (LPM_LVL_1, m)
    else .ok (NO_RESPONSE, m)

/-- `RUI3::getWorkingMode()`. -/
def getWorkingMode (m : Machine) : Except Fault (Nat × Machine) :=
  match exchange (ascii "at+nwm=?\r\n") m with
  | .error e => .error e
  | .ok m => if retHas m "AT+NWM=1" then .ok (LoRaWAN, m) else .ok (LoRaP2P, m)

/-- `RUI3::getJoinMode()`. -/
def getJoinMode (m : Machine) : Except Fault (Nat × Machine) :=
  match exchange (ascii "at+njm=?\r\n") m with
  | .error e => .error e
  | .ok m => if retHas m "AT+NJM=1" then .ok (OTAA, m) else .ok (ABP, m)

/-- `RUI3::getConfirmed()`. -/
def getConfirmed (m : Machine) : Except Fault (Nat × Machine) :=
  match exchange (ascii "at+cfm=?\r\n") m with
  | .error e => .error e
  | .ok m => if retHas m "AT+CFM=1" then .ok (CONF, m) else .ok (UNCONF, m)

/-! ### Credential getters -/

/-- Offset of the first occurrence of `needle` in the C string `hay`, as in
`strstr(hay, needle) - hay`; `none` for `NULL`. -/
def strstrIdx : List Nat → List Nat → Option Nat
  | [], needle => if startsWith [] needle then some 0 else none
  | h :: hs, needle =>
    if startsWith (h :: hs) needle then some 0 else (strstrIdx hs needle).map (· + 1)

/-- The array a pointer `ret + off` addresses: `ret` from the index `off` on.
Reads past the end of `ret` are not told apart; they yield 0. -/
def retFrom (m : Machine) (off : Nat) : Mem := fun i => m.ret.getD (off + i) 0

/-- `RUI3::getDevEUI(eui, array_len)`: the value returned and the caller's array. -/
def getDevEUI (eui : Mem) (array_len : Nat) (m : Machine) : Except Fault (Bool × Mem × Machine) :=
  if array_len < 8 then .ok (false, eui, m)
  else
    match exchange (ascii "at+deveui=?\r\n") m with
    | .error e => .error e
    | .ok m =>
      match strstrIdx (cstr m.ret) (ascii "=") with
      | some str_ptr => .ok (true, (asciiArrayToByte eui (retFrom m (str_ptr + 1)) 8 16).2, m)
      | none => .ok (false, eui, m)

/-- `RUI3::getAppEUI(eui, array_len)`. -/
def getAppEUI (eui : Mem) (array_len : Nat) (m : Machine) : Except Fault (Bool × Mem × Machine) :=
  if array_len < 8 then .ok (false, eui, m)
  else
    match exchange (ascii "at+appeui=?\r\n") m with
    | .error e => .error e
    | .ok m =>
      match strstrIdx (cstr m.ret) (ascii "=") with
      | some str_ptr => .ok (true, (asciiArrayToByte eui (retFrom m (str_ptr + 1)) 8 16).2, m)
      | none => .ok (false, eui, m)

/-- `RUI3::getAppKey(key, array_len)`. -/
def getAppKey (key : Mem) (array_len : Nat) (m : Machine) : Except Fault (Bool × Mem × Machine) :=
  if array_len < 16 then .ok (false, key, m)
  else
    match exchange (ascii "at+appkey=?\r\n") m with
    | .error e => .error e
    | .ok m =>
      match strstrIdx (cstr m.ret) (ascii "=") with
      | some str_ptr =>
        .ok ((asciiArrayToByte key (retFrom m (str_ptr + 1)) 16 34).1,
          (asciiArrayToByte key (retFrom m (str_ptr + 1)) 16 34).2, m)
      | none => .ok (false, key, m)

/-- `RUI3::getAppsKey(key, array_len)`. -/
def getAppsKey (key : Mem) (array_len : Nat) (m : Machine) : Except Fault (Bool × Mem × Machine) :=
  if array_len < 16 then .ok (false, key, m)
  else
    match exchange (ascii "at+appskey=?\r\n") m with
    | .error e => .error e
    | .ok m =>
      match strstrIdx (cstr m.ret) (ascii "=") with
      | some str_ptr =>
        .ok ((asciiArrayToByte key (retFrom m (str_ptr + 1)) 16 32).1,
          (asciiArrayToByte key (retFrom m (str_ptr + 1)) 16 32).2, m)
      | none => .ok (false, key, m)

/-- `RUI3::getNwsKey(key, array_len)`. -/
def getNwsKey (key : Mem) (array_len : Nat) (m : Machine) : Except Fault (Bool × Mem × Machine) :=
  if array_len < 16 then .ok (false, key, m)
  else
    match exchange (ascii "at+nwkskey=?\r\n") m with
    | .error e => .error e
    | .ok m =>
      match strstrIdx (cstr m.ret) (ascii "=") with
      | some str_ptr =>
        .ok ((asciiArrayToByte key (retFrom m (str_ptr + 1)) 16 32).1,
          (asciiArrayToByte key (retFrom m (str_ptr + 1)) 16 32).2, m)
      | none => .ok (false, key, m)

/-! ### LoRa P2P settings -/

/-- The type `p2p_settings`: `freq` is a `uint32_t`, the other fields are `uint16_t`. -/
structure p2p_settings where
  freq : Nat
  sf : Nat
  bw : Nat
  cr : Nat
  ppl : Nat
  txp : Nat
  deriving DecidableEq, Repr

/-- The value `printf` reads for `%ld` when handed a `uint32_t`: the same 32
bits as a `long`. -/
def asLong (v : Nat) : Int :=
  if v % 4294967296 < 2147483648 then (v % 4294967296 : Nat) else (v % 4294967296 : Nat) - 4294967296

/-- Conversion of a `long` to `uint32_t` on assignment. -/
def toUint32 (v : Int) : Nat := (v % 4294967296).toNat

/-- Conversion of a `long` to `uint16_t` on assignment. -/
def toUint16 (v : Int) : Nat := (v % 65536).toNat

/-- The six conversions `%ld:%d:%d:%d:%d:%d` of the format of `initP2P` applied
to the fields of the structure; the `uint16_t` fields are promoted to `int`. -/
def p2pFields (s : p2p_settings) : List Nat :=
  fmtInt (asLong s.freq) ++ ascii ":" ++ fmtInt (s.sf % 65536 : Nat) ++
    ascii ":" ++ fmtInt (s.bw % 65536 : Nat) ++ ascii ":" ++ fmtInt (s.cr % 65536 : Nat) ++
    ascii ":" ++ fmtInt (s.ppl % 65536 : Nat) ++ ascii ":" ++ fmtInt (s.txp % 65536 : Nat)

/-- The text `snprintf(command, 1024, "at+p2p=%ld:%d:%d:%d:%d:%d\r\n", ...)` leaves
in the global `command`. -/
def commandP2P (s : p2p_settings) : List Nat :=
  (ascii "at+p2p=" ++ p2pFields s ++ ascii "\r\n").take 1023

/-- `RUI3::initP2P(p2p_settings)`. -/
def initP2P (s : p2p_settings) (m : Machine) : Except Fault (Bool × Machine) :=
  sendAndCheckOK (commandP2P s) m

/-- The number of bytes of the C string at `buf + pos` ahead of the first one
that fails `p`, as `strspn` and `strcspn` count them; the terminating NUL (and
the end of the buffer) ends the count. -/
def spanAt (p : Nat → Bool) (buf : List Nat) (pos : Nat) : Nat :=
  ((buf.drop pos).takeWhile (fun c => c != 0 && p c)).length

/-- One call of `strtok(.., ":")` that scans the buffer `buf` from the index
`pos`: `none` when no token is left (`NULL`), else the index at which the token
starts, the index saved for the next call, and the buffer, in which the
delimiter that ended the token has been overwritten by NUL. -/
def strtok (buf : List Nat) (pos : Nat) : Option (Nat × Nat × List Nat) :=
  let start := pos + spanAt (fun c => c == 58) buf pos
  if buf.getD start 0 = 0 then none
  else
    let stop := start + spanAt (fun c => c != 58) buf start
    if buf.getD stop 0 = 0 then some (start, stop, buf)
    else some (start, stop + 1, buf.set stop 0)

/-- The C string at `buf + pos`. -/
def cstrAt (buf : List Nat) (pos : Nat) : List Nat := cstr (buf.drop pos)

/-- `RUI3::getP2P(p2p_settings)`: the value returned and the caller's structure.
The first call of `strtok` starts at `ret + 7`. -/
def getP2P (s : p2p_settings) (m : Machine) : Except Fault (Bool × p2p_settings × Machine) :=
  match exchange (ascii "at+p2p=?\r\n") m with
  | .error e => .error e
  | .ok m =>
    if retHas m "AT+P2P=" then
      match strtok m.ret 7 with
      | none => .ok (true, s, m)
      | some (param, save, buf) =>
        let s := { s with freq := toUint32 (strtol (cstrAt buf param) 0) }
        match strtok buf save with
        | none => .ok (true, s, { m with ret := buf })
        | some (param, save, buf) =>
          let s := { s with sf := toUint16 (strtol (cstrAt buf param) 0) }
          match strtok buf save with
          | none => .ok (true, s, { m with ret := buf })
          | some (param, save, buf) =>
            let s := { s with bw := toUint16 (strtol (cstrAt buf param) 0) }
            match strtok buf save with
            | none => .ok (true, s, { m with ret := buf })
            | some (param, save, buf) =>
              let s := { s with cr := toUint16 (strtol (cstrAt buf param) 0) }
              match strtok buf save with
              | none => .ok (true, s, { m with ret := buf })
              | some (param, save, buf) =>
                let s := { s with ppl := toUint16 (strtol (cstrAt buf param) 0) }
                match strtok buf save with
                | none => .ok (true, s, { m with ret := buf })
                | some (param, _, buf) =>
                  let s := { s with txp := toUint16 (strtol (cstrAt buf param) 0) }
                  .ok (true, s, { m with ret := buf })
    else .ok (false, s, m)

/-! ## Observations -/

/-- What a caller sees of a call of `recvResponse`: the value returned, the
text in `ret`, the clock and the bytes left on the link. -/
def observe (res : Except Fault (Bool × Machine)) :
    Option (Bool × List Nat × Nat × List (Nat × Nat)) :=
  res.toOption.map fun r => (r.1, cstr r.2.ret, r.2.now, r.2.rx)

/-- What a caller sees of a call of `recvRX`: the text in `ret`, the clock and
the bytes left on the link. -/
def observeRx (res : Except Fault Machine) : Option (List Nat × Nat × List (Nat × Nat)) :=
  res.toOption.map fun m => (cstr m.ret, m.now, m.rx)

/-- What a caller sees of a command: the value returned and the bytes printed
to the module so far. -/
def observeTx (res : Except Fault (Bool × Machine)) : Option (Bool × List Nat) :=
  res.toOption.map fun r => (r.1, r.2.tx)

/-- What a caller sees of a get verb: the value returned. -/
def observeGet (res : Except Fault (Nat × Machine)) : Option Nat :=
  res.toOption.map fun r => r.1

/-- What a caller sees of `getP2P`: the value returned and the structure. -/
def observeP2P (res : Except Fault (Bool × p2p_settings × Machine)) :
    Option (Bool × p2p_settings) :=
  res.toOption.map fun r => (r.1, r.2.1)

/-- What a caller sees of a credential getter: the value returned and the first
`n` bytes of the array. -/
def observeKey (n : Nat) (res : Except Fault (Bool × Mem × Machine)) : Option (Bool × List Nat) :=
  res.toOption.map fun r => (r.1, r.2.1.bytes n)

/-! ## Predicates used in the statements -/

/-- The buffer `buf` has the size of `ret` and holds the bytes `pre` followed by a NUL. -/
def Holds (buf pre : List Nat) : Prop := buf.length = 1024 ∧ ∃ tail, buf = pre ++ 0 :: tail

/-- The bytes waiting on the link, without their arrival times. -/
def pending (m : Machine) : List Nat := m.rx.map Prod.snd

/-- Reading the byte `b` after the bytes `g` ends the loop of `recvRX`: a line
terminator after the marker was recognised, or the radio receive timeout event is complete. -/
def stopsRx (g : List Nat) (b : Nat) : Bool :=
  (hasTok (cstr g) "+EVT:RX" && isEol b) || hasTok (cstr (g ++ [b])) "+EVT:RXP2P_RECEIVE_TIMEOUT"

/-- Read after `pre`, no byte of `bs` other than its last one ends the loop of `recvRX`. -/
def QuietRx (pre bs : List Nat) : Prop :=
  ∀ g b t, bs = g ++ b :: t → t ≠ [] → stopsRx (pre ++ g) b = false

/-- The three ways in which the loop of `recvRX` ends after the bytes `got` were
read, the clock being at `start` when it was entered. -/
inductive RxEnd (timeout start : Nat) (got : List Nat) (m' : Machine) : Prop
  | noRx (hmark : hasTok (cstr got) "+EVT:RX" = false) (hlate : timeout < m'.now - start)
      (hbound : m'.now - start ≤ timeout + 40)
      (hret : ∃ r, m'.ret = snprintfLit r (ascii "NO_RX"))
  | failedRx (hmark : hasTok (cstr got) "+EVT:RX" = true) (hlate : 120000 < m'.now - start)
      (hbound : m'.now - start ≤ max 120000 timeout + 40)
      (hret : ∃ r, m'.ret = snprintfLit r (ascii "FAILED_RX"))
  | done (hstop : ∃ g b, got = g ++ [b] ∧ stopsRx g b = true) (hret : Holds m'.ret got)
      (hintime : m'.now - start ≤ 120000)

/-- What a run of the loop of `recvRX` from the state `m`, with the bytes `pre`
in `ret`, amounts to. -/
def RxSpec (timeout start : Nat) (m : Machine) (pre : List Nat) (rx_ok : Bool) :
    Except Fault (Machine × RxVars) → Prop
  | .ok (m', v') =>
    ∃ k, k ≤ m.rx.length ∧ m'.rx = m.rx.drop k ∧
      m' = { m with now := m'.now, rx := m'.rx, ret := m'.ret } ∧ m.now ≤ m'.now ∧
      v'.rx_ok = (rx_ok || decide (0 < k)) ∧
      QuietRx pre ((m.rx.take k).map Prod.snd) ∧
      RxEnd timeout start (pre ++ (m.rx.take k).map Prod.snd) m'
  | .error e =>
    e = .oob 1024 ∧ pre.length + m.rx.length = 1023 ∧
      ∃ g b, pre ++ pending m = g ++ [b] ∧ hasTok (cstr g) "+EVT:RX" = true ∧ isEol b = true

/-- Soundness of the loop of `recvRX` run with `fuel` rounds of fuel: from every
state at the head of the loop whose fuel covers the time left, on a stream that
fits the buffer, the run is described by `RxSpec`. -/
def RxLoopSound (timeout start fuel : Nat) : Prop :=
  ∀ (m : Machine) (v : RxVars) (pre : List Nat),
    Holds m.ret pre → v.ret_index = pre.length → v.cont_while = true →
    v.wait_eol = hasTok (cstr pre) "+EVT:RX" →
    start ≤ m.now →
    (m.now - start ≤ if v.wait_eol then 120000 else timeout) →
    max timeout 120000 + 20 ≤ (m.now - start) + 20 * fuel →
    pre.length + m.rx.length ≤ 1023 →
    RxSpec timeout start m pre v.rx_ok (recvRXLoop timeout start fuel m v)

/-- What a run of the loop of `recvRX` that returns amounts to, on any stream:
the description `RxSpec` of the run; nothing is said of a run that ends in a
write outside `ret`. -/
def RxSpecOk (timeout start : Nat) (m : Machine) (pre : List Nat) (rx_ok : Bool) :
    Except Fault (Machine × RxVars) → Prop
  | .ok x => RxSpec timeout start m pre rx_ok (.ok x)
  | .error _ => True

/-- Soundness of the returning runs of the loop of `recvRX` run with `fuel`
rounds of fuel, from every state at the head of the loop whose fuel covers the
time left, the stream being of any length. -/
def RxLoopReturns (timeout start fuel : Nat) : Prop :=
  ∀ (m : Machine) (v : RxVars) (pre : List Nat),
    Holds m.ret pre → v.ret_index = pre.length → v.cont_while = true →
    v.wait_eol = hasTok (cstr pre) "+EVT:RX" →
    start ≤ m.now →
    (m.now - start ≤ if v.wait_eol then 120000 else timeout) →
    max timeout 120000 + 20 ≤ (m.now - start) + 20 * fuel →
    RxSpecOk timeout start m pre v.rx_ok (recvRXLoop timeout start fuel m v)

/-- What a call of `recvRX(timeout)` in the state `m` amounts to: either it
returns, having read a prefix of the pending bytes none of which but the last
ended the loop, in one of the three ways of `RxEnd`; or the stream has exactly
1023 bytes, all were read, and the write of the second NUL after the closing
line terminator falls on `ret[1024]`. -/
def RxTop (timeout : Nat) (m : Machine) : Except Fault Machine → Prop
  | .ok m' =>
    m'.rx.length ≤ m.rx.length ∧ m'.rx = m.rx.drop (m.rx.length - m'.rx.length) ∧
      m' = { m with now := m'.now, rx := m'.rx, ret := m'.ret } ∧ m.now ≤ m'.now ∧
      QuietRx [] (consumed m m') ∧ RxEnd timeout m.now (consumed m m') m'
  | .error e =>
    e = .oob 1024 ∧ m.rx.length = 1023 ∧
      ∃ g b, pending m = g ++ [b] ∧ hasTok (cstr g) "+EVT:RX" = true ∧ isEol b = true

/-- Read after `pre`, no byte of `bs` other than its last one completes a
sentinel of `recvResponse`. -/
def QuietResp (pre bs : List Nat) : Prop :=
  ∀ g b t, bs = g ++ b :: t → t ≠ [] → verdictOf (cstr (pre ++ g ++ [b])) = .none

/-- The four ways in which `recvResponse` ends after reading the first `k`
pending bytes of `m`, `got` being the text read so far: the deadline passes, a
success or a failure sentinel is recognised, or a transmit confirmation is
recognised in the state `m1` and `recvRX(5000)` runs from there. -/
inductive RespEnd (timeout start : Nat) (m : Machine) (rx_ok : Bool) (got : List Nat) (k : Nat)
    (r : Bool) (m' : Machine) : Prop
  | timedOut (hr : r = false) (hv : verdictOf (cstr got) = .none) (hrx : m'.rx = m.rx.drop k)
      (hsame : m' = { m with now := m'.now, rx := m'.rx, ret := m'.ret })
      (hnow : m.now ≤ m'.now) (hlate : timeout ≤ m'.now - start)
      (hret : if rx_ok || decide (0 < k) then Holds m'.ret got
              else ∃ r0, m'.ret = snprintfLit r0 (ascii "NO_RESPONSE"))
  | succeeded (hr : r = true) (hv : verdictOf (cstr got) = .success) (hrx : m'.rx = m.rx.drop k)
      (hsame : m' = { m with now := m'.now, rx := m'.rx, ret := m'.ret })
      (hnow : m.now ≤ m'.now) (hret : Holds m'.ret got)
  | failed (hr : r = false) (hv : verdictOf (cstr got) = .failure) (hrx : m'.rx = m.rx.drop k)
      (hsame : m' = { m with now := m'.now, rx := m'.rx, ret := m'.ret })
      (hnow : m.now ≤ m'.now) (hret : Holds m'.ret got)
  | chained (hr : r = true) (hv : verdictOf (cstr got) = .pendingRx) (m1 : Machine)
      (hrx : m1.rx = m.rx.drop k)
      (hsame : m1 = { m with now := m1.now, rx := m1.rx, ret := m1.ret })
      (hnow : m.now ≤ m1.now) (hret : Holds m1.ret got) (hrun : recvRX 5000 m1 = .ok m')

/-- What a run of the loop of `recvResponse` from the state `m`, with the bytes
`pre` in `ret`, amounts to on a stream that fits the buffer. -/
def RespSpec (timeout start : Nat) (m : Machine) (pre : List Nat) (rx_ok : Bool) :
    Except Fault (Bool × Machine) → Prop
  | .ok (r, m') =>
    ∃ k, k ≤ m.rx.length ∧ QuietResp pre ((m.rx.take k).map Prod.snd) ∧
      RespEnd timeout start m rx_ok (pre ++ (m.rx.take k).map Prod.snd) k r m'
  | .error _ => False

/-- Soundness of the loop of `recvResponse` run with `fuel + 1` rounds of fuel. -/
def RespLoopSound (timeout start fuel : Nat) : Prop :=
  ∀ (m : Machine) (pre : List Nat) (rx_ok : Bool),
    Holds m.ret pre → verdictOf (cstr pre) = .none → start ≤ m.now →
    timeout ≤ (m.now - start) + 20 * fuel →
    pre.length + m.rx.length ≤ 1023 →
    RespSpec timeout start m pre rx_ok
      (recvResponseLoop timeout start (fuel + 1) m pre.length rx_ok)

/-- What a call of `recvResponse(timeout)` in the state `m` amounts to on a
stream that fits the buffer: it returns after reading the first `k` pending
bytes (and then the bytes read by `recvRX` when chained), none of which but the
`k`-th completed a sentinel, in one of the four ways of `RespEnd`. -/
def RespTop (timeout : Nat) (m : Machine) : Except Fault (Bool × Machine) → Prop
  | .ok (r, m') =>
    ∃ k, k ≤ m.rx.length ∧ QuietResp [] ((m.rx.take k).map Prod.snd) ∧
      RespEnd timeout m.now m false ((m.rx.take k).map Prod.snd) k r m'
  | .error _ => False

/-- The sentinels after which `recvResponse` runs `recvRX` and reports success. -/
def pendingTokens : List String := ["+EVT:TX_DONE", "+EVT:SEND_CONFIRMED_OK"]

/-- The sentinels on which `recvResponse` reports success at once. -/
def successTokens : List String := ["+EVT:TXP2P DONE", "OK"]

/-- The sentinels on which `recvResponse` reports failure. -/
def failureTokens : List String :=
  ["AT_COMMAND_NOT_FOUND", "AT_PARAM_ERROR", "SEND_CONFIRMED_FAILED", "AT_NO_NETWORK_JOINED"]

/-- All sentinels of `recvResponse`. -/
def sentinels : List String := pendingTokens ++ successTokens ++ failureTokens

/-- What a read operation leaves alone between two states of a run: the bytes
printed to the module, the stored credentials and the size of `ret`; time does
not run backwards and the pending bytes are a tail of those before. -/
def Frame (m m' : Machine) : Prop :=
  m'.tx = m.tx ∧ m'._devADDR = m._devADDR ∧ m'._devEUI = m._devEUI ∧ m'._appEUI = m._appEUI ∧
    m'._nwksKEY = m._nwksKEY ∧ m'._appKEY = m._appKEY ∧ m'._appsKEY = m._appsKEY ∧
    m'.ret.length = m.ret.length ∧ m.now ≤ m'.now ∧ ∃ k, m'.rx = m.rx.drop k

/-- The run ends in a write outside `ret`. -/
def Overruns {α : Type} (res : Except Fault α) : Prop := ∃ i, 1024 ≤ i ∧ res = .error (.oob i)

/-- `Exchanges m cmds rs m'`: from the state `m` the command lines `cmds` were
sent one after the other, each by `sendRawCommand` followed by `recvResponse()`
with its default timeout; `rs` lists what the calls of `recvResponse` returned
and `m'` is the state after the last of them. -/
inductive Exchanges : Machine → List (List Nat) → List Bool → Machine → Prop
  | done (m : Machine) : Exchanges m [] [] m
  | step {m a m1 m' : Machine} {cmd : List Nat} {cmds : List (List Nat)} {r : Bool}
      {rs : List Bool} (hsend : sendRawCommand cmd m = .ok (true, a))
      (hrecv : recvResponse 10000 a = .ok (r, m1)) (hrest : Exchanges m1 cmds rs m') :
      Exchanges m (cmd :: cmds) (r :: rs) m'

/-- The bytes printed to the module link when the command lines `cmds` are sent
by `sendRawCommand`: each is preceded by a bare line terminator. -/
def wire : List (List Nat) → List Nat
  | [] => []
  | c :: cs => ascii "\r\n" ++ c ++ wire cs

/-- The outcome `res` of an operation that is to send the sub-commands `cmds`
from the state `m0`: it returns after sending the first `j` of them and nothing
else, `j` being at least 1; a response that was no success is the response to
the last sub-command sent and makes the operation return false; and the
operation returns true only after all sub-commands were sent and every
response was a success. -/
def StopsAtFirstFailure (m0 : Machine) (cmds : List (List Nat))
    (res : Except Fault (Bool × Machine)) : Prop :=
  ∃ r m' j rs, res = .ok (r, m') ∧ 1 ≤ j ∧ j ≤ cmds.length ∧
    Exchanges m0 (cmds.take j) rs m' ∧ m'.tx = m0.tx ++ wire (cmds.take j) ∧
    (∀ i, rs.get? i = some false → i + 1 = j ∧ r = false) ∧
    (r = true → j = cmds.length ∧ ∀ x ∈ rs, x = true)

/-- What a set verb amounts to once it goes on to send `cmd` from the state `m`:
`sendRawCommand` and `recvResponse()` return, `r` being what `recvResponse`
returned; the bare line terminator and the command line are what was printed;
the verb returns true exactly when "OK" occurs in the text left in `ret`, and
then `recvResponse` returned true as well. -/
def SetterOutcome (cmd : List Nat) (m : Machine) (res : Except Fault (Bool × Machine)) : Prop :=
  ∃ a r m', sendRawCommand cmd m = .ok (true, a) ∧ recvResponse 10000 a = .ok (r, m') ∧
    m'.tx = m.tx ++ ascii "\r\n" ++ cmd ∧
    res = .ok (retHas m' "OK", m') ∧ (retHas m' "OK" = true → r = true)

/-- A run of a set verb that sends `cmd`: as `SetterOutcome` says, or, with at
least 1024 bytes pending, ending in a write outside `ret`. -/
def SetterRun (cmd : List Nat) (m : Machine) (res : Except Fault (Bool × Machine)) : Prop :=
  SetterOutcome cmd m res ∨ (1024 ≤ m.rx.length ∧ Overruns res)

/-- The state reached when the command lines `cmds` are sent one after the
other, each by `sendRawCommand` followed by `recvResponse()`, and every response
leaves a text with "OK" in `ret`; `none` when a response has no "OK" (or the
run cannot be continued). -/
def answeredOK : Machine → List (List Nat) → Option Machine
  | m, [] => some m
  | m, cmd :: cmds =>
    match exchange cmd m with
    | .error _ => none
    | .ok m1 => if retHas m1 "OK" then answeredOK m1 cmds else none

/-- The state as it is seen without the cells of `ret` behind the terminating
NUL: `ret` is replaced by the text it holds. -/
def textOnly (m : Machine) : Machine := { m with ret := cstr m.ret }

/-! ## Test fixtures -/

/-- The engine right after construction, at time 0, with an idle link: `ret` is
zero-initialised and the credentials hold the defaults of the class declaration. -/
def Machine.boot : Machine :=
  { now := 0, rx := [], tx := [], ret := List.replicate 1024 0,
    _devADDR := ascii "00112233",
    _devEUI := ascii "60C5A8FFFE000001",
    _appEUI := ascii "60C5A8FFFE000001",
    _nwksKEY := ascii "60C5A8FFFE00000160C5A8FFFE000001",
    _appKEY := ascii "60C5A8FFFE00000160C5A8FFFE000001",
    _appsKEY := ascii "60C5A8FFFE00000160C5A8FFFE000001" }

/-- The bytes `s`, all arriving on the link at time `t`. -/
def arriving (t : Nat) (s : List Nat) : List (Nat × Nat) := s.map (fun b => (t, b))

/-- The freshly constructed engine with the bytes `s` already waiting on the link. -/
def Machine.fed (s : List Nat) : Machine := { Machine.boot with rx := arriving 0 s }

/-! ## Lemmas on C strings and on the buffer -/

theorem startsWith_iff (h n : List Nat) : startsWith h n = true ↔ n <+: h := by
  induction n generalizing h with
  | nil => simp [startsWith]
  | cons x xs ih =>
    cases h with
    | nil => simp [startsWith]
    | cons y ys =>
      simp only [startsWith, Bool.and_eq_true, beq_iff_eq, ih, List.cons_prefix_cons]
      constructor
      · rintro ⟨h1, h2⟩; exact ⟨h1.symm, h2⟩
      · rintro ⟨h1, h2⟩; exact ⟨h1.symm, h2⟩

theorem strstr_iff (h n : List Nat) : strstr h n = true ↔ n <:+: h := by
  induction h with
  | nil =>
    simp only [strstr, startsWith_iff, List.prefix_nil, List.infix_nil]
  | cons y ys ih =>
    simp only [strstr, Bool.or_eq_true, startsWith_iff, ih, List.infix_cons_iff]

theorem hasTok_iff (text : List Nat) (s : String) : hasTok text s = true ↔ ascii s <:+: text :=
  strstr_iff text (ascii s)

theorem cstr_append_zero (pre tail : List Nat) : cstr (pre ++ 0 :: tail) = cstr pre := by
  induction pre with
  | nil => simp [cstr]
  | cons x xs ih =>
    unfold cstr at ih ⊢
    by_cases hx : x = 0
    · simp [hx]
    · simp [List.takeWhile_cons, hx, ih]

theorem cstr_eq_self {s : List Nat} (h : 0 ∉ s) : cstr s = s := by
  unfold cstr
  rw [List.takeWhile_eq_self_iff]
  intro x hx
  have : x ≠ 0 := fun h0 => h (h0 ▸ hx)
  simpa using this

theorem cstr_initial (s : List Nat) : cstr s <+: s := List.takeWhile_prefix _

theorem cstr_mono {g s : List Nat} (h : g <+: s) : cstr g <+: cstr s := by
  obtain ⟨t, rfl⟩ := h
  induction g with
  | nil => simp [cstr]
  | cons x xs ih =>
    unfold cstr at ih ⊢
    by_cases hx : x = 0
    · simp [hx]
    · simpa [List.takeWhile_cons, hx] using ih

theorem hasTok_mono {g s : List Nat} (tok : String) (h : g <+: s)
    (hg : hasTok (cstr g) tok = true) : hasTok (cstr s) tok = true := by
  rw [hasTok_iff] at hg ⊢
  exact hg.trans (cstr_mono h).isInfix

theorem set_at_length (pre : List Nat) (x y : Nat) (tl : List Nat) :
    (pre ++ x :: tl).set pre.length y = pre ++ y :: tl := by
  induction pre with
  | nil => rfl
  | cons a as ih => simp [ih]

theorem set_after_length (pre : List Nat) (x y z : Nat) (tl : List Nat) :
    (pre ++ x :: y :: tl).set (pre.length + 1) z = pre ++ x :: z :: tl := by
  simp

/-! ## One round of reading -/

theorem Holds.cstr_eq {buf pre : List Nat} (h : Holds buf pre) : cstr buf = cstr pre := by
  obtain ⟨_, tail, rfl⟩ := h
  exact cstr_append_zero pre tail

theorem Holds.length_lt {buf pre : List Nat} (h : Holds buf pre) : pre.length < 1024 := by
  obtain ⟨hl, tail, rfl⟩ := h
  simp at hl
  omega

theorem Holds.unique {buf pre pre2 : List Nat} (h : Holds buf pre) (h2 : Holds buf pre2)
    (hl : pre.length = pre2.length) : pre = pre2 := by
  obtain ⟨_, tail, rfl⟩ := h
  obtain ⟨_, tail2, h2⟩ := h2
  exact List.append_inj_left h2 hl

theorem holds_poke_zero (m : Machine) (h : m.ret.length = 1024) :
    ∃ r, poke m 0 0 = .ok { m with ret := r } ∧ Holds r [] := by
  refine ⟨m.ret.set 0 0, ?_, ?_⟩
  · simp [poke, RET_SIZE]
  · refine ⟨by simpa using h, m.ret.tail, ?_⟩
    cases hr : m.ret with
    | nil => rw [hr] at h; simp at h
    | cons x xs => simp

theorem respRead_empty (m : Machine) (idx : Nat) (h : m.rx = []) :
    respRead m idx = .ok (m, idx, false) := by
  simp [respRead, h]

theorem respRead_wait (m : Machine) (idx t b : Nat) (rest : List (Nat × Nat))
    (h : m.rx = (t, b) :: rest) (ht : m.now < t) :
    respRead m idx = .ok (m, idx, false) := by
  have : ¬ t ≤ m.now := by omega
  simp [respRead, h, this]

theorem respRead_take (m : Machine) (t b : Nat) (rest : List (Nat × Nat)) (pre : List Nat)
    (h : m.rx = (t, b) :: rest) (ht : t ≤ m.now) (hh : Holds m.ret pre)
    (hlen : pre.length + 1 < 1024) :
    ∃ r, respRead m pre.length = .ok ({ m with rx := rest, ret := r }, pre.length + 1, true) ∧
      Holds r (pre ++ [b]) := by
  obtain ⟨hl, tail, hr⟩ := hh
  cases tail with
  | nil => rw [hr] at hl; simp at hl; omega
  | cons x tl =>
    refine ⟨pre ++ b :: 0 :: tl, ?_, ?_⟩
    · have hb : b ≠ 13 ∨ b ≠ 10 := by omega
      have h1 : pre.length < 1024 := by omega
      simp [respRead, h, ht, poke, RET_SIZE, bind, Except.bind, hb, h1, hlen, hr,
        set_at_length, set_after_length]
    · refine ⟨?_, tl, by simp⟩
      rw [hr] at hl
      simpa using hl

theorem respRead_fault (m : Machine) (t b : Nat) (rest : List (Nat × Nat)) (pre : List Nat)
    (h : m.rx = (t, b) :: rest) (ht : t ≤ m.now) (hlen : pre.length = 1023) :
    respRead m pre.length = .error (.oob 1024) := by
  have hb : b ≠ 13 ∨ b ≠ 10 := by omega
  simp [respRead, h, ht, poke, RET_SIZE, bind, Except.bind, hb, hlen]

theorem recvRXRead_empty (m : Machine) (v : RxVars) (h : m.rx = []) :
    recvRXRead m v = .ok (m, v) := by
  simp [recvRXRead, h]

theorem recvRXRead_wait (m : Machine) (v : RxVars) (t b : Nat) (rest : List (Nat × Nat))
    (h : m.rx = (t, b) :: rest) (ht : m.now < t) : recvRXRead m v = .ok (m, v) := by
  have : ¬ t ≤ m.now := by omega
  simp [recvRXRead, h, this]

theorem recvRXRead_take (m : Machine) (v : RxVars) (t b : Nat) (rest : List (Nat × Nat))
    (pre : List Nat) (h : m.rx = (t, b) :: rest) (ht : t ≤ m.now) (hh : Holds m.ret pre)
    (hidx : v.ret_index = pre.length) (hc : v.cont_while = true)
    (heol : (v.wait_eol && isEol b) = false) (hlen : pre.length + 1 < 1024) :
    ∃ r, recvRXRead m v = .ok (delay 20 { m with rx := rest, ret := r },
        { ret_index := pre.length + 1, rx_ok := true,
          wait_eol := v.wait_eol || (hasTok (cstr (pre ++ [b])) "+EVT:RX" && !v.wait_eol),
          cont_while := !hasTok (cstr (pre ++ [b])) "+EVT:RXP2P_RECEIVE_TIMEOUT" }) ∧
      Holds r (pre ++ [b]) := by
  obtain ⟨hl, tail, hr⟩ := hh
  cases tail with
  | nil => rw [hr] at hl; simp at hl; omega
  | cons x tl =>
    have hH : Holds (pre ++ b :: 0 :: tl) (pre ++ [b]) := by
      refine ⟨?_, tl, by simp⟩
      rw [hr] at hl
      simpa using hl
    refine ⟨pre ++ b :: 0 :: tl, ?_, hH⟩
    have h1 : pre.length < 1024 := by omega
    have h2 : ¬ pre.length + 1 > 1024 := by omega
    have hc1 : cstr (pre ++ b :: 0 :: tl) = cstr (pre ++ [b]) := hH.cstr_eq
    simp [recvRXRead, h, ht, poke, RET_SIZE, bind, Except.bind, h1, h2, hlen, hr, hidx, hc, heol,
      set_at_length, set_after_length, retHas, delay, hc1]

theorem recvRXRead_eol (m : Machine) (v : RxVars) (t b : Nat) (rest : List (Nat × Nat))
    (pre : List Nat) (h : m.rx = (t, b) :: rest) (ht : t ≤ m.now) (hh : Holds m.ret pre)
    (hidx : v.ret_index = pre.length) (hc : v.cont_while = true)
    (heol : (v.wait_eol && isEol b) = true) (hlen : pre.length + 2 < 1024) :
    ∃ r, recvRXRead m v = .ok (delay 20 { m with rx := rest, ret := r },
        { ret_index := pre.length + 2, rx_ok := true, wait_eol := true, cont_while := false }) ∧
      Holds r (pre ++ [b]) := by
  obtain ⟨hl, tail, hr⟩ := hh
  rw [hr] at hl
  match tail, hl with
  | [], hl => simp at hl; omega
  | [_], hl => simp at hl; omega
  | x :: y :: tl, hl =>
    have hH : Holds (pre ++ b :: 0 :: 0 :: tl) (pre ++ [b]) := by
      refine ⟨?_, 0 :: tl, by simp⟩
      simpa using hl
    refine ⟨pre ++ b :: 0 :: 0 :: tl, ?_, hH⟩
    have h1 : pre.length < 1024 := by omega
    have h2 : pre.length + 1 < 1024 := by omega
    have h3 : ¬ pre.length + 1 + 1 > 1024 := by omega
    have hw : v.wait_eol = true := by
      cases hv : v.wait_eol <;> simp [hv] at heol ⊢
    have he : isEol b = true := by
      rw [hw] at heol
      simpa using heol
    have hs : (pre ++ b :: 0 :: y :: tl).set (pre.length + 1 + 1) 0 = pre ++ b :: 0 :: 0 :: tl := by
      have := set_after_length (pre ++ [b]) 0 y 0 tl
      simpa using this
    simp [recvRXRead, h, ht, poke, RET_SIZE, bind, Except.bind, h1, h2, h3, hlen, hr, hidx, hc,
      he, hw, set_at_length, set_after_length, hs, delay]

theorem recvRXRead_fault (m : Machine) (v : RxVars) (t b : Nat) (rest : List (Nat × Nat))
    (pre : List Nat) (h : m.rx = (t, b) :: rest) (ht : t ≤ m.now)
    (hidx : v.ret_index = pre.length)
    (hlen : pre.length = 1023 ∨ (pre.length = 1022 ∧ (v.wait_eol && isEol b) = true)) :
    recvRXRead m v = .error (.oob 1024) := by
  rcases hlen with hlen | ⟨hlen, heol⟩
  · by_cases he : (v.wait_eol && isEol b) = true
    · simp [recvRXRead, h, ht, poke, RET_SIZE, bind, Except.bind, hidx, hlen, he]
    · have he : (v.wait_eol && isEol b) = false := by simpa using he
      simp [recvRXRead, h, ht, poke, RET_SIZE, bind, Except.bind, hidx, hlen, he]
  · simp [recvRXRead, h, ht, poke, RET_SIZE, bind, Except.bind, hidx, hlen, heol]

/-! ## The loop of `recvRX` -/

theorem hasTok_rx_of_p2p (text : List Nat)
    (h : hasTok text "+EVT:RXP2P_RECEIVE_TIMEOUT" = true) : hasTok text "+EVT:RX" = true := by
  rw [hasTok_iff] at h ⊢
  have hp : ascii "+EVT:RX" <+: ascii "+EVT:RXP2P_RECEIVE_TIMEOUT" :=
    (startsWith_iff _ _).mp (by decide)
  exact hp.isInfix.trans h

theorem recvRXLoop_round (timeout start fuel : Nat) (m : Machine) (v : RxVars)
    (hc : v.cont_while = true) (m1 : Machine) (v1 : RxVars)
    (hread : recvRXRead m v = .ok (m1, v1)) :
    recvRXLoop timeout start (fuel + 1) m v =
      if v1.wait_eol then
        if (delay 20 m1).now - start > 120000 then
          .ok (setRetLit (delay 20 m1) "FAILED_RX", { v1 with cont_while := false })
        else recvRXLoop timeout start fuel (delay 20 m1) v1
      else
        if (delay 20 m1).now - start > timeout then
          .ok (setRetLit (delay 20 m1) "NO_RX", { v1 with cont_while := false })
        else recvRXLoop timeout start fuel (delay 20 m1) v1 := by
  rw [recvRXLoop]
  simp [hc, hread]

theorem recvRXLoop_stopped (timeout start fuel : Nat) (m : Machine) (v : RxVars)
    (hc : v.cont_while = false) : recvRXLoop timeout start (fuel + 1) m v = .ok (m, v) := by
  rw [recvRXLoop]
  simp [hc]

theorem recvRXLoop_fault (timeout start fuel : Nat) (m : Machine) (v : RxVars)
    (hc : v.cont_while = true) (e : Fault) (hread : recvRXRead m v = .error e) :
    recvRXLoop timeout start (fuel + 1) m v = .error e := by
  rw [recvRXLoop]
  simp [hc, hread]

theorem RxSpec.of_idle {timeout start : Nat} {m : Machine} {pre : List Nat} {rx_ok : Bool}
    {res : Except Fault (Machine × RxVars)} (d : Nat)
    (h : RxSpec timeout start (delay d m) pre rx_ok res) : RxSpec timeout start m pre rx_ok res := by
  match res, h with
  | .ok (m', v'), h =>
    obtain ⟨k, hk, hrx, hsame, hnow, hok, hq, hend⟩ := h
    refine ⟨k, hk, hrx, ?_, ?_, hok, hq, hend⟩
    · rw [hsame]; simp [delay]
    · simp only [delay] at hnow; omega
  | .error e, h => exact h

theorem RxSpec.of_take {timeout start : Nat} {m : Machine} {pre : List Nat} {rx_ok : Bool}
    {res : Except Fault (Machine × RxVars)} {t b : Nat} {rest : List (Nat × Nat)}
    {r : List Nat} (d : Nat) (hrx : m.rx = (t, b) :: rest) (hq : stopsRx pre b = false)
    (h : RxSpec timeout start (delay d { m with rx := rest, ret := r }) (pre ++ [b]) true res) :
    RxSpec timeout start m pre rx_ok res := by
  match res, h with
  | .ok (m', v'), h =>
    obtain ⟨k, hk, hrx', hsame, hnow, hok, hquiet, hend⟩ := h
    simp only [delay] at hk hrx' hnow hquiet hend
    refine ⟨k + 1, ?_, ?_, ?_, ?_, ?_, ?_, ?_⟩
    · rw [hrx]; simpa using hk
    · rw [hrx]; simpa using hrx'
    · rw [hsame]; simp [delay]
    · omega
    · simp [hok]
    · intro g c tl hdec htl
      rw [hrx] at hdec
      simp only [List.take_succ_cons, List.map_cons] at hdec
      cases g with
      | nil =>
        simp only [List.nil_append, List.cons.injEq] at hdec
        rw [← hdec.1]
        simpa using hq
      | cons x g' =>
        simp only [List.cons_append, List.cons.injEq] at hdec
        have := hquiet g' c tl hdec.2 htl
        rw [← hdec.1]
        simpa using this
    · rw [hrx]
      simpa using hend
  | .error e, h =>
    obtain ⟨he, hlen, g, c, hg, hm, hc⟩ := h
    simp only [delay, pending] at hlen hg
    refine ⟨he, ?_, g, c, ?_, hm, hc⟩
    · rw [hrx]; simp at hlen ⊢; omega
    · rw [pending, hrx]; simpa using hg

theorem rx_idle_round (timeout start fuel : Nat) (ih : RxLoopSound timeout start fuel)
    (m : Machine) (v : RxVars) (pre : List Nat)
    (hread : recvRXRead m v = .ok (m, v))
    (hH : Holds m.ret pre) (hidx : v.ret_index = pre.length) (hc : v.cont_while = true)
    (hW : v.wait_eol = hasTok (cstr pre) "+EVT:RX") (hstart : start ≤ m.now)
    (htime : m.now - start ≤ if v.wait_eol then 120000 else timeout)
    (hfuel : max timeout 120000 + 20 ≤ (m.now - start) + 20 * (fuel + 1))
    (hshort : pre.length + m.rx.length ≤ 1023) :
    RxSpec timeout start m pre v.rx_ok (recvRXLoop timeout start (fuel + 1) m v) := by
  rw [recvRXLoop_round timeout start fuel m v hc m v hread]
  have hquiet0 : QuietRx pre ((m.rx.take 0).map Prod.snd) := by
    intro g c tl hdec _
    simp at hdec
  cases hw : v.wait_eol with
  | true =>
    rw [hw] at htime hW
    simp only [if_true] at htime ⊢
    by_cases hlate : (delay 20 m).now - start > 120000
    · rw [if_pos hlate]
      simp only [delay] at hlate
      refine ⟨0, Nat.zero_le _, by simp [setRetLit, delay], by simp [setRetLit, delay],
        by simp [setRetLit, delay], by simp, hquiet0, ?_⟩
      refine RxEnd.failedRx ?_ ?_ ?_ ⟨_, rfl⟩
      · simpa using hW.symm
      · simpa [setRetLit, delay] using hlate
      · simp only [setRetLit, delay]; omega
    · rw [if_neg hlate]
      simp only [delay] at hlate
      apply RxSpec.of_idle 20
      apply ih (delay 20 m) v pre hH hidx hc (hw.trans hW)
      · simp only [delay]; omega
      · simp only [delay, hw, if_true]; omega
      · simp only [delay]; omega
      · simpa [delay] using hshort
  | false =>
    rw [hw] at htime hW
    simp only [Bool.false_eq_true, if_false] at htime ⊢
    by_cases hlate : (delay 20 m).now - start > timeout
    · rw [if_pos hlate]
      simp only [delay] at hlate
      refine ⟨0, Nat.zero_le _, by simp [setRetLit, delay], by simp [setRetLit, delay],
        by simp [setRetLit, delay], by simp, hquiet0, ?_⟩
      refine RxEnd.noRx ?_ ?_ ?_ ⟨_, rfl⟩
      · simpa using hW.symm
      · simpa [setRetLit, delay] using hlate
      · simp only [setRetLit, delay]; omega
    · rw [if_neg hlate]
      simp only [delay] at hlate
      apply RxSpec.of_idle 20
      apply ih (delay 20 m) v pre hH hidx hc (hw.trans hW)
      · simp only [delay]; omega
      · simp only [delay, hw, Bool.false_eq_true, if_false]; omega
      · simp only [delay]; omega
      · simpa [delay] using hshort

theorem quietRx_single (pre : List Nat) (b : Nat) : QuietRx pre [b] := by
  intro g c tl hdec htl
  cases g with
  | nil => simp at hdec; exact absurd hdec.2 htl
  | cons x g' => simp at hdec

theorem rxSpec_one (timeout start : Nat) (m : Machine) (pre : List Nat) (rx_ok : Bool)
    (t b : Nat) (rest : List (Nat × Nat)) (hrx : m.rx = (t, b) :: rest)
    (m' : Machine) (v' : RxVars) (h1 : m'.rx = rest)
    (h2 : m' = { m with now := m'.now, rx := m'.rx, ret := m'.ret }) (h3 : m.now ≤ m'.now)
    (h4 : v'.rx_ok = true) (hend : RxEnd timeout start (pre ++ [b]) m') :
    RxSpec timeout start m pre rx_ok (.ok (m', v')) := by
  refine ⟨1, by rw [hrx]; simp, by rw [hrx]; simpa using h1, h2, h3, by simp [h4], ?_, ?_⟩
  · rw [hrx]; simpa using quietRx_single pre b
  · rw [hrx]; simpa using hend

theorem rx_take_round (timeout start fuel : Nat) (ih : RxLoopSound timeout start fuel)
    (m : Machine) (v : RxVars) (pre : List Nat) (t b : Nat) (rest : List (Nat × Nat))
    (hrx : m.rx = (t, b) :: rest) (ht : t ≤ m.now)
    (hH : Holds m.ret pre) (hidx : v.ret_index = pre.length) (hc : v.cont_while = true)
    (hW : v.wait_eol = hasTok (cstr pre) "+EVT:RX") (hstart : start ≤ m.now)
    (htime : m.now - start ≤ if v.wait_eol then 120000 else timeout)
    (hfuel : max timeout 120000 + 20 ≤ (m.now - start) + 20 * (fuel + 1))
    (hshort : pre.length + m.rx.length ≤ 1023) :
    RxSpec timeout start m pre v.rx_ok (recvRXLoop timeout start (fuel + 1) m v) := by
  have hrl : m.rx.length = rest.length + 1 := by rw [hrx]; simp
  have he40 : m.now - start ≤ max timeout 120000 := by
    split at htime <;> omega
  have hdd : ∀ x : Machine, delay 20 (delay 20 x) = delay 40 x := by
    intro x; simp [delay]
  cases heol : (v.wait_eol && isEol b) with
  | false =>
    obtain ⟨r, hread, hH1⟩ := recvRXRead_take m v t b rest pre hrx ht hH hidx hc heol (by omega)
    rw [recvRXLoop_round timeout start fuel m v hc _ _ hread]
    have hW1 : (v.wait_eol || (hasTok (cstr (pre ++ [b])) "+EVT:RX" && !v.wait_eol)) =
        hasTok (cstr (pre ++ [b])) "+EVT:RX" := by
      cases hw : v.wait_eol with
      | false => simp
      | true =>
        have := hasTok_mono "+EVT:RX" (List.prefix_append pre [b]) (hW.symm.trans hw)
        simp [this]
    have hq : hasTok (cstr (pre ++ [b])) "+EVT:RXP2P_RECEIVE_TIMEOUT" = false →
        stopsRx pre b = false := by
      intro hp
      rw [hW] at heol
      simp [stopsRx, heol, hp]
    simp only [hW1, hdd]
    cases hw1 : hasTok (cstr (pre ++ [b])) "+EVT:RX" with
    | true =>
      simp only [if_true]
      by_cases hlate : (delay 40 { m with rx := rest, ret := r }).now - start > 120000
      · rw [if_pos hlate]
        simp only [delay] at hlate
        apply rxSpec_one timeout start m pre v.rx_ok t b rest hrx
        · simp [setRetLit, delay]
        · simp [setRetLit, delay]
        · simp [setRetLit, delay]
        · rfl
        · refine RxEnd.failedRx hw1 ?_ ?_ ⟨_, rfl⟩
          · simpa [setRetLit, delay] using hlate
          · simp only [setRetLit, delay]; omega
      · rw [if_neg hlate]
        simp only [delay] at hlate
        cases hp : hasTok (cstr (pre ++ [b])) "+EVT:RXP2P_RECEIVE_TIMEOUT" with
        | false =>
          apply RxSpec.of_take 40 hrx (hq hp)
          have := ih (delay 40 { m with rx := rest, ret := r })
            { ret_index := pre.length + 1, rx_ok := true,
              wait_eol := hasTok (cstr (pre ++ [b])) "+EVT:RX",
              cont_while := !hasTok (cstr (pre ++ [b])) "+EVT:RXP2P_RECEIVE_TIMEOUT" }
            (pre ++ [b]) hH1 (by simp) (by simp [hp]) rfl (by simp only [delay]; omega)
            (by simp only [delay, hw1, if_true]; omega) (by simp only [delay]; omega)
            (by simp only [delay, List.length_append, List.length_singleton]; omega)
          simpa [hw1, hp] using this
        | true =>
          obtain ⟨f, rfl⟩ : ∃ f, fuel = f + 1 := ⟨fuel - 1, by omega⟩
          rw [recvRXLoop_stopped _ _ _ _ _ (by simp)]
          apply rxSpec_one timeout start m pre v.rx_ok t b rest hrx
          · simp [delay]
          · simp [delay]
          · simp [delay]
          · rfl
          · refine RxEnd.done ⟨pre, b, rfl, by simp [stopsRx, hp]⟩ (by simpa [delay] using hH1) ?_
            simp only [delay]; omega
    | false =>
      simp only [Bool.false_eq_true, if_false]
      by_cases hlate : (delay 40 { m with rx := rest, ret := r }).now - start > timeout
      · rw [if_pos hlate]
        simp only [delay] at hlate
        apply rxSpec_one timeout start m pre v.rx_ok t b rest hrx
        · simp [setRetLit, delay]
        · simp [setRetLit, delay]
        · simp [setRetLit, delay]
        · rfl
        · refine RxEnd.noRx hw1 ?_ ?_ ⟨_, rfl⟩
          · simpa [setRetLit, delay] using hlate
          · have hwf : v.wait_eol = false := by
              cases hw : v.wait_eol with
              | false => rfl
              | true =>
                have := hasTok_mono "+EVT:RX" (List.prefix_append pre [b]) (hW.symm.trans hw)
                rw [hw1] at this
                exact absurd this (by simp)
            rw [hwf] at htime
            simp only [Bool.false_eq_true, if_false] at htime
            simp only [setRetLit, delay]
            omega
      · rw [if_neg hlate]
        simp only [delay] at hlate
        cases hp : hasTok (cstr (pre ++ [b])) "+EVT:RXP2P_RECEIVE_TIMEOUT" with
        | false =>
          apply RxSpec.of_take 40 hrx (hq hp)
          have := ih (delay 40 { m with rx := rest, ret := r })
            { ret_index := pre.length + 1, rx_ok := true,
              wait_eol := hasTok (cstr (pre ++ [b])) "+EVT:RX",
              cont_while := !hasTok (cstr (pre ++ [b])) "+EVT:RXP2P_RECEIVE_TIMEOUT" }
            (pre ++ [b]) hH1 (by simp) (by simp [hp]) rfl (by simp only [delay]; omega)
            (by simp only [delay, hw1, Bool.false_eq_true, if_false]; omega)
            (by simp only [delay]; omega)
            (by simp only [delay, List.length_append, List.length_singleton]; omega)
          simpa [hw1, hp] using this
        | true =>
          have := hasTok_rx_of_p2p _ hp
          rw [hw1] at this
          exact absurd this (by simp)
  | true =>
    have hw : v.wait_eol = true := by
      cases hv : v.wait_eol <;> simp [hv] at heol ⊢
    have hb : isEol b = true := by
      rw [hw] at heol; simpa using heol
    rw [hw] at htime hW
    simp only [if_true] at htime
    have hmark : hasTok (cstr (pre ++ [b])) "+EVT:RX" = true :=
      hasTok_mono "+EVT:RX" (List.prefix_append pre [b]) hW.symm
    by_cases hlen : pre.length + 2 < 1024
    · obtain ⟨r, hread, hH1⟩ := recvRXRead_eol m v t b rest pre hrx ht hH hidx hc heol hlen
      rw [recvRXLoop_round timeout start fuel m v hc _ _ hread]
      simp only [if_true, hdd]
      by_cases hlate : (delay 40 { m with rx := rest, ret := r }).now - start > 120000
      · rw [if_pos hlate]
        simp only [delay] at hlate
        apply rxSpec_one timeout start m pre v.rx_ok t b rest hrx
        · simp [setRetLit, delay]
        · simp [setRetLit, delay]
        · simp [setRetLit, delay]
        · rfl
        · refine RxEnd.failedRx hmark ?_ ?_ ⟨_, rfl⟩
          · simpa [setRetLit, delay] using hlate
          · simp only [setRetLit, delay]; omega
      · rw [if_neg hlate]
        simp only [delay] at hlate
        obtain ⟨f, rfl⟩ : ∃ f, fuel = f + 1 := ⟨fuel - 1, by omega⟩
        rw [recvRXLoop_stopped _ _ _ _ _ (by simp)]
        apply rxSpec_one timeout start m pre v.rx_ok t b rest hrx
        · simp [delay]
        · simp [delay]
        · simp [delay]
        · rfl
        · refine RxEnd.done ⟨pre, b, rfl, by simp [stopsRx, ← hW, hb]⟩
            (by simpa [delay] using hH1) ?_
          simp only [delay]; omega
    · have hread := recvRXRead_fault m v t b rest pre hrx ht hidx
        (Or.inr ⟨by omega, heol⟩)
      rw [recvRXLoop_fault timeout start fuel m v hc _ hread]
      have hrest : rest = [] := List.eq_nil_of_length_eq_zero (by omega)
      refine ⟨rfl, by omega, pre, b, ?_, hW.symm, hb⟩
      simp [pending, hrx, hrest]

theorem recvRXLoop_sound (timeout start : Nat) : ∀ fuel, RxLoopSound timeout start fuel := by
  intro fuel
  induction fuel with
  | zero =>
    intro m v pre _ _ _ _ _ htime hfuel _
    split at htime <;> omega
  | succ fuel ih =>
    intro m v pre hH hidx hc hW hstart htime hfuel hshort
    match hrx : m.rx with
    | [] =>
      exact rx_idle_round timeout start fuel ih m v pre (recvRXRead_empty m v hrx)
        hH hidx hc hW hstart htime hfuel hshort
    | (t, b) :: rest =>
      by_cases ht : t ≤ m.now
      · exact rx_take_round timeout start fuel ih m v pre t b rest hrx ht
          hH hidx hc hW hstart htime hfuel hshort
      · exact rx_idle_round timeout start fuel ih m v pre
          (recvRXRead_wait m v t b rest hrx (by omega)) hH hidx hc hW hstart htime hfuel hshort

theorem consumed_of_drop (m m' : Machine) (k : Nat) (hk : k ≤ m.rx.length)
    (h : m'.rx = m.rx.drop k) : consumed m m' = (m.rx.take k).map Prod.snd := by
  unfold consumed
  rw [h, List.length_drop]
  congr 2
  omega

theorem recvRX_sound (timeout : Nat) (m : Machine) (hlen : m.ret.length = 1024)
    (hshort : m.rx.length ≤ 1023) : RxTop timeout m (recvRX timeout m) := by
  obtain ⟨r, hp, hH⟩ := holds_poke_zero m hlen
  unfold recvRX
  rw [hp]
  have hs := recvRXLoop_sound timeout m.now (max timeout 120000 / 20 + 2) { m with ret := r }
    { ret_index := 0, rx_ok := false, wait_eol := false, cont_while := true } [] hH rfl rfl
    (by decide) (Nat.le_refl _) (by simp) (by simp only [Nat.sub_self]; omega)
    (by simpa using hshort)
  simp only at hs ⊢
  match hres : recvRXLoop timeout m.now (max timeout 120000 / 20 + 2) { m with ret := r }
    { ret_index := 0, rx_ok := false, wait_eol := false, cont_while := true }, hs with
  | .error e, hs =>
    obtain ⟨he, hl, g, b, hg, hm, hb⟩ := hs
    exact ⟨he, by simpa using hl, g, b, by simpa [pending] using hg, hm, hb⟩
  | .ok (m1, v1), hs =>
    obtain ⟨k, hk, hrx, hsame, hnow, hok, hq, hend⟩ := hs
    simp only [List.nil_append, Bool.false_or] at hk hrx hnow hok hq hend
    have hcons : ∀ m2 : Machine, m2.rx = m1.rx → consumed m m2 = (m.rx.take k).map Prod.snd :=
      fun m2 h2 => consumed_of_drop m m2 k hk (h2.trans hrx)
    have hdrop : ∀ m2 : Machine, m2.rx = m1.rx →
        m2.rx.length ≤ m.rx.length ∧ m2.rx = m.rx.drop (m.rx.length - m2.rx.length) := by
      intro m2 h2
      rw [h2, hrx, List.length_drop]
      refine ⟨by omega, ?_⟩
      congr 1
      omega
    by_cases hk0 : k = 0
    · subst hk0
      have hv : v1.rx_ok = false := by simpa using hok
      simp only [hv, Bool.not_false, if_true]
      obtain ⟨h1, h2⟩ := hdrop (setRetLit m1 "NO_RX") rfl
      refine ⟨h1, h2, ?_, by simpa [setRetLit] using hnow, ?_, ?_⟩
      · rw [hsame]; simp [setRetLit]
      · rw [hcons (setRetLit m1 "NO_RX") rfl]; exact hq
      · rw [hcons (setRetLit m1 "NO_RX") rfl]
        cases hend with
        | noRx hmark hlate hbound hret =>
          exact RxEnd.noRx hmark (by simpa [setRetLit] using hlate)
            (by simpa [setRetLit] using hbound) ⟨_, rfl⟩
        | failedRx hmark _ _ _ => simp [cstr, hasTok, strstr, startsWith, ascii] at hmark
        | done hstop _ _ =>
          obtain ⟨g, b, hg, _⟩ := hstop
          simp at hg
    · have hv : v1.rx_ok = true := by simpa [Nat.pos_of_ne_zero hk0] using hok
      simp only [hv, Bool.not_true, Bool.false_eq_true, if_false]
      obtain ⟨h1, h2⟩ := hdrop m1 rfl
      refine ⟨h1, h2, ?_, hnow, ?_, ?_⟩
      · rw [hsame]
      · rw [hcons m1 rfl]; exact hq
      · rw [hcons m1 rfl]; exact hend

/-! ## The runs of `recvRX` that return, on any stream -/

theorem rxSpecOk_ok {timeout start : Nat} {m : Machine} {pre : List Nat} {rx_ok : Bool}
    {x : Machine × RxVars} (h : RxSpec timeout start m pre rx_ok (.ok x)) :
    RxSpecOk timeout start m pre rx_ok (.ok x) := h

theorem rxSpecOk_of_idle {timeout start : Nat} {m : Machine} {pre : List Nat} {rx_ok : Bool}
    {res : Except Fault (Machine × RxVars)} (d : Nat)
    (h : RxSpecOk timeout start (delay d m) pre rx_ok res) :
    RxSpecOk timeout start m pre rx_ok res := by
  match res, h with
  | .ok x, h =>
    have h1 : RxSpec timeout start (delay d m) pre rx_ok (.ok x) := h
    exact rxSpecOk_ok (RxSpec.of_idle d h1)
  | .error e, _ => trivial

theorem rxSpecOk_of_take {timeout start : Nat} {m : Machine} {pre : List Nat} {rx_ok : Bool}
    {res : Except Fault (Machine × RxVars)} {t b : Nat} {rest : List (Nat × Nat)}
    {r : List Nat} (d : Nat) (hrx : m.rx = (t, b) :: rest) (hq : stopsRx pre b = false)
    (h : RxSpecOk timeout start (delay d { m with rx := rest, ret := r }) (pre ++ [b]) true res) :
    RxSpecOk timeout start m pre rx_ok res := by
  match res, h with
  | .ok x, h =>
    have h1 : RxSpec timeout start (delay d { m with rx := rest, ret := r }) (pre ++ [b]) true
        (.ok x) := h
    exact rxSpecOk_ok (RxSpec.of_take d hrx hq h1)
  | .error e, _ => trivial

theorem rx_idle_round_any (timeout start fuel : Nat) (ih : RxLoopReturns timeout start fuel)
    (m : Machine) (v : RxVars) (pre : List Nat)
    (hread : recvRXRead m v = .ok (m, v))
    (hH : Holds m.ret pre) (hidx : v.ret_index = pre.length) (hc : v.cont_while = true)
    (hW : v.wait_eol = hasTok (cstr pre) "+EVT:RX") (hstart : start ≤ m.now)
    (htime : m.now - start ≤ if v.wait_eol then 120000 else timeout)
    (hfuel : max timeout 120000 + 20 ≤ (m.now - start) + 20 * (fuel + 1)) :
    RxSpecOk timeout start m pre v.rx_ok (recvRXLoop timeout start (fuel + 1) m v) := by
  rw [recvRXLoop_round timeout start fuel m v hc m v hread]
  have hquiet0 : QuietRx pre ((m.rx.take 0).map Prod.snd) := by
    intro g c tl hdec _
    simp at hdec
  cases hw : v.wait_eol with
  | true =>
    rw [hw] at htime hW
    simp only [if_true] at htime ⊢
    by_cases hlate : (delay 20 m).now - start > 120000
    · rw [if_pos hlate]
      simp only [delay] at hlate
      apply rxSpecOk_ok
      refine ⟨0, Nat.zero_le _, by simp [setRetLit, delay], by simp [setRetLit, delay],
        by simp [setRetLit, delay], by simp, hquiet0, ?_⟩
      refine RxEnd.failedRx ?_ ?_ ?_ ⟨_, rfl⟩
      · simpa using hW.symm
      · simpa [setRetLit, delay] using hlate
      · simp only [setRetLit, delay]; omega
    · rw [if_neg hlate]
      simp only [delay] at hlate
      apply rxSpecOk_of_idle 20
      apply ih (delay 20 m) v pre hH hidx hc (hw.trans hW)
      · simp only [delay]; omega
      · simp only [delay, hw, if_true]; omega
      · simp only [delay]; omega
  | false =>
    rw [hw] at htime hW
    simp only [Bool.false_eq_true, if_false] at htime ⊢
    by_cases hlate : (delay 20 m).now - start > timeout
    · rw [if_pos hlate]
      simp only [delay] at hlate
      apply rxSpecOk_ok
      refine ⟨0, Nat.zero_le _, by simp [setRetLit, delay], by simp [setRetLit, delay],
        by simp [setRetLit, delay], by simp, hquiet0, ?_⟩
      refine RxEnd.noRx ?_ ?_ ?_ ⟨_, rfl⟩
      · simpa using hW.symm
      · simpa [setRetLit, delay] using hlate
      · simp only [setRetLit, delay]; omega
    · rw [if_neg hlate]
      simp only [delay] at hlate
      apply rxSpecOk_of_idle 20
      apply ih (delay 20 m) v pre hH hidx hc (hw.trans hW)
      · simp only [delay]; omega
      · simp only [delay, hw, Bool.false_eq_true, if_false]; omega
      · simp only [delay]; omega

theorem rx_take_round_any (timeout start fuel : Nat) (ih : RxLoopReturns timeout start fuel)
    (m : Machine) (v : RxVars) (pre : List Nat) (t b : Nat) (rest : List (Nat × Nat))
    (hrx : m.rx = (t, b) :: rest) (ht : t ≤ m.now)
    (hH : Holds m.ret pre) (hidx : v.ret_index = pre.length) (hc : v.cont_while = true)
    (hW : v.wait_eol = hasTok (cstr pre) "+EVT:RX") (hstart : start ≤ m.now)
    (htime : m.now - start ≤ if v.wait_eol then 120000 else timeout)
    (hfuel : max timeout 120000 + 20 ≤ (m.now - start) + 20 * (fuel + 1)) :
    RxSpecOk timeout start m pre v.rx_ok (recvRXLoop timeout start (fuel + 1) m v) := by
  by_cases hfull : pre.length = 1023
  · rw [recvRXLoop_fault timeout start fuel m v hc _
      (recvRXRead_fault m v t b rest pre hrx ht hidx (Or.inl hfull))]
    trivial
  have hfit : pre.length + 1 < 1024 := by
    have := hH.length_lt
    omega
  have he40 : m.now - start ≤ max timeout 120000 := by
    split at htime <;> omega
  have hdd : ∀ x : Machine, delay 20 (delay 20 x) = delay 40 x := by
    intro x; simp [delay]
  cases heol : (v.wait_eol && isEol b) with
  | false =>
    obtain ⟨r, hread, hH1⟩ := recvRXRead_take m v t b rest pre hrx ht hH hidx hc heol hfit
    rw [recvRXLoop_round timeout start fuel m v hc _ _ hread]
    have hW1 : (v.wait_eol || (hasTok (cstr (pre ++ [b])) "+EVT:RX" && !v.wait_eol)) =
        hasTok (cstr (pre ++ [b])) "+EVT:RX" := by
      cases hw : v.wait_eol with
      | false => simp
      | true =>
        have := hasTok_mono "+EVT:RX" (List.prefix_append pre [b]) (hW.symm.trans hw)
        simp [this]
    have hq : hasTok (cstr (pre ++ [b])) "+EVT:RXP2P_RECEIVE_TIMEOUT" = false →
        stopsRx pre b = false := by
      intro hp
      rw [hW] at heol
      simp [stopsRx, heol, hp]
    simp only [hW1, hdd]
    cases hw1 : hasTok (cstr (pre ++ [b])) "+EVT:RX" with
    | true =>
      simp only [if_true]
      by_cases hlate : (delay 40 { m with rx := rest, ret := r }).now - start > 120000
      · rw [if_pos hlate]
        simp only [delay] at hlate
        apply rxSpecOk_ok
        apply rxSpec_one timeout start m pre v.rx_ok t b rest hrx
        · simp [setRetLit, delay]
        · simp [setRetLit, delay]
        · simp [setRetLit, delay]
        · rfl
        · refine RxEnd.failedRx hw1 ?_ ?_ ⟨_, rfl⟩
          · simpa [setRetLit, delay] using hlate
          · simp only [setRetLit, delay]; omega
      · rw [if_neg hlate]
        simp only [delay] at hlate
        cases hp : hasTok (cstr (pre ++ [b])) "+EVT:RXP2P_RECEIVE_TIMEOUT" with
        | false =>
          apply rxSpecOk_of_take 40 hrx (hq hp)
          have := ih (delay 40 { m with rx := rest, ret := r })
            { ret_index := pre.length + 1, rx_ok := true,
              wait_eol := hasTok (cstr (pre ++ [b])) "+EVT:RX",
              cont_while := !hasTok (cstr (pre ++ [b])) "+EVT:RXP2P_RECEIVE_TIMEOUT" }
            (pre ++ [b]) hH1 (by simp) (by simp [hp]) rfl (by simp only [delay]; omega)
            (by simp only [delay, hw1, if_true]; omega) (by simp only [delay]; omega)
          simpa [hw1, hp] using this
        | true =>
          obtain ⟨f, rfl⟩ : ∃ f, fuel = f + 1 := ⟨fuel - 1, by omega⟩
          rw [recvRXLoop_stopped _ _ _ _ _ (by simp)]
          apply rxSpecOk_ok
          apply rxSpec_one timeout start m pre v.rx_ok t b rest hrx
          · simp [delay]
          · simp [delay]
          · simp [delay]
          · rfl
          · refine RxEnd.done ⟨pre, b, rfl, by simp [stopsRx, hp]⟩ (by simpa [delay] using hH1) ?_
            simp only [delay]; omega
    | false =>
      simp only [Bool.false_eq_true, if_false]
      by_cases hlate : (delay 40 { m with rx := rest, ret := r }).now - start > timeout
      · rw [if_pos hlate]
        simp only [delay] at hlate
        apply rxSpecOk_ok
        apply rxSpec_one timeout start m pre v.rx_ok t b rest hrx
        · simp [setRetLit, delay]
        · simp [setRetLit, delay]
        · simp [setRetLit, delay]
        · rfl
        · refine RxEnd.noRx hw1 ?_ ?_ ⟨_, rfl⟩
          · simpa [setRetLit, delay] using hlate
          · have hwf : v.wait_eol = false := by
              cases hw : v.wait_eol with
              | false => rfl
              | true =>
                have := hasTok_mono "+EVT:RX" (List.prefix_append pre [b]) (hW.symm.trans hw)
                rw [hw1] at this
                exact absurd this (by simp)
            rw [hwf] at htime
            simp only [Bool.false_eq_true, if_false] at htime
            simp only [setRetLit, delay]
            omega
      · rw [if_neg hlate]
        simp only [delay] at hlate
        cases hp : hasTok (cstr (pre ++ [b])) "+EVT:RXP2P_RECEIVE_TIMEOUT" with
        | false =>
          apply rxSpecOk_of_take 40 hrx (hq hp)
          have := ih (delay 40 { m with rx := rest, ret := r })
            { ret_index := pre.length + 1, rx_ok := true,
              wait_eol := hasTok (cstr (pre ++ [b])) "+EVT:RX",
              cont_while := !hasTok (cstr (pre ++ [b])) "+EVT:RXP2P_RECEIVE_TIMEOUT" }
            (pre ++ [b]) hH1 (by simp) (by simp [hp]) rfl (by simp only [delay]; omega)
            (by simp only [delay, hw1, Bool.false_eq_true, if_false]; omega)
            (by simp only [delay]; omega)
          simpa [hw1, hp] using this
        | true =>
          have := hasTok_rx_of_p2p _ hp
          rw [hw1] at this
          exact absurd this (by simp)
  | true =>
    have hw : v.wait_eol = true := by
      cases hv : v.wait_eol <;> simp [hv] at heol ⊢
    have hb : isEol b = true := by
      rw [hw] at heol; simpa using heol
    rw [hw] at htime hW
    simp only [if_true] at htime
    have hmark : hasTok (cstr (pre ++ [b])) "+EVT:RX" = true :=
      hasTok_mono "+EVT:RX" (List.prefix_append pre [b]) hW.symm
    by_cases hlen : pre.length + 2 < 1024
    · obtain ⟨r, hread, hH1⟩ := recvRXRead_eol m v t b rest pre hrx ht hH hidx hc heol hlen
      rw [recvRXLoop_round timeout start fuel m v hc _ _ hread]
      simp only [if_true, hdd]
      by_cases hlate : (delay 40 { m with rx := rest, ret := r }).now - start > 120000
      · rw [if_pos hlate]
        simp only [delay] at hlate
        apply rxSpecOk_ok
        apply rxSpec_one timeout start m pre v.rx_ok t b rest hrx
        · simp [setRetLit, delay]
        · simp [setRetLit, delay]
        · simp [setRetLit, delay]
        · rfl
        · refine RxEnd.failedRx hmark ?_ ?_ ⟨_, rfl⟩
          · simpa [setRetLit, delay] using hlate
          · simp only [setRetLit, delay]; omega
      · rw [if_neg hlate]
        simp only [delay] at hlate
        obtain ⟨f, rfl⟩ : ∃ f, fuel = f + 1 := ⟨fuel - 1, by omega⟩
        rw [recvRXLoop_stopped _ _ _ _ _ (by simp)]
        apply rxSpecOk_ok
        apply rxSpec_one timeout start m pre v.rx_ok t b rest hrx
        · simp [delay]
        · simp [delay]
        · simp [delay]
        · rfl
        · refine RxEnd.done ⟨pre, b, rfl, by simp [stopsRx, ← hW, hb]⟩
            (by simpa [delay] using hH1) ?_
          simp only [delay]; omega
    · have hread := recvRXRead_fault m v t b rest pre hrx ht hidx
        (Or.inr ⟨by omega, heol⟩)
      rw [recvRXLoop_fault timeout start fuel m v hc _ hread]
      trivial

theorem recvRXLoop_returns (timeout start : Nat) : ∀ fuel, RxLoopReturns timeout start fuel := by
  intro fuel
  induction fuel with
  | zero =>
    intro m v pre _ _ _ _ _ htime hfuel
    split at htime <;> omega
  | succ fuel ih =>
    intro m v pre hH hidx hc hW hstart htime hfuel
    match hrx : m.rx with
    | [] =>
      exact rx_idle_round_any timeout start fuel ih m v pre (recvRXRead_empty m v hrx)
        hH hidx hc hW hstart htime hfuel
    | (t, b) :: rest =>
      by_cases ht : t ≤ m.now
      · exact rx_take_round_any timeout start fuel ih m v pre t b rest hrx ht
          hH hidx hc hW hstart htime hfuel
      · exact rx_idle_round_any timeout start fuel ih m v pre
          (recvRXRead_wait m v t b rest hrx (by omega)) hH hidx hc hW hstart htime hfuel

theorem recvRX_returns {timeout : Nat} {m m' : Machine} (hlen : m.ret.length = 1024)
    (h : recvRX timeout m = .ok m') : RxTop timeout m (.ok m') := by
  obtain ⟨r, hp, hH⟩ := holds_poke_zero m hlen
  unfold recvRX at h
  rw [hp] at h
  have hs := recvRXLoop_returns timeout m.now (max timeout 120000 / 20 + 2) { m with ret := r }
    { ret_index := 0, rx_ok := false, wait_eol := false, cont_while := true } [] hH rfl rfl
    (by decide) (Nat.le_refl _) (by simp) (by simp only [Nat.sub_self]; omega)
  simp only at hs h
  generalize hres : recvRXLoop timeout m.now (max timeout 120000 / 20 + 2) { m with ret := r }
    { ret_index := 0, rx_ok := false, wait_eol := false, cont_while := true } = res at h hs
  match res, h, hs with
  | .error e, h, _ => cases h
  | .ok (m1, v1), h, hs =>
    have hm' : (if !v1.rx_ok then setRetLit m1 "NO_RX" else m1) = m' := by
      injection h
    subst hm'
    obtain ⟨k, hk, hrx, hsame, hnow, hok, hq, hend⟩ := hs
    simp only [List.nil_append, Bool.false_or] at hk hrx hnow hok hq hend
    have hcons : ∀ m2 : Machine, m2.rx = m1.rx → consumed m m2 = (m.rx.take k).map Prod.snd :=
      fun m2 h2 => consumed_of_drop m m2 k hk (h2.trans hrx)
    have hdrop : ∀ m2 : Machine, m2.rx = m1.rx →
        m2.rx.length ≤ m.rx.length ∧ m2.rx = m.rx.drop (m.rx.length - m2.rx.length) := by
      intro m2 h2
      rw [h2, hrx, List.length_drop]
      refine ⟨by omega, ?_⟩
      congr 1
      omega
    by_cases hk0 : k = 0
    · subst hk0
      have hv : v1.rx_ok = false := by simpa using hok
      simp only [hv, Bool.not_false, if_true]
      obtain ⟨h1, h2⟩ := hdrop (setRetLit m1 "NO_RX") rfl
      refine ⟨h1, h2, ?_, by simpa [setRetLit] using hnow, ?_, ?_⟩
      · rw [hsame]; simp [setRetLit]
      · rw [hcons (setRetLit m1 "NO_RX") rfl]; exact hq
      · rw [hcons (setRetLit m1 "NO_RX") rfl]
        cases hend with
        | noRx hmark hlate hbound hret =>
          exact RxEnd.noRx hmark (by simpa [setRetLit] using hlate)
            (by simpa [setRetLit] using hbound) ⟨_, rfl⟩
        | failedRx hmark _ _ _ => simp [cstr, hasTok, strstr, startsWith, ascii] at hmark
        | done hstop _ _ =>
          obtain ⟨g, b, hg, _⟩ := hstop
          simp at hg
    · have hv : v1.rx_ok = true := by simpa [Nat.pos_of_ne_zero hk0] using hok
      simp only [hv, Bool.not_true, Bool.false_eq_true, if_false]
      obtain ⟨h1, h2⟩ := hdrop m1 rfl
      refine ⟨h1, h2, ?_, hnow, ?_, ?_⟩
      · rw [hsame]
      · rw [hcons m1 rfl]; exact hq
      · rw [hcons m1 rfl]; exact hend

/-! ## The loop of `recvResponse` -/

theorem RespSpec.of_idle_poll {timeout start : Nat} {m : Machine} {pre : List Nat} {rx_ok : Bool}
    {res : Except Fault (Bool × Machine)} (d : Nat)
    (h : RespSpec timeout start (delay d m) pre (rx_ok || false) res) :
    RespSpec timeout start m pre rx_ok res := by
  match res, h with
  | .ok (r, m'), h =>
    obtain ⟨k, hk, hq, hend⟩ := h
    refine ⟨k, hk, hq, ?_⟩
    simp only [delay, Bool.or_false] at hend
    cases hend with
    | timedOut hr hv hrx hsame hnow hlate hret =>
      exact .timedOut hr hv hrx (by rw [hsame]) (by simp only at hnow; omega) hlate hret
    | succeeded hr hv hrx hsame hnow hret =>
      exact .succeeded hr hv hrx (by rw [hsame]) (by simp only at hnow; omega) hret
    | failed hr hv hrx hsame hnow hret =>
      exact .failed hr hv hrx (by rw [hsame]) (by simp only at hnow; omega) hret
    | chained hr hv m1 hrx hsame hnow hret hrun =>
      exact .chained hr hv m1 hrx (by rw [hsame]) (by simp only at hnow; omega) hret hrun

theorem RespSpec.of_read {timeout start : Nat} {m : Machine} {pre : List Nat} {rx_ok : Bool}
    {res : Except Fault (Bool × Machine)} {t b : Nat} {rest : List (Nat × Nat)}
    {r : List Nat} (d : Nat) (hrx : m.rx = (t, b) :: rest)
    (hq : verdictOf (cstr (pre ++ [b])) = .none)
    (h : RespSpec timeout start (delay d { m with rx := rest, ret := r }) (pre ++ [b]) true res) :
    RespSpec timeout start m pre rx_ok res := by
  match res, h with
  | .ok (r', m'), h =>
    obtain ⟨k, hk, hquiet, hend⟩ := h
    simp only [delay] at hk hquiet hend
    have hgot : pre ++ [b] ++ List.map Prod.snd (List.take k rest) =
        pre ++ List.map Prod.snd (List.take (k + 1) m.rx) := by
      rw [hrx]; simp
    refine ⟨k + 1, by rw [hrx]; simpa using hk, ?_, ?_⟩
    · intro g c tl hdec htl
      rw [hrx] at hdec
      simp only [List.take_succ_cons, List.map_cons] at hdec
      cases g with
      | nil =>
        simp only [List.nil_append, List.cons.injEq] at hdec
        rw [← hdec.1]
        simpa using hq
      | cons x g' =>
        simp only [List.cons_append, List.cons.injEq] at hdec
        have := hquiet g' c tl hdec.2 htl
        rw [← hdec.1]
        simpa using this
    · rw [← hgot]
      have hdrop : List.drop k rest = List.drop (k + 1) m.rx := by rw [hrx]; simp
      cases hend with
      | timedOut hr hv hrx' hsame hnow hlate hret =>
        exact .timedOut hr hv (hrx'.trans hdrop) (by rw [hsame]) (by simp only at hnow; omega)
          hlate (by simpa using hret)
      | succeeded hr hv hrx' hsame hnow hret =>
        exact .succeeded hr hv (hrx'.trans hdrop) (by rw [hsame]) (by simp only at hnow; omega) hret
      | failed hr hv hrx' hsame hnow hret =>
        exact .failed hr hv (hrx'.trans hdrop) (by rw [hsame]) (by simp only at hnow; omega) hret
      | chained hr hv m1 hrx' hsame hnow hret hrun =>
        exact .chained hr hv m1 (hrx'.trans hdrop) (by rw [hsame]) (by simp only at hnow; omega)
          hret hrun

theorem quietResp_nil (pre : List Nat) (l : List (Nat × Nat)) :
    QuietResp pre ((l.take 0).map Prod.snd) := by
  intro g c tl hdec _
  simp at hdec

theorem quietResp_single (pre : List Nat) (b : Nat) : QuietResp pre [b] := by
  intro g c tl hdec htl
  cases g with
  | nil => simp at hdec; exact absurd hdec.2 htl
  | cons x g' => simp at hdec

theorem recvResponseLoop_sound (timeout start : Nat) :
    ∀ fuel, RespLoopSound timeout start fuel := by
  intro fuel
  induction fuel with
  | zero =>
    intro m pre rx_ok hH hv hstart hfuel hshort
    rw [recvResponseLoop, if_neg (by omega)]
    refine ⟨0, Nat.zero_le _, quietResp_nil pre m.rx, ?_⟩
    cases rx_ok with
    | false =>
      exact .timedOut rfl (by simpa using hv) (by simp [setRetLit]) (by simp [setRetLit])
        (by simp [setRetLit]) (by simp only [Bool.not_false, if_true, setRetLit]; omega)
        (by simpa [setRetLit] using ⟨m.ret, rfl⟩)
    | true =>
      exact .timedOut rfl (by simpa using hv) (by simp) (by simp) (by simp)
        (by simp only [Bool.not_true, Bool.false_eq_true, if_false]; omega) (by simpa using hH)
  | succ fuel ih =>
    intro m pre rx_ok hH hv hstart hfuel hshort
    rw [recvResponseLoop]
    by_cases hlate : m.now - start < timeout
    · rw [if_pos hlate]
      have hidle : respRead m pre.length = .ok (m, pre.length, false) →
          RespSpec timeout start m pre rx_ok
            (match respRead m pre.length with
            | .error e => .error e
            | .ok (m, ret_index, got) =>
              match verdict m with
              | .pendingRx =>
                match recvRX 5000 m with
                | .error e => .error e
                | .ok m => .ok (true, m)
              | .success => .ok (true, m)
              | .failure => .ok (false, m)
              | .none =>
                recvResponseLoop timeout start (fuel + 1) (delay 20 m) ret_index (rx_ok || got)) := by
        intro hread
        rw [hread]
        have hvm : verdict m = .none := by rw [verdict, hH.cstr_eq]; exact hv
        simp only [hvm]
        apply RespSpec.of_idle_poll 20
        exact ih (delay 20 m) pre (rx_ok || false) hH hv (by simp only [delay]; omega)
          (by simp only [delay]; omega) (by simpa [delay] using hshort)
      match hrx : m.rx with
      | [] => exact hidle (respRead_empty m _ hrx)
      | (t, b) :: rest =>
        by_cases ht : t ≤ m.now
        · have hrl : m.rx.length = rest.length + 1 := by rw [hrx]; simp
          obtain ⟨r, hread, hH1⟩ := respRead_take m t b rest pre hrx ht hH (by omega)
          rw [hread]
          have hvm : verdict { m with rx := rest, ret := r } = verdictOf (cstr (pre ++ [b])) := by
            rw [verdict]; simp only; rw [hH1.cstr_eq]
          simp only [hvm]
          have hone : ∀ (res : Bool) (m' : Machine),
              RespEnd timeout start m rx_ok (pre ++ [b]) 1 res m' →
              RespSpec timeout start m pre rx_ok (.ok (res, m')) := by
            intro res m' hend
            refine ⟨1, by omega, ?_, ?_⟩
            · rw [hrx]; simpa using quietResp_single pre b
            · rw [hrx]; simpa using hend
          have hdrop1 : rest = List.drop 1 m.rx := by rw [hrx]; simp
          cases hvb : verdictOf (cstr (pre ++ [b])) with
          | none =>
            simp only
            apply RespSpec.of_read 20 hrx hvb
            have := ih (delay 20 { m with rx := rest, ret := r }) (pre ++ [b]) true hH1 hvb
              (by simp only [delay]; omega) (by simp only [delay]; omega)
              (by simp only [delay, List.length_append, List.length_singleton]; omega)
            simpa using this
          | success =>
            exact hone _ _ (.succeeded rfl hvb hdrop1 (by simp) (by simp) hH1)
          | failure =>
            exact hone _ _ (.failed rfl hvb hdrop1 (by simp) (by simp) hH1)
          | pendingRx =>
            simp only
            have hs := recvRX_sound 5000 { m with rx := rest, ret := r } hH1.1
              (by simp only; omega)
            match hres : recvRX 5000 { m with rx := rest, ret := r }, hs with
            | .error e, hs =>
              obtain ⟨_, hl, _⟩ := hs
              simp only at hl
              omega
            | .ok m2, _ =>
              exact hone _ _ (.chained rfl hvb _ hdrop1 (by simp) (by simp) hH1 hres)
        · exact hidle (respRead_wait m _ t b rest hrx (by omega))
    · rw [if_neg hlate]
      refine ⟨0, Nat.zero_le _, quietResp_nil pre m.rx, ?_⟩
      cases rx_ok with
      | false =>
        exact .timedOut rfl (by simpa using hv) (by simp [setRetLit]) (by simp [setRetLit])
          (by simp [setRetLit]) (by simp only [Bool.not_false, if_true, setRetLit]; omega)
          (by simpa [setRetLit] using ⟨m.ret, rfl⟩)
      | true =>
        exact .timedOut rfl (by simpa using hv) (by simp) (by simp) (by simp)
          (by simp only [Bool.not_true, Bool.false_eq_true, if_false]; omega) (by simpa using hH)

theorem recvResponse_sound (timeout : Nat) (m : Machine) (hlen : m.ret.length = 1024)
    (hshort : m.rx.length ≤ 1023) : RespTop timeout m (recvResponse timeout m) := by
  obtain ⟨r, hp, hH⟩ := holds_poke_zero m hlen
  unfold recvResponse
  rw [hp]
  have hs := recvResponseLoop_sound timeout m.now (timeout / 20 + 1) { m with ret := r } [] false
    hH (by decide) (Nat.le_refl _) (by simp only [Nat.sub_self]; omega) (by simpa using hshort)
  simp only [List.length_nil] at hs ⊢
  match hres : recvResponseLoop timeout m.now (timeout / 20 + 1 + 1) { m with ret := r } 0 false,
    hs with
  | .error e, hs => exact hs.elim
  | .ok (res, m'), hs =>
    obtain ⟨k, hk, hq, hend⟩ := hs
    refine ⟨k, hk, hq, ?_⟩
    simp only [List.nil_append] at hend
    cases hend with
    | timedOut hr hv hrx hsame hnow hlate hret =>
      exact .timedOut hr hv hrx (by rw [hsame]) hnow hlate hret
    | succeeded hr hv hrx hsame hnow hret => exact .succeeded hr hv hrx (by rw [hsame]) hnow hret
    | failed hr hv hrx hsame hnow hret => exact .failed hr hv hrx (by rw [hsame]) hnow hret
    | chained hr hv m1 hrx hsame hnow hret hrun =>
      exact .chained hr hv m1 hrx (by rw [hsame]) hnow hret hrun

/-! ## Sentinels and verdicts -/

theorem verdictOf_cases (a b c d e f g h : Bool) :
    ((if (a || b) = true then Verdict.pendingRx
      else if c = true then .success
      else if d = true then .success
      else if (e || f || g || h) = true then .failure
      else .none) = .none ↔
        a = false ∧ b = false ∧ c = false ∧ d = false ∧ e = false ∧ f = false ∧ g = false ∧
          h = false) ∧
    ((if (a || b) = true then Verdict.pendingRx
      else if c = true then .success
      else if d = true then .success
      else if (e || f || g || h) = true then .failure
      else .none) = .failure ↔
        (a = false ∧ b = false ∧ c = false ∧ d = false) ∧
          (e = true ∨ f = true ∨ g = true ∨ h = true)) ∧
    (((if (a || b) = true then Verdict.pendingRx
      else if c = true then .success
      else if d = true then .success
      else if (e || f || g || h) = true then .failure
      else .none) = .success ∨
      (if (a || b) = true then Verdict.pendingRx
      else if c = true then .success
      else if d = true then .success
      else if (e || f || g || h) = true then .failure
      else .none) = .pendingRx) ↔
        (a = true ∨ b = true ∨ c = true ∨ d = true)) := by
  cases a <;> cases b <;> cases c <;> cases d <;> cases e <;> cases f <;> cases g <;> cases h <;>
    simp

theorem verdictOf_none_iff (text : List Nat) :
    verdictOf text = .none ↔ ∀ tok ∈ sentinels, hasTok text tok = false := by
  have := (verdictOf_cases (hasTok text "+EVT:TX_DONE") (hasTok text "+EVT:SEND_CONFIRMED_OK")
    (hasTok text "+EVT:TXP2P DONE") (hasTok text "OK") (hasTok text "AT_COMMAND_NOT_FOUND")
    (hasTok text "AT_PARAM_ERROR") (hasTok text "SEND_CONFIRMED_FAILED")
    (hasTok text "AT_NO_NETWORK_JOINED")).1
  simpa [verdictOf, sentinels, pendingTokens, successTokens, failureTokens] using this

theorem verdictOf_failure_iff (text : List Nat) :
    verdictOf text = .failure ↔
      (∀ tok ∈ pendingTokens ++ successTokens, hasTok text tok = false) ∧
      ∃ tok ∈ failureTokens, hasTok text tok = true := by
  have := (verdictOf_cases (hasTok text "+EVT:TX_DONE") (hasTok text "+EVT:SEND_CONFIRMED_OK")
    (hasTok text "+EVT:TXP2P DONE") (hasTok text "OK") (hasTok text "AT_COMMAND_NOT_FOUND")
    (hasTok text "AT_PARAM_ERROR") (hasTok text "SEND_CONFIRMED_FAILED")
    (hasTok text "AT_NO_NETWORK_JOINED")).2.1
  simpa [verdictOf, pendingTokens, successTokens, failureTokens, and_assoc] using this

theorem verdictOf_good_iff (text : List Nat) :
    (verdictOf text = .success ∨ verdictOf text = .pendingRx) ↔
      ∃ tok ∈ pendingTokens ++ successTokens, hasTok text tok = true := by
  have := (verdictOf_cases (hasTok text "+EVT:TX_DONE") (hasTok text "+EVT:SEND_CONFIRMED_OK")
    (hasTok text "+EVT:TXP2P DONE") (hasTok text "OK") (hasTok text "AT_COMMAND_NOT_FOUND")
    (hasTok text "AT_PARAM_ERROR") (hasTok text "SEND_CONFIRMED_FAILED")
    (hasTok text "AT_NO_NETWORK_JOINED")).2.2
  simpa [verdictOf, pendingTokens, successTokens] using this

theorem cstr_snprintfLit (buf s : List Nat) (h : 0 ∉ s) : cstr (snprintfLit buf s) = s := by
  unfold snprintfLit
  rw [cstr_append_zero, cstr_eq_self h]

theorem occurrence_of_hasTok {g c : List Nat} (tok : String) (hg : g <+: c)
    (h : hasTok (cstr g) tok = true) : ascii tok <:+: c := by
  rw [hasTok_iff] at h
  exact (h.trans (cstr_initial g).isInfix).trans hg.isInfix

theorem quietResp_initial {bs P : List Nat} (hq : QuietResp [] bs) (hP : P <+: bs)
    (hne : P ≠ bs) (hnil : P ≠ []) : verdictOf (cstr P) = .none := by
  obtain ⟨t, rfl⟩ := hP
  have ht : t ≠ [] := by
    intro h; apply hne; simp [h]
  obtain ⟨g, b, rfl⟩ : ∃ g b, P = g ++ [b] := by
    refine ⟨P.dropLast, P.getLast hnil, ?_⟩
    exact (List.dropLast_append_getLast hnil).symm
  have := hq g b t (by simp) ht
  simpa using this

/-! ## Theorems: the hexadecimal codec -/

theorem hexDigit_ne_zero (d : Nat) : hexDigit d ≠ 0 := by
  unfold hexDigit; split <;> omega

set_option maxRecDepth 100000 in
theorem decode_hex_pair :
    ∀ v < 256, toChar (strtol (cstr [hexDigit (v / 16), hexDigit (v % 16), 0]) 16) = v := by
  decide

theorem byteArrayToAsciiLoop_below (b : Mem) (count index : Nat) (a : Mem) (j : Nat)
    (hj : j < index * 2) : byteArrayToAsciiLoop b count index a j = a j := by
  induction count generalizing index a with
  | zero => rfl
  | succ c ih =>
    rw [byteArrayToAsciiLoop, ih (index + 1) _ (by omega)]
    simp only [sprintf02X, Mem.write]
    rw [if_neg (by omega), if_neg (by omega), if_neg (by omega)]

theorem byteArrayToAsciiLoop_digits (b : Mem) (count index : Nat) (a : Mem) (i : Nat)
    (hlo : index ≤ i) (hhi : i < index + count) :
    byteArrayToAsciiLoop b count index a (i * 2) = hexDigit (b i % 256 / 16) ∧
    byteArrayToAsciiLoop b count index a (i * 2 + 1) = hexDigit (b i % 256 % 16) := by
  induction count generalizing index a with
  | zero => omega
  | succ c ih =>
    rw [byteArrayToAsciiLoop]
    by_cases h : i = index
    · subst h
      rw [byteArrayToAsciiLoop_below _ _ _ _ _ (by omega),
        byteArrayToAsciiLoop_below _ _ _ _ _ (by omega)]
      simp [sprintf02X, Mem.write]
    · exact ih (index + 1) _ (by omega) (by omega)

theorem asciiArrayToByteLoop_below (a : Mem) (count index : Nat) (b : Mem) (j : Nat)
    (hj : j < index) : asciiArrayToByteLoop a count index b j = b j := by
  induction count generalizing index b with
  | zero => rfl
  | succ c ih =>
    rw [asciiArrayToByteLoop, ih (index + 1) _ (by omega)]
    simp only [Mem.write]
    rw [if_neg (by omega), if_neg (by omega)]

theorem asciiArrayToByteLoop_value (a : Mem) (count index : Nat) (b : Mem) (i : Nat)
    (hlo : index ≤ i) (hhi : i < index + count) :
    asciiArrayToByteLoop a count index b i = toChar (strtol (doublet a i) 16) := by
  induction count generalizing index b with
  | zero => omega
  | succ c ih =>
    rw [asciiArrayToByteLoop]
    by_cases h : i = index
    · subst h
      rw [asciiArrayToByteLoop_below _ _ _ _ _ (by omega)]
      simp [Mem.write]
    · exact ih (index + 1) _ (by omega) (by omega)

/-! ## Consequences for the claims -/

theorem consumed_chain (m m1 m' : Machine) (k : Nat) (hk : k ≤ m.rx.length)
    (h1 : m1.rx = m.rx.drop k) (hle : m'.rx.length ≤ m1.rx.length) :
    consumed m m' = (m.rx.take k).map Prod.snd ++ consumed m1 m' := by
  have hl1 : m1.rx.length = m.rx.length - k := by rw [h1, List.length_drop]
  have h4 : m.rx.length - m'.rx.length = k + (m1.rx.length - m'.rx.length) := by omega
  unfold consumed
  rw [h4, List.take_add, List.map_append, h1]

theorem consumed_initial (m m' : Machine) : consumed m m' <+: pending m := by
  unfold consumed pending
  exact (List.take_prefix _ _).map _

theorem rxTop_no_marker {timeout : Nat} {m m' : Machine} (h : RxTop timeout m (.ok m'))
    (hno : ¬ ascii "+EVT:RX" <:+: consumed m m') : cstr m'.ret = ascii "NO_RX" := by
  obtain ⟨_, _, _, _, _, hend⟩ := h
  cases hend with
  | noRx _ _ _ hret =>
    obtain ⟨r, hr⟩ := hret
    rw [hr]
    exact cstr_snprintfLit r _ (by decide)
  | failedRx hmark _ _ _ =>
    exact absurd (occurrence_of_hasTok "+EVT:RX" (List.prefix_refl _) hmark) hno
  | done hstop _ _ =>
    obtain ⟨g, b, hc, hs⟩ := hstop
    exfalso
    apply hno
    rw [hc]
    simp only [stopsRx, Bool.or_eq_true, Bool.and_eq_true] at hs
    rcases hs with ⟨hs, _⟩ | hs
    · exact occurrence_of_hasTok "+EVT:RX" (List.prefix_append g [b]) hs
    · exact occurrence_of_hasTok "+EVT:RX" (List.prefix_refl _) (hasTok_rx_of_p2p _ hs)

theorem respTop_timeout {timeout : Nat} {m m' : Machine} {r : Bool}
    (h : RespTop timeout m (.ok (r, m'))) (hshort : m.rx.length ≤ 1023)
    (hno : ∀ tok ∈ sentinels, ¬ ascii tok <:+: consumed m m') :
    r = false ∧ (consumed m m' = [] → cstr m'.ret = ascii "NO_RESPONSE") ∧
      (consumed m m' ≠ [] → Holds m'.ret (consumed m m')) := by
  obtain ⟨k, hk, hq, hend⟩ := h
  have hbad : ∀ g : List Nat, g <+: consumed m m' → verdictOf (cstr g) = .none := by
    intro g hg
    rw [verdictOf_none_iff]
    intro tok htok
    by_contra hc
    exact hno tok htok (occurrence_of_hasTok tok hg (by simpa using hc))
  cases hend with
  | timedOut hr hv hrx hsame hnow hlate hret =>
    have hcons := consumed_of_drop m m' k hk hrx
    refine ⟨hr, ?_, ?_⟩
    · intro hnil
      rw [hcons] at hnil
      have hk0 : k = 0 := by
        have := congrArg List.length hnil
        rw [List.length_map, List.length_take] at this
        simp only [List.length_nil] at this
        omega
      subst hk0
      simp only [Bool.false_or, Nat.lt_irrefl, decide_False, Bool.false_eq_true, if_false] at hret
      obtain ⟨r0, hr0⟩ := hret
      rw [hr0]
      exact cstr_snprintfLit r0 _ (by decide)
    · intro hne
      rw [hcons] at hne ⊢
      have hk0 : 0 < k := by
        rcases Nat.eq_zero_or_pos k with h0 | h0
        · subst h0; simp at hne
        · exact h0
      simpa [hk0] using hret
  | succeeded hr hv hrx hsame hnow hret =>
    have hcons := consumed_of_drop m m' k hk hrx
    have := hbad ((m.rx.take k).map Prod.snd) (by rw [hcons])
    rw [this] at hv
    exact absurd hv (by decide)
  | failed hr hv hrx hsame hnow hret =>
    have hcons := consumed_of_drop m m' k hk hrx
    have := hbad ((m.rx.take k).map Prod.snd) (by rw [hcons])
    rw [this] at hv
    exact absurd hv (by decide)
  | chained hr hv m1 hrx hsame hnow hret hrun =>
    have hs := recvRX_sound 5000 m1 hret.1 (by rw [hrx, List.length_drop]; omega)
    rw [hrun] at hs
    have hcons := consumed_chain m m1 m' k hk hrx hs.1
    have := hbad ((m.rx.take k).map Prod.snd) (by rw [hcons]; exact List.prefix_append _ _)
    rw [this] at hv
    exact absurd hv (by decide)

theorem hasTok_of_occurrence {P : List Nat} (tok : String) (hnul : 0 ∉ P) (h : ascii tok <:+: P) :
    hasTok (cstr P) tok = true := by
  rw [hasTok_iff, cstr_eq_self hnul]
  exact h

theorem take_prefix_of_lt {l : List (Nat × Nat)} {k : Nat} {P rest : List Nat}
    (hstream : l.map Prod.snd = P ++ rest) (hlt : ((l.take k).map Prod.snd).length < P.length) :
    (l.take k).map Prod.snd <+: P := by
  have h1 : (l.take k).map Prod.snd <+: P ++ rest := by
    rw [← hstream]
    exact (List.take_prefix _ _).map _
  exact List.prefix_of_prefix_length_le h1 (List.prefix_append P rest) (by omega)

theorem respTop_success {timeout : Nat} {m m' : Machine} {r : Bool}
    (h : RespTop timeout m (.ok (r, m')))
    (P rest : List Nat) (hstream : pending m = P ++ rest) (hnul : 0 ∉ P)
    (hok : ascii "OK" <:+: P ∨ ascii "+EVT:TXP2P DONE" <:+: P)
    (hnofail : ∀ tok ∈ failureTokens, ¬ ascii tok <:+: P) :
    r = true ∨ ((consumed m m').length < P.length ∧ timeout ≤ m'.now - m.now) := by
  obtain ⟨k, hk, hq, hend⟩ := h
  have hgood : ∀ c : List Nat, P <+: c →
      verdictOf (cstr c) = .success ∨ verdictOf (cstr c) = .pendingRx := by
    intro c hPc
    rw [verdictOf_good_iff]
    rcases hok with h1 | h1
    · exact ⟨"OK", by decide, hasTok_mono "OK" hPc (hasTok_of_occurrence "OK" hnul h1)⟩
    · exact ⟨"+EVT:TXP2P DONE", by decide,
        hasTok_mono "+EVT:TXP2P DONE" hPc (hasTok_of_occurrence "+EVT:TXP2P DONE" hnul h1)⟩
  have hPs : P <+: m.rx.map Prod.snd := by
    have : m.rx.map Prod.snd = P ++ rest := hstream
    rw [this]
    exact List.prefix_append P rest
  have hcases : P <+: (m.rx.take k).map Prod.snd ∨
      ((m.rx.take k).map Prod.snd).length < P.length := by
    rcases Nat.lt_or_ge ((m.rx.take k).map Prod.snd).length P.length with h1 | h1
    · exact Or.inr h1
    · exact Or.inl (List.prefix_of_prefix_length_le hPs ((List.take_prefix _ _).map _) h1)
  cases hend with
  | timedOut hr hv hrx hsame hnow hlate hret =>
    rcases hcases with h1 | h1
    · have := hgood _ h1
      rw [hv] at this
      simp at this
    · exact Or.inr ⟨by rw [consumed_of_drop m m' k hk hrx]; exact h1, hlate⟩
  | succeeded hr hv hrx hsame hnow hret => exact Or.inl hr
  | failed hr hv hrx hsame hnow hret =>
    exfalso
    rcases hcases with h1 | h1
    · have := hgood _ h1
      rw [hv] at this
      simp at this
    · obtain ⟨_, tok, htok, hhas⟩ := (verdictOf_failure_iff _).mp hv
      exact hnofail tok htok (occurrence_of_hasTok tok (take_prefix_of_lt hstream h1) hhas)
  | chained hr hv m1 hrx hsame hnow hret hrun => exact Or.inl hr

theorem fail_not_suffix_good :
    ∀ a ∈ failureTokens, ∀ b ∈ pendingTokens ++ successTokens,
      ¬ ascii a <:+ ascii b ∧ ¬ ascii b <:+ ascii a := by
  decide

theorem suffix_of_infix_concat {x g : List Nat} {b : Nat} (h : x <:+: g ++ [b])
    (hn : ¬ x <:+: g) : x <:+ g ++ [b] := by
  rcases List.infix_concat_iff.mp h with h1 | h1
  · exact h1
  · exact absurd h1 hn

theorem verdictOf_first_failure {P : List Nat} (hnul : 0 ∉ P)
    (hfail : ∃ tok ∈ failureTokens, ascii tok <:+: P)
    (hfirst : ∀ tok ∈ sentinels, ¬ ascii tok <:+: P.dropLast) :
    verdictOf (cstr P) = .failure := by
  rw [verdictOf_failure_iff]
  obtain ⟨a, ha, haP⟩ := hfail
  refine ⟨?_, a, ha, hasTok_of_occurrence a hnul haP⟩
  intro b hb
  by_contra hc
  have hbP : ascii b <:+: P := by
    have := occurrence_of_hasTok b (List.prefix_refl P) (by simpa using hc)
    exact this
  have hPne : P ≠ [] := by
    intro h0
    rw [h0] at haP
    have : ascii a = [] := List.infix_nil.mp haP
    revert a
    decide
  have hP : P = P.dropLast ++ [P.getLast hPne] := (List.dropLast_append_getLast hPne).symm
  have has : ascii a <:+ P := by
    rw [hP] at haP ⊢
    exact suffix_of_infix_concat haP (hfirst a (by simp [sentinels, ha]))
  have hbs : ascii b <:+ P := by
    rw [hP] at hbP ⊢
    refine suffix_of_infix_concat hbP (hfirst b ?_)
    simp only [sentinels, List.mem_append] at hb ⊢
    exact Or.inl hb
  rcases List.suffix_or_suffix_of_suffix has hbs with h1 | h1
  · exact (fail_not_suffix_good a ha b hb).1 h1
  · exact (fail_not_suffix_good a ha b hb).2 h1

theorem respTop_failure {timeout : Nat} {m m' : Machine} {r : Bool}
    (h : RespTop timeout m (.ok (r, m')))
    (P rest : List Nat) (hstream : pending m = P ++ rest) (hnul : 0 ∉ P)
    (hfail : ∃ tok ∈ failureTokens, ascii tok <:+: P)
    (hfirst : ∀ tok ∈ sentinels, ¬ ascii tok <:+: P.dropLast) :
    r = false ∧ ((Holds m'.ret P ∧ consumed m m' = P) ∨
      ((consumed m m').length < P.length ∧ timeout ≤ m'.now - m.now)) := by
  obtain ⟨k, hk, hq, hend⟩ := h
  have hvP := verdictOf_first_failure hnul hfail hfirst
  have hPne : P ≠ [] := by
    intro h0
    rw [h0] at hvP
    exact absurd hvP (by decide)
  have hPs : P <+: m.rx.map Prod.snd := by
    have : m.rx.map Prod.snd = P ++ rest := hstream
    rw [this]
    exact List.prefix_append P rest
  -- a text read that is shorter than `P` holds no sentinel
  have hshortNone : ((m.rx.take k).map Prod.snd).length < P.length →
      verdictOf (cstr ((m.rx.take k).map Prod.snd)) = .none := by
    intro hlt
    rw [verdictOf_none_iff]
    intro tok htok
    by_contra hc
    have hpre : (m.rx.take k).map Prod.snd <+: P.dropLast := by
      refine List.prefix_of_prefix_length_le (take_prefix_of_lt hstream hlt)
        (List.dropLast_prefix P) ?_
      rw [List.length_dropLast]
      omega
    exact hfirst tok htok (occurrence_of_hasTok tok hpre (by simpa using hc))
  -- a text read that reaches `P` is `P`
  have hreach : P.length ≤ ((m.rx.take k).map Prod.snd).length →
      verdictOf (cstr ((m.rx.take k).map Prod.snd)) = .failure ∧
        (m.rx.take k).map Prod.snd = P := by
    intro hge
    have hPc : P <+: (m.rx.take k).map Prod.snd :=
      List.prefix_of_prefix_length_le hPs ((List.take_prefix _ _).map _) hge
    by_cases heq : P = (m.rx.take k).map Prod.snd
    · rw [← heq]; exact ⟨hvP, rfl⟩
    · have := quietResp_initial hq hPc heq hPne
      rw [hvP] at this
      exact absurd this (by decide)
  have hdich := Nat.lt_or_ge ((m.rx.take k).map Prod.snd).length P.length
  cases hend with
  | timedOut hr hv hrx hsame hnow hlate hret =>
    refine ⟨hr, ?_⟩
    rcases hdich with h1 | h1
    · exact Or.inr ⟨by rw [consumed_of_drop m m' k hk hrx]; exact h1, hlate⟩
    · have := (hreach h1).1
      rw [hv] at this
      exact absurd this (by decide)
  | succeeded hr hv hrx hsame hnow hret =>
    exfalso
    rcases hdich with h1 | h1
    · have := hshortNone h1
      rw [hv] at this
      exact absurd this (by decide)
    · have := (hreach h1).1
      rw [hv] at this
      exact absurd this (by decide)
  | failed hr hv hrx hsame hnow hret =>
    refine ⟨hr, Or.inl ?_⟩
    rcases hdich with h1 | h1
    · have := hshortNone h1
      rw [hv] at this
      exact absurd this (by decide)
    · have heq := (hreach h1).2
      rw [consumed_of_drop m m' k hk hrx, heq]
      rw [heq] at hret
      exact ⟨hret, rfl⟩
  | chained hr hv m1 hrx hsame hnow hret hrun =>
    exfalso
    rcases hdich with h1 | h1
    · have := hshortNone h1
      rw [hv] at this
      exact absurd this (by decide)
    · have := (hreach h1).1
      rw [hv] at this
      exact absurd this (by decide)

theorem respTop_chain {timeout : Nat} {m m' : Machine} {r : Bool}
    (h : RespTop timeout m (.ok (r, m')))
    (P rest : List Nat) (hstream : pending m = P ++ rest)
    (hrec : verdictOf (cstr P) = .pendingRx)
    (hfirst : ∀ g, g <+: P → g ≠ P → verdictOf (cstr g) = .none) :
    (r = true ∧ ∃ m1, m1.rx = m.rx.drop P.length ∧ Holds m1.ret P ∧
        m1 = { m with now := m1.now, rx := m1.rx, ret := m1.ret } ∧ m.now ≤ m1.now ∧
        recvRX 5000 m1 = .ok m' ∧
        (¬ ascii "+EVT:RX" <:+: consumed m1 m' → cstr m'.ret = ascii "NO_RX")) ∨
      (r = false ∧ (consumed m m').length < P.length ∧ timeout ≤ m'.now - m.now) := by
  obtain ⟨k, hk, hq, hend⟩ := h
  have hPne : P ≠ [] := by
    intro h0
    rw [h0] at hrec
    exact absurd hrec (by decide)
  have hPs : P <+: m.rx.map Prod.snd := by
    have : m.rx.map Prod.snd = P ++ rest := hstream
    rw [this]
    exact List.prefix_append P rest
  have hshortNone : ((m.rx.take k).map Prod.snd).length < P.length →
      verdictOf (cstr ((m.rx.take k).map Prod.snd)) = .none := by
    intro hlt
    exact hfirst _ (take_prefix_of_lt hstream hlt) (by intro h0; rw [h0] at hlt; omega)
  have hreach : P.length ≤ ((m.rx.take k).map Prod.snd).length →
      verdictOf (cstr ((m.rx.take k).map Prod.snd)) = .pendingRx ∧
        (m.rx.take k).map Prod.snd = P := by
    intro hge
    have hPc : P <+: (m.rx.take k).map Prod.snd :=
      List.prefix_of_prefix_length_le hPs ((List.take_prefix _ _).map _) hge
    by_cases heq : P = (m.rx.take k).map Prod.snd
    · rw [← heq]; exact ⟨hrec, rfl⟩
    · have := quietResp_initial hq hPc heq hPne
      rw [hrec] at this
      exact absurd this (by decide)
  have hdich := Nat.lt_or_ge ((m.rx.take k).map Prod.snd).length P.length
  cases hend with
  | timedOut hr hv hrx hsame hnow hlate hret =>
    rcases hdich with h1 | h1
    · exact Or.inr ⟨hr, by rw [consumed_of_drop m m' k hk hrx]; exact h1, hlate⟩
    · have := (hreach h1).1
      rw [hv] at this
      exact absurd this (by decide)
  | succeeded hr hv hrx hsame hnow hret =>
    exfalso
    rcases hdich with h1 | h1
    · have := hshortNone h1
      rw [hv] at this
      exact absurd this (by decide)
    · have := (hreach h1).1
      rw [hv] at this
      exact absurd this (by decide)
  | failed hr hv hrx hsame hnow hret =>
    exfalso
    rcases hdich with h1 | h1
    · have := hshortNone h1
      rw [hv] at this
      exact absurd this (by decide)
    · have := (hreach h1).1
      rw [hv] at this
      exact absurd this (by decide)
  | chained hr hv m1 hrx hsame hnow hret hrun =>
    rcases hdich with h1 | h1
    · have := hshortNone h1
      rw [hv] at this
      exact absurd this (by decide)
    · have heq := (hreach h1).2
      have hkP : k = P.length := by
        have := congrArg List.length heq
        rw [List.length_map, List.length_take] at this
        omega
      have hs := recvRX_returns hret.1 hrun
      refine Or.inl ⟨hr, m1, by rw [hrx, hkP], by rw [← heq]; exact hret, hsame, hnow, hrun, ?_⟩
      exact rxTop_no_marker hs

theorem dropLast_initial_of_concat {g Q : List Nat} {b : Nat} (h : g ++ [b] <+: Q) :
    g <+: Q.dropLast := by
  refine List.prefix_of_prefix_length_le ((List.prefix_append g [b]).trans h)
    (List.dropLast_prefix Q) ?_
  have := h.length_le
  rw [List.length_dropLast]
  simp at this
  omega

theorem eol_after_marker_absurd {Q tail g : List Nat} {b : Nat}
    (hpre : g ++ [b] <+: Q ++ tail) (hm : hasTok (cstr g) "+EVT:RX" = true)
    (hb : isEol b = true) (hQmin : hasTok (cstr Q.dropLast) "+EVT:RX" = false)
    (htail : ∀ x ∈ tail, isEol x = false) : False := by
  rcases Nat.le_total (g ++ [b]).length Q.length with hle | hle
  · have h1 : g ++ [b] <+: Q :=
      List.prefix_of_prefix_length_le hpre (List.prefix_append Q tail) hle
    rw [hasTok_mono "+EVT:RX" (dropLast_initial_of_concat h1) hm] at hQmin
    exact absurd hQmin (by decide)
  · have h1 : Q <+: g ++ [b] :=
      List.prefix_of_prefix_length_le (List.prefix_append Q tail) hpre hle
    obtain ⟨t, ht⟩ := h1
    have htl : t <+: tail := by
      rw [← ht] at hpre
      exact (List.prefix_append_right_inj Q).mp hpre
    by_cases ht0 : t = []
    · subst ht0
      simp only [List.append_nil] at ht
      rw [ht, List.dropLast_concat, hm] at hQmin
      exact absurd hQmin (by decide)
    · have hsplit : t = t.dropLast ++ [t.getLast ht0] := (List.dropLast_append_getLast ht0).symm
      rw [hsplit, ← List.append_assoc] at ht
      have hbb := List.append_inj_right' ht rfl
      simp only [List.cons.injEq, and_true] at hbb
      have hmem : b ∈ tail := by
        rw [← hbb]
        exact htl.subset (List.getLast_mem ht0)
      rw [htail b hmem] at hb
      exact absurd hb (by decide)

theorem marker_of_reach {Q c : List Nat} (hQ : hasTok (cstr Q) "+EVT:RX" = true)
    (hQc : Q <+: c) : hasTok (cstr c) "+EVT:RX" = true :=
  hasTok_mono "+EVT:RX" hQc hQ

theorem not_marker_of_absent {Q : List Nat} (h : ¬ ascii "+EVT:RX" <:+: Q) :
    hasTok (cstr Q) "+EVT:RX" = false := by
  by_contra hc
  exact h (occurrence_of_hasTok "+EVT:RX" (List.prefix_refl Q) (by simpa using hc))

theorem reach_of_marker {Q tail c : List Nat} (hc : c <+: Q ++ tail)
    (hQmin : hasTok (cstr Q.dropLast) "+EVT:RX" = false)
    (hm : hasTok (cstr c) "+EVT:RX" = true) : Q.length ≤ c.length := by
  by_contra hlt
  have h1 : c <+: Q := List.prefix_of_prefix_length_le hc (List.prefix_append Q tail) (by omega)
  have h2 : c <+: Q.dropLast := by
    refine List.prefix_of_prefix_length_le h1 (List.dropLast_prefix Q) ?_
    rw [List.length_dropLast]
    omega
  rw [hasTok_mono "+EVT:RX" h2 hm] at hQmin
  exact absurd hQmin (by decide)

theorem rxTop_failed {timeout : Nat} {m m' : Machine} (h : RxTop timeout m (.ok m'))
    (Q rest : List Nat) (hstream : pending m = Q ++ rest)
    (hQ : hasTok (cstr Q) "+EVT:RX" = true)
    (hQmin : hasTok (cstr Q.dropLast) "+EVT:RX" = false)
    (hrest : ∀ b ∈ rest, isEol b = false)
    (hp2p : hasTok (cstr (pending m)) "+EVT:RXP2P_RECEIVE_TIMEOUT" = false) :
    (cstr m'.ret = ascii "FAILED_RX" ∧ Q.length ≤ (consumed m m').length ∧
        120000 < m'.now - m.now ∧ m'.now - m.now ≤ max 120000 timeout + 40) ∨
      (cstr m'.ret = ascii "NO_RX" ∧ (consumed m m').length < Q.length ∧
        timeout < m'.now - m.now) := by
  have hcp : consumed m m' <+: Q ++ rest := hstream ▸ consumed_initial m m'
  obtain ⟨_, _, _, _, hq, hend⟩ := h
  cases hend with
  | noRx hmark hlate _ hret =>
    obtain ⟨r, hr⟩ := hret
    refine Or.inr ⟨by rw [hr]; exact cstr_snprintfLit r _ (by decide), ?_, hlate⟩
    by_contra hge
    have hQc : Q <+: consumed m m' :=
      List.prefix_of_prefix_length_le (List.prefix_append Q rest) hcp (by omega)
    rw [marker_of_reach hQ hQc] at hmark
    exact absurd hmark (by decide)
  | failedRx hmark hlate hbound hret =>
    obtain ⟨r, hr⟩ := hret
    exact Or.inl ⟨by rw [hr]; exact cstr_snprintfLit r _ (by decide),
      reach_of_marker hcp hQmin hmark, hlate, hbound⟩
  | done hstop hret hintime =>
    exfalso
    obtain ⟨g, b, hc, hs⟩ := hstop
    rw [hc] at hcp
    simp only [stopsRx, Bool.or_eq_true, Bool.and_eq_true] at hs
    rcases hs with ⟨hs, hb⟩ | hs
    · exact eol_after_marker_absurd hcp hs hb hQmin hrest
    · rw [hstream, hasTok_mono "+EVT:RXP2P_RECEIVE_TIMEOUT" hcp hs] at hp2p
      exact absurd hp2p (by decide)

theorem rxTop_line {timeout : Nat} {m m' : Machine} (h : RxTop timeout m (.ok m'))
    (Q mid rest : List Nat) (e : Nat) (hstream : pending m = Q ++ mid ++ e :: rest)
    (hnul : 0 ∉ Q ++ mid ++ [e])
    (hQ : ascii "+EVT:RX" <:+: Q) (hQmin : ¬ ascii "+EVT:RX" <:+: Q.dropLast)
    (hmid : ∀ b ∈ mid, isEol b = false) (he : isEol e = true)
    (hp2p : ¬ ascii "+EVT:RXP2P_RECEIVE_TIMEOUT" <:+: Q ++ mid ++ [e]) :
    (cstr m'.ret = Q ++ mid ++ [e] ∧ consumed m m' = Q ++ mid ++ [e] ∧
        m'.now - m.now ≤ 120000) ∨
      (cstr m'.ret = ascii "NO_RX" ∧ (consumed m m').length < Q.length ∧
        timeout < m'.now - m.now) ∨
      (cstr m'.ret = ascii "FAILED_RX" ∧ Q.length ≤ (consumed m m').length ∧
        120000 < m'.now - m.now) := by
  have hnulQ : 0 ∉ Q := fun h0 => hnul (by simp [h0])
  have hQr : hasTok (cstr Q) "+EVT:RX" = true := hasTok_of_occurrence "+EVT:RX" hnulQ hQ
  have hQm : hasTok (cstr Q.dropLast) "+EVT:RX" = false := not_marker_of_absent hQmin
  have hLs : Q ++ mid ++ [e] <+: pending m := by
    rw [hstream]
    exact ⟨rest, by simp⟩
  have hcs := consumed_initial m m'
  obtain ⟨_, _, _, _, hq, hend⟩ := h
  -- nothing is read after the line terminator
  have hcL : consumed m m' <+: Q ++ mid ++ [e] := by
    rcases List.prefix_or_prefix_of_prefix hcs hLs with h1 | h1
    · exact h1
    · obtain ⟨t, ht⟩ := h1
      by_cases ht0 : t = []
      · rw [← ht, ht0]; simp
      · exfalso
        have := hq (Q ++ mid) e t (by rw [← ht]; simp) ht0
        have hmk : hasTok (cstr (Q ++ mid)) "+EVT:RX" = true :=
          marker_of_reach hQr (List.prefix_append Q mid)
        simp [stopsRx, hmk, he] at this
  have hcQ : consumed m m' <+: Q ++ (mid ++ [e]) := by simpa using hcL
  cases hend with
  | noRx hmark hlate _ hret =>
    obtain ⟨r, hr⟩ := hret
    refine Or.inr (Or.inl ⟨by rw [hr]; exact cstr_snprintfLit r _ (by decide), ?_, hlate⟩)
    by_contra hge
    have hQc : Q <+: consumed m m' :=
      List.prefix_of_prefix_length_le (List.prefix_append Q (mid ++ [e])) hcQ (by omega)
    rw [marker_of_reach hQr hQc] at hmark
    exact absurd hmark (by decide)
  | failedRx hmark hlate hbound hret =>
    obtain ⟨r, hr⟩ := hret
    exact Or.inr (Or.inr ⟨by rw [hr]; exact cstr_snprintfLit r _ (by decide),
      reach_of_marker hcQ hQm hmark, hlate⟩)
  | done hstop hret hintime =>
    refine Or.inl ?_
    have heq : consumed m m' = Q ++ mid ++ [e] := by
      by_contra hne
      obtain ⟨g, b, hc, hs⟩ := hstop
      have hlt : (consumed m m').length < (Q ++ mid ++ [e]).length := by
        rcases Nat.lt_or_ge (consumed m m').length (Q ++ mid ++ [e]).length with h1 | h1
        · exact h1
        · exact absurd (hcL.eq_of_length_le h1) hne
      have hpre : g ++ [b] <+: Q ++ mid := by
        rw [← hc]
        refine List.prefix_of_prefix_length_le hcL (List.prefix_append (Q ++ mid) [e]) ?_
        simp only [List.length_append, List.length_singleton] at hlt ⊢
        omega
      simp only [stopsRx, Bool.or_eq_true, Bool.and_eq_true] at hs
      rcases hs with ⟨hs, hb⟩ | hs
      · exact eol_after_marker_absurd hpre hs hb hQm hmid
      · apply hp2p
        exact occurrence_of_hasTok "+EVT:RXP2P_RECEIVE_TIMEOUT" (hc ▸ hcL) hs
    rw [heq] at hret
    exact ⟨by rw [hret.cstr_eq, cstr_eq_self hnul], heq, hintime⟩

/-! ## Runs on bytes that are already waiting -/

theorem machine_eta (m : Machine) :
    ({ m with now := m.now + 20 * 0, rx := m.rx, ret := m.ret } : Machine) = m := by
  cases m; rfl

theorem recvResponseLoop_take_run (timeout start : Nat) :
    ∀ (g : List (Nat × Nat)) (fuel : Nat) (m : Machine) (pre : List Nat) (rx_ok : Bool)
      (rest : List (Nat × Nat)),
      m.rx = g ++ rest → (∀ x ∈ g, x.1 ≤ m.now) → Holds m.ret pre →
      pre.length + g.length < 1024 →
      (∀ a c, g.map Prod.snd = a ++ c → a ≠ [] → verdictOf (cstr (pre ++ a)) = .none) →
      (m.now - start) + 20 * g.length < timeout + 20 →
      ∃ r, Holds r (pre ++ g.map Prod.snd) ∧
        recvResponseLoop timeout start (fuel + g.length) m pre.length rx_ok =
          recvResponseLoop timeout start fuel
            { m with now := m.now + 20 * g.length, rx := rest, ret := r }
            (pre.length + g.length) (rx_ok || !g.isEmpty) := by
  intro g
  induction g with
  | nil =>
    intro fuel m pre rx_ok rest hrx _ hH _ _ _
    refine ⟨m.ret, by simpa using hH, ?_⟩
    simp only [List.nil_append] at hrx
    simp only [List.length_nil, Nat.add_zero, List.isEmpty_nil, Bool.not_true, Bool.or_false]
    rw [← hrx, machine_eta]
  | cons x g ih =>
    intro fuel m pre rx_ok rest hrx hprompt hH hlen hquiet htime
    obtain ⟨t, b⟩ := x
    have hrx1 : m.rx = (t, b) :: (g ++ rest) := by simpa using hrx
    have ht : t ≤ m.now := hprompt (t, b) (List.mem_cons_self _ _)
    simp only [List.length_cons] at hlen htime
    obtain ⟨r1, hread, hH1⟩ := respRead_take m t b (g ++ rest) pre hrx1 ht hH (by omega)
    have hv1 : verdictOf (cstr (pre ++ [b])) = .none :=
      hquiet [b] (g.map Prod.snd) (by simp) (by simp)
    have hvm : verdict { m with rx := g ++ rest, ret := r1 } = .none := by
      rw [verdict]; simp only; rw [hH1.cstr_eq]; exact hv1
    obtain ⟨r, hHr, hrun⟩ := ih fuel (delay 20 { m with rx := g ++ rest, ret := r1 })
      (pre ++ [b]) (rx_ok || true) rest (by simp [delay])
      (by intro y hy; simp only [delay]; have := hprompt y (List.mem_cons_of_mem _ hy); omega)
      (by simpa [delay] using hH1)
      (by simp only [List.length_append, List.length_singleton]; omega)
      (by
        intro a c hac hane
        have := hquiet (b :: a) c (by simp [hac]) (by simp)
        simpa using this)
      (by simp only [delay]; omega)
    refine ⟨r, by simpa using hHr, ?_⟩
    have hfl : fuel + (g.length + 1) = (fuel + g.length) + 1 := by omega
    simp only [List.length_cons]
    rw [hfl, recvResponseLoop, if_pos (by omega), hread]
    simp only [hvm]
    simp only [List.length_append, List.length_singleton] at hrun
    rw [hrun]
    simp only [delay, List.isEmpty_cons, Bool.not_false, Bool.or_true, Bool.true_or]
    have h1 : m.now + 20 + 20 * g.length = m.now + 20 * (g.length + 1) := by omega
    have h2 : pre.length + 1 + g.length = pre.length + (g.length + 1) := by omega
    rw [h1, h2]

theorem recvResponse_overrun (timeout : Nat) (m : Machine) (g : List (Nat × Nat)) (t b : Nat)
    (rest : List (Nat × Nat)) (hlen : m.ret.length = 1024)
    (hrx : m.rx = g ++ (t, b) :: rest) (hg : g.length = 1023)
    (hprompt : ∀ x ∈ g, x.1 ≤ m.now) (ht : t ≤ m.now)
    (hquiet : ∀ a c, g.map Prod.snd = a ++ c → a ≠ [] → verdictOf (cstr a) = .none)
    (htime : 20 * 1023 < timeout) :
    recvResponse timeout m = .error (.oob 1024) := by
  obtain ⟨r0, hp, hH⟩ := holds_poke_zero m hlen
  unfold recvResponse
  rw [hp]
  simp only
  obtain ⟨f, hf⟩ : ∃ f, timeout / 20 + 2 = (f + 1) + g.length := ⟨timeout / 20 + 1 - 1023, by omega⟩
  obtain ⟨r, hHr, hrun⟩ := recvResponseLoop_take_run timeout m.now g (f + 1) { m with ret := r0 } []
    false ((t, b) :: rest) (by simpa using hrx) (by simpa using hprompt) hH
    (by simp only [List.length_nil]; omega) (by simpa using hquiet)
    (by simp only [Nat.sub_self]; omega)
  simp only [List.length_nil, Nat.zero_add, List.nil_append] at hrun hHr
  rw [hf, hrun, recvResponseLoop, if_pos (by simp only; omega)]
  have hl : (g.map Prod.snd).length = 1023 := by simpa using hg
  have := respRead_fault { m with now := m.now + 20 * g.length, rx := (t, b) :: rest, ret := r }
    t b rest (g.map Prod.snd) rfl (by simp only; omega) hl
  rw [List.length_map] at this
  rw [this]

theorem flushRXLoop_take_run (timeout start : Nat) :
    ∀ (g : List (Nat × Nat)) (fuel : Nat) (m : Machine) (pre : List Nat)
      (rest : List (Nat × Nat)),
      m.rx = g ++ rest → (∀ x ∈ g, x.1 ≤ m.now) → Holds m.ret pre →
      pre.length + g.length < 1024 →
      (∀ a c, g.map Prod.snd = a ++ c → a ≠ [] → flushStopOf (cstr (pre ++ a)) = false) →
      (m.now - start) + 20 * g.length < timeout + 20 →
      ∃ r, Holds r (pre ++ g.map Prod.snd) ∧
        flushRXLoop timeout start (fuel + g.length) m pre.length =
          flushRXLoop timeout start fuel
            { m with now := m.now + 20 * g.length, rx := rest, ret := r }
            (pre.length + g.length) := by
  intro g
  induction g with
  | nil =>
    intro fuel m pre rest hrx _ hH _ _ _
    refine ⟨m.ret, by simpa using hH, ?_⟩
    simp only [List.nil_append] at hrx
    simp only [List.length_nil, Nat.add_zero]
    rw [← hrx, machine_eta]
  | cons x g ih =>
    intro fuel m pre rest hrx hprompt hH hlen hquiet htime
    obtain ⟨t, b⟩ := x
    have hrx1 : m.rx = (t, b) :: (g ++ rest) := by simpa using hrx
    have ht : t ≤ m.now := hprompt (t, b) (List.mem_cons_self _ _)
    simp only [List.length_cons] at hlen htime
    obtain ⟨r1, hread, hH1⟩ := respRead_take m t b (g ++ rest) pre hrx1 ht hH (by omega)
    have hv1 : flushStopOf (cstr (pre ++ [b])) = false :=
      hquiet [b] (g.map Prod.snd) (by simp) (by simp)
    have hvm : flushStop { m with rx := g ++ rest, ret := r1 } = false := by
      rw [flushStop]; simp only; rw [hH1.cstr_eq]; exact hv1
    obtain ⟨r, hHr, hrun⟩ := ih fuel (delay 20 { m with rx := g ++ rest, ret := r1 })
      (pre ++ [b]) rest (by simp [delay])
      (by intro y hy; simp only [delay]; have := hprompt y (List.mem_cons_of_mem _ hy); omega)
      (by simpa [delay] using hH1)
      (by simp only [List.length_append, List.length_singleton]; omega)
      (by
        intro a c hac hane
        have := hquiet (b :: a) c (by simp [hac]) (by simp)
        simpa using this)
      (by simp only [delay]; omega)
    refine ⟨r, by simpa using hHr, ?_⟩
    have hfl : fuel + (g.length + 1) = (fuel + g.length) + 1 := by omega
    simp only [List.length_cons]
    rw [hfl, flushRXLoop, if_pos (by omega), hread]
    simp only [hvm, Bool.false_eq_true, if_false]
    simp only [List.length_append, List.length_singleton] at hrun
    rw [hrun]
    simp only [delay]
    have h1 : m.now + 20 + 20 * g.length = m.now + 20 * (g.length + 1) := by omega
    have h2 : pre.length + 1 + g.length = pre.length + (g.length + 1) := by omega
    rw [h1, h2]

theorem flushRX_overrun (timeout : Nat) (m : Machine) (g : List (Nat × Nat)) (t b : Nat)
    (rest : List (Nat × Nat)) (hlen : m.ret.length = 1024)
    (hrx : m.rx = g ++ (t, b) :: rest) (hg : g.length = 1023)
    (hprompt : ∀ x ∈ g, x.1 ≤ m.now) (ht : t ≤ m.now)
    (hquiet : ∀ a c, g.map Prod.snd = a ++ c → a ≠ [] → flushStopOf (cstr a) = false)
    (htime : 20 * 1023 < timeout) :
    flushRX timeout m = .error (.oob 1024) := by
  obtain ⟨r0, hp, hH⟩ := holds_poke_zero m hlen
  unfold flushRX
  rw [hp]
  simp only
  obtain ⟨f, hf⟩ : ∃ f, timeout / 20 + 2 = (f + 1) + g.length := ⟨timeout / 20 + 1 - 1023, by omega⟩
  obtain ⟨r, hHr, hrun⟩ := flushRXLoop_take_run timeout m.now g (f + 1) { m with ret := r0 } []
    ((t, b) :: rest) (by simpa using hrx) (by simpa using hprompt) hH
    (by simp only [List.length_nil]; omega) (by simpa using hquiet)
    (by simp only [Nat.sub_self]; omega)
  simp only [List.length_nil, Nat.zero_add, List.nil_append] at hrun hHr
  rw [hf, hrun, flushRXLoop, if_pos (by simp only; omega)]
  have hl : (g.map Prod.snd).length = 1023 := by simpa using hg
  have := respRead_fault { m with now := m.now + 20 * g.length, rx := (t, b) :: rest, ret := r }
    t b rest (g.map Prod.snd) rfl (by simp only; omega) hl
  rw [List.length_map] at this
  rw [this]

theorem recvRXLoop_idle_run (timeout start : Nat) :
    ∀ (j fuel : Nat) (m : Machine) (v : RxVars),
      v.cont_while = true →
      (∀ t b rest, m.rx = (t, b) :: rest → m.now + 20 * j < t + 20) →
      (m.now - start) + 20 * j ≤ (if v.wait_eol then 120000 else timeout) →
      recvRXLoop timeout start (fuel + j) m v =
        recvRXLoop timeout start fuel (delay (20 * j) m) v := by
  intro j
  induction j with
  | zero =>
    intro fuel m v _ _ _
    have : delay (20 * 0) m = m := by cases m; rfl
    rw [this]; rfl
  | succ j ih =>
    intro fuel m v hc hidle htime
    have hread : recvRXRead m v = .ok (m, v) := by
      match hrx : m.rx with
      | [] => exact recvRXRead_empty m v hrx
      | (t, b) :: rest =>
        have := hidle t b rest hrx
        exact recvRXRead_wait m v t b rest hrx (by omega)
    have hfl : fuel + (j + 1) = (fuel + j) + 1 := by omega
    rw [hfl, recvRXLoop_round timeout start (fuel + j) m v hc m v hread]
    have hnext := ih fuel (delay 20 m) v hc
      (by intro t b rest hrx; have := hidle t b rest (by simpa [delay] using hrx)
          simp only [delay]; omega)
      (by simp only [delay]; split at htime <;> simp_all <;> omega)
    have hdd : delay (20 * j) (delay 20 m) = delay (20 * (j + 1)) m := by
      simp only [delay]
      congr 1
      omega
    rw [hdd] at hnext
    cases hw : v.wait_eol with
    | true =>
      rw [hw] at htime
      simp only [if_true] at htime ⊢
      rw [if_neg (by simp only [delay]; omega)]
      exact hnext
    | false =>
      rw [hw] at htime
      simp only [Bool.false_eq_true, if_false] at htime ⊢
      rw [if_neg (by simp only [delay]; omega)]
      exact hnext

theorem wait_eol_step (pre : List Nat) (b : Nat) (w : Bool)
    (hW : w = hasTok (cstr pre) "+EVT:RX") :
    (w || (hasTok (cstr (pre ++ [b])) "+EVT:RX" && !w)) =
      hasTok (cstr (pre ++ [b])) "+EVT:RX" := by
  cases hw : w with
  | false => simp
  | true =>
    have := hasTok_mono "+EVT:RX" (List.prefix_append pre [b]) (hW.symm.trans hw)
    simp [this]

theorem rxVars_eta (v : RxVars) (pre : List Nat) (hidx : v.ret_index = pre.length)
    (hc : v.cont_while = true) (hW : v.wait_eol = hasTok (cstr pre) "+EVT:RX") :
    ({ ret_index := pre.length + 0, rx_ok := v.rx_ok || false,
       wait_eol := hasTok (cstr (pre ++ [])) "+EVT:RX", cont_while := true } : RxVars) = v := by
  cases v
  simp_all

theorem machine_eta40 (m : Machine) :
    ({ m with now := m.now + 40 * 0, rx := m.rx, ret := m.ret } : Machine) = m := by
  cases m; rfl

theorem recvRXLoop_take_run (timeout start : Nat) :
    ∀ (g : List (Nat × Nat)) (fuel : Nat) (m : Machine) (v : RxVars) (pre : List Nat)
      (rest : List (Nat × Nat)),
      m.rx = g ++ rest → (∀ x ∈ g, x.1 ≤ m.now) → Holds m.ret pre →
      v.ret_index = pre.length → v.cont_while = true →
      v.wait_eol = hasTok (cstr pre) "+EVT:RX" →
      pre.length + g.length < 1024 →
      (∀ a b c, g.map Prod.snd = a ++ b :: c → stopsRx (pre ++ a) b = false) →
      (∀ a c, g.map Prod.snd = a ++ c → a ≠ [] →
        (m.now - start) + 40 * a.length ≤
          if hasTok (cstr (pre ++ a)) "+EVT:RX" then 120000 else timeout) →
      ∃ r, Holds r (pre ++ g.map Prod.snd) ∧
        recvRXLoop timeout start (fuel + g.length) m v =
          recvRXLoop timeout start fuel
            { m with now := m.now + 40 * g.length, rx := rest, ret := r }
            { ret_index := pre.length + g.length, rx_ok := v.rx_ok || !g.isEmpty,
              wait_eol := hasTok (cstr (pre ++ g.map Prod.snd)) "+EVT:RX",
              cont_while := true } := by
  intro g
  induction g with
  | nil =>
    intro fuel m v pre rest hrx _ hH hidx hc hW _ _ _
    refine ⟨m.ret, by simpa using hH, ?_⟩
    simp only [List.nil_append] at hrx
    simp only [List.length_nil, List.isEmpty_nil, Bool.not_true, List.map_nil]
    rw [← hrx, machine_eta40, rxVars_eta v pre hidx hc hW]
    rfl
  | cons x g ih =>
    intro fuel m v pre rest hrx hprompt hH hidx hc hW hlen hquiet htime
    obtain ⟨t, b⟩ := x
    have hrx1 : m.rx = (t, b) :: (g ++ rest) := by simpa using hrx
    have ht : t ≤ m.now := hprompt (t, b) (List.mem_cons_self _ _)
    simp only [List.length_cons] at hlen
    have hstop : stopsRx pre b = false := by
      have := hquiet [] b (g.map Prod.snd) (by simp)
      simpa using this
    have heol : (v.wait_eol && isEol b) = false := by
      rw [hW]
      simp only [stopsRx, Bool.or_eq_false_iff] at hstop
      exact hstop.1
    have hp2p : hasTok (cstr (pre ++ [b])) "+EVT:RXP2P_RECEIVE_TIMEOUT" = false := by
      simp only [stopsRx, Bool.or_eq_false_iff] at hstop
      exact hstop.2
    obtain ⟨r1, hread, hH1⟩ := recvRXRead_take m v t b (g ++ rest) pre hrx1 ht hH hidx hc heol
      (by omega)
    have ht1 := htime [b] (g.map Prod.snd) (by simp) (by simp)
    simp only [List.length_singleton, Nat.mul_one] at ht1
    obtain ⟨r, hHr, hrun⟩ := ih fuel (delay 40 { m with rx := g ++ rest, ret := r1 })
      { ret_index := pre.length + 1, rx_ok := true,
        wait_eol := hasTok (cstr (pre ++ [b])) "+EVT:RX", cont_while := true }
      (pre ++ [b]) rest (by simp [delay])
      (by intro y hy; simp only [delay]; have := hprompt y (List.mem_cons_of_mem _ hy); omega)
      (by simpa [delay] using hH1) (by simp) rfl rfl
      (by simp only [List.length_append, List.length_singleton]; omega)
      (by
        intro a c d hac
        have := hquiet (b :: a) c d (by simp [hac])
        simpa using this)
      (by
        intro a c hac hane
        have := htime (b :: a) c (by simp [hac]) (by simp)
        simp only [List.length_cons] at this
        simp only [delay, List.append_assoc, List.singleton_append]
        have h3 : m.now + 40 - start + 40 * a.length ≤ (m.now - start) + 40 * (a.length + 1) := by
          omega
        exact Nat.le_trans h3 this)
    refine ⟨r, by simpa using hHr, ?_⟩
    have hfl : fuel + (g.length + 1) = (fuel + g.length) + 1 := by omega
    simp only [List.length_cons]
    rw [hfl, recvRXLoop_round timeout start (fuel + g.length) m v hc _ _ hread]
    have hdd : ∀ x : Machine, delay 20 (delay 20 x) = delay 40 x := by
      intro x; simp [delay]
    simp only [wait_eol_step pre b v.wait_eol hW, hp2p, Bool.not_false, hdd]
    have hnext : recvRXLoop timeout start (fuel + g.length)
        (delay 40 { m with rx := g ++ rest, ret := r1 })
        { ret_index := pre.length + 1, rx_ok := true,
          wait_eol := hasTok (cstr (pre ++ [b])) "+EVT:RX", cont_while := true } =
        recvRXLoop timeout start fuel
          { m with now := m.now + 40 * (g.length + 1), rx := rest, ret := r }
          { ret_index := pre.length + (g.length + 1), rx_ok := v.rx_ok || !((t, b) :: g).isEmpty,
            wait_eol := hasTok (cstr (pre ++ List.map Prod.snd ((t, b) :: g))) "+EVT:RX",
            cont_while := true } := by
      rw [hrun]
      simp only [delay, List.isEmpty_cons, Bool.not_false, Bool.or_true, Bool.true_or,
        List.length_append, List.length_singleton, List.map_cons, List.append_assoc,
        List.singleton_append]
      have h1 : m.now + 40 + 40 * g.length = m.now + 40 * (g.length + 1) := by omega
      have h2 : pre.length + 1 + g.length = pre.length + (g.length + 1) := by omega
      rw [h1, h2]
    cases hw1 : hasTok (cstr (pre ++ [b])) "+EVT:RX" with
    | true =>
      rw [hw1] at ht1 hnext
      simp only [if_true] at ht1 ⊢
      rw [if_neg (by simp only [delay]; omega)]
      exact hnext
    | false =>
      rw [hw1] at ht1 hnext
      simp only [Bool.false_eq_true, if_false] at ht1 ⊢
      rw [if_neg (by simp only [delay]; omega)]
      exact hnext

theorem recvRX_overrun (timeout : Nat) (m : Machine) (g : List (Nat × Nat)) (t b : Nat)
    (rest : List (Nat × Nat)) (hlen : m.ret.length = 1024)
    (hrx : m.rx = g ++ (t, b) :: rest)
    (hcase : g.length = 1023 ∨
      (g.length = 1022 ∧ hasTok (cstr (g.map Prod.snd)) "+EVT:RX" = true ∧ isEol b = true))
    (hprompt : ∀ x ∈ g, x.1 ≤ m.now) (ht : t ≤ m.now)
    (hquiet : ∀ a b c, g.map Prod.snd = a ++ b :: c → stopsRx a b = false)
    (htime : ∀ a c, g.map Prod.snd = a ++ c → a ≠ [] →
        40 * a.length ≤ if hasTok (cstr a) "+EVT:RX" then 120000 else timeout) :
    recvRX timeout m = .error (.oob 1024) := by
  obtain ⟨r0, hp, hH⟩ := holds_poke_zero m hlen
  unfold recvRX
  rw [hp]
  simp only
  have hgl : g.length ≤ 1023 := by rcases hcase with h | h <;> omega
  obtain ⟨f, hf⟩ : ∃ f, max timeout 120000 / 20 + 2 = (f + 1) + g.length :=
    ⟨max timeout 120000 / 20 + 1 - g.length, by omega⟩
  obtain ⟨r, hHr, hrun⟩ := recvRXLoop_take_run timeout m.now g (f + 1) { m with ret := r0 }
    { ret_index := 0, rx_ok := false, wait_eol := false, cont_while := true } []
    ((t, b) :: rest) (by simpa using hrx) (by simpa using hprompt) hH rfl rfl (by decide)
    (by simp only [List.length_nil]; rcases hcase with h | h <;> omega)
    (by simpa using hquiet)
    (by
      intro a c hac hane
      have := htime a c hac hane
      simpa using this)
  simp only [List.length_nil, Nat.zero_add, List.nil_append] at hrun hHr
  rw [hf, hrun]
  have hfault := recvRXRead_fault
    { m with now := m.now + 40 * g.length, rx := (t, b) :: rest, ret := r }
    { ret_index := g.length, rx_ok := false || !g.isEmpty,
      wait_eol := hasTok (cstr (g.map Prod.snd)) "+EVT:RX", cont_while := true }
    t b rest (g.map Prod.snd) rfl (by simp only; omega) (by simp)
    (by
      rcases hcase with h | ⟨h1, h2, h3⟩
      · exact Or.inl (by simpa using h)
      · exact Or.inr ⟨by simpa using h1, by simp [h2, h3]⟩)
  rw [recvRXLoop_fault timeout m.now f _ _ rfl _ hfault]

/-! ## Streams of filler bytes -/

theorem arriving_snd (t : Nat) (s : List Nat) : (arriving t s).map Prod.snd = s := by
  simp [arriving]

theorem arriving_length (t : Nat) (s : List Nat) : (arriving t s).length = s.length := by
  simp [arriving]

theorem arriving_prompt (t : Nat) (s : List Nat) : ∀ x ∈ arriving t s, x.1 = t := by
  intro x hx
  simp only [arriving, List.mem_map] at hx
  obtain ⟨b, _, rfl⟩ := hx
  rfl

theorem arriving_append (t : Nat) (s u : List Nat) :
    arriving t (s ++ u) = arriving t s ++ arriving t u := by
  simp [arriving]

theorem arriving_cons (t b : Nat) (s : List Nat) : arriving t (b :: s) = (t, b) :: arriving t s :=
  rfl

theorem infix_append_replicate {tok s : List Nat} {c : Nat} (n : Nat)
    (hlast : ∀ t, tok ≠ t ++ [c]) (hne : tok ≠ []) (h : tok <:+: s ++ List.replicate n c) :
    tok <:+: s := by
  induction n with
  | zero => simpa using h
  | succ n ih =>
    rw [List.replicate_succ', ← List.append_assoc] at h
    rcases List.infix_concat_iff.mp h with h1 | h1
    · rcases List.suffix_concat_iff.mp h1 with h2 | ⟨t, h2, _⟩
      · exact absurd h2 hne
      · exact absurd h2 (hlast t)
    · exact ih h1

theorem not_ends_of_getLast {tok : List Nat} {c : Nat} (h : tok.getLast? ≠ some c) :
    ∀ t, tok ≠ t ++ [c] := by
  intro t ht
  apply h
  rw [ht]
  simp

theorem hasTok_filler (hd : List Nat) (n : Nat) (tok : String) (hnul : 0 ∉ hd)
    (hlast : (ascii tok).getLast? ≠ some 65) (hne : ascii tok ≠ [])
    (hhd : hasTok hd tok = false) :
    hasTok (cstr (hd ++ List.replicate n 65)) tok = false := by
  have hnul2 : 0 ∉ hd ++ List.replicate n 65 := by
    intro h0
    rcases List.mem_append.mp h0 with h1 | h1
    · exact hnul h1
    · have := List.eq_of_mem_replicate h1
      omega
  rw [cstr_eq_self hnul2]
  by_contra hc
  have h1 : ascii tok <:+: hd ++ List.replicate n 65 := (hasTok_iff _ _).mp (by simpa using hc)
  have h2 := infix_append_replicate n (not_ends_of_getLast hlast) hne h1
  rw [(hasTok_iff _ _).mpr h2] at hhd
  exact absurd hhd (by decide)

theorem hasTok_false_of_initial {a S : List Nat} (tok : String) (h : a <+: S)
    (hS : hasTok (cstr S) tok = false) : hasTok (cstr a) tok = false := by
  by_contra hc
  rw [hasTok_mono tok h (by simpa using hc)] at hS
  exact absurd hS (by decide)

theorem sentinels_end_not_filler :
    ∀ tok ∈ "+EVT:RX" :: "+EVT:RXP2P_RECEIVE_TIMEOUT" :: sentinels,
      (ascii tok).getLast? ≠ some 65 ∧ ascii tok ≠ [] := by
  decide

theorem verdictOf_filler (hd : List Nat) (n : Nat) (hnul : 0 ∉ hd)
    (hhd : verdictOf hd = .none) : verdictOf (cstr (hd ++ List.replicate n 65)) = .none := by
  rw [verdictOf_none_iff] at hhd ⊢
  intro tok htok
  have := sentinels_end_not_filler tok (by simp [htok])
  exact hasTok_filler hd n tok hnul this.1 this.2 (hhd tok htok)

theorem verdictOf_none_of_initial {a S : List Nat} (h : a <+: S)
    (hS : verdictOf (cstr S) = .none) : verdictOf (cstr a) = .none := by
  rw [verdictOf_none_iff] at hS ⊢
  intro tok htok
  exact hasTok_false_of_initial tok h (hS tok htok)

theorem flushStopOf_false_of_verdict {text : List Nat} (h : verdictOf text = .none) :
    flushStopOf text = false := by
  rw [verdictOf_none_iff] at h
  simp [flushStopOf, h "+EVT:TX_DONE" (by decide), h "+EVT:SEND_CONFIRMED_OK" (by decide),
    h "OK" (by decide), h "AT_COMMAND_NOT_FOUND" (by decide), h "AT_PARAM_ERROR" (by decide)]

theorem filler_1024 : List.replicate 1024 65 = List.replicate 1023 65 ++ [65] :=
  List.replicate_succ' 1023 65

theorem fed_filler_rx (tail : List Nat) :
    (Machine.fed (List.replicate 1024 65 ++ tail)).rx =
      arriving 0 (List.replicate 1023 65) ++ (0, 65) :: arriving 0 tail := by
  show arriving 0 (List.replicate 1024 65 ++ tail) = _
  rw [filler_1024, List.append_assoc, arriving_append]
  rfl

theorem fed_ret_length (s : List Nat) : (Machine.fed s).ret.length = 1024 :=
  List.length_replicate 1024 0

theorem filler_quiet : ∀ a c, (arriving 0 (List.replicate 1023 65)).map Prod.snd = a ++ c →
    a ≠ [] → verdictOf (cstr a) = .none := by
  intro a c hac _
  rw [arriving_snd] at hac
  refine verdictOf_none_of_initial ⟨c, hac.symm⟩ ?_
  have := verdictOf_filler [] 1023 (List.not_mem_nil 0) (by decide)
  rw [List.nil_append] at this
  exact this

theorem recvResponse_filler_overrun (tail : List Nat) :
    recvResponse 60000 (Machine.fed (List.replicate 1024 65 ++ tail)) = .error (.oob 1024) := by
  refine recvResponse_overrun 60000 _ (arriving 0 (List.replicate 1023 65)) 0 65
    (arriving 0 tail) (fed_ret_length _) (fed_filler_rx tail) (by rw [arriving_length, List.length_replicate]) ?_
    (Nat.zero_le _) filler_quiet (by decide)
  intro x hx
  rw [arriving_prompt 0 _ x hx]
  exact Nat.zero_le _

theorem flushRX_filler_overrun (tail : List Nat) :
    flushRX 60000 (Machine.fed (List.replicate 1024 65 ++ tail)) = .error (.oob 1024) := by
  refine flushRX_overrun 60000 _ (arriving 0 (List.replicate 1023 65)) 0 65
    (arriving 0 tail) (fed_ret_length _) (fed_filler_rx tail) (by rw [arriving_length, List.length_replicate]) ?_
    (Nat.zero_le _) (fun a c hac hne => flushStopOf_false_of_verdict (filler_quiet a c hac hne))
    (by decide)
  intro x hx
  rw [arriving_prompt 0 _ x hx]
  exact Nat.zero_le _

theorem stopsRx_false_of_stream {S a c : List Nat} {b : Nat} (hS : S = a ++ b :: c)
    (hnoeol : ∀ x ∈ S, isEol x = false)
    (hp2p : hasTok (cstr S) "+EVT:RXP2P_RECEIVE_TIMEOUT" = false) : stopsRx a b = false := by
  have hb : isEol b = false := hnoeol b (by rw [hS]; simp)
  have hpre : a ++ [b] <+: S := ⟨c, by rw [hS]; simp⟩
  simp [stopsRx, hb, hasTok_false_of_initial "+EVT:RXP2P_RECEIVE_TIMEOUT" hpre hp2p]

theorem isEol_filler (hd : List Nat) (n : Nat) (hhd : ∀ x ∈ hd, isEol x = false) :
    ∀ x ∈ hd ++ List.replicate n 65, isEol x = false := by
  intro x hx
  rcases List.mem_append.mp hx with h | h
  · exact hhd x h
  · rw [List.eq_of_mem_replicate h]
    decide

theorem recvRX_filler_overrun (tail : List Nat) :
    recvRX 60000 (Machine.fed (List.replicate 1024 65 ++ tail)) = .error (.oob 1024) := by
  have hp2p : hasTok (cstr (List.replicate 1023 65)) "+EVT:RXP2P_RECEIVE_TIMEOUT" = false := by
    have := hasTok_filler [] 1023 "+EVT:RXP2P_RECEIVE_TIMEOUT" (List.not_mem_nil 0) (by decide)
      (by decide) (by decide)
    rw [List.nil_append] at this
    exact this
  have hrx : hasTok (cstr (List.replicate 1023 65)) "+EVT:RX" = false := by
    have := hasTok_filler [] 1023 "+EVT:RX" (List.not_mem_nil 0) (by decide)
      (by decide) (by decide)
    rw [List.nil_append] at this
    exact this
  refine recvRX_overrun 60000 _ (arriving 0 (List.replicate 1023 65)) 0 65
    (arriving 0 tail) (fed_ret_length _) (fed_filler_rx tail)
    (Or.inl (by rw [arriving_length, List.length_replicate])) ?_ (Nat.zero_le _) ?_ ?_
  · intro x hx
    rw [arriving_prompt 0 _ x hx]
    exact Nat.zero_le _
  · intro a b c hac
    rw [arriving_snd] at hac
    refine stopsRx_false_of_stream hac ?_ hp2p
    have := isEol_filler [] 1023 (by simp)
    rw [List.nil_append] at this
    exact this
  · intro a c hac _
    rw [arriving_snd] at hac
    have hpre : a <+: List.replicate 1023 65 := ⟨c, hac.symm⟩
    rw [hasTok_false_of_initial "+EVT:RX" hpre hrx]
    have := hpre.length_le
    rw [List.length_replicate] at this
    simp only [Bool.false_eq_true, if_false]
    omega

theorem filler_succ (hd : List Nat) (n : Nat) :
    arriving 0 (hd ++ List.replicate (n + 1) 65) =
      arriving 0 (hd ++ List.replicate n 65) ++ [(0, 65)] := by
  rw [List.replicate_succ', ← List.append_assoc, arriving_append]
  rfl

theorem recvRX_marker_overrun (timeout : Nat) (m : Machine) (n : Nat) (t b : Nat)
    (rest : List (Nat × Nat)) (hlen : m.ret.length = 1024)
    (hrx : m.rx = arriving 0 (ascii "+EVT:RX" ++ List.replicate n 65) ++ (t, b) :: rest)
    (ht : t ≤ m.now)
    (hcase : n = 1016 ∨ (n = 1015 ∧ isEol b = true))
    (htime : 240 ≤ timeout) :
    recvRX timeout m = .error (.oob 1024) := by
  have hp2p : hasTok (cstr (ascii "+EVT:RX" ++ List.replicate n 65))
      "+EVT:RXP2P_RECEIVE_TIMEOUT" = false :=
    hasTok_filler _ n "+EVT:RXP2P_RECEIVE_TIMEOUT" (by decide) (by decide) (by decide)
      (by decide)
  have hmk : hasTok (cstr (ascii "+EVT:RX")) "+EVT:RX" = true := by decide
  have hgl : (arriving 0 (ascii "+EVT:RX" ++ List.replicate n 65)).length = 7 + n := by
    rw [arriving_length, List.length_append, List.length_replicate]
    rfl
  refine recvRX_overrun timeout m (arriving 0 (ascii "+EVT:RX" ++ List.replicate n 65)) t b
    rest hlen hrx ?_ ?_ ht ?_ ?_
  · rcases hcase with h | ⟨h, hb⟩
    · exact Or.inl (by rw [hgl, h])
    · refine Or.inr ⟨by rw [hgl, h], ?_, hb⟩
      rw [arriving_snd]
      exact marker_of_reach hmk (List.prefix_append _ _)
  · intro x hx
    rw [arriving_prompt 0 _ x hx]
    exact Nat.zero_le _
  · intro a c d hac
    rw [arriving_snd] at hac
    exact stopsRx_false_of_stream hac (isEol_filler _ n (by decide)) hp2p
  · intro a c hac _
    rw [arriving_snd] at hac
    have hpre : a <+: ascii "+EVT:RX" ++ List.replicate n 65 := ⟨c, hac.symm⟩
    have hal := hpre.length_le
    rw [List.length_append, List.length_replicate] at hal
    have h7 : (ascii "+EVT:RX").length = 7 := rfl
    cases hh : hasTok (cstr a) "+EVT:RX" with
    | true =>
      simp only [if_true]
      rcases hcase with h | ⟨h, _⟩ <;> omega
    | false =>
      simp only [Bool.false_eq_true, if_false]
      have hlt : a.length < 7 := by
        by_contra hge
        have hQa : ascii "+EVT:RX" <+: a :=
          List.prefix_of_prefix_length_le (List.prefix_append _ _) hpre (by omega)
        rw [marker_of_reach hmk hQa] at hh
        exact absurd hh (by decide)
      omega

theorem recvResponse_chain_run (timeout : Nat) (m : Machine) (g : List (Nat × Nat)) (t b : Nat)
    (rest : List (Nat × Nat)) (hlen : m.ret.length = 1024)
    (hrx : m.rx = g ++ (t, b) :: rest) (hshort : g.length + 1 < 1024)
    (hprompt : ∀ x ∈ g, x.1 ≤ m.now) (ht : t ≤ m.now)
    (hquiet : ∀ a c, g.map Prod.snd = a ++ c → a ≠ [] → verdictOf (cstr a) = .none)
    (hv : verdictOf (cstr (g.map Prod.snd ++ [b])) = .pendingRx)
    (htime : 20 * g.length < timeout) :
    ∃ r, Holds r (g.map Prod.snd ++ [b]) ∧
      recvResponse timeout m =
        match recvRX 5000 { m with now := m.now + 20 * g.length, rx := rest, ret := r } with
        | .error e => .error e
        | .ok m' => .ok (true, m') := by
  obtain ⟨r0, hp, hH⟩ := holds_poke_zero m hlen
  unfold recvResponse
  rw [hp]
  simp only
  obtain ⟨f, hf⟩ : ∃ f, timeout / 20 + 2 = (f + 1) + g.length :=
    ⟨timeout / 20 + 1 - g.length, by omega⟩
  obtain ⟨r, hHr, hrun⟩ := recvResponseLoop_take_run timeout m.now g (f + 1) { m with ret := r0 } []
    false ((t, b) :: rest) (by simpa using hrx) (by simpa using hprompt) hH
    (by simp only [List.length_nil]; omega) (by simpa using hquiet)
    (by simp only [Nat.sub_self]; omega)
  simp only [List.length_nil, Nat.zero_add, List.nil_append] at hrun hHr
  obtain ⟨r1, hread, hH1⟩ := respRead_take
    { m with now := m.now + 20 * g.length, rx := (t, b) :: rest, ret := r } t b rest
    (g.map Prod.snd) rfl (by simp only; omega) hHr (by rw [List.length_map]; omega)
  rw [List.length_map] at hread
  refine ⟨r1, hH1, ?_⟩
  rw [hf, hrun, recvResponseLoop, if_pos (by simp only; omega), hread]
  have hvm : verdict { m with now := m.now + 20 * g.length, rx := rest, ret := r1 } =
      .pendingRx := by
    rw [verdict]; simp only; rw [hH1.cstr_eq]; exact hv
  simp only [hvm]

theorem tx_done_split :
    (Machine.fed (ascii "+EVT:TX_DONE" ++ (ascii "+EVT:RX" ++ List.replicate 1017 65))).rx =
      arriving 0 (ascii "+EVT:TX_DON") ++
        (0, 69) :: (arriving 0 (ascii "+EVT:RX" ++ List.replicate 1016 65) ++ [(0, 65)]) := by
  show arriving 0 (ascii "+EVT:TX_DONE" ++ (ascii "+EVT:RX" ++ List.replicate 1017 65)) = _
  rw [arriving_append, filler_succ]
  rfl

theorem recvResponse_downlink_overrun :
    recvResponse 60000
        (Machine.fed (ascii "+EVT:TX_DONE" ++ (ascii "+EVT:RX" ++ List.replicate 1017 65))) =
      .error (.oob 1024) := by
  obtain ⟨r, hH, hrun⟩ := recvResponse_chain_run 60000
    (Machine.fed (ascii "+EVT:TX_DONE" ++ (ascii "+EVT:RX" ++ List.replicate 1017 65)))
    (arriving 0 (ascii "+EVT:TX_DON")) 0 69
    (arriving 0 (ascii "+EVT:RX" ++ List.replicate 1016 65) ++ [(0, 65)])
    (fed_ret_length _) tx_done_split (by decide)
    (by intro x hx; rw [arriving_prompt 0 _ x hx]; exact Nat.zero_le _) (Nat.zero_le _)
    (by
      intro a c hac _
      rw [arriving_snd] at hac
      exact verdictOf_none_of_initial ⟨c, hac.symm⟩ (by decide))
    (by decide) (by decide)
  rw [hrun]
  have := recvRX_marker_overrun 5000
    { Machine.fed (ascii "+EVT:TX_DONE" ++ (ascii "+EVT:RX" ++ List.replicate 1017 65)) with
      now := (Machine.fed (ascii "+EVT:TX_DONE" ++
        (ascii "+EVT:RX" ++ List.replicate 1017 65))).now +
          20 * (arriving 0 (ascii "+EVT:TX_DON")).length,
      rx := arriving 0 (ascii "+EVT:RX" ++ List.replicate 1016 65) ++ [(0, 65)],
      ret := r }
    1016 0 65 [] hH.1 rfl (Nat.zero_le _) (Or.inl rfl) (by decide)
  rw [this]

theorem recvRXLoop_late_marker (timeout start fuel t0 : Nat) (m : Machine)
    (hH : Holds m.ret []) (hrx : m.rx = arriving t0 (ascii "+EVT:R") ++ [(t0, 88)])
    (hnow : t0 ≤ m.now) (h1 : (m.now - start) + 240 ≤ timeout)
    (h2 : 120000 < m.now + 280 - start) :
    ∃ m' v', recvRXLoop timeout start ((fuel + 1) + 6) m
        { ret_index := 0, rx_ok := false, wait_eol := false, cont_while := true } = .ok (m', v') ∧
      v'.rx_ok = true ∧ cstr m'.ret = ascii "FAILED_RX" ∧ m'.now = m.now + 280 ∧ m'.rx = [] := by
  -- the six bytes "+EVT:R"
  obtain ⟨r, hHr, hrun⟩ := recvRXLoop_take_run timeout start (arriving t0 (ascii "+EVT:R"))
    (fuel + 1) m { ret_index := 0, rx_ok := false, wait_eol := false, cont_while := true } []
    [(t0, 88)] hrx
    (by intro x hx; rw [arriving_prompt t0 _ x hx]; exact hnow)
    hH rfl rfl (by decide) (by rw [arriving_length]; decide)
    (by
      intro a b c hac
      rw [arriving_snd] at hac
      exact stopsRx_false_of_stream hac (by decide) (by decide))
    (by
      intro a c hac _
      rw [arriving_snd] at hac
      have hpre : a <+: ascii "+EVT:R" := ⟨c, hac.symm⟩
      have hl := hpre.length_le
      have h6 : (ascii "+EVT:R").length = 6 := rfl
      rw [List.nil_append, hasTok_false_of_initial "+EVT:RX" hpre (by decide)]
      simp only [Bool.false_eq_true, if_false]
      omega)
  have h6 : (arriving t0 (ascii "+EVT:R")).length = 6 := by rw [arriving_length]; rfl
  rw [h6] at hrun
  rw [hrun]
  simp only [List.nil_append, arriving_snd, List.length_nil, Nat.zero_add] at hHr ⊢
  -- the byte 'X' completes the marker
  obtain ⟨r1, hread, hH1⟩ := recvRXRead_take
    { m with now := m.now + 40 * 6, rx := [(t0, 88)], ret := r }
    { ret_index := 6, rx_ok := false || !(arriving t0 (ascii "+EVT:R")).isEmpty,
      wait_eol := hasTok (cstr (ascii "+EVT:R")) "+EVT:RX", cont_while := true }
    t0 88 [] (ascii "+EVT:R") rfl (by simp only; omega) hHr rfl rfl
    (by show (hasTok (cstr (ascii "+EVT:R")) "+EVT:RX" && isEol 88) = false; decide)
    (by decide)
  rw [recvRXLoop_round timeout start fuel _ _ rfl _ _ hread]
  have hw : (hasTok (cstr (ascii "+EVT:R")) "+EVT:RX" ||
      (hasTok (cstr (ascii "+EVT:R" ++ [88])) "+EVT:RX" &&
        !hasTok (cstr (ascii "+EVT:R")) "+EVT:RX")) = true := by decide
  simp only [hw, if_true]
  rw [if_pos (by simp only [delay]; omega)]
  refine ⟨_, _, rfl, rfl, cstr_snprintfLit _ _ (by decide), ?_, rfl⟩
  simp only [setRetLit, delay]

theorem recvRX_marker_late (timeout j : Nat) (m : Machine) (hlen : m.ret.length = 1024)
    (hrx : m.rx = arriving (m.now + 20 * j) (ascii "+EVT:R") ++ [(m.now + 20 * j, 88)])
    (h1 : 20 * j + 240 ≤ timeout) (h2 : 120000 < 20 * j + 280) :
    ∃ m', recvRX timeout m = .ok m' ∧ cstr m'.ret = ascii "FAILED_RX" ∧
      m'.now = m.now + 20 * j + 280 ∧ m'.rx = [] := by
  obtain ⟨r0, hp, hH⟩ := holds_poke_zero m hlen
  unfold recvRX
  rw [hp]
  simp only
  obtain ⟨f, hf⟩ : ∃ f, max timeout 120000 / 20 + 2 = ((f + 1) + 6) + j :=
    ⟨max timeout 120000 / 20 + 2 - 7 - j, by omega⟩
  rw [hf]
  -- the polls of the idle link, up to the arrival of the marker
  rw [recvRXLoop_idle_run timeout m.now j ((f + 1) + 6) { m with ret := r0 }
    { ret_index := 0, rx_ok := false, wait_eol := false, cont_while := true } rfl
    (by
      intro t b rest hrx2
      have h3 : (m.now + 20 * j, 43) :: (arriving (m.now + 20 * j) (ascii "EVT:R") ++
          [(m.now + 20 * j, 88)]) = (t, b) :: rest := by
        rw [← hrx2]
        exact hrx.symm
      have := (Prod.mk.inj (List.cons.inj h3).1).1
      simp only
      omega)
    (by simp only [Nat.sub_self, Bool.false_eq_true, if_false]; omega)]
  obtain ⟨m', v', hrun, hok, hret, hnow, hrx'⟩ := recvRXLoop_late_marker timeout m.now f
    (m.now + 20 * j) (delay (20 * j) { m with ret := r0 }) hH hrx
    (by simp only [delay]; omega) (by simp only [delay]; omega) (by simp only [delay]; omega)
  rw [hrun]
  simp only [hok, Bool.not_true, Bool.false_eq_true, if_false]
  exact ⟨m', rfl, hret, by rw [hnow]; simp only [delay], hrx'⟩

/-! ## What the read operations leave alone -/

theorem Frame.refl (m : Machine) : Frame m m :=
  ⟨rfl, rfl, rfl, rfl, rfl, rfl, rfl, rfl, Nat.le_refl _, 0, rfl⟩

theorem Frame.trans {a b c : Machine} (h1 : Frame a b) (h2 : Frame b c) : Frame a c := by
  obtain ⟨a1, a2, a3, a4, a5, a6, a7, a8, a9, k1, a10⟩ := h1
  obtain ⟨b1, b2, b3, b4, b5, b6, b7, b8, b9, k2, b10⟩ := h2
  refine ⟨b1.trans a1, b2.trans a2, b3.trans a3, b4.trans a4, b5.trans a5, b6.trans a6,
    b7.trans a7, b8.trans a8, Nat.le_trans a9 b9, k1 + k2, ?_⟩
  rw [b10, a10, List.drop_drop, Nat.add_comm]

theorem frame_delay (d : Nat) (m : Machine) : Frame m (delay d m) :=
  ⟨rfl, rfl, rfl, rfl, rfl, rfl, rfl, rfl, Nat.le_add_right _ _, 0, rfl⟩

theorem frame_poke {m m' : Machine} {i v : Nat} (h : poke m i v = .ok m') : Frame m m' := by
  unfold poke at h
  split at h
  · cases h
    exact ⟨rfl, rfl, rfl, rfl, rfl, rfl, rfl, List.length_set _ _ _, Nat.le_refl _, 0, rfl⟩
  · cases h

theorem frame_setRetLit (m : Machine) (s : String) (h : (ascii s).length < m.ret.length) :
    Frame m (setRetLit m s) := by
  refine ⟨rfl, rfl, rfl, rfl, rfl, rfl, rfl, ?_, Nat.le_refl _, 0, rfl⟩
  simp only [setRetLit, snprintfLit, List.length_append, List.length_cons, List.length_drop]
  omega

theorem frame_take_byte (m : Machine) (t b : Nat) (rest : List (Nat × Nat))
    (h : m.rx = (t, b) :: rest) : Frame m { m with rx := rest } :=
  ⟨rfl, rfl, rfl, rfl, rfl, rfl, rfl, rfl, Nat.le_refl _, 1, by rw [h]; rfl⟩

theorem frame_respRead {m m' : Machine} {idx idx' : Nat} {got : Bool}
    (h : respRead m idx = .ok (m', idx', got)) : Frame m m' := by
  unfold respRead at h
  split at h
  · cases h; exact Frame.refl _
  · rename_i t b rest hrx
    split at h
    · cases h1 : poke { m with rx := rest } idx b with
      | error e => simp [h1, bind, Except.bind] at h
      | ok m1 =>
        simp only [h1, bind, Except.bind] at h
        cases h2 : poke m1 (if b ≠ 13 ∨ b ≠ 10 then idx + 1 else idx) 0 with
        | error e => simp [h2] at h
        | ok m2 =>
          simp only [h2, Except.ok.injEq, Prod.mk.injEq] at h
          rw [← h.1]
          exact ((frame_take_byte m t b rest hrx).trans (frame_poke h1)).trans (frame_poke h2)
    · cases h; exact Frame.refl _

theorem frame_recvRXRead {m m' : Machine} {v v' : RxVars}
    (h : recvRXRead m v = .ok (m', v')) : Frame m m' := by
  unfold recvRXRead at h
  split at h
  · cases h; exact Frame.refl _
  · rename_i t b rest hrx
    split at h
    · cases h1 : poke { m with rx := rest } v.ret_index b with
      | error e => simp [h1, bind, Except.bind] at h
      | ok m1 =>
        have f1 : Frame m m1 := (frame_take_byte m t b rest hrx).trans (frame_poke h1)
        simp only [h1, bind, Except.bind] at h
        split at h
        · split at h
          · cases h
          · rename_i m2 h2
            split at h
            · cases h
            · rename_i m3 h3
              simp only [Except.ok.injEq, Prod.mk.injEq] at h
              rw [← h.1]
              exact ((f1.trans (frame_poke h2)).trans (frame_poke h3)).trans (frame_delay 20 m3)
        · split at h
          · cases h
          · rename_i m3 h3
            simp only [Except.ok.injEq, Prod.mk.injEq] at h
            rw [← h.1]
            exact (f1.trans (frame_poke h3)).trans (frame_delay 20 m3)
    · cases h; exact Frame.refl _

theorem frame_recvRXLoop (timeout start : Nat) :
    ∀ (fuel : Nat) (m m' : Machine) (v v' : RxVars), m.ret.length = 1024 →
      recvRXLoop timeout start fuel m v = .ok (m', v') → Frame m m' := by
  intro fuel
  induction fuel with
  | zero => intro m m' v v' _ h; simp [recvRXLoop] at h
  | succ fuel ih =>
    intro m m' v v' hlen h
    rw [recvRXLoop] at h
    split at h
    · cases hr : recvRXRead m v with
      | error e => simp [hr] at h
      | ok p =>
        obtain ⟨m1, v1⟩ := p
        simp only [hr] at h
        have f1 : Frame m m1 := frame_recvRXRead hr
        have f2 : Frame m (delay 20 m1) := f1.trans (frame_delay 20 m1)
        have hl2 : (delay 20 m1).ret.length = 1024 := by rw [f2.2.2.2.2.2.2.2.1, hlen]
        split at h
        · split at h
          · simp only [Except.ok.injEq, Prod.mk.injEq] at h
            rw [← h.1]
            exact f2.trans (frame_setRetLit _ _ (by rw [hl2]; decide))
          · exact f2.trans (ih _ _ _ _ hl2 h)
        · split at h
          · simp only [Except.ok.injEq, Prod.mk.injEq] at h
            rw [← h.1]
            exact f2.trans (frame_setRetLit _ _ (by rw [hl2]; decide))
          · exact f2.trans (ih _ _ _ _ hl2 h)
    · simp only [Except.ok.injEq, Prod.mk.injEq] at h
      rw [← h.1]
      exact Frame.refl _

theorem frame_recvRX {timeout : Nat} {m m' : Machine} (hlen : m.ret.length = 1024)
    (h : recvRX timeout m = .ok m') : Frame m m' := by
  unfold recvRX at h
  cases hp : poke m 0 0 with
  | error e => simp [hp] at h
  | ok m0 =>
    simp only [hp] at h
    have f0 : Frame m m0 := frame_poke hp
    have hl0 : m0.ret.length = 1024 := by rw [f0.2.2.2.2.2.2.2.1, hlen]
    cases hl : recvRXLoop timeout m0.now (max timeout 120000 / 20 + 2) m0
        { ret_index := 0, rx_ok := false, wait_eol := false, cont_while := true } with
    | error e => simp [hl] at h
    | ok p =>
      obtain ⟨m1, v1⟩ := p
      simp only [hl, Except.ok.injEq] at h
      have f1 : Frame m0 m1 := frame_recvRXLoop _ _ _ _ _ _ _ hl0 hl
      have hl1 : m1.ret.length = 1024 := by rw [f1.2.2.2.2.2.2.2.1, hl0]
      rw [← h]
      split
      · exact (f0.trans f1).trans (frame_setRetLit _ _ (by rw [hl1]; decide))
      · exact f0.trans f1

theorem frame_recvResponseLoop (timeout start : Nat) :
    ∀ (fuel : Nat) (m m' : Machine) (idx : Nat) (rx_ok r : Bool), m.ret.length = 1024 →
      recvResponseLoop timeout start fuel m idx rx_ok = .ok (r, m') → Frame m m' := by
  intro fuel
  induction fuel with
  | zero => intro m m' idx rx_ok r _ h; simp [recvResponseLoop] at h
  | succ fuel ih =>
    intro m m' idx rx_ok r hlen h
    rw [recvResponseLoop] at h
    split at h
    · cases hr : respRead m idx with
      | error e => simp [hr] at h
      | ok p =>
        obtain ⟨m1, idx1, got⟩ := p
        simp only [hr] at h
        have f1 : Frame m m1 := frame_respRead hr
        have hl1 : m1.ret.length = 1024 := by rw [f1.2.2.2.2.2.2.2.1, hlen]
        cases hv : verdict m1 with
        | pendingRx =>
          simp only [hv] at h
          cases hx : recvRX 5000 m1 with
          | error e => simp [hx] at h
          | ok m2 =>
            simp only [hx, Except.ok.injEq, Prod.mk.injEq] at h
            rw [← h.2]
            exact f1.trans (frame_recvRX hl1 hx)
        | success =>
          simp only [hv, Except.ok.injEq, Prod.mk.injEq] at h
          rw [← h.2]; exact f1
        | failure =>
          simp only [hv, Except.ok.injEq, Prod.mk.injEq] at h
          rw [← h.2]; exact f1
        | none =>
          simp only [hv] at h
          have f2 : Frame m (delay 20 m1) := f1.trans (frame_delay 20 m1)
          exact f2.trans (ih _ _ _ _ _ (by rw [f2.2.2.2.2.2.2.2.1, hlen]) h)
    · simp only [Except.ok.injEq, Prod.mk.injEq] at h
      rw [← h.2]
      split
      · exact frame_setRetLit _ _ (by rw [hlen]; decide)
      · exact Frame.refl _

theorem frame_recvResponse {timeout : Nat} {m m' : Machine} {r : Bool}
    (hlen : m.ret.length = 1024) (h : recvResponse timeout m = .ok (r, m')) : Frame m m' := by
  unfold recvResponse at h
  cases hp : poke m 0 0 with
  | error e => simp [hp] at h
  | ok m0 =>
    simp only [hp] at h
    have f0 : Frame m m0 := frame_poke hp
    exact f0.trans (frame_recvResponseLoop _ _ _ _ _ _ _ _ (by rw [f0.2.2.2.2.2.2.2.1, hlen]) h)

/-! ## Sending a command and reading its response -/

theorem Frame.tx_eq {m m' : Machine} (h : Frame m m') : m'.tx = m.tx := h.1

theorem Frame.ret_length {m m' : Machine} (h : Frame m m') : m'.ret.length = m.ret.length :=
  h.2.2.2.2.2.2.2.1

theorem Frame.now_le {m m' : Machine} (h : Frame m m') : m.now ≤ m'.now :=
  h.2.2.2.2.2.2.2.2.1

theorem Frame.rx_drop {m m' : Machine} (h : Frame m m') : ∃ k, m'.rx = m.rx.drop k :=
  h.2.2.2.2.2.2.2.2.2

theorem Frame.rx_length_le {m m' : Machine} (h : Frame m m') : m'.rx.length ≤ m.rx.length := by
  obtain ⟨k, hk⟩ := h.rx_drop
  rw [hk, List.length_drop]
  omega

theorem respRead_ok (m : Machine) (idx : Nat) (h : idx + 1 < 1024) :
    ∃ m' idx' got, respRead m idx = .ok (m', idx', got) ∧ idx' ≤ idx + 1 := by
  match hrx : m.rx with
  | [] => exact ⟨m, idx, false, respRead_empty m idx hrx, by omega⟩
  | (t, b) :: rest =>
    by_cases ht : t ≤ m.now
    · have hb : b ≠ 13 ∨ b ≠ 10 := by omega
      have h1 : idx < 1024 := by omega
      refine ⟨{ m with rx := rest, ret := (m.ret.set idx b).set (idx + 1) 0 }, idx + 1, true,
        ?_, Nat.le_refl _⟩
      simp [respRead, hrx, ht, poke, RET_SIZE, h1, h, bind, Except.bind, hb]
    · exact ⟨m, idx, false, respRead_wait m idx t b rest hrx (by omega), by omega⟩

theorem flushRXLoop_total (timeout start : Nat) :
    ∀ (fuel : Nat) (m : Machine) (idx : Nat), idx + fuel + 1 < 1024 → start ≤ m.now →
      timeout ≤ (m.now - start) + 20 * fuel →
      ∃ m', flushRXLoop timeout start (fuel + 1) m idx = .ok m' ∧ Frame m m' := by
  intro fuel
  induction fuel with
  | zero =>
    intro m idx _ _ hfuel
    rw [flushRXLoop, if_neg (by omega)]
    exact ⟨m, rfl, Frame.refl m⟩
  | succ fuel ih =>
    intro m idx hidx hstart hfuel
    rw [flushRXLoop]
    by_cases hlate : m.now - start < timeout
    · rw [if_pos hlate]
      obtain ⟨m1, idx1, got, hread, hidx1⟩ := respRead_ok m idx (by omega)
      rw [hread]
      have f1 : Frame m m1 := frame_respRead hread
      have hn1 := f1.now_le
      by_cases hstop : flushStop m1 = true
      · simp only [hstop, if_true]
        exact ⟨m1, rfl, f1⟩
      · simp only [hstop, Bool.false_eq_true, if_false]
        obtain ⟨m2, hrun, f2⟩ := ih (delay 20 m1) idx1 (by omega)
          (by simp only [delay]; omega) (by simp only [delay]; omega)
        exact ⟨m2, hrun, (f1.trans (frame_delay 20 m1)).trans f2⟩
    · rw [if_neg hlate]
      exact ⟨m, rfl, Frame.refl m⟩

theorem flushRX_total (timeout : Nat) (m : Machine) (ht : timeout ≤ 20000) :
    ∃ m', flushRX timeout m = .ok m' ∧ Frame m m' := by
  unfold flushRX
  have hp : poke m 0 0 = .ok { m with ret := m.ret.set 0 0 } := by simp [poke, RET_SIZE]
  rw [hp]
  obtain ⟨m', hrun, f⟩ := flushRXLoop_total timeout m.now (timeout / 20 + 1)
    { m with ret := m.ret.set 0 0 } 0 (by omega) (Nat.le_refl _)
    (by simp only [Nat.sub_self]; omega)
  exact ⟨m', hrun, (frame_poke hp).trans f⟩

theorem sendRawCommand_total (cmd : List Nat) (m : Machine) :
    ∃ a, sendRawCommand cmd m = .ok (true, a) ∧
      Frame { m with tx := m.tx ++ ascii "\r\n" ++ cmd } a := by
  unfold sendRawCommand
  obtain ⟨m1, hrun, f⟩ := flushRX_total 1000 (print m (ascii "\r\n")) (by decide)
  rw [hrun]
  refine ⟨_, rfl, ?_⟩
  obtain ⟨a1, a2, a3, a4, a5, a6, a7, a8, a9, k, a10⟩ := f
  refine ⟨?_, a2, a3, a4, a5, a6, a7, a8, ?_, k, a10⟩
  · simp only [delay, print, a1]
  · simp only [delay, print] at a9 ⊢
    omega

theorem hasOK_of_false {timeout : Nat} {m m' : Machine}
    (h : RespTop timeout m (.ok (false, m'))) : retHas m' "OK" = false := by
  obtain ⟨k, hk, hq, hend⟩ := h
  cases hend with
  | timedOut hr hv hrx hsame hnow hlate hret =>
    split at hret
    · rw [retHas, hret.cstr_eq]
      exact (verdictOf_none_iff _).mp hv "OK" (by decide)
    · obtain ⟨r0, hr0⟩ := hret
      rw [retHas, hr0, cstr_snprintfLit _ _ (by decide)]
      decide
  | succeeded hr => cases hr
  | failed hr hv hrx hsame hnow hret =>
    rw [retHas, hret.cstr_eq]
    exact ((verdictOf_failure_iff _).mp hv).1 "OK" (by decide)
  | chained hr => cases hr

theorem silent_response {timeout : Nat} {m m' : Machine} {r : Bool}
    (h : RespTop timeout m (.ok (r, m'))) (hrx : m.rx = []) :
    r = false ∧ cstr m'.ret = ascii "NO_RESPONSE" := by
  obtain ⟨k, hk, hq, hend⟩ := h
  have hk0 : k = 0 := by rw [hrx] at hk; simpa using hk
  subst hk0
  have hgot : List.map Prod.snd (List.take 0 m.rx) = [] := by simp
  rw [hgot] at hend
  cases hend with
  | timedOut hr hv hrx hsame hnow hlate hret =>
    simp only [Bool.false_or, Nat.lt_irrefl, decide_False, Bool.false_eq_true, if_false] at hret
    obtain ⟨r0, hr0⟩ := hret
    exact ⟨hr, by rw [hr0]; exact cstr_snprintfLit _ _ (by decide)⟩
  | succeeded hr hv => exact absurd hv (by decide)
  | failed hr hv => exact absurd hv (by decide)
  | chained hr hv => exact absurd hv (by decide)

/-- The pair `sendRawCommand(cmd); recvResponse();` on a state whose pending
bytes fit the buffer: both calls return, and the bare line terminator and the
command are what was printed. -/
theorem exchange_total (cmd : List Nat) (m : Machine) (hlen : m.ret.length = 1024)
    (hshort : m.rx.length ≤ 1023) :
    ∃ a r m', sendRawCommand cmd m = .ok (true, a) ∧ recvResponse 10000 a = .ok (r, m') ∧
      exchange cmd m = .ok m' ∧ Frame { m with tx := m.tx ++ ascii "\r\n" ++ cmd } a ∧
      Frame a m' ∧ (r = false → retHas m' "OK" = false) ∧
      (m.rx = [] → cstr m'.ret = ascii "NO_RESPONSE") := by
  obtain ⟨a, hsend, fa⟩ := sendRawCommand_total cmd m
  have hla : a.ret.length = 1024 := by rw [fa.ret_length]; exact hlen
  obtain ⟨k, hk⟩ := fa.rx_drop
  have hsa : a.rx.length ≤ 1023 := Nat.le_trans fa.rx_length_le hshort
  have hs := recvResponse_sound 10000 a hla hsa
  match hres : recvResponse 10000 a, hs with
  | .error e, hs => exact hs.elim
  | .ok (r, m'), hs =>
    refine ⟨a, r, m', hsend, hres, ?_, fa, frame_recvResponse hla hres, ?_, ?_⟩
    · unfold exchange
      rw [hsend]
      simp only [hres]
    · intro hr
      subst hr
      exact hasOK_of_false hs
    · intro hrx
      have : a.rx = [] := by rw [hk]; simp [hrx]
      exact (silent_response hs this).2

/-! ## Runs on arbitrary streams -/

theorem poke_error {m : Machine} {i v : Nat} {e : Fault} (h : poke m i v = .error e) :
    1024 ≤ i ∧ e = .oob i := by
  unfold poke RET_SIZE at h
  split at h
  · cases h
  · cases h
    exact ⟨by omega, rfl⟩

theorem respRead_error {m : Machine} {idx : Nat} {e : Fault} (h : respRead m idx = .error e) :
    ∃ i, 1024 ≤ i ∧ e = .oob i := by
  unfold respRead at h
  split at h
  · cases h
  · rename_i t b rest hrx
    split at h
    · cases h1 : poke { m with rx := rest } idx b with
      | error e1 =>
        simp only [h1, bind, Except.bind, Except.error.injEq] at h
        exact ⟨idx, (poke_error h1).1, by rw [← h]; exact (poke_error h1).2⟩
      | ok m1 =>
        simp only [h1, bind, Except.bind] at h
        split at h
        · rename_i e2 h2
          cases h
          exact ⟨_, (poke_error h2).1, (poke_error h2).2⟩
        · cases h
    · cases h

theorem recvRXRead_error {m : Machine} {v : RxVars} {e : Fault}
    (h : recvRXRead m v = .error e) : ∃ i, 1024 ≤ i ∧ e = .oob i := by
  unfold recvRXRead at h
  split at h
  · cases h
  · rename_i t b rest hrx
    split at h
    · cases h1 : poke { m with rx := rest } v.ret_index b with
      | error e1 =>
        simp only [h1, bind, Except.bind, Except.error.injEq] at h
        exact ⟨_, (poke_error h1).1, by rw [← h]; exact (poke_error h1).2⟩
      | ok m1 =>
        simp only [h1, bind, Except.bind] at h
        split at h
        · split at h
          · rename_i e2 h2
            cases h
            exact ⟨_, (poke_error h2).1, (poke_error h2).2⟩
          · split at h
            · rename_i e3 h3
              cases h
              exact ⟨_, (poke_error h3).1, (poke_error h3).2⟩
            · cases h
        · split at h
          · rename_i e3 h3
            cases h
            exact ⟨_, (poke_error h3).1, (poke_error h3).2⟩
          · cases h
    · cases h

theorem recvRXLoop_error (timeout start : Nat) :
    ∀ (fuel : Nat) (m : Machine) (v : RxVars) (e : Fault), start ≤ m.now →
      (m.now - start ≤ if v.wait_eol = true then 120000 else timeout) →
      max timeout 120000 + 20 ≤ (m.now - start) + 20 * fuel →
      recvRXLoop timeout start fuel m v = .error e → ∃ i, 1024 ≤ i ∧ e = .oob i := by
  intro fuel
  induction fuel with
  | zero =>
    intro m v e _ hhead hfuel _
    exfalso
    split at hhead <;> omega
  | succ fuel ih =>
    intro m v e hstart hhead hfuel h
    rw [recvRXLoop] at h
    split at h
    · cases hr : recvRXRead m v with
      | error e1 =>
        simp only [hr, Except.error.injEq] at h
        rw [← h]
        exact recvRXRead_error hr
      | ok p =>
        obtain ⟨m1, v1⟩ := p
        simp only [hr] at h
        have hn := (frame_recvRXRead hr).now_le
        split at h
        · rename_i hw
          split at h
          · cases h
          · rename_i hlate
            refine ih (delay 20 m1) v1 e (by simp only [delay]; omega) ?_
              (by simp only [delay]; omega) h
            rw [if_pos hw]
            simp only [delay] at hlate ⊢
            omega
        · rename_i hw
          split at h
          · cases h
          · rename_i hlate
            refine ih (delay 20 m1) v1 e (by simp only [delay]; omega) ?_
              (by simp only [delay]; omega) h
            rw [if_neg hw]
            simp only [delay] at hlate ⊢
            omega
    · cases h

theorem recvRX_error {timeout : Nat} {m : Machine} {e : Fault}
    (h : recvRX timeout m = .error e) : ∃ i, 1024 ≤ i ∧ e = .oob i := by
  unfold recvRX at h
  have hp : poke m 0 0 = .ok { m with ret := m.ret.set 0 0 } := by simp [poke, RET_SIZE]
  rw [hp] at h
  simp only at h
  split at h
  · rename_i e1 h1
    cases h
    refine recvRXLoop_error timeout m.now _ { m with ret := m.ret.set 0 0 } _ _ (Nat.le_refl _)
      ?_ ?_ h1
    · simp
    · simp only [Nat.sub_self]
      generalize max timeout 120000 = M
      omega
  · cases h

theorem recvResponseLoop_error (timeout start : Nat) :
    ∀ (fuel : Nat) (m : Machine) (idx : Nat) (rx_ok : Bool) (e : Fault), start ≤ m.now →
      timeout ≤ (m.now - start) + 20 * fuel →
      recvResponseLoop timeout start (fuel + 1) m idx rx_ok = .error e →
      ∃ i, 1024 ≤ i ∧ e = .oob i := by
  intro fuel
  induction fuel with
  | zero =>
    intro m idx rx_ok e _ hfuel h
    rw [recvResponseLoop, if_neg (by omega)] at h
    cases h
  | succ fuel ih =>
    intro m idx rx_ok e hstart hfuel h
    rw [recvResponseLoop] at h
    split at h
    · cases hr : respRead m idx with
      | error e1 =>
        simp only [hr, Except.error.injEq] at h
        rw [← h]
        exact respRead_error hr
      | ok p =>
        obtain ⟨m1, idx1, got⟩ := p
        simp only [hr] at h
        have hn := (frame_respRead hr).now_le
        cases hv : verdict m1 with
        | pendingRx =>
          simp only [hv] at h
          cases hx : recvRX 5000 m1 with
          | error e2 =>
            simp only [hx, Except.error.injEq] at h
            rw [← h]
            exact recvRX_error hx
          | ok m2 => simp [hx] at h
        | success => simp [hv] at h
        | failure => simp [hv] at h
        | none =>
          simp only [hv] at h
          exact ih (delay 20 m1) idx1 _ e (by simp only [delay]; omega)
            (by simp only [delay]; omega) h
    · cases h

theorem recvResponse_error {timeout : Nat} {m : Machine} {e : Fault}
    (h : recvResponse timeout m = .error e) : ∃ i, 1024 ≤ i ∧ e = .oob i := by
  unfold recvResponse at h
  have hp : poke m 0 0 = .ok { m with ret := m.ret.set 0 0 } := by simp [poke, RET_SIZE]
  rw [hp] at h
  simp only at h
  exact recvResponseLoop_error timeout m.now (timeout / 20 + 1) { m with ret := m.ret.set 0 0 }
    0 false e (Nat.le_refl _) (by simp only [Nat.sub_self]; omega) h

theorem recvResponseLoop_false (timeout start : Nat) :
    ∀ (fuel : Nat) (m m' : Machine) (idx : Nat) (rx_ok : Bool), verdict m = .none →
      recvResponseLoop timeout start fuel m idx rx_ok = .ok (false, m') →
      retHas m' "OK" = false := by
  intro fuel
  induction fuel with
  | zero => intro m m' idx rx_ok _ h; simp [recvResponseLoop] at h
  | succ fuel ih =>
    intro m m' idx rx_ok hv0 h
    rw [recvResponseLoop] at h
    split at h
    · cases hr : respRead m idx with
      | error e => simp [hr] at h
      | ok p =>
        obtain ⟨m1, idx1, got⟩ := p
        simp only [hr] at h
        cases hv : verdict m1 with
        | pendingRx =>
          simp only [hv] at h
          cases hx : recvRX 5000 m1 with
          | error e => simp [hx] at h
          | ok m2 => simp [hx] at h
        | success => simp [hv] at h
        | failure =>
          simp only [hv, Except.ok.injEq, Prod.mk.injEq, true_and] at h
          rw [← h]
          exact ((verdictOf_failure_iff _).mp hv).1 "OK" (by decide)
        | none =>
          simp only [hv] at h
          exact ih (delay 20 m1) m' idx1 _ hv h
    · simp only [Except.ok.injEq, Prod.mk.injEq, true_and] at h
      rw [← h]
      cases rx_ok with
      | false =>
        simp only [Bool.not_false, if_true, retHas, setRetLit]
        rw [cstr_snprintfLit _ _ (by decide)]
        decide
      | true =>
        simp only [Bool.not_true, Bool.false_eq_true, if_false]
        exact (verdictOf_none_iff _).mp hv0 "OK" (by decide)

theorem recvResponse_false {timeout : Nat} {m m' : Machine} (hlen : m.ret.length = 1024)
    (h : recvResponse timeout m = .ok (false, m')) : retHas m' "OK" = false := by
  obtain ⟨r, hp, hH⟩ := holds_poke_zero m hlen
  unfold recvResponse at h
  rw [hp] at h
  refine recvResponseLoop_false timeout m.now _ _ m' 0 false ?_ h
  rw [verdict]
  simp only
  rw [hH.cstr_eq]
  decide

/-- The pair `sendRawCommand(cmd); recvResponse();` on any stream: either both
calls return, the bare line terminator and the command being what was printed,
and a response that was no success leaves no "OK" in `ret`; or at least 1024
bytes were pending and the run ends in a write outside `ret`. -/
theorem exchange_cases (cmd : List Nat) (m : Machine) (hlen : m.ret.length = 1024) :
    (∃ a r m', sendRawCommand cmd m = .ok (true, a) ∧ recvResponse 10000 a = .ok (r, m') ∧
      exchange cmd m = .ok m' ∧ Frame { m with tx := m.tx ++ ascii "\r\n" ++ cmd } a ∧
      Frame a m' ∧ (r = false → retHas m' "OK" = false)) ∨
    (1024 ≤ m.rx.length ∧ Overruns (exchange cmd m)) := by
  obtain ⟨a, hsend, fa⟩ := sendRawCommand_total cmd m
  have hla : a.ret.length = 1024 := by rw [fa.ret_length]; exact hlen
  cases hres : recvResponse 10000 a with
  | error e =>
    right
    constructor
    · by_contra hshort
      obtain ⟨a2, r2, m2, hsend2, hrecv2, _⟩ := exchange_total cmd m hlen (by omega)
      rw [hsend] at hsend2
      simp only [Except.ok.injEq, Prod.mk.injEq, true_and] at hsend2
      rw [← hsend2, hres] at hrecv2
      cases hrecv2
    · obtain ⟨i, hi, he⟩ := recvResponse_error hres
      refine ⟨i, hi, ?_⟩
      unfold exchange
      rw [hsend]
      simp only [hres, he]
  | ok p =>
    obtain ⟨r, m'⟩ := p
    left
    refine ⟨a, r, m', hsend, hres, ?_, fa, frame_recvResponse hla hres, ?_⟩
    · unfold exchange
      rw [hsend]
      simp only [hres]
    · intro hr
      subst hr
      exact recvResponse_false hla hres

/-! ## Sequences of sub-commands -/

theorem three_steps (c1 : List Nat) (c2 c3 : Machine → List Nat) (m0 : Machine)
    (hlen : m0.ret.length = 1024)
    (h2 : ∀ a b : Machine, Frame a b → c2 b = c2 a) (h3 : ∀ a b : Machine, Frame a b → c3 b = c3 a)
    (t2 : ∀ (a : Machine) (out : List Nat), c2 { a with tx := out } = c2 a)
    (t3 : ∀ (a : Machine) (out : List Nat), c3 { a with tx := out } = c3 a) :
    StopsAtFirstFailure m0 [c1, c2 m0, c3 m0]
      (match exchange c1 m0 with
        | .error e => .error e
        | .ok m =>
          if retHas m "OK" then
            match exchange (c2 m) m with
            | .error e => .error e
            | .ok m =>
              if retHas m "OK" then
                match exchange (c3 m) m with
                | .error e => .error e
                | .ok m => if retHas m "OK" then .ok (true, m) else .ok (false, m)
              else .ok (false, m)
          else .ok (false, m)) ∨
    (1024 ≤ m0.rx.length ∧ Overruns
      (match exchange c1 m0 with
        | .error e => .error e
        | .ok m =>
          if retHas m "OK" then
            match exchange (c2 m) m with
            | .error e => .error e
            | .ok m =>
              if retHas m "OK" then
                match exchange (c3 m) m with
                | .error e => .error e
                | .ok m => if retHas m "OK" then .ok (true, m) else .ok (false, m)
              else .ok (false, m)
          else .ok (false, m))) := by
  rcases exchange_cases c1 m0 hlen with ⟨a1, r1, m1, hs1, hr1, he1, fa1, fm1, hno1⟩ | ⟨hlong, i, hi, herr⟩
  · have F1 := fa1.trans fm1
    have hl1 : m1.ret.length = 1024 := by rw [F1.ret_length]; exact hlen
    have htx1 : m1.tx = m0.tx ++ ascii "\r\n" ++ c1 := F1.tx_eq
    have hrx1 : m1.rx.length ≤ m0.rx.length := F1.rx_length_le
    have e2 : c2 m1 = c2 m0 := (h2 _ _ F1).trans (t2 m0 _)
    have e3 : c3 m1 = c3 m0 := (h3 _ _ F1).trans (t3 m0 _)
    simp only [he1]
    by_cases hok1 : retHas m1 "OK" = true
    · have hr1t : r1 = true := by
        cases r1 with
        | true => rfl
        | false => rw [hno1 rfl] at hok1; exact absurd hok1 (by decide)
      subst hr1t
      simp only [hok1, if_true]
      rcases exchange_cases (c2 m1) m1 hl1 with
        ⟨a2, r2, m2, hs2, hr2, he2, fa2, fm2, hno2⟩ | ⟨hlong, i, hi, herr⟩
      · have F2 := fa2.trans fm2
        have hl2 : m2.ret.length = 1024 := by rw [F2.ret_length]; exact hl1
        have htx2 : m2.tx = m1.tx ++ ascii "\r\n" ++ c2 m1 := F2.tx_eq
        have hrx2 : m2.rx.length ≤ m1.rx.length := F2.rx_length_le
        have e3' : c3 m2 = c3 m0 := ((h3 _ _ F2).trans (t3 m1 _)).trans e3
        simp only [he2]
        by_cases hok2 : retHas m2 "OK" = true
        · have hr2t : r2 = true := by
            cases r2 with
            | true => rfl
            | false => rw [hno2 rfl] at hok2; exact absurd hok2 (by decide)
          subst hr2t
          simp only [hok2, if_true]
          rcases exchange_cases (c3 m2) m2 hl2 with
            ⟨a3, r3, m3, hs3, hr3, he3, fa3, fm3, hno3⟩ | ⟨hlong, i, hi, herr⟩
          · have F3 := fa3.trans fm3
            have htx3 : m3.tx = m2.tx ++ ascii "\r\n" ++ c3 m2 := F3.tx_eq
            simp only [he3]
            left
            rw [e2] at hs2 htx2
            rw [e3'] at hs3 htx3
            refine ⟨retHas m3 "OK", m3, 3, [true, true, r3], ?_, by decide, by simp,
              .step hs1 hr1 (.step hs2 hr2 (.step hs3 hr3 (.done m3))), ?_, ?_, ?_⟩
            · cases retHas m3 "OK" <;> rfl
            · rw [htx3, htx2, htx1]
              simp [wire]
            · intro i hi
              match i, hi with
              | 0, hi => simp at hi
              | 1, hi => simp at hi
              | 2, hi =>
                simp only [List.get?_cons_succ, List.get?_cons_zero, Option.some.injEq] at hi
                exact ⟨rfl, hno3 hi⟩
              | i + 3, hi => simp at hi
            · intro hr
              refine ⟨rfl, ?_⟩
              intro x hx
              simp only [List.mem_cons, List.mem_singleton, List.not_mem_nil, or_false] at hx
              rcases hx with rfl | rfl | rfl
              · rfl
              · rfl
              · cases x with
                | true => rfl
                | false => rw [hno3 rfl] at hr; exact absurd hr (by decide)
          · right
            refine ⟨by omega, i, hi, ?_⟩
            simp only [herr]
        · left
          simp only [hok2, if_false]
          rw [e2] at hs2 htx2
          refine ⟨false, m2, 2, [true, r2], rfl, by decide, by simp,
            .step hs1 hr1 (.step hs2 hr2 (.done m2)), ?_, ?_, ?_⟩
          · rw [htx2, htx1]
            simp [wire]
          · intro i hi
            match i, hi with
            | 0, hi => simp at hi
            | 1, hi => exact ⟨rfl, rfl⟩
            | i + 2, hi => simp at hi
          · intro hr
            cases hr
      · right
        refine ⟨by omega, i, hi, ?_⟩
        simp only [herr]
    · left
      simp only [hok1, if_false]
      refine ⟨false, m1, 1, [r1], rfl, by decide, by simp, .step hs1 hr1 (.done m1), ?_, ?_, ?_⟩
      · rw [htx1]
        simp [wire]
      · intro i hi
        match i, hi with
        | 0, hi => exact ⟨rfl, rfl⟩
        | i + 1, hi => simp at hi
      · intro hr
        cases hr
  · right
    refine ⟨hlong, i, hi, ?_⟩
    simp only [herr]

/-! ## Set and get verbs -/

theorem sendAndCheckOK_run (cmd : List Nat) (m : Machine) (hlen : m.ret.length = 1024) :
    SetterRun cmd m (sendAndCheckOK cmd m) := by
  unfold sendAndCheckOK
  rcases exchange_cases cmd m hlen with ⟨a, r, m', hs, hr, he, fa, fm, hno⟩ | ⟨hlong, i, hi, herr⟩
  · left
    simp only [he]
    refine ⟨a, r, m', hs, hr, (fa.trans fm).tx_eq, ?_, ?_⟩
    · cases retHas m' "OK" <;> rfl
    · intro hok
      cases r with
      | true => rfl
      | false => rw [hno rfl] at hok; exact absurd hok (by decide)
  · right
    refine ⟨hlong, i, hi, ?_⟩
    simp only [herr]

theorem initialization_ok (text : List Nat) :
    (hasTok text "Initialization OK" || hasTok text "OK") = hasTok text "OK" := by
  cases h : hasTok text "Initialization OK" with
  | false => rfl
  | true =>
    rw [hasTok_iff] at h
    have h2 : ascii "OK" <:+: ascii "Initialization OK" := by decide
    rw [(hasTok_iff text "OK").mpr (h2.trans h)]
    rfl

theorem sendAndCheckInitOK_eq (cmd : List Nat) (m : Machine) :
    sendAndCheckInitOK cmd m = sendAndCheckOK cmd m := by
  unfold sendAndCheckInitOK sendAndCheckOK
  cases exchange cmd m with
  | error e => rfl
  | ok m' =>
    simp only [retHas, initialization_ok]

theorem sendAndCheckInitOK_run (cmd : List Nat) (m : Machine) (hlen : m.ret.length = 1024) :
    SetterRun cmd m (sendAndCheckInitOK cmd m) := by
  rw [sendAndCheckInitOK_eq]
  exact sendAndCheckOK_run cmd m hlen

theorem exchange_silent (cmd : List Nat) (m : Machine) (hlen : m.ret.length = 1024)
    (hrx : m.rx = []) : ∃ m', exchange cmd m = .ok m' ∧ cstr m'.ret = ascii "NO_RESPONSE" := by
  obtain ⟨a, r, m', _, _, he, _, _, _, hsil⟩ := exchange_total cmd m hlen (by rw [hrx]; simp)
  exact ⟨m', he, hsil hrx⟩

theorem getters_on_silent_link (m : Machine) (hlen : m.ret.length = 1024) (hrx : m.rx = []) :
    observeGet (getWorkingMode m) = some 0 ∧ observeGet (getJoinMode m) = some 0 ∧
    observeGet (getConfirmed m) = some 0 ∧ observeGet (getLPM m) = some 255 ∧
    observeGet (getLPMLevel m) = some 255 ∧ observeGet (getDataRate m) = some 255 ∧
    observeGet (getClass m) = some 255 ∧ observeGet (getRegion m) = some 255 := by
  refine ⟨?_, ?_, ?_, ?_, ?_, ?_, ?_, ?_⟩
  · obtain ⟨m', he, hret⟩ := exchange_silent (ascii "at+nwm=?\r\n") m hlen hrx
    have h1 : retHas m' "AT+NWM=1" = false := by rw [retHas, hret]; decide
    simp [getWorkingMode, he, h1, observeGet, Except.toOption, LoRaP2P]
  · obtain ⟨m', he, hret⟩ := exchange_silent (ascii "at+njm=?\r\n") m hlen hrx
    have h1 : retHas m' "AT+NJM=1" = false := by rw [retHas, hret]; decide
    simp [getJoinMode, he, h1, observeGet, Except.toOption, ABP]
  · obtain ⟨m', he, hret⟩ := exchange_silent (ascii "at+cfm=?\r\n") m hlen hrx
    have h1 : retHas m' "AT+CFM=1" = false := by rw [retHas, hret]; decide
    simp [getConfirmed, he, h1, observeGet, Except.toOption, UNCONF]
  · obtain ⟨m', he, hret⟩ := exchange_silent (ascii "at+lpm=?\r\n") m hlen hrx
    have h1 : retHas m' "AT+LPM=1" = false := by rw [retHas, hret]; decide
    have h0 : retHas m' "AT+LPM=0" = false := by rw [retHas, hret]; decide
    simp [getLPM, he, h1, h0, observeGet, Except.toOption, NO_RESPONSE]
  · obtain ⟨m', he, hret⟩ := exchange_silent (ascii "at+lpmlvl=?\r\n") m hlen hrx
    have h1 : retHas m' "AT+LPMLVL=1" = false := by rw [retHas, hret]; decide
    have h2 : retHas m' "AT+LPMLVL=2" = false := by rw [retHas, hret]; decide
    simp [getLPMLevel, he, h1, h2, observeGet, Except.toOption, NO_RESPONSE]
  · obtain ⟨m', he, hret⟩ := exchange_silent (ascii "at+dr=?\r\n") m hlen hrx
    have h1 : decimalAfterEquals m' 15 = 255 := by rw [decimalAfterEquals, hret]; decide
    simp [getDataRate, he, h1, observeGet, Except.toOption]
  · obtain ⟨m', he, hret⟩ := exchange_silent (ascii "at+class=?\r\n") m hlen hrx
    have h1 : strstrAt (cstr m'.ret) (ascii "=") = none := by rw [hret]; decide
    simp [getClass, he, h1, observeGet, Except.toOption, NO_RESPONSE]
  · obtain ⟨m', he, hret⟩ := exchange_silent (ascii "at+band=?\r\n") m hlen hrx
    have h1 : decimalAfterEquals m' 12 = 255 := by rw [decimalAfterEquals, hret]; decide
    simp [getRegion, he, h1, observeGet, Except.toOption]

/-! ## The codec, cell by cell -/

theorem byteArrayToAsciiLoop_nul (b : Mem) (count index : Nat) (a : Mem) :
    byteArrayToAsciiLoop b (count + 1) index a ((index + count + 1) * 2) = 0 := by
  induction count generalizing index a with
  | zero =>
    rw [byteArrayToAsciiLoop, byteArrayToAsciiLoop]
    simp only [sprintf02X, Mem.write]
    rw [if_pos (by omega)]
  | succ c ih =>
    rw [byteArrayToAsciiLoop]
    have := ih (index + 1) (sprintf02X a (index * 2) (b index % 256))
    rw [show index + (c + 1) + 1 = index + 1 + c + 1 by omega]
    exact this

theorem byteArrayToAsciiLoop_above (b : Mem) (count index : Nat) (a : Mem) (j : Nat)
    (hj : (index + count) * 2 < j) : byteArrayToAsciiLoop b count index a j = a j := by
  induction count generalizing index a with
  | zero => rfl
  | succ c ih =>
    rw [byteArrayToAsciiLoop, ih (index + 1) _ (by omega)]
    simp only [sprintf02X, Mem.write]
    rw [if_neg (by omega), if_neg (by omega), if_neg (by omega)]

theorem hexDigit_upper : ∀ d < 16, hexDigit d = (ascii "0123456789ABCDEF").getD d 0 := by
  decide

theorem hex_of_digitVal {c : Nat} (h : digitVal c < 16) :
    (48 ≤ c ∧ c ≤ 57) ∨ (65 ≤ c ∧ c ≤ 70) ∨ (97 ≤ c ∧ c ≤ 102) := by
  unfold digitVal at h
  split at h
  · left; assumption
  · split at h
    · right; left; omega
    · split at h
      · right; right; omega
      · omega

set_option maxRecDepth 100000 in
theorem strtol_hex_pair_bounded :
    ∀ c1 < 103, ∀ c2 < 103, digitVal c1 < 16 → digitVal c2 < 16 →
      toChar (strtol (cstr [c1, c2, 0]) 16) = 16 * digitVal c1 + digitVal c2 := by
  decide

theorem strtol_hex_pair (c1 c2 : Nat) (h1 : digitVal c1 < 16) (h2 : digitVal c2 < 16) :
    toChar (strtol (cstr [c1, c2, 0]) 16) = 16 * digitVal c1 + digitVal c2 := by
  have b1 : c1 < 103 := by rcases hex_of_digitVal h1 with h | h | h <;> omega
  have b2 : c2 < 103 := by rcases hex_of_digitVal h2 with h | h | h <;> omega
  exact strtol_hex_pair_bounded c1 b1 c2 b2 h1 h2

/-! ## Getters that parse the response -/

theorem strstrAt_equals_none {text : List Nat} (h : 61 ∉ text) :
    strstrAt text (ascii "=") = none := by
  induction text with
  | nil => decide
  | cons x xs ih =>
    have hx : x ≠ 61 := fun e => h (by simp [e])
    have hxs : 61 ∉ xs := fun e => h (by simp [e])
    have hs : startsWith (x :: xs) (ascii "=") = false := by
      show (x == 61 && startsWith xs []) = false
      simp [hx]
    rw [strstrAt, hs]
    simpa using ih hxs

theorem strstrAt_equals_first (pre rest : List Nat) (h : 61 ∉ pre) :
    strstrAt (pre ++ 61 :: rest) (ascii "=") = some (61 :: rest) := by
  induction pre with
  | nil =>
    have hs : startsWith (61 :: rest) (ascii "=") = true := by
      show (61 == 61 && startsWith rest []) = true
      cases rest <;> rfl
    simp only [List.nil_append]
    rw [strstrAt, hs]
    rfl
  | cons x xs ih =>
    have hx : x ≠ 61 := fun e => h (by simp [e])
    have hxs : 61 ∉ xs := fun e => h (by simp [e])
    have hs : startsWith (x :: (xs ++ 61 :: rest)) (ascii "=") = false := by
      show (x == 61 && startsWith (xs ++ 61 :: rest) []) = false
      simp [hx]
    simp only [List.cons_append]
    rw [strstrAt, hs]
    simpa using ih hxs

theorem exchange_ok_frame {cmd : List Nat} {m m' : Machine} (hlen : m.ret.length = 1024)
    (h : exchange cmd m = .ok m') : Frame { m with tx := m.tx ++ ascii "\r\n" ++ cmd } m' := by
  rcases exchange_cases cmd m hlen with ⟨a, r, m2, _, _, he, fa, fm, _⟩ | ⟨_, i, _, herr⟩
  · rw [he] at h
    cases h
    exact fa.trans fm
  · rw [herr] at h
    cases h

theorem commandLine_plain (verb : String) (x : List Nat) (hnul : 0 ∉ x)
    (hlen : (ascii verb).length + x.length + 2 ≤ 1023) :
    commandLine verb x = ascii verb ++ x ++ ascii "\r\n" := by
  unfold commandLine
  rw [cstr_eq_self hnul]
  have h2 : (ascii "\r\n").length = 2 := by decide
  have h3 : (ascii verb ++ x ++ ascii "\r\n").length ≤ 1023 := by
    rw [List.length_append, List.length_append, h2]
    exact hlen
  exact List.take_of_length_le h3

theorem asciiArrayToByteLoop_nul (a : Mem) (count index : Nat) (b : Mem) :
    asciiArrayToByteLoop a (count + 1) index b (index + count + 1) = 0 := by
  induction count generalizing index b with
  | zero =>
    rw [asciiArrayToByteLoop, asciiArrayToByteLoop]
    simp [Mem.write]
  | succ c ih =>
    rw [asciiArrayToByteLoop]
    have := ih (index + 1)
      ((b.write index (toChar (strtol (doublet a index) 16))).write (index + 1) 0)
    rw [show index + (c + 1) + 1 = index + 1 + c + 1 by omega]
    exact this

/-! ## Decimal conversions -/

theorem toDigitsCore_acc (fuel n : Nat) (ds : List Char) :
    Nat.toDigitsCore 10 fuel n ds = Nat.toDigitsCore 10 fuel n [] ++ ds := by
  induction fuel generalizing n ds with
  | zero => simp [Nat.toDigitsCore]
  | succ fuel ih =>
    unfold Nat.toDigitsCore
    by_cases h : n / 10 = 0
    · simp [h]
    · simp only [h, if_false]
      rw [ih (n / 10) ((n % 10).digitChar :: ds), ih (n / 10) [(n % 10).digitChar]]
      simp

theorem digitChar_decimal :
    ∀ k < 10, digitVal (Nat.digitChar k).toNat = k ∧ 48 ≤ (Nat.digitChar k).toNat ∧
      (Nat.digitChar k).toNat ≤ 57 ∧ (0 < k → 49 ≤ (Nat.digitChar k).toNat) := by
  decide

theorem strtolDigits_toDigitsCore (fuel n : Nat) (rest : List Nat) (h : n < fuel) :
    strtolDigits 10 0 ((Nat.toDigitsCore 10 fuel n []).map Char.toNat ++ rest) =
      strtolDigits 10 n rest := by
  induction fuel generalizing n rest with
  | zero => omega
  | succ fuel ih =>
    unfold Nat.toDigitsCore
    have hd := digitChar_decimal (n % 10) (Nat.mod_lt _ (by decide))
    by_cases h0 : n / 10 = 0
    · simp only [h0, if_true, List.map_cons, List.map_nil, List.cons_append, List.nil_append]
      rw [strtolDigits, hd.1, if_pos (Nat.mod_lt _ (by decide))]
      congr 1
      omega
    · simp only [h0, if_false]
      rw [toDigitsCore_acc, List.map_append, List.append_assoc]
      simp only [List.map_cons, List.map_nil, List.cons_append, List.nil_append]
      rw [ih (n / 10) _ (by omega), strtolDigits, hd.1, if_pos (Nat.mod_lt _ (by decide))]
      congr 1
      omega

theorem toDigitsCore_digits (fuel n : Nat) (h : n < fuel) :
    ∃ c cs, (Nat.toDigitsCore 10 fuel n []).map Char.toNat = c :: cs ∧
      (∀ x ∈ c :: cs, 48 ≤ x ∧ x ≤ 57) ∧ (0 < n → 49 ≤ c) := by
  induction fuel generalizing n with
  | zero => omega
  | succ fuel ih =>
    unfold Nat.toDigitsCore
    have hd := digitChar_decimal (n % 10) (Nat.mod_lt _ (by decide))
    by_cases h0 : n / 10 = 0
    · simp only [h0, if_true, List.map_cons, List.map_nil]
      refine ⟨_, [], rfl, ?_, ?_⟩
      · intro x hx
        simp only [List.mem_singleton] at hx
        subst hx
        exact ⟨hd.2.1, hd.2.2.1⟩
      · intro hn
        exact hd.2.2.2 (by omega)
    · simp only [h0, if_false]
      rw [toDigitsCore_acc, List.map_append]
      obtain ⟨c, cs, he, hall, hpos⟩ := ih (n / 10) (by omega)
      rw [he]
      refine ⟨c, cs ++ [(n % 10).digitChar.toNat], by simp, ?_, ?_⟩
      · intro x hx
        simp only [List.mem_cons, List.mem_append, List.mem_singleton, List.not_mem_nil,
          or_false] at hx
        rcases hx with rfl | hx | rfl
        · exact hall _ (List.mem_cons_self _ _)
        · exact hall _ (List.mem_cons_of_mem _ hx)
        · exact ⟨hd.2.1, hd.2.2.1⟩
      · intro _
        exact hpos (Nat.pos_of_ne_zero h0)

theorem fmtInt_natCast (n : Nat) :
    fmtInt (n : Int) = (Nat.toDigitsCore 10 (n + 1) n []).map Char.toNat := by
  unfold fmtInt
  rw [if_neg (by omega)]
  rfl

theorem fmtInt_digits (n : Nat) :
    ∃ c cs, fmtInt (n : Int) = c :: cs ∧ (∀ x ∈ c :: cs, 48 ≤ x ∧ x ≤ 57) ∧ (0 < n → 49 ≤ c) := by
  rw [fmtInt_natCast]
  obtain ⟨c, cs, he, hall, hpos⟩ := toDigitsCore_digits (n + 1) n (by omega)
  exact ⟨c, cs, he, hall, hpos⟩

theorem fmtInt_length (n e : Nat) (he : 0 < e) (hn : n < 10 ^ e) :
    (fmtInt (n : Int)).length ≤ e := by
  rw [fmtInt_natCast, List.length_map]
  exact Nat.toDigitsCore_length 10 (by decide) (n + 1) n e hn he

theorem strtolDigits_stop (base acc : Nat) (rest : List Nat)
    (h : ∀ c ∈ rest.head?, base ≤ digitVal c) : strtolDigits base acc rest = acc := by
  cases rest with
  | nil => rfl
  | cons c cs =>
    have := h c (by simp)
    rw [strtolDigits, if_neg (by omega)]

theorem strtol_decimal (c : Nat) (l : List Nat) (hc : 49 ≤ c ∧ c ≤ 57) :
    strtol (c :: l) 0 = min (strtolDigits 10 0 (c :: l) : Int) LONG_MAX := by
  have h1 : isspace c = false := by
    unfold isspace
    simp only [Bool.or_eq_false_iff, beq_eq_false_iff_ne, ne_eq, Bool.and_eq_false_imp,
      decide_eq_true_eq, decide_eq_false_iff_not, not_le]
    omega
  have h2 : (c == 45) = false := by simp; omega
  have h3 : (c == 43) = false := by simp; omega
  have h4 : (c == 48) = false := by simp; omega
  unfold strtol
  simp [List.dropWhile, h1, h2, h3, h4]

theorem strtol_zero (rest : List Nat) (h : ∀ c ∈ rest.head?, digitVal c = 36) :
    strtol (48 :: rest) 0 = 0 := by
  cases rest with
  | nil => decide
  | cons c cs =>
    have hc : digitVal c = 36 := h c (by simp)
    have hx : (c == 120) = false := by
      simp only [beq_eq_false_iff_ne, ne_eq]
      intro e
      rw [e] at hc
      exact absurd hc (by decide)
    have hX : (c == 88) = false := by
      simp only [beq_eq_false_iff_ne, ne_eq]
      intro e
      rw [e] at hc
      exact absurd hc (by decide)
    have h8 : strtolDigits 8 0 (48 :: c :: cs) = 0 := by
      rw [strtolDigits, if_pos (by decide)]
      exact strtolDigits_stop 8 _ _ (by intro x hx; simp at hx; subst hx; omega)
    unfold strtol
    simp [List.dropWhile, isspace, hx, hX, h8, LONG_MAX]

theorem strtol_fmtInt (n : Nat) (rest : List Nat) (hn : n ≤ 2147483647)
    (hrest : ∀ c ∈ rest.head?, digitVal c = 36) : strtol (fmtInt (n : Int) ++ rest) 0 = n := by
  by_cases h0 : n = 0
  · subst h0
    exact strtol_zero rest hrest
  · obtain ⟨c, cs, he, hall, hpos⟩ := fmtInt_digits n
    have hc := hall c (List.mem_cons_self _ _)
    have hc1 := hpos (Nat.pos_of_ne_zero h0)
    have hv : strtolDigits 10 0 (fmtInt (n : Int) ++ rest) = n := by
      rw [fmtInt_natCast, strtolDigits_toDigitsCore _ _ _ (by omega)]
      exact strtolDigits_stop 10 n rest (by intro x hx; rw [hrest x hx]; decide)
    rw [he] at hv ⊢
    rw [List.cons_append] at hv ⊢
    rw [strtol_decimal c _ ⟨hc1, hc.2⟩, hv]
    unfold LONG_MAX
    omega

/-! ## Tokens -/

theorem getD_at_length (pre : List Nat) (x : Nat) (rest : List Nat) :
    (pre ++ x :: rest).getD pre.length 0 = x := by
  induction pre with
  | nil => rfl
  | cons a as ih => simpa using ih

theorem takeWhile_token (p : Nat → Bool) (tok : List Nat) (d : Nat) (rest : List Nat)
    (htok : ∀ c ∈ tok, p c = true) (hd : p d = false) :
    (tok ++ d :: rest).takeWhile p = tok := by
  induction tok with
  | nil => simp [List.takeWhile, hd]
  | cons c cs ih =>
    have hc : p c = true := htok c (List.mem_cons_self _ _)
    simp only [List.cons_append, List.takeWhile_cons, hc, if_true]
    rw [ih (fun x hx => htok x (List.mem_cons_of_mem _ hx))]

theorem spanAt_token (p : Nat → Bool) (pre tok : List Nat) (d : Nat) (rest : List Nat)
    (htok : ∀ c ∈ tok, (c != 0 && p c) = true) (hd : (d != 0 && p d) = false) :
    spanAt p (pre ++ tok ++ d :: rest) pre.length = tok.length := by
  unfold spanAt
  rw [List.append_assoc, List.drop_left, takeWhile_token _ tok d rest htok hd]

theorem strtok_start (pre : List Nat) (c : Nat) (rest : List Nat) (hc : c ≠ 58) :
    spanAt (fun x => x == 58) (pre ++ c :: rest) pre.length = 0 := by
  have := spanAt_token (fun x => x == 58) pre [] c rest (by simp) (by simp [hc])
  simpa using this

theorem cstrAt_token (pre tok rest : List Nat) (h0 : 0 ∉ tok) :
    cstrAt (pre ++ tok ++ 0 :: rest) pre.length = tok := by
  unfold cstrAt
  rw [List.append_assoc, List.drop_left, cstr_append_zero, cstr_eq_self h0]

theorem strtok_mid (pre : List Nat) (c : Nat) (cs rest : List Nat)
    (htok : ∀ x ∈ c :: cs, x ≠ 0 ∧ x ≠ 58) :
    strtok (pre ++ (c :: cs) ++ 58 :: rest) pre.length =
      some (pre.length, pre.length + (c :: cs).length + 1, pre ++ (c :: cs) ++ 0 :: rest) := by
  have hc := htok c (List.mem_cons_self _ _)
  have h1 : spanAt (fun x => x == 58) (pre ++ (c :: cs) ++ 58 :: rest) pre.length = 0 := by
    have := strtok_start pre c (cs ++ 58 :: rest) hc.2
    simpa using this
  have h2 : spanAt (fun x => x != 58) (pre ++ (c :: cs) ++ 58 :: rest) pre.length =
      (c :: cs).length :=
    spanAt_token _ pre (c :: cs) 58 rest
      (by intro x hx; have := htok x hx; simp [this.1, this.2]) (by simp)
  have h3 : (pre ++ (c :: cs) ++ 58 :: rest).getD pre.length 0 = c := by
    have := getD_at_length pre c (cs ++ 58 :: rest)
    simpa using this
  have h4 : (pre ++ (c :: cs) ++ 58 :: rest).getD (pre.length + (c :: cs).length) 0 = 58 := by
    have := getD_at_length (pre ++ (c :: cs)) 58 rest
    simpa using this
  have h5 : (pre ++ (c :: cs) ++ 58 :: rest).set (pre.length + (c :: cs).length) 0 =
      pre ++ (c :: cs) ++ 0 :: rest := by
    have := set_at_length (pre ++ (c :: cs)) 58 0 rest
    rw [List.length_append] at this
    exact this
  unfold strtok
  simp only [h1, Nat.add_zero, h3, h2, h4, h5]
  rw [if_neg hc.1, if_neg (by decide)]

theorem strtok_last (pre : List Nat) (c : Nat) (cs rest : List Nat)
    (htok : ∀ x ∈ c :: cs, x ≠ 0 ∧ x ≠ 58) :
    strtok (pre ++ (c :: cs) ++ 0 :: rest) pre.length =
      some (pre.length, pre.length + (c :: cs).length, pre ++ (c :: cs) ++ 0 :: rest) := by
  have hc := htok c (List.mem_cons_self _ _)
  have h1 : spanAt (fun x => x == 58) (pre ++ (c :: cs) ++ 0 :: rest) pre.length = 0 := by
    have := strtok_start pre c (cs ++ 0 :: rest) hc.2
    simpa using this
  have h2 : spanAt (fun x => x != 58) (pre ++ (c :: cs) ++ 0 :: rest) pre.length =
      (c :: cs).length :=
    spanAt_token _ pre (c :: cs) 0 rest
      (by intro x hx; have := htok x hx; simp [this.1, this.2]) (by simp)
  have h3 : (pre ++ (c :: cs) ++ 0 :: rest).getD pre.length 0 = c := by
    have := getD_at_length pre c (cs ++ 0 :: rest)
    simpa using this
  have h4 : (pre ++ (c :: cs) ++ 0 :: rest).getD (pre.length + (c :: cs).length) 0 = 0 := by
    have := getD_at_length (pre ++ (c :: cs)) 0 rest
    simpa using this
  unfold strtok
  simp only [h1, Nat.add_zero, h3, h2, h4]
  rw [if_neg hc.1, if_pos trivial]

/-! ## A response that arrives after the command -/

theorem respRead_idle (m : Machine) (idx : Nat)
    (h : ∀ t b rest, m.rx = (t, b) :: rest → m.now < t) :
    respRead m idx = .ok (m, idx, false) := by
  match hrx : m.rx with
  | [] => exact respRead_empty m idx hrx
  | (t, b) :: rest => exact respRead_wait m idx t b rest hrx (h t b rest hrx)

theorem flushRXLoop_idle_run (timeout start : Nat) :
    ∀ (j fuel : Nat) (m : Machine) (idx : Nat),
      flushStop m = false →
      (∀ t b rest, m.rx = (t, b) :: rest → 0 < j → m.now + 20 * j < t + 20) →
      (m.now - start) + 20 * j < timeout + 20 →
      flushRXLoop timeout start (fuel + j) m idx =
        flushRXLoop timeout start fuel (delay (20 * j) m) idx := by
  intro j
  induction j with
  | zero =>
    intro fuel m idx _ _ _
    have : delay (20 * 0) m = m := by cases m; rfl
    rw [this]; rfl
  | succ j ih =>
    intro fuel m idx hstop hwait htime
    have hfl : fuel + (j + 1) = (fuel + j) + 1 := by omega
    rw [hfl, flushRXLoop, if_pos (by omega),
      respRead_idle m idx (fun t b rest h => by have := hwait t b rest h (by omega); omega)]
    simp only [hstop, Bool.false_eq_true, if_false]
    rw [ih fuel (delay 20 m) idx hstop
      (fun t b rest h hj => by have := hwait t b rest h (by omega); simp only [delay]; omega)
      (by simp only [delay]; omega)]
    have : delay (20 * j) (delay 20 m) = delay (20 * (j + 1)) m := by
      simp only [delay]
      congr 1
      omega
    rw [this]

theorem recvResponseLoop_idle_run (timeout start : Nat) :
    ∀ (j fuel : Nat) (m : Machine) (idx : Nat) (rx_ok : Bool),
      verdict m = .none →
      (∀ t b rest, m.rx = (t, b) :: rest → 0 < j → m.now + 20 * j < t + 20) →
      (m.now - start) + 20 * j < timeout + 20 →
      recvResponseLoop timeout start (fuel + j) m idx rx_ok =
        recvResponseLoop timeout start fuel (delay (20 * j) m) idx rx_ok := by
  intro j
  induction j with
  | zero =>
    intro fuel m idx rx_ok _ _ _
    have : delay (20 * 0) m = m := by cases m; rfl
    rw [this]; rfl
  | succ j ih =>
    intro fuel m idx rx_ok hv hwait htime
    have hfl : fuel + (j + 1) = (fuel + j) + 1 := by omega
    rw [hfl, recvResponseLoop, if_pos (by omega),
      respRead_idle m idx (fun t b rest h => by have := hwait t b rest h (by omega); omega)]
    simp only [hv, Bool.or_false]
    rw [ih fuel (delay 20 m) idx rx_ok hv
      (fun t b rest h hj => by have := hwait t b rest h (by omega); simp only [delay]; omega)
      (by simp only [delay]; omega)]
    have : delay (20 * j) (delay 20 m) = delay (20 * (j + 1)) m := by
      simp only [delay]
      congr 1
      omega
    rw [this]

theorem flushRX_idle (m : Machine) (hlen : m.ret.length = 1024)
    (hwait : ∀ t b rest, m.rx = (t, b) :: rest → m.now + 1000 ≤ t) :
    ∃ r, flushRX 1000 m = .ok { m with now := m.now + 1000, ret := r } ∧ r.length = 1024 := by
  obtain ⟨r, hp, hH⟩ := holds_poke_zero m hlen
  refine ⟨r, ?_, hH.1⟩
  unfold flushRX
  rw [hp]
  have hstop : flushStop { m with ret := r } = false := by
    rw [flushStop]
    simp only
    rw [hH.cstr_eq]
    decide
  have hrun := flushRXLoop_idle_run 1000 m.now 50 2 { m with ret := r } 0 hstop
    (fun t b rest h _ => by have := hwait t b rest h; simp only; omega)
    (by simp only [Nat.sub_self]; omega)
  simp only at hrun ⊢
  rw [show 1000 / 20 + 2 = 2 + 50 by decide, hrun, flushRXLoop, if_neg (by simp [delay])]
  simp [delay]

theorem recvResponse_answer_run (m : Machine) (t : Nat) (g : List Nat) (b : Nat)
    (rest : List Nat) (hlen : m.ret.length = 1024)
    (hrx : m.rx = arriving t (g ++ b :: rest))
    (htime : t + 20 * (g.length + 1) ≤ m.now + 10000) (hshort : g.length < 499)
    (hquiet : ∀ a c, g = a ++ c → a ≠ [] → verdictOf (cstr a) = .none)
    (hv : verdictOf (cstr (g ++ [b])) = .success) :
    ∃ r now', Holds r (g ++ [b]) ∧
      recvResponse 10000 m = .ok (true, { m with now := now', rx := arriving t rest, ret := r }) := by
  obtain ⟨r0, hp, hH⟩ := holds_poke_zero m hlen
  unfold recvResponse
  rw [hp]
  simp only
  have hv0 : verdict { m with ret := r0 } = .none := by
    rw [verdict]; simp only; rw [hH.cstr_eq]; decide
  have hrx2 : m.rx = arriving t g ++ (t, b) :: arriving t rest := by
    rw [hrx, arriving_append, arriving_cons]
  -- the rounds spent waiting for the first byte
  obtain ⟨j, hj1, hj2⟩ : ∃ j, t ≤ m.now + 20 * j ∧ (0 < j → m.now + 20 * j < t + 20) :=
    ⟨(t - m.now + 19) / 20, by omega, by omega⟩
  obtain ⟨f, hf⟩ : ∃ f, 10000 / 20 + 2 = ((f + 1) + g.length) + j :=
    ⟨10000 / 20 + 1 - g.length - j, by omega⟩
  have hidle := recvResponseLoop_idle_run 10000 m.now j ((f + 1) + g.length) { m with ret := r0 }
    0 false hv0 (fun t' b' rest' h hj => by
      simp only at h
      rw [hrx] at h
      have := arriving_prompt t _ (t', b') (by rw [h]; exact List.mem_cons_self _ _)
      simp only at this
      subst this
      simp only
      exact hj2 hj)
    (by simp only [Nat.sub_self]; omega)
  obtain ⟨r, hHr, hrun⟩ := recvResponseLoop_take_run 10000 m.now (arriving t g) (f + 1)
    (delay (20 * j) { m with ret := r0 }) [] false ((t, b) :: arriving t rest)
    (by simp only [delay]; exact hrx2)
    (by intro x hx; rw [arriving_prompt t g x hx]; simp only [delay]; omega)
    (by simpa [delay] using hH)
    (by simp only [List.length_nil, arriving_length]; omega)
    (by
      intro a c hac hane
      rw [arriving_snd] at hac
      simpa using hquiet a c hac hane)
    (by simp only [delay, arriving_length]; omega)
  simp only [List.length_nil, Nat.zero_add, List.nil_append, arriving_snd, arriving_length,
    delay] at hrun hHr
  obtain ⟨r1, hread, hH1⟩ := respRead_take
    { m with now := m.now + 20 * j + 20 * g.length, rx := (t, b) :: arriving t rest, ret := r }
    t b (arriving t rest) g rfl (by simp only; omega) hHr (by omega)
  refine ⟨r1, m.now + 20 * j + 20 * g.length, hH1, ?_⟩
  rw [hf, hidle]
  simp only [arriving_length, delay] at hrun ⊢
  rw [hrun, recvResponseLoop, if_pos (by simp only; omega), hread]
  have hvm : verdict
      { m with now := m.now + 20 * j + 20 * g.length, rx := arriving t rest, ret := r1 } =
        .success := by
    rw [verdict]; simp only; rw [hH1.cstr_eq]; exact hv
  simp only [hvm]

theorem exchange_answer (cmd : List Nat) (m : Machine) (t : Nat) (g : List Nat) (b : Nat)
    (rest : List Nat) (hlen : m.ret.length = 1024)
    (hrx : m.rx = arriving t (g ++ b :: rest))
    (ht : m.now + 1000 ≤ t) (htime : t + 20 * (g.length + 1) ≤ m.now + 11050)
    (hshort : g.length < 499)
    (hquiet : ∀ a c, g = a ++ c → a ≠ [] → verdictOf (cstr a) = .none)
    (hv : verdictOf (cstr (g ++ [b])) = .success) :
    ∃ r now', Holds r (g ++ [b]) ∧
      exchange cmd m = .ok
        { m with now := now', rx := arriving t rest, tx := m.tx ++ ascii "\r\n" ++ cmd, ret := r } := by
  obtain ⟨rf, hflush, hrf⟩ := flushRX_idle (print m (ascii "\r\n")) hlen
    (fun t' b' rest' h => by
      simp only [print] at h ⊢
      rw [hrx] at h
      have := arriving_prompt t _ (t', b') (by rw [h]; exact List.mem_cons_self _ _)
      simp only at this
      subst this
      exact ht)
  obtain ⟨r, now', hH, hrecv⟩ := recvResponse_answer_run
    (delay 50 (print
      { print m (ascii "\r\n") with now := (print m (ascii "\r\n")).now + 1000, ret := rf }
      cmd)) t g b rest hrf (by simp only [delay, print]; exact hrx)
    (by simp only [delay, print]; omega) hshort hquiet hv
  refine ⟨r, now', hH, ?_⟩
  unfold exchange sendRawCommand
  rw [hflush]
  simp only
  rw [hrecv]
  simp only [delay, print]

/-! ## The answer to the P2P query -/

theorem mem_of_hasTok {text : List Nat} {tok : String} (h : hasTok text tok = true) :
    ∀ x ∈ ascii tok, x ∈ text :=
  fun _ hx => ((hasTok_iff text tok).mp h).subset hx

theorem sentinels_marked : ∀ tok ∈ sentinels, ∃ x ∈ ascii tok, x = 75 ∨ x = 95 ∨ x = 86 := by
  decide

theorem verdictOf_unmarked (text : List Nat) (h : ∀ x ∈ text, x ≠ 75 ∧ x ≠ 95 ∧ x ≠ 86) :
    verdictOf text = .none := by
  rw [verdictOf_none_iff]
  intro tok htok
  by_contra hc
  obtain ⟨x, hx, hmark⟩ := sentinels_marked tok htok
  have := h x (mem_of_hasTok (by simpa using hc) x hx)
  omega

theorem verdictOf_ends_OK (text : List Nat) (h : ∀ x ∈ text, x ≠ 95)
    (hok : ascii "OK" <:+: text) : verdictOf text = .success := by
  have h1 : hasTok text "+EVT:TX_DONE" = false := by
    by_contra hc
    exact (h 95 (mem_of_hasTok (by simpa using hc) 95 (by decide))) rfl
  have h2 : hasTok text "+EVT:SEND_CONFIRMED_OK" = false := by
    by_contra hc
    exact (h 95 (mem_of_hasTok (by simpa using hc) 95 (by decide))) rfl
  have h3 : hasTok text "OK" = true := (hasTok_iff _ _).mpr hok
  unfold verdictOf
  rw [h1, h2, h3]
  cases hasTok text "+EVT:TXP2P DONE" <;> rfl

theorem strtok_next (pre tok rest : List Nat) (h : tok ≠ [] ∧ ∀ x ∈ tok, x ≠ 0 ∧ x ≠ 58) :
    strtok (pre ++ (tok ++ 58 :: rest)) pre.length =
      some (pre.length, (pre ++ tok ++ [0]).length, (pre ++ tok ++ [0]) ++ rest) := by
  obtain ⟨c, cs, rfl⟩ := List.exists_cons_of_ne_nil h.1
  have := strtok_mid pre c cs rest h.2
  rw [List.append_assoc] at this
  rw [this]
  simp
  omega

theorem strtok_final (pre tok rest : List Nat) (h : tok ≠ [] ∧ ∀ x ∈ tok, x ≠ 0 ∧ x ≠ 58) :
    strtok (pre ++ (tok ++ 0 :: rest)) pre.length =
      some (pre.length, (pre ++ tok).length, pre ++ (tok ++ 0 :: rest)) := by
  obtain ⟨c, cs, rfl⟩ := List.exists_cons_of_ne_nil h.1
  have := strtok_last pre c cs rest h.2
  rw [List.append_assoc] at this
  rw [this]
  simp

theorem cstrAt_next (pre tok rest : List Nat) (h : tok ≠ [] ∧ ∀ x ∈ tok, x ≠ 0 ∧ x ≠ 58) :
    cstrAt ((pre ++ tok ++ [0]) ++ rest) pre.length = tok := by
  have h0 : 0 ∉ tok := fun hm => (h.2 0 hm).1 rfl
  have := cstrAt_token pre tok rest h0
  simpa using this

theorem cstrAt_final (pre tok rest : List Nat) (h : tok ≠ [] ∧ ∀ x ∈ tok, x ≠ 0 ∧ x ≠ 58) :
    cstrAt (pre ++ (tok ++ 0 :: rest)) pre.length = tok := by
  have h0 : 0 ∉ tok := fun hm => (h.2 0 hm).1 rfl
  have := cstrAt_token pre tok rest h0
  simpa using this

theorem getP2P_parse (s0 : p2p_settings) (m m1 : Machine) (t1 t2 t3 t4 t5 t6 tail : List Nat)
    (hex : exchange (ascii "at+p2p=?\r\n") m = .ok m1)
    (hret : m1.ret = ascii "AT+P2P=" ++ (t1 ++ 58 :: (t2 ++ 58 :: (t3 ++ 58 :: (t4 ++ 58 ::
      (t5 ++ 58 :: (t6 ++ 0 :: tail)))))))
    (h1 : t1 ≠ [] ∧ ∀ x ∈ t1, x ≠ 0 ∧ x ≠ 58) (h2 : t2 ≠ [] ∧ ∀ x ∈ t2, x ≠ 0 ∧ x ≠ 58)
    (h3 : t3 ≠ [] ∧ ∀ x ∈ t3, x ≠ 0 ∧ x ≠ 58) (h4 : t4 ≠ [] ∧ ∀ x ∈ t4, x ≠ 0 ∧ x ≠ 58)
    (h5 : t5 ≠ [] ∧ ∀ x ∈ t5, x ≠ 0 ∧ x ≠ 58) (h6 : t6 ≠ [] ∧ ∀ x ∈ t6, x ≠ 0 ∧ x ≠ 58) :
    ∃ r, getP2P s0 m = .ok (true,
      { freq := toUint32 (strtol t1 0), sf := toUint16 (strtol t2 0),
        bw := toUint16 (strtol t3 0), cr := toUint16 (strtol t4 0),
        ppl := toUint16 (strtol t5 0), txp := toUint16 (strtol t6 0) }, { m1 with ret := r }) := by
  have hhas : retHas m1 "AT+P2P=" = true := by
    unfold retHas
    rw [hasTok_iff, hret]
    have hp : cstr (ascii "AT+P2P=") <+: cstr (ascii "AT+P2P=" ++ (t1 ++ 58 :: (t2 ++ 58 ::
        (t3 ++ 58 :: (t4 ++ 58 :: (t5 ++ 58 :: (t6 ++ 0 :: tail))))))) :=
      cstr_mono (List.prefix_append _ _)
    rw [cstr_eq_self (by decide)] at hp
    exact hp.isInfix
  have h7 : (ascii "AT+P2P=").length = 7 := by decide
  have e1 := strtok_next (ascii "AT+P2P=") t1
    (t2 ++ 58 :: (t3 ++ 58 :: (t4 ++ 58 :: (t5 ++ 58 :: (t6 ++ 0 :: tail))))) h1
  have c1 := cstrAt_next (ascii "AT+P2P=") t1
    (t2 ++ 58 :: (t3 ++ 58 :: (t4 ++ 58 :: (t5 ++ 58 :: (t6 ++ 0 :: tail))))) h1
  rw [h7] at e1 c1
  have e2 := strtok_next (ascii "AT+P2P=" ++ t1 ++ [0]) t2
    (t3 ++ 58 :: (t4 ++ 58 :: (t5 ++ 58 :: (t6 ++ 0 :: tail)))) h2
  have c2 := cstrAt_next (ascii "AT+P2P=" ++ t1 ++ [0]) t2
    (t3 ++ 58 :: (t4 ++ 58 :: (t5 ++ 58 :: (t6 ++ 0 :: tail)))) h2
  have e3 := strtok_next (ascii "AT+P2P=" ++ t1 ++ [0] ++ t2 ++ [0]) t3
    (t4 ++ 58 :: (t5 ++ 58 :: (t6 ++ 0 :: tail))) h3
  have c3 := cstrAt_next (ascii "AT+P2P=" ++ t1 ++ [0] ++ t2 ++ [0]) t3
    (t4 ++ 58 :: (t5 ++ 58 :: (t6 ++ 0 :: tail))) h3
  have e4 := strtok_next (ascii "AT+P2P=" ++ t1 ++ [0] ++ t2 ++ [0] ++ t3 ++ [0]) t4
    (t5 ++ 58 :: (t6 ++ 0 :: tail)) h4
  have c4 := cstrAt_next (ascii "AT+P2P=" ++ t1 ++ [0] ++ t2 ++ [0] ++ t3 ++ [0]) t4
    (t5 ++ 58 :: (t6 ++ 0 :: tail)) h4
  have e5 := strtok_next (ascii "AT+P2P=" ++ t1 ++ [0] ++ t2 ++ [0] ++ t3 ++ [0] ++ t4 ++ [0]) t5
    (t6 ++ 0 :: tail) h5
  have c5 := cstrAt_next (ascii "AT+P2P=" ++ t1 ++ [0] ++ t2 ++ [0] ++ t3 ++ [0] ++ t4 ++ [0]) t5
    (t6 ++ 0 :: tail) h5
  have e6 := strtok_final
    (ascii "AT+P2P=" ++ t1 ++ [0] ++ t2 ++ [0] ++ t3 ++ [0] ++ t4 ++ [0] ++ t5 ++ [0]) t6 tail h6
  have c6 := cstrAt_final
    (ascii "AT+P2P=" ++ t1 ++ [0] ++ t2 ++ [0] ++ t3 ++ [0] ++ t4 ++ [0] ++ t5 ++ [0]) t6 tail h6
  refine ⟨ascii "AT+P2P=" ++ t1 ++ [0] ++ t2 ++ [0] ++ t3 ++ [0] ++ t4 ++ [0] ++
    t5 ++ [0] ++ (t6 ++ 0 :: tail), ?_⟩
  unfold getP2P
  rw [hex]
  simp only [hhas, if_true, hret, e1, c1, e2, c2, e3, c3, e4, c4, e5, c5, e6, c6]


theorem fmtInt_token (n : Nat) :
    fmtInt (n : Int) ≠ [] ∧ ∀ x ∈ fmtInt (n : Int), 48 ≤ x ∧ x ≤ 57 := by
  obtain ⟨c, cs, he, hall, _⟩ := fmtInt_digits n
  rw [he]
  exact ⟨List.cons_ne_nil _ _, hall⟩

theorem toUint32_natCast (n : Nat) (h : n < 4294967296) : toUint32 (n : Int) = n := by
  unfold toUint32
  omega

theorem toUint16_natCast (n : Nat) (h : n < 65536) : toUint16 (n : Int) = n := by
  unfold toUint16
  omega

theorem p2pFields_in_range (s : p2p_settings) (hfreq : s.freq < 2147483648)
    (hsf : s.sf < 65536) (hbw : s.bw < 65536) (hcr : s.cr < 65536) (hppl : s.ppl < 65536)
    (htxp : s.txp < 65536) :
    p2pFields s = fmtInt (s.freq : Int) ++ 58 :: (fmtInt (s.sf : Int) ++ 58 ::
      (fmtInt (s.bw : Int) ++ 58 :: (fmtInt (s.cr : Int) ++ 58 :: (fmtInt (s.ppl : Int) ++ 58 ::
        fmtInt (s.txp : Int))))) := by
  have ha : asLong s.freq = (s.freq : Int) := by
    unfold asLong
    rw [Nat.mod_eq_of_lt (by omega), if_pos hfreq]
  have hc : ascii ":" = [58] := by decide
  simp only [p2pFields, ha, hc, Nat.mod_eq_of_lt hsf, Nat.mod_eq_of_lt hbw, Nat.mod_eq_of_lt hcr,
    Nat.mod_eq_of_lt hppl, Nat.mod_eq_of_lt htxp, List.append_assoc, List.singleton_append,
    List.cons_append, List.nil_append]

/-! ## Decimal fields of a command -/

theorem fmtInt_repr (n : Nat) : fmtInt (n : Int) = ascii (Nat.repr n) := by
  unfold fmtInt
  rw [if_neg (by omega)]
  rfl

theorem fmtInt_neg_repr (n : Nat) (h : 0 < n) : fmtInt (-(n : Int)) = 45 :: ascii (Nat.repr n) := by
  unfold fmtInt
  rw [if_pos (by omega)]
  simp only [Int.natAbs_neg, Int.natAbs_ofNat]
  rfl

theorem asLong_low (k : Nat) : asLong (k % 2147483648) = ((k % 2147483648 : Nat) : Int) := by
  unfold asLong
  have h : k % 2147483648 % 4294967296 = k % 2147483648 := Nat.mod_eq_of_lt (by omega)
  rw [h, if_pos (Nat.mod_lt _ (by decide))]

theorem asLong_high (k : Nat) :
    asLong (2147483648 + k % 2147483648) = -((2147483648 - k % 2147483648 : Nat) : Int) := by
  unfold asLong
  have h : (2147483648 + k % 2147483648) % 4294967296 = 2147483648 + k % 2147483648 :=
    Nat.mod_eq_of_lt (by omega)
  rw [h, if_neg (by omega)]
  omega

theorem commandP2P_fits (f1 f2 f3 f4 f5 f6 : List Nat) (h1 : f1.length ≤ 11)
    (h2 : f2.length ≤ 5) (h3 : f3.length ≤ 5) (h4 : f4.length ≤ 5) (h5 : f5.length ≤ 5)
    (h6 : f6.length ≤ 5) :
    (ascii "at+p2p=" ++ (f1 ++ ascii ":" ++ f2 ++ ascii ":" ++ f3 ++ ascii ":" ++ f4 ++
      ascii ":" ++ f5 ++ ascii ":" ++ f6) ++ ascii "\r\n").take 1023 =
    ascii "at+p2p=" ++ f1 ++ ascii ":" ++ f2 ++ ascii ":" ++ f3 ++ ascii ":" ++ f4 ++
      ascii ":" ++ f5 ++ ascii ":" ++ f6 ++ ascii "\r\n" := by
  have e7 : (ascii "at+p2p=").length = 7 := by decide
  have e1 : (ascii ":").length = 1 := by decide
  have e2 : (ascii "\r\n").length = 2 := by decide
  rw [List.take_of_length_le]
  · simp only [List.append_assoc]
  · simp only [List.length_append, e7, e1, e2]
    omega

/-! ## The bytes a set verb prints -/

theorem sendAndCheckOK_wire (cmd : List Nat) (m : Machine) (hlen : m.ret.length = 1024) :
    (∃ r m', sendAndCheckOK cmd m = .ok (r, m') ∧ m'.tx = m.tx ++ ascii "\r\n" ++ cmd) ∨
    (1024 ≤ m.rx.length ∧ Overruns (sendAndCheckOK cmd m)) := by
  rcases sendAndCheckOK_run cmd m hlen with ⟨a, r, m', _, _, htx, hres, _⟩ | h
  · exact Or.inl ⟨_, m', hres, htx⟩
  · exact Or.inr h

theorem commandInt_small (verb : String) (r : Nat) (hr : r < 100000)
    (hv : (ascii verb).length ≤ 1000) :
    commandInt verb (r : Int) = ascii verb ++ ascii (Nat.repr r) ++ ascii "\r\n" := by
  unfold commandInt
  rw [fmtInt_repr]
  apply List.take_of_length_le
  have h1 := fmtInt_length r 5 (by decide) (by norm_num; omega)
  rw [fmtInt_repr] at h1
  have h2 : (ascii "\r\n").length = 2 := by decide
  simp only [List.length_append, h2]
  omega

/-! ## Runs of `recvResponse` that return, on any stream -/

theorem RespEnd.of_waiting {timeout start : Nat} {m : Machine} {rx_ok : Bool} {got : List Nat}
    {k : Nat} {r : Bool} {m' : Machine} (d : Nat)
    (hend : RespEnd timeout start (delay d m) (rx_ok || false) got k r m') :
    RespEnd timeout start m rx_ok got k r m' := by
  simp only [delay, Bool.or_false] at hend
  cases hend with
  | timedOut hr hv hrx hsame hnow hlate hret =>
    exact .timedOut hr hv hrx (by rw [hsame]) (by simp only at hnow; omega) hlate hret
  | succeeded hr hv hrx hsame hnow hret =>
    exact .succeeded hr hv hrx (by rw [hsame]) (by simp only at hnow; omega) hret
  | failed hr hv hrx hsame hnow hret =>
    exact .failed hr hv hrx (by rw [hsame]) (by simp only at hnow; omega) hret
  | chained hr hv m1 hrx hsame hnow hret hrun =>
    exact .chained hr hv m1 hrx (by rw [hsame]) (by simp only at hnow; omega) hret hrun

theorem RespEnd.of_byte_taken {timeout start : Nat} {m : Machine} {rx_ok : Bool} {got : List Nat}
    {k : Nat} {r : Bool} {m' : Machine} {t b : Nat} {rest : List (Nat × Nat)} {r0 : List Nat}
    (d : Nat) (hrx : m.rx = (t, b) :: rest)
    (hend : RespEnd timeout start (delay d { m with rx := rest, ret := r0 }) true got k r m') :
    RespEnd timeout start m rx_ok got (k + 1) r m' := by
  simp only [delay] at hend
  have hdrop : List.drop k rest = List.drop (k + 1) m.rx := by rw [hrx]; simp
  cases hend with
  | timedOut hr hv hrx' hsame hnow hlate hret =>
    exact .timedOut hr hv (hrx'.trans hdrop) (by rw [hsame]) (by simp only at hnow; omega)
      hlate (by simpa using hret)
  | succeeded hr hv hrx' hsame hnow hret =>
    exact .succeeded hr hv (hrx'.trans hdrop) (by rw [hsame]) (by simp only at hnow; omega) hret
  | failed hr hv hrx' hsame hnow hret =>
    exact .failed hr hv (hrx'.trans hdrop) (by rw [hsame]) (by simp only at hnow; omega) hret
  | chained hr hv m1 hrx' hsame hnow hret hrun =>
    exact .chained hr hv m1 (hrx'.trans hdrop) (by rw [hsame]) (by simp only at hnow; omega)
      hret hrun

theorem quietResp_cons {pre : List Nat} {b : Nat} {l : List Nat}
    (hq : verdictOf (cstr (pre ++ [b])) = .none) (h : QuietResp (pre ++ [b]) l) :
    QuietResp pre (b :: l) := by
  intro g c tl hdec htl
  cases g with
  | nil =>
    simp only [List.nil_append, List.cons.injEq] at hdec
    rw [← hdec.1]
    simpa using hq
  | cons x g' =>
    simp only [List.cons_append, List.cons.injEq] at hdec
    have := h g' c tl hdec.2 htl
    rw [← hdec.1]
    simpa using this

/-- What the loop of `recvResponse` has done when it returns: `RespEnd`, the
count of the bytes read against the polls made, and the state `m1` in which
the loop was left. -/
theorem recvResponseLoop_returns (timeout start : Nat) :
    ∀ (fuel : Nat) (m : Machine) (pre : List Nat) (rx_ok r : Bool) (m' : Machine) (c : Nat),
      Holds m.ret pre → verdictOf (cstr pre) = .none → start ≤ m.now →
      20 * c ≤ m.now - start → m.now - start < timeout + 20 →
      recvResponseLoop timeout start fuel m pre.length rx_ok = .ok (r, m') →
      ∃ k, k ≤ m.rx.length ∧ QuietResp pre ((m.rx.take k).map Prod.snd) ∧
        RespEnd timeout start m rx_ok (pre ++ (m.rx.take k).map Prod.snd) k r m' ∧
        c + k ≤ (timeout + 19) / 20 ∧
        ∃ m1, m1.rx = m.rx.drop k ∧ m.now ≤ m1.now ∧ m1.now - start < timeout + 20 ∧
          m1.ret.length = 1024 ∧
          ((verdictOf (cstr (pre ++ (m.rx.take k).map Prod.snd)) ≠ .pendingRx ∧ m' = m1) ∨
            (verdictOf (cstr (pre ++ (m.rx.take k).map Prod.snd)) = .pendingRx ∧
              m1.now - start < timeout ∧ recvRX 5000 m1 = .ok m')) := by
  intro fuel
  induction fuel with
  | zero =>
    intro m pre rx_ok r m' c _ _ _ _ _ h
    simp [recvResponseLoop] at h
  | succ fuel ih =>
    intro m pre rx_ok r m' c hH hv hstart hc hsoon h
    rw [recvResponseLoop] at h
    by_cases hlate : m.now - start < timeout
    · rw [if_pos hlate] at h
      have hvm : verdict m = .none := by rw [verdict, hH.cstr_eq]; exact hv
      have hidle : respRead m pre.length = .ok (m, pre.length, false) →
          ∃ k, k ≤ m.rx.length ∧ QuietResp pre ((m.rx.take k).map Prod.snd) ∧
            RespEnd timeout start m rx_ok (pre ++ (m.rx.take k).map Prod.snd) k r m' ∧
            c + k ≤ (timeout + 19) / 20 ∧
            ∃ m1, m1.rx = m.rx.drop k ∧ m.now ≤ m1.now ∧ m1.now - start < timeout + 20 ∧
              m1.ret.length = 1024 ∧
              ((verdictOf (cstr (pre ++ (m.rx.take k).map Prod.snd)) ≠ .pendingRx ∧ m' = m1) ∨
                (verdictOf (cstr (pre ++ (m.rx.take k).map Prod.snd)) = .pendingRx ∧
                  m1.now - start < timeout ∧ recvRX 5000 m1 = .ok m')) := by
        intro hread
        rw [hread] at h
        simp only [hvm] at h
        obtain ⟨k, hk, hq, hend, hcount, m1, h1, h2, h3, h4, h5⟩ :=
          ih (delay 20 m) pre (rx_ok || false) r m' c hH hv (by simp only [delay]; omega)
            (by simp only [delay]; omega) (by simp only [delay]; omega) h
        simp only [delay] at hk hq h1 h2 h5 hcount
        refine ⟨k, hk, hq, RespEnd.of_waiting 20 hend, hcount, m1, h1, by omega, h3, h4, h5⟩
      match hrx : m.rx with
      | [] =>
        have := hidle (respRead_empty m _ hrx)
        rw [hrx] at this
        exact this
      | (t, b) :: rest =>
        by_cases ht : t ≤ m.now
        · have hpl := hH.length_lt
          by_cases hfull : pre.length = 1023
          · rw [respRead_fault m t b rest pre hrx ht hfull] at h
            cases h
          · obtain ⟨r0, hread, hH1⟩ := respRead_take m t b rest pre hrx ht hH (by omega)
            rw [hread] at h
            have hvm1 : verdict { m with rx := rest, ret := r0 } =
                verdictOf (cstr (pre ++ [b])) := by
              rw [verdict]; simp only; rw [hH1.cstr_eq]
            simp only [hvm1] at h
            have hcount1 : c + 1 ≤ (timeout + 19) / 20 := by omega
            have hone : ∀ (res : Bool) (mm : Machine),
                RespEnd timeout start m rx_ok (pre ++ [b]) 1 res mm →
                QuietResp pre (((t, b) :: rest).take 1 |>.map Prod.snd) ∧
                  RespEnd timeout start m rx_ok
                    (pre ++ (((t, b) :: rest).take 1 |>.map Prod.snd)) 1 res mm := by
              intro res mm hend
              exact ⟨by simpa using quietResp_single pre b, by simpa using hend⟩
            have hdrop1 : rest = List.drop 1 m.rx := by rw [hrx]; simp
            have hgot1 : pre ++ (((t, b) :: rest).take 1 |>.map Prod.snd) = pre ++ [b] := by
              simp
            cases hvb : verdictOf (cstr (pre ++ [b])) with
            | none =>
              rw [hvb] at h
              simp only at h
              obtain ⟨k, hk, hq, hend, hcount, m1, h1, h2, h3, h4, h5⟩ :=
                ih (delay 20 { m with rx := rest, ret := r0 }) (pre ++ [b]) (rx_ok || true) r m'
                  (c + 1) hH1 hvb (by simp only [delay]; omega)
                  (by simp only [delay]; omega) (by simp only [delay]; omega)
                  (by simpa using h)
              simp only [delay] at hk hq h1 h2 h5 hcount
              have hgot : pre ++ [b] ++ List.map Prod.snd (List.take k rest) =
                  pre ++ List.map Prod.snd (List.take (k + 1) ((t, b) :: rest)) := by
                simp
              have hend1 : RespEnd timeout start (delay 20 { m with rx := rest, ret := r0 }) true
                  (pre ++ [b] ++ List.map Prod.snd (List.take k rest)) k r m' := by
                rw [Bool.or_true] at hend
                exact hend
              refine ⟨k + 1, by simp only [List.length_cons]; omega, ?_, ?_, by omega, m1,
                by simpa using h1, by omega, h3, h4, ?_⟩
              · simpa using quietResp_cons hvb hq
              · rw [← hgot]
                exact RespEnd.of_byte_taken 20 hrx hend1
              · rw [← hgot]
                exact h5
            | success =>
              rw [hvb] at h
              simp only [Except.ok.injEq, Prod.mk.injEq] at h
              obtain ⟨hr, hm⟩ := h
              subst hm
              obtain ⟨hq1, he1⟩ := hone r { m with rx := rest, ret := r0 }
                (.succeeded hr.symm hvb hdrop1 rfl (Nat.le_refl _) hH1)
              refine ⟨1, by simp, hq1, he1, hcount1, { m with rx := rest, ret := r0 }, rfl,
                Nat.le_refl _, by simp only; omega, hH1.1, Or.inl ⟨?_, rfl⟩⟩
              rw [hgot1, hvb]
              decide
            | failure =>
              rw [hvb] at h
              simp only [Except.ok.injEq, Prod.mk.injEq] at h
              obtain ⟨hr, hm⟩ := h
              subst hm
              obtain ⟨hq1, he1⟩ := hone r { m with rx := rest, ret := r0 }
                (.failed hr.symm hvb hdrop1 rfl (Nat.le_refl _) hH1)
              refine ⟨1, by simp, hq1, he1, hcount1, { m with rx := rest, ret := r0 }, rfl,
                Nat.le_refl _, by simp only; omega, hH1.1, Or.inl ⟨?_, rfl⟩⟩
              rw [hgot1, hvb]
              decide
            | pendingRx =>
              rw [hvb] at h
              simp only at h
              cases hres : recvRX 5000 { m with rx := rest, ret := r0 } with
              | error e => rw [hres] at h; cases h
              | ok m2 =>
                rw [hres] at h
                simp only [Except.ok.injEq, Prod.mk.injEq] at h
                obtain ⟨hr, hm⟩ := h
                subst hm
                obtain ⟨hq1, he1⟩ := hone r m2
                  (.chained hr.symm hvb { m with rx := rest, ret := r0 } hdrop1 rfl
                    (Nat.le_refl _) hH1 hres)
                refine ⟨1, by simp, hq1, he1, hcount1, { m with rx := rest, ret := r0 },
                  rfl, Nat.le_refl _, by simp only; omega, hH1.1, Or.inr ⟨?_, hlate, hres⟩⟩
                rw [hgot1, hvb]
        · have := hidle (respRead_wait m _ t b rest hrx (by omega))
          rw [hrx] at this
          exact this
    · rw [if_neg hlate] at h
      simp only [Except.ok.injEq, Prod.mk.injEq] at h
      obtain ⟨hr, hm⟩ := h
      subst hm
      subst hr
      have hgot0 : pre ++ (m.rx.take 0).map Prod.snd = pre := by simp
      have hv0 : verdictOf (cstr (pre ++ (m.rx.take 0).map Prod.snd)) ≠ .pendingRx := by
        rw [hgot0, hv]
        decide
      cases rx_ok with
      | false =>
        refine ⟨0, Nat.zero_le _, quietResp_nil pre m.rx, ?_, by omega, _, by simp [setRetLit],
          by simp [setRetLit], by simp only [Bool.not_false, if_true, setRetLit]; omega, ?_,
          Or.inl ⟨hv0, rfl⟩⟩
        · rw [hgot0]
          exact .timedOut rfl (by simpa using hv) (by simp [setRetLit]) (by simp [setRetLit])
            (by simp [setRetLit]) (by simp only [Bool.not_false, if_true, setRetLit]; omega)
            (by simpa [setRetLit] using ⟨m.ret, rfl⟩)
        · simp only [Bool.not_false, if_true, setRetLit, snprintfLit, List.length_append,
            List.length_cons, List.length_drop]
          have : (ascii "NO_RESPONSE").length = 11 := by decide
          rw [this, hH.1]
      | true =>
        refine ⟨0, Nat.zero_le _, quietResp_nil pre m.rx, ?_, by omega, _, by simp,
          by simp, by simp only [Bool.not_true, Bool.false_eq_true, if_false]; omega, ?_,
          Or.inl ⟨hv0, rfl⟩⟩
        · rw [hgot0]
          exact .timedOut rfl (by simpa using hv) (by simp) (by simp) (by simp)
            (by simp only [Bool.not_true, Bool.false_eq_true, if_false]; omega)
            (by simpa using hH)
        · simpa using hH.1

theorem recvResponse_returns {timeout : Nat} {m m' : Machine} {r : Bool}
    (hlen : m.ret.length = 1024) (h : recvResponse timeout m = .ok (r, m')) :
    ∃ k, k ≤ m.rx.length ∧ QuietResp [] ((m.rx.take k).map Prod.snd) ∧
      RespEnd timeout m.now m false ((m.rx.take k).map Prod.snd) k r m' ∧
      k ≤ (timeout + 19) / 20 ∧
      ∃ m1, m1.rx = m.rx.drop k ∧ m.now ≤ m1.now ∧ m1.now - m.now < timeout + 20 ∧
        m1.ret.length = 1024 ∧
        ((verdictOf (cstr ((m.rx.take k).map Prod.snd)) ≠ .pendingRx ∧ m' = m1) ∨
          (verdictOf (cstr ((m.rx.take k).map Prod.snd)) = .pendingRx ∧
            m1.now - m.now < timeout ∧ recvRX 5000 m1 = .ok m')) := by
  obtain ⟨r0, hp, hH⟩ := holds_poke_zero m hlen
  unfold recvResponse at h
  rw [hp] at h
  simp only at h
  obtain ⟨k, hk, hq, hend, hcount, m1, h1, h2, h3, h4, h5⟩ :=
    recvResponseLoop_returns timeout m.now _ { m with ret := r0 } [] false r m' 0 hH (by decide)
      (Nat.le_refl _) (by simp) (by simp) h
  simp only [List.nil_append, Nat.zero_add] at hk hq hend hcount h1 h2 h3 h5
  refine ⟨k, hk, hq, ?_, hcount, m1, h1, h2, h3, h4, h5⟩
  cases hend with
  | timedOut hr hv hrx hsame hnow hlate hret =>
    exact .timedOut hr hv hrx (by rw [hsame]) hnow hlate hret
  | succeeded hr hv hrx hsame hnow hret => exact .succeeded hr hv hrx (by rw [hsame]) hnow hret
  | failed hr hv hrx hsame hnow hret => exact .failed hr hv hrx (by rw [hsame]) hnow hret
  | chained hr hv m1 hrx hsame hnow hret hrun =>
    exact .chained hr hv m1 hrx (by rw [hsame]) hnow hret hrun

/-! ## What a returning `recvResponse` has read -/

theorem verdictOf_tokens (text : List Nat) :
    (verdictOf text = .pendingRx →
      hasTok text "+EVT:TX_DONE" = true ∨ hasTok text "+EVT:SEND_CONFIRMED_OK" = true) ∧
    (verdictOf text = .success →
      hasTok text "+EVT:TXP2P DONE" = true ∨ hasTok text "OK" = true) ∧
    (verdictOf text = .failure →
      hasTok text "+EVT:TXP2P DONE" = false ∧ hasTok text "OK" = false) := by
  unfold verdictOf
  cases hasTok text "+EVT:TX_DONE" <;> cases hasTok text "+EVT:SEND_CONFIRMED_OK" <;>
    cases hasTok text "+EVT:TXP2P DONE" <;> cases hasTok text "OK" <;>
    cases hasTok text "AT_COMMAND_NOT_FOUND" <;> cases hasTok text "AT_PARAM_ERROR" <;>
    cases hasTok text "SEND_CONFIRMED_FAILED" <;> cases hasTok text "AT_NO_NETWORK_JOINED" <;>
    simp

theorem recvResponse_ok_or_overrun (timeout : Nat) (m : Machine) (hlen : m.ret.length = 1024) :
    (∃ r m', recvResponse timeout m = .ok (r, m')) ∨
    (1024 ≤ m.rx.length ∧ Overruns (recvResponse timeout m)) := by
  cases hres : recvResponse timeout m with
  | ok p => exact Or.inl ⟨p.1, p.2, rfl⟩
  | error e =>
    right
    constructor
    · by_contra hshort
      have hs := recvResponse_sound timeout m hlen (by omega)
      rw [hres] at hs
      exact hs
    · obtain ⟨i, hi, he⟩ := recvResponse_error hres
      exact ⟨i, hi, by rw [he]⟩

theorem nul_free_initial {p s : List Nat} (h : p <+: s) (hs : 0 ∉ s) : 0 ∉ p :=
  fun hp => hs (h.subset hp)

theorem no_sentinel_of_quiet {p : List Nat} (hnul : 0 ∉ p) (hv : verdictOf (cstr p) = .none) :
    ∀ tok ∈ sentinels, ¬ ascii tok <:+: p := by
  intro tok htok hin
  have := (verdictOf_none_iff _).mp hv tok htok
  rw [hasTok_of_occurrence tok hnul hin] at this
  exact absurd this (by decide)

theorem sentinels_nonempty : ∀ tok ∈ sentinels, ¬ ascii tok <:+: [] := by
  intro tok htok h
  have hne : ∀ t ∈ sentinels, ascii t ≠ [] := by decide
  exact hne tok htok (List.eq_nil_of_infix_nil h)

/-! ## How long the read operations block -/

theorem respRead_cases (m : Machine) (idx : Nat) (h : idx + m.rx.length ≤ 1023) :
    respRead m idx = .ok (m, idx, false) ∨
    ∃ t b rest r0, m.rx = (t, b) :: rest ∧
      respRead m idx = .ok ({ m with rx := rest, ret := r0 }, idx + 1, true) := by
  match hrx : m.rx with
  | [] => exact Or.inl (respRead_empty m idx hrx)
  | (t, b) :: rest =>
    by_cases ht : t ≤ m.now
    · right
      rw [hrx] at h
      simp only [List.length_cons] at h
      have hb : b ≠ 13 ∨ b ≠ 10 := by omega
      have h1 : idx < 1024 := by omega
      have h2 : idx + 1 < 1024 := by omega
      refine ⟨t, b, rest, (m.ret.set idx b).set (idx + 1) 0, rfl, ?_⟩
      simp [respRead, hrx, ht, poke, RET_SIZE, bind, Except.bind, hb, h1, h2]
    · exact Or.inl (respRead_wait m idx t b rest hrx (by omega))

theorem flushRXLoop_clock (timeout start : Nat) :
    ∀ (fuel : Nat) (m : Machine) (idx : Nat), idx + m.rx.length ≤ 1023 → start ≤ m.now →
      m.now - start < timeout + 20 → timeout ≤ (m.now - start) + 20 * fuel →
      ∃ m', flushRXLoop timeout start (fuel + 1) m idx = .ok m' ∧ m.now ≤ m'.now ∧
        m'.now - start < timeout + 20 := by
  intro fuel
  induction fuel with
  | zero =>
    intro m idx _ _ hsoon hfuel
    rw [flushRXLoop, if_neg (by omega)]
    exact ⟨m, rfl, Nat.le_refl _, hsoon⟩
  | succ fuel ih =>
    intro m idx hfit hstart hsoon hfuel
    rw [flushRXLoop]
    by_cases hlate : m.now - start < timeout
    · rw [if_pos hlate]
      rcases respRead_cases m idx hfit with hread | ⟨t, b, rest, r0, hrx, hread⟩
      · rw [hread]
        simp only
        by_cases hstop : flushStop m = true
        · rw [if_pos hstop]
          exact ⟨m, rfl, Nat.le_refl _, hsoon⟩
        · rw [if_neg hstop]
          obtain ⟨m', hrun, h1, h2⟩ := ih (delay 20 m) idx (by simpa [delay] using hfit)
            (by simp only [delay]; omega) (by simp only [delay]; omega)
            (by simp only [delay]; omega)
          exact ⟨m', hrun, by simp only [delay] at h1; omega, h2⟩
      · rw [hread]
        simp only
        by_cases hstop : flushStop { m with rx := rest, ret := r0 } = true
        · rw [if_pos hstop]
          exact ⟨_, rfl, Nat.le_refl _, hsoon⟩
        · rw [if_neg hstop]
          rw [hrx] at hfit
          simp only [List.length_cons] at hfit
          obtain ⟨m', hrun, h1, h2⟩ := ih (delay 20 { m with rx := rest, ret := r0 }) (idx + 1)
            (by simp only [delay]; omega)
            (by simp only [delay]; omega) (by simp only [delay]; omega)
            (by simp only [delay]; omega)
          exact ⟨m', hrun, by simp only [delay] at h1; omega, h2⟩
    · rw [if_neg hlate]
      exact ⟨m, rfl, Nat.le_refl _, hsoon⟩

theorem flushRX_clock (timeout : Nat) (m : Machine) (hshort : m.rx.length ≤ 1023) :
    ∃ m', flushRX timeout m = .ok m' ∧ m'.now - m.now < timeout + 20 := by
  unfold flushRX
  have hp : poke m 0 0 = .ok { m with ret := m.ret.set 0 0 } := by simp [poke, RET_SIZE]
  rw [hp]
  simp only
  obtain ⟨m', hrun, _, h2⟩ := flushRXLoop_clock timeout m.now (timeout / 20 + 1)
    { m with ret := m.ret.set 0 0 } 0 (by simpa using hshort) (Nat.le_refl _)
    (by simp) (by simp only [Nat.sub_self]; omega)
  exact ⟨m', hrun, h2⟩

theorem rxTop_clock {timeout : Nat} {m m' : Machine} (h : RxTop timeout m (.ok m')) :
    m'.now - m.now ≤ max 120000 timeout + 40 ∧
      (¬ ascii "+EVT:RX" <:+: consumed m m' → m'.now - m.now ≤ timeout + 40) := by
  obtain ⟨_, _, _, _, _, hend⟩ := h
  cases hend with
  | noRx _ _ hbound _ => exact ⟨by omega, fun _ => hbound⟩
  | failedRx hmark _ hbound _ =>
    exact ⟨hbound, fun hno =>
      absurd (occurrence_of_hasTok "+EVT:RX" (List.prefix_refl _) hmark) hno⟩
  | done hstop _ hintime =>
    refine ⟨by omega, fun hno => ?_⟩
    obtain ⟨g, b, hc, hs⟩ := hstop
    exfalso
    apply hno
    rw [hc]
    simp only [stopsRx, Bool.or_eq_true, Bool.and_eq_true] at hs
    rcases hs with ⟨hs, _⟩ | hs
    · exact occurrence_of_hasTok "+EVT:RX" (List.prefix_append g [b]) hs
    · exact occurrence_of_hasTok "+EVT:RX" (List.prefix_refl _) (hasTok_rx_of_p2p _ hs)

theorem recvRX_marker_stall (timeout t0 j : Nat) (m : Machine) (hlen : m.ret.length = 1024)
    (hrx : m.rx = arriving t0 (ascii "+EVT:RX")) (ht0 : t0 ≤ m.now) (h1 : 280 ≤ timeout)
    (hj : 280 + 20 * j = 120000) :
    ∃ m', recvRX timeout m = .ok m' ∧ cstr m'.ret = ascii "FAILED_RX" ∧
      m'.now = m.now + 120020 ∧ m'.rx = [] := by
  obtain ⟨r0, hp, hH⟩ := holds_poke_zero m hlen
  unfold recvRX
  rw [hp]
  simp only
  obtain ⟨f, hf⟩ : ∃ f, max timeout 120000 / 20 + 2 = ((f + 1) + j) + 7 :=
    ⟨max timeout 120000 / 20 + 2 - 8 - j, by omega⟩
  rw [hf]
  have h7 : (arriving t0 (ascii "+EVT:RX")).length = 7 := by rw [arriving_length]; rfl
  -- the seven bytes of the marker
  obtain ⟨r, hHr, hrun⟩ := recvRXLoop_take_run timeout m.now (arriving t0 (ascii "+EVT:RX"))
    ((f + 1) + j) { m with ret := r0 }
    { ret_index := 0, rx_ok := false, wait_eol := false, cont_while := true } [] []
    (by simp only; rw [hrx, List.append_nil])
    (by intro x hx; rw [arriving_prompt t0 _ x hx]; exact ht0)
    hH rfl rfl (by decide) (by rw [h7]; decide)
    (by
      intro a b c hac
      rw [arriving_snd] at hac
      exact stopsRx_false_of_stream hac (by decide) (by decide))
    (by
      intro a c hac _
      rw [arriving_snd] at hac
      have hpre : a <+: ascii "+EVT:RX" := ⟨c, hac.symm⟩
      have hl := hpre.length_le
      have h7' : (ascii "+EVT:RX").length = 7 := rfl
      simp only [Nat.sub_self]
      split <;> omega)
  rw [h7] at hrun
  rw [hrun]
  simp only [List.nil_append, arriving_snd, List.length_nil, Nat.zero_add] at hHr ⊢
  have hw : hasTok (cstr (ascii "+EVT:RX")) "+EVT:RX" = true := by decide
  have he : (false || !(arriving t0 (ascii "+EVT:RX")).isEmpty) = true := by
    cases hx : arriving t0 (ascii "+EVT:RX") with
    | nil => rw [hx] at h7; simp at h7
    | cons x xs => rfl
  rw [hw, he]
  -- the polls of the idle link, up to 120 s
  rw [recvRXLoop_idle_run timeout m.now j (f + 1)
    { m with now := m.now + 40 * 7, rx := [], ret := r }
    { ret_index := 7, rx_ok := true, wait_eol := true, cont_while := true } rfl
    (by intro t b rest hrx2; simp at hrx2)
    (by simp only [if_true]; omega)]
  -- the poll that finds the deadline passed
  rw [recvRXLoop_round timeout m.now f _ _ rfl _ _ (recvRXRead_empty _ _ rfl)]
  simp only [if_true]
  rw [if_pos (by simp only [delay]; omega)]
  simp only [Bool.not_true, Bool.false_eq_true, if_false]
  refine ⟨_, rfl, cstr_snprintfLit _ _ (by decide), ?_, rfl⟩
  simp only [setRetLit, delay]
  omega

/-! ## The radio receive timeout event in `recvRX` -/

theorem quietRx_no_token {g : List Nat} {b : Nat} (hq : QuietRx [] (g ++ [b]))
    (hnul : 0 ∉ g) : ¬ ascii "+EVT:RXP2P_RECEIVE_TIMEOUT" <:+: g := by
  rintro ⟨s, t, hst⟩
  have hsplit : ascii "+EVT:RXP2P_RECEIVE_TIMEOUT" =
      ascii "+EVT:RXP2P_RECEIVE_TIMEOU" ++ [84] := by decide
  have hdec : g ++ [b] = (s ++ ascii "+EVT:RXP2P_RECEIVE_TIMEOU") ++ 84 :: (t ++ [b]) := by
    rw [← hst, hsplit]
    simp
  have hstop := hq _ _ _ hdec (by simp)
  have hpre : s ++ ascii "+EVT:RXP2P_RECEIVE_TIMEOU" ++ [84] <+: g := by
    refine ⟨t, ?_⟩
    rw [← hst, hsplit]
    simp
  have hn : 0 ∉ s ++ ascii "+EVT:RXP2P_RECEIVE_TIMEOU" ++ [84] := nul_free_initial hpre hnul
  have hh : hasTok (cstr (s ++ ascii "+EVT:RXP2P_RECEIVE_TIMEOU" ++ [84]))
      "+EVT:RXP2P_RECEIVE_TIMEOUT" = true := by
    apply hasTok_of_occurrence _ hn
    refine ⟨s, [], ?_⟩
    rw [hsplit]
    simp
  simp only [stopsRx, List.nil_append, hh, Bool.or_true] at hstop
  exact absurd hstop (by decide)

/-! ## Two runs that differ in the contents of `ret` -/

theorem textOnly_holds (m : Machine) (r pre : List Nat) (h : Holds r pre) :
    textOnly { m with ret := r } = { m with ret := cstr pre } := by
  simp only [textOnly, h.cstr_eq]

theorem textOnly_setRetLit (m : Machine) (r : List Nat) (s : String) (h : 0 ∉ ascii s) :
    textOnly (setRetLit { m with ret := r } s) = { m with ret := ascii s } := by
  simp only [textOnly, setRetLit, cstr_snprintfLit _ _ h]

theorem with_ret_of_textOnly {a b : Machine} (h : textOnly a = textOnly b) (l : List Nat) :
    { a with ret := l } = { b with ret := l } := by
  have := congrArg (fun x : Machine => { x with ret := l }) h
  simpa [textOnly] using this

theorem map_eq_cases {α β : Type} {f : α → β} {A B : Except Fault α}
    (h : A.map f = B.map f) :
    (∃ e, A = .error e ∧ B = .error e) ∨ (∃ a b, A = .ok a ∧ B = .ok b ∧ f a = f b) := by
  cases A with
  | error e =>
    cases B with
    | error e' =>
      simp only [Except.map, Except.error.injEq] at h
      exact Or.inl ⟨e, rfl, by rw [h]⟩
    | ok b => simp [Except.map] at h
  | ok a =>
    cases B with
    | error e' => simp [Except.map] at h
    | ok b =>
      simp only [Except.map, Except.ok.injEq] at h
      exact Or.inr ⟨a, b, rfl, rfl, h⟩

theorem respRead_alike (m : Machine) (r1 r2 pre : List Nat) (H1 : Holds r1 pre)
    (H2 : Holds r2 pre) :
    (respRead { m with ret := r1 } pre.length = .ok ({ m with ret := r1 }, pre.length, false) ∧
      respRead { m with ret := r2 } pre.length = .ok ({ m with ret := r2 }, pre.length, false)) ∨
    (∃ b rest s1 s2,
      respRead { m with ret := r1 } pre.length =
        .ok ({ m with rx := rest, ret := s1 }, pre.length + 1, true) ∧
      respRead { m with ret := r2 } pre.length =
        .ok ({ m with rx := rest, ret := s2 }, pre.length + 1, true) ∧
      Holds s1 (pre ++ [b]) ∧ Holds s2 (pre ++ [b])) ∨
    (respRead { m with ret := r1 } pre.length = .error (.oob 1024) ∧
      respRead { m with ret := r2 } pre.length = .error (.oob 1024)) := by
  have hcases : m.rx = [] ∨ ∃ t b rest, m.rx = (t, b) :: rest := by
    cases m.rx with
    | nil => exact Or.inl rfl
    | cons x xs => exact Or.inr ⟨x.1, x.2, xs, rfl⟩
  rcases hcases with hrx | ⟨t, b, rest, hrx⟩
  · exact Or.inl ⟨respRead_empty { m with ret := r1 } _ hrx,
      respRead_empty { m with ret := r2 } _ hrx⟩
  · by_cases ht : t ≤ m.now
    · have hpl := H1.length_lt
      by_cases hfull : pre.length = 1023
      · exact Or.inr (Or.inr ⟨respRead_fault { m with ret := r1 } t b rest pre hrx ht hfull,
          respRead_fault { m with ret := r2 } t b rest pre hrx ht hfull⟩)
      · obtain ⟨s1, hread1, K1⟩ :=
          respRead_take { m with ret := r1 } t b rest pre hrx ht H1 (by omega)
        obtain ⟨s2, hread2, K2⟩ :=
          respRead_take { m with ret := r2 } t b rest pre hrx ht H2 (by omega)
        exact Or.inr (Or.inl ⟨b, rest, s1, s2, hread1, hread2, K1, K2⟩)
    · exact Or.inl ⟨respRead_wait { m with ret := r1 } _ t b rest hrx (Nat.lt_of_not_le ht),
        respRead_wait { m with ret := r2 } _ t b rest hrx (Nat.lt_of_not_le ht)⟩

theorem recvRXRead_alike (m : Machine) (v : RxVars) (r1 r2 pre : List Nat)
    (H1 : Holds r1 pre) (H2 : Holds r2 pre) (hidx : v.ret_index = pre.length)
    (hc : v.cont_while = true) :
    (recvRXRead { m with ret := r1 } v = .ok ({ m with ret := r1 }, v) ∧
      recvRXRead { m with ret := r2 } v = .ok ({ m with ret := r2 }, v)) ∨
    (∃ b rest s1 s2 v',
      recvRXRead { m with ret := r1 } v = .ok (delay 20 { m with rx := rest, ret := s1 }, v') ∧
      recvRXRead { m with ret := r2 } v = .ok (delay 20 { m with rx := rest, ret := s2 }, v') ∧
      Holds s1 (pre ++ [b]) ∧ Holds s2 (pre ++ [b]) ∧
      (v'.cont_while = true → v'.ret_index = (pre ++ [b]).length)) ∨
    (recvRXRead { m with ret := r1 } v = .error (.oob 1024) ∧
      recvRXRead { m with ret := r2 } v = .error (.oob 1024)) := by
  have hcases : m.rx = [] ∨ ∃ t b rest, m.rx = (t, b) :: rest := by
    cases m.rx with
    | nil => exact Or.inl rfl
    | cons x xs => exact Or.inr ⟨x.1, x.2, xs, rfl⟩
  rcases hcases with hrx | ⟨t, b, rest, hrx⟩
  · exact Or.inl ⟨recvRXRead_empty { m with ret := r1 } v hrx,
      recvRXRead_empty { m with ret := r2 } v hrx⟩
  · by_cases ht : t ≤ m.now
    · have hpl := H1.length_lt
      cases heol : (v.wait_eol && isEol b) with
      | false =>
        by_cases hfull : pre.length = 1023
        · exact Or.inr (Or.inr
            ⟨recvRXRead_fault { m with ret := r1 } v t b rest pre hrx ht hidx (Or.inl hfull),
              recvRXRead_fault { m with ret := r2 } v t b rest pre hrx ht hidx (Or.inl hfull)⟩)
        · obtain ⟨s1, hread1, K1⟩ :=
            recvRXRead_take { m with ret := r1 } v t b rest pre hrx ht H1 hidx hc heol (by omega)
          obtain ⟨s2, hread2, K2⟩ :=
            recvRXRead_take { m with ret := r2 } v t b rest pre hrx ht H2 hidx hc heol (by omega)
          exact Or.inr (Or.inl ⟨b, rest, s1, s2, _, hread1, hread2, K1, K2, fun _ => by simp⟩)
      | true =>
        by_cases hfull : pre.length + 2 < 1024
        · obtain ⟨s1, hread1, K1⟩ :=
            recvRXRead_eol { m with ret := r1 } v t b rest pre hrx ht H1 hidx hc heol hfull
          obtain ⟨s2, hread2, K2⟩ :=
            recvRXRead_eol { m with ret := r2 } v t b rest pre hrx ht H2 hidx hc heol hfull
          exact Or.inr (Or.inl ⟨b, rest, s1, s2, _, hread1, hread2, K1, K2,
            fun h => by simp at h⟩)
        · have hcase : pre.length = 1023 ∨
              (pre.length = 1022 ∧ (v.wait_eol && isEol b) = true) := by
            rcases Nat.lt_or_ge pre.length 1023 with h | h
            · exact Or.inr ⟨by omega, heol⟩
            · exact Or.inl (by omega)
          exact Or.inr (Or.inr
            ⟨recvRXRead_fault { m with ret := r1 } v t b rest pre hrx ht hidx hcase,
              recvRXRead_fault { m with ret := r2 } v t b rest pre hrx ht hidx hcase⟩)
    · exact Or.inl ⟨recvRXRead_wait { m with ret := r1 } v t b rest hrx (Nat.lt_of_not_le ht),
        recvRXRead_wait { m with ret := r2 } v t b rest hrx (Nat.lt_of_not_le ht)⟩

theorem recvRXLoop_alike (timeout start : Nat) :
    ∀ (fuel : Nat) (m : Machine) (v : RxVars) (r1 r2 pre : List Nat),
      Holds r1 pre → Holds r2 pre → (v.cont_while = true → v.ret_index = pre.length) →
      (recvRXLoop timeout start fuel { m with ret := r1 } v).map
          (fun p => (textOnly p.1, p.2)) =
        (recvRXLoop timeout start fuel { m with ret := r2 } v).map
          (fun p => (textOnly p.1, p.2)) := by
  intro fuel
  induction fuel with
  | zero => intro m v r1 r2 pre _ _ _; rfl
  | succ fuel ih =>
    intro m v r1 r2 pre H1 H2 hidx
    cases hc : v.cont_while with
    | false =>
      rw [recvRXLoop_stopped _ _ _ _ _ hc, recvRXLoop_stopped _ _ _ _ _ hc]
      simp only [Except.map, textOnly_holds m r1 pre H1, textOnly_holds m r2 pre H2]
    | true =>
      have hround : ∀ (M : Machine) (s1 s2 q : List Nat) (v1 : RxVars), Holds s1 q →
          Holds s2 q → (v1.cont_while = true → v1.ret_index = q.length) →
          (if v1.wait_eol then
              if (delay 20 { M with ret := s1 }).now - start > 120000 then
                .ok (setRetLit (delay 20 { M with ret := s1 }) "FAILED_RX",
                  { v1 with cont_while := false })
              else recvRXLoop timeout start fuel (delay 20 { M with ret := s1 }) v1
            else
              if (delay 20 { M with ret := s1 }).now - start > timeout then
                .ok (setRetLit (delay 20 { M with ret := s1 }) "NO_RX",
                  { v1 with cont_while := false })
              else recvRXLoop timeout start fuel (delay 20 { M with ret := s1 }) v1).map
            (fun p => (textOnly p.1, p.2)) =
          (if v1.wait_eol then
              if (delay 20 { M with ret := s2 }).now - start > 120000 then
                .ok (setRetLit (delay 20 { M with ret := s2 }) "FAILED_RX",
                  { v1 with cont_while := false })
              else recvRXLoop timeout start fuel (delay 20 { M with ret := s2 }) v1
            else
              if (delay 20 { M with ret := s2 }).now - start > timeout then
                .ok (setRetLit (delay 20 { M with ret := s2 }) "NO_RX",
                  { v1 with cont_while := false })
              else recvRXLoop timeout start fuel (delay 20 { M with ret := s2 }) v1).map
            (fun p => (textOnly p.1, p.2)) := by
        intro M s1 s2 q v1 K1 K2 hq
        have e1 : delay 20 { M with ret := s1 } = { delay 20 M with ret := s1 } := rfl
        have e2 : delay 20 { M with ret := s2 } = { delay 20 M with ret := s2 } := rfl
        rw [e1, e2]
        have hrec := ih (delay 20 M) v1 s1 s2 q K1 K2 hq
        have hf := textOnly_setRetLit (delay 20 M) s1 "FAILED_RX" (by decide)
        have hf2 := textOnly_setRetLit (delay 20 M) s2 "FAILED_RX" (by decide)
        have hn := textOnly_setRetLit (delay 20 M) s1 "NO_RX" (by decide)
        have hn2 := textOnly_setRetLit (delay 20 M) s2 "NO_RX" (by decide)
        split
        · split
          · simp only [Except.map, hf, hf2]
          · exact hrec
        · split
          · simp only [Except.map, hn, hn2]
          · exact hrec
      rcases recvRXRead_alike m v r1 r2 pre H1 H2 (hidx hc) hc with
        ⟨h1, h2⟩ | ⟨b, rest, s1, s2, v', h1, h2, K1, K2, hv'⟩ | ⟨h1, h2⟩
      · rw [recvRXLoop_round timeout start fuel _ v hc _ _ h1,
          recvRXLoop_round timeout start fuel _ v hc _ _ h2]
        exact hround m r1 r2 pre v H1 H2 hidx
      · rw [recvRXLoop_round timeout start fuel _ v hc _ _ h1,
          recvRXLoop_round timeout start fuel _ v hc _ _ h2]
        exact hround (delay 20 { m with rx := rest }) s1 s2 (pre ++ [b]) v' K1 K2 hv'
      · rw [recvRXLoop_fault timeout start fuel _ v hc _ h1,
          recvRXLoop_fault timeout start fuel _ v hc _ h2]

theorem recvRX_alike (timeout : Nat) (m : Machine) (r1 r2 : List Nat) (h1 : r1.length = 1024)
    (h2 : r2.length = 1024) :
    (recvRX timeout { m with ret := r1 }).map textOnly =
      (recvRX timeout { m with ret := r2 }).map textOnly := by
  obtain ⟨s1, hp1, K1⟩ := holds_poke_zero { m with ret := r1 } h1
  obtain ⟨s2, hp2, K2⟩ := holds_poke_zero { m with ret := r2 } h2
  unfold recvRX
  rw [hp1, hp2]
  show (match recvRXLoop timeout m.now (max timeout 120000 / 20 + 2) { m with ret := s1 }
          { ret_index := 0, rx_ok := false, wait_eol := false, cont_while := true } with
        | .error e => .error e
        | .ok (m1, v) => .ok (if !v.rx_ok then setRetLit m1 "NO_RX" else m1) :
          Except Fault Machine).map textOnly =
      (match recvRXLoop timeout m.now (max timeout 120000 / 20 + 2) { m with ret := s2 }
          { ret_index := 0, rx_ok := false, wait_eol := false, cont_while := true } with
        | .error e => .error e
        | .ok (m1, v) => .ok (if !v.rx_ok then setRetLit m1 "NO_RX" else m1) :
          Except Fault Machine).map textOnly
  have hl := recvRXLoop_alike timeout m.now (max timeout 120000 / 20 + 2) m
    { ret_index := 0, rx_ok := false, wait_eol := false, cont_while := true } s1 s2 [] K1 K2
    (fun _ => rfl)
  rcases map_eq_cases hl with ⟨e, ha, hb⟩ | ⟨a, b, ha, hb, hab⟩
  · rw [ha, hb]
  · rw [ha, hb]
    simp only [Prod.mk.injEq] at hab
    obtain ⟨hm, hv⟩ := hab
    simp only [hv]
    cases hok : b.2.rx_ok with
    | true =>
      simp only [Bool.not_true, Bool.false_eq_true, if_false, Except.map]
      rw [hm]
    | false =>
      simp only [Bool.not_false, if_true, Except.map, textOnly, setRetLit,
        cstr_snprintfLit _ _ (show 0 ∉ ascii "NO_RX" by decide)]
      rw [with_ret_of_textOnly hm]

theorem recvResponseLoop_alike (timeout start : Nat) :
    ∀ (fuel : Nat) (m : Machine) (r1 r2 pre : List Nat) (rx_ok : Bool),
      Holds r1 pre → Holds r2 pre →
      (recvResponseLoop timeout start fuel { m with ret := r1 } pre.length rx_ok).map
          (fun p => (p.1, textOnly p.2)) =
        (recvResponseLoop timeout start fuel { m with ret := r2 } pre.length rx_ok).map
          (fun p => (p.1, textOnly p.2)) := by
  intro fuel
  induction fuel with
  | zero => intro m r1 r2 pre rx_ok _ _; rfl
  | succ fuel ih =>
    intro m r1 r2 pre rx_ok H1 H2
    have hafter : ∀ (M : Machine) (s1 s2 q : List Nat) (got : Bool), Holds s1 q → Holds s2 q →
        (match verdict { M with ret := s1 } with
          | .pendingRx =>
            match recvRX 5000 { M with ret := s1 } with
            | .error e => .error e
            | .ok m => .ok (true, m)
          | .success => .ok (true, { M with ret := s1 })
          | .failure => .ok (false, { M with ret := s1 })
          | .none => recvResponseLoop timeout start fuel (delay 20 { M with ret := s1 })
              q.length (rx_ok || got) : Except Fault (Bool × Machine)).map
            (fun p => (p.1, textOnly p.2)) =
          (match verdict { M with ret := s2 } with
          | .pendingRx =>
            match recvRX 5000 { M with ret := s2 } with
            | .error e => .error e
            | .ok m => .ok (true, m)
          | .success => .ok (true, { M with ret := s2 })
          | .failure => .ok (false, { M with ret := s2 })
          | .none => recvResponseLoop timeout start fuel (delay 20 { M with ret := s2 })
              q.length (rx_ok || got) : Except Fault (Bool × Machine)).map
            (fun p => (p.1, textOnly p.2)) := by
      intro M s1 s2 q got K1 K2
      have hv1 : verdict { M with ret := s1 } = verdictOf (cstr q) := by
        rw [verdict]; simp only; rw [K1.cstr_eq]
      have hv2 : verdict { M with ret := s2 } = verdictOf (cstr q) := by
        rw [verdict]; simp only; rw [K2.cstr_eq]
      rw [hv1, hv2]
      cases verdictOf (cstr q) with
      | pendingRx =>
        simp only
        rcases map_eq_cases (recvRX_alike 5000 M s1 s2 K1.1 K2.1) with
          ⟨e, ha, hb⟩ | ⟨a, b, ha, hb, hab⟩
        · rw [ha, hb]
        · rw [ha, hb]
          simp only [Except.map, hab]
      | success =>
        simp only [Except.map, textOnly_holds M s1 q K1, textOnly_holds M s2 q K2]
      | failure =>
        simp only [Except.map, textOnly_holds M s1 q K1, textOnly_holds M s2 q K2]
      | none =>
        simp only
        exact ih (delay 20 M) s1 s2 q (rx_ok || got) K1 K2
    rw [recvResponseLoop, recvResponseLoop]
    by_cases hlate : m.now - start < timeout
    · rw [if_pos (show ({ m with ret := r1 } : Machine).now - start < timeout from hlate),
        if_pos (show ({ m with ret := r2 } : Machine).now - start < timeout from hlate)]
      rcases respRead_alike m r1 r2 pre H1 H2 with
        ⟨h1, h2⟩ | ⟨b, rest, s1, s2, h1, h2, K1, K2⟩ | ⟨h1, h2⟩
      · rw [h1, h2]
        exact hafter m r1 r2 pre false H1 H2
      · rw [h1, h2]
        have := hafter { m with rx := rest } s1 s2 (pre ++ [b]) true K1 K2
        simpa using this
      · rw [h1, h2]
    · rw [if_neg (show ¬ ({ m with ret := r1 } : Machine).now - start < timeout from hlate),
        if_neg (show ¬ ({ m with ret := r2 } : Machine).now - start < timeout from hlate)]
      cases rx_ok with
      | false =>
        simp only [Bool.not_false, if_true, Except.map,
          textOnly_setRetLit m r1 "NO_RESPONSE" (by decide),
          textOnly_setRetLit m r2 "NO_RESPONSE" (by decide)]
      | true =>
        simp only [Bool.not_true, Bool.false_eq_true, if_false, Except.map,
          textOnly_holds m r1 pre H1, textOnly_holds m r2 pre H2]

theorem recvResponse_alike (timeout : Nat) (m : Machine) (r1 r2 : List Nat)
    (h1 : r1.length = 1024) (h2 : r2.length = 1024) :
    (recvResponse timeout { m with ret := r1 }).map (fun p => (p.1, textOnly p.2)) =
      (recvResponse timeout { m with ret := r2 }).map (fun p => (p.1, textOnly p.2)) := by
  obtain ⟨s1, hp1, K1⟩ := holds_poke_zero { m with ret := r1 } h1
  obtain ⟨s2, hp2, K2⟩ := holds_poke_zero { m with ret := r2 } h2
  unfold recvResponse
  rw [hp1, hp2]
  exact recvResponseLoop_alike timeout m.now (timeout / 20 + 2) m s1 s2 [] false K1 K2

/-! ## The claims -/

/-- C1 (hex round trip): for a byte array `b` of `n` bytes `0..255`, a text
capacity of at least `2n` and a byte capacity of at least `n`,
`byteArrayToAscii` returns true, and `asciiArrayToByte` applied to the text it
produced with `a_array_len = 2n` returns true and its first `n` output bytes
are those of `b`.  The arrays are the caller's memory as the functions address
it through their pointer arguments, whatever it holds beforehand; the decoder's
loop runs `a_array_len` times, and what it writes from index `n` on is left open. -/
theorem hex_round_trip (b a out : Mem) (n a_cap b_cap : Nat)
    (hbyte : ∀ i < n, b i < 256) (ha : 2 * n ≤ a_cap) (hb : n ≤ b_cap) :
    (byteArrayToAscii b a n a_cap).1 = true ∧
    (asciiArrayToByte out (byteArrayToAscii b a n a_cap).2 b_cap (2 * n)).1 = true ∧
    (asciiArrayToByte out (byteArrayToAscii b a n a_cap).2 b_cap (2 * n)).2.bytes n = b.bytes n := by
  have henc : byteArrayToAscii b a n a_cap = (true, byteArrayToAsciiLoop b n 0 a) := by
    unfold byteArrayToAscii
    rw [if_neg (by omega)]
  have hdec : ∀ t : Mem, asciiArrayToByte out t b_cap (2 * n) =
      (true, asciiArrayToByteLoop t (2 * n) 0 out) := by
    intro t
    unfold asciiArrayToByte
    rw [if_neg (by omega), if_neg (by omega)]
  rw [henc, hdec]
  refine ⟨rfl, rfl, ?_⟩
  unfold Mem.bytes
  apply List.map_congr_left
  intro i hi
  have hi : i < n := List.mem_range.mp hi
  show asciiArrayToByteLoop _ (2 * n) 0 out i = b i
  rw [asciiArrayToByteLoop_value _ _ _ _ _ (Nat.zero_le _) (by omega)]
  obtain ⟨h0, h1⟩ := byteArrayToAsciiLoop_digits b n 0 a i (Nat.zero_le _) (by omega)
  unfold doublet
  simp only []
  rw [h0, h1, Nat.mod_eq_of_lt (hbyte i hi)]
  exact decode_hex_pair (b i) (hbyte i hi)

/-- Witness of C1: the bytes 0x00, 0x7F, 0xFF round-trip through the codec. -/
theorem hex_round_trip_witness :
    (byteArrayToAscii (fun i => [0, 127, 255].getD i 0) (fun _ => 0) 3 6).1 = true ∧
    (asciiArrayToByte (fun _ => 0)
      (byteArrayToAscii (fun i => [0, 127, 255].getD i 0) (fun _ => 0) 3 6).2 3 (2 * 3)).1 = true ∧
    (asciiArrayToByte (fun _ => 0)
      (byteArrayToAscii (fun i => [0, 127, 255].getD i 0) (fun _ => 0) 3 6).2 3 (2 * 3)).2.bytes 3
      = Mem.bytes (fun i => [0, 127, 255].getD i 0) 3 :=
  hex_round_trip (fun i => [0, 127, 255].getD i 0) (fun _ => 0) (fun _ => 0) 3 6 3
    (by decide) (by decide) (by decide)

/-- C2, amended (recvResponse success): for every timeout and every stream
shorter than the buffer whose prefix `P` is free of NUL bytes, contains "OK" or
"+EVT:TXP2P DONE" and contains no failure token, `recvResponse` returns, and it
returns true unless the timeout expired before the bytes of `P` were all read. -/
theorem recvResponse_success (timeout : Nat) (m : Machine) (P rest : List Nat)
    (hlen : m.ret.length = 1024) (hshort : m.rx.length < 1024)
    (hstream : pending m = P ++ rest) (hnul : 0 ∉ P)
    (hok : ascii "OK" <:+: P ∨ ascii "+EVT:TXP2P DONE" <:+: P)
    (hnofail : ∀ tok ∈ failureTokens, ¬ ascii tok <:+: P) :
    ∃ r m', recvResponse timeout m = .ok (r, m') ∧
      (r = true ∨ ((consumed m m').length < P.length ∧ timeout ≤ m'.now - m.now)) := by
  have hs := recvResponse_sound timeout m hlen (by omega)
  match hres : recvResponse timeout m, hs with
  | .error e, hs => exact hs.elim
  | .ok (r, m'), hs =>
    exact ⟨r, m', rfl, respTop_success hs P rest hstream hnul hok hnofail⟩

/-- Witness of C2: the stream "OK\r\n" read with a timeout of 1000 ms; the call
returns true after the two bytes of "OK". -/
theorem recvResponse_success_witness :
    (∃ r m', recvResponse 1000 (Machine.fed (ascii "OK\r\n")) = .ok (r, m') ∧
      (r = true ∨ ((consumed (Machine.fed (ascii "OK\r\n")) m').length < (ascii "OK").length ∧
        1000 ≤ m'.now - (Machine.fed (ascii "OK\r\n")).now))) ∧
    observe (recvResponse 1000 (Machine.fed (ascii "OK\r\n"))) =
      some (true, ascii "OK", 20, [(0, 13), (0, 10)]) :=
  ⟨recvResponse_success 1000 (Machine.fed (ascii "OK\r\n")) (ascii "OK") (ascii "\r\n")
      (List.length_replicate 1024 0) (by decide) (by decide) (by decide) (Or.inl (by decide))
      (by decide),
    by decide⟩

/-- Counterexample to C2 as stated: the stream NUL "OK\r\n" ends in "OK\r\n", holds
no failure token and is read whole within a timeout of 1000 ms, yet the call
returns false, because `strstr` sees the empty text before the NUL; and on a
stream whose first "OK" comes after 1024 other bytes the call writes `ret[1024]`. -/
theorem recvResponse_success_counterexample :
    observe (recvResponse 1000 (Machine.fed (0 :: ascii "OK\r\n"))) = some (false, [], 1000, []) ∧
    recvResponse 60000 (Machine.fed (List.replicate 1024 65 ++ ascii "OK\r\n")) =
      .error (.oob 1024) :=
  ⟨by decide, recvResponse_filler_overrun _⟩

/-- C3, amended (recvResponse failure): for every timeout and every stream
shorter than the buffer with a prefix `P` free of NUL bytes in which a failure
token occurs and before whose last byte no sentinel is complete,
`recvResponse` returns false; on return either `ret` holds exactly `P` (the
text up to and including the token) and nothing after `P` was read, or the
timeout expired before the bytes of `P` were all read. -/
theorem recvResponse_failure (timeout : Nat) (m : Machine) (P rest : List Nat)
    (hlen : m.ret.length = 1024) (hshort : m.rx.length < 1024)
    (hstream : pending m = P ++ rest) (hnul : 0 ∉ P)
    (hfail : ∃ tok ∈ failureTokens, ascii tok <:+: P)
    (hfirst : ∀ tok ∈ sentinels, ¬ ascii tok <:+: P.dropLast) :
    ∃ m', recvResponse timeout m = .ok (false, m') ∧
      ((Holds m'.ret P ∧ cstr m'.ret = P ∧ consumed m m' = P) ∨
        ((consumed m m').length < P.length ∧ timeout ≤ m'.now - m.now)) := by
  have hs := recvResponse_sound timeout m hlen (by omega)
  match hres : recvResponse timeout m, hs with
  | .error e, hs => exact hs.elim
  | .ok (r, m'), hs =>
    obtain ⟨hr, h2⟩ := respTop_failure hs P rest hstream hnul hfail hfirst
    subst hr
    refine ⟨m', rfl, ?_⟩
    rcases h2 with ⟨hH, hc⟩ | h2
    · exact Or.inl ⟨hH, by rw [hH.cstr_eq, cstr_eq_self hnul], hc⟩
    · exact Or.inr h2

/-- Witness of C3: the stream "AT_PARAM_ERROR\r\n" read with a timeout of 1000 ms;
the call returns false with `ret` holding "AT_PARAM_ERROR". -/
theorem recvResponse_failure_witness :
    (∃ m', recvResponse 1000 (Machine.fed (ascii "AT_PARAM_ERROR\r\n")) = .ok (false, m') ∧
      ((Holds m'.ret (ascii "AT_PARAM_ERROR") ∧ cstr m'.ret = ascii "AT_PARAM_ERROR" ∧
          consumed (Machine.fed (ascii "AT_PARAM_ERROR\r\n")) m' = ascii "AT_PARAM_ERROR") ∨
        ((consumed (Machine.fed (ascii "AT_PARAM_ERROR\r\n")) m').length <
            (ascii "AT_PARAM_ERROR").length ∧
          1000 ≤ m'.now - (Machine.fed (ascii "AT_PARAM_ERROR\r\n")).now))) ∧
    observe (recvResponse 1000 (Machine.fed (ascii "AT_PARAM_ERROR\r\n"))) =
      some (false, ascii "AT_PARAM_ERROR", 260, [(0, 13), (0, 10)]) :=
  ⟨recvResponse_failure 1000 (Machine.fed (ascii "AT_PARAM_ERROR\r\n")) (ascii "AT_PARAM_ERROR")
      (ascii "\r\n") (List.length_replicate 1024 0) (by decide) (by decide) (by decide)
      ⟨"AT_PARAM_ERROR", by decide, by decide⟩ (by decide),
    by decide⟩

/-- Counterexample to C3 as stated: in the stream NUL "AT_PARAM_ERROR\r\n" the
first sentinel is a failure token and all bytes are read within 1000 ms, yet
the token is not recognised: the call reads on to the end of the stream and
leaves the empty text in `ret`; and on a stream whose failure token comes after
1024 other bytes the call writes `ret[1024]`. -/
theorem recvResponse_failure_counterexample :
    observe (recvResponse 1000 (Machine.fed (0 :: ascii "AT_PARAM_ERROR\r\n"))) =
      some (false, [], 1000, []) ∧
    recvResponse 60000 (Machine.fed (List.replicate 1024 65 ++ ascii "AT_PARAM_ERROR\r\n")) =
      .error (.oob 1024) :=
  ⟨by decide, recvResponse_filler_overrun _⟩

/-- C4 (recvResponse timeout): for every timeout and every stream shorter than
the buffer, `recvResponse` returns; and if no sentinel occurs among the bytes
it read, it returns false, `ret` is the text "NO_RESPONSE" when no byte was
read, and otherwise `ret` holds exactly the bytes read, followed by a NUL. -/
theorem recvResponse_timeout (timeout : Nat) (m : Machine) (hlen : m.ret.length = 1024)
    (hshort : m.rx.length < 1024) :
    ∃ r m', recvResponse timeout m = .ok (r, m') ∧
      ((∀ tok ∈ sentinels, ¬ ascii tok <:+: consumed m m') →
        r = false ∧ (consumed m m' = [] → cstr m'.ret = ascii "NO_RESPONSE") ∧
          (consumed m m' ≠ [] → Holds m'.ret (consumed m m'))) := by
  have hs := recvResponse_sound timeout m hlen (by omega)
  match hres : recvResponse timeout m, hs with
  | .error e, hs => exact hs.elim
  | .ok (r, m'), hs => exact ⟨r, m', rfl, respTop_timeout hs (by omega)⟩

/-- Witness of C4: the stream "AT+VER" (no sentinel) read with a timeout of
200 ms leaves exactly these bytes in `ret`; an empty stream leaves "NO_RESPONSE". -/
theorem recvResponse_timeout_witness :
    (∃ r m', recvResponse 200 (Machine.fed (ascii "AT+VER")) = .ok (r, m') ∧
      ((∀ tok ∈ sentinels, ¬ ascii tok <:+: consumed (Machine.fed (ascii "AT+VER")) m') →
        r = false ∧
          (consumed (Machine.fed (ascii "AT+VER")) m' = [] → cstr m'.ret = ascii "NO_RESPONSE") ∧
          (consumed (Machine.fed (ascii "AT+VER")) m' ≠ [] →
            Holds m'.ret (consumed (Machine.fed (ascii "AT+VER")) m')))) ∧
    observe (recvResponse 200 (Machine.fed (ascii "AT+VER"))) =
      some (false, ascii "AT+VER", 200, []) ∧
    observe (recvResponse 200 (Machine.fed [])) = some (false, ascii "NO_RESPONSE", 200, []) :=
  ⟨recvResponse_timeout 200 (Machine.fed (ascii "AT+VER")) (List.length_replicate 1024 0)
      (by decide),
    by decide, by decide⟩

/-- C5, amended (recvRX completed event): for every timeout and every stream of
at most 1022 bytes that starts with `Q ++ mid ++ [e]`, free of NUL bytes and of
"+EVT:RXP2P_RECEIVE_TIMEOUT", where "+EVT:RX" is complete for the first time at
the last byte of `Q`, no byte of `mid` is a line terminator and `e` is one:
`recvRX` returns, and unless it ends on a deadline (with "NO_RX" before the
marker was read, after more than the timeout; with "FAILED_RX" after more than
120000 ms), `ret` is the text `Q ++ mid ++ [e]`, nothing after it was read and
at most 120000 ms have passed. -/
theorem recvRX_complete_line (timeout : Nat) (m : Machine) (Q mid rest : List Nat) (e : Nat)
    (hlen : m.ret.length = 1024) (hshort : m.rx.length ≤ 1022)
    (hstream : pending m = Q ++ mid ++ e :: rest) (hnul : 0 ∉ Q ++ mid ++ [e])
    (hQ : ascii "+EVT:RX" <:+: Q) (hQmin : ¬ ascii "+EVT:RX" <:+: Q.dropLast)
    (hmid : ∀ b ∈ mid, isEol b = false) (he : isEol e = true)
    (hp2p : ¬ ascii "+EVT:RXP2P_RECEIVE_TIMEOUT" <:+: Q ++ mid ++ [e]) :
    ∃ m', recvRX timeout m = .ok m' ∧
      ((cstr m'.ret = Q ++ mid ++ [e] ∧ consumed m m' = Q ++ mid ++ [e] ∧
          m'.now - m.now ≤ 120000) ∨
        (cstr m'.ret = ascii "NO_RX" ∧ (consumed m m').length < Q.length ∧
          timeout < m'.now - m.now) ∨
        (cstr m'.ret = ascii "FAILED_RX" ∧ Q.length ≤ (consumed m m').length ∧
          120000 < m'.now - m.now)) := by
  have hs := recvRX_sound timeout m hlen (by omega)
  match hres : recvRX timeout m, hs with
  | .error e, hs =>
    obtain ⟨_, hl, _⟩ := hs
    omega
  | .ok m', hs =>
    exact ⟨m', rfl, rxTop_line hs Q mid rest e hstream hnul hQ hQmin hmid he hp2p⟩

/-- Witness of C5: the stream "+EVT:RXP2P:-112:1:1234\r" read with a timeout of
1000 ms leaves that text in `ret`. -/
theorem recvRX_complete_line_witness :
    (∃ m', recvRX 1000 (Machine.fed (ascii "+EVT:RXP2P:-112:1:1234\r")) = .ok m' ∧
      ((cstr m'.ret = ascii "+EVT:RX" ++ ascii "P2P:-112:1:1234" ++ [13] ∧
          consumed (Machine.fed (ascii "+EVT:RXP2P:-112:1:1234\r")) m' =
            ascii "+EVT:RX" ++ ascii "P2P:-112:1:1234" ++ [13] ∧
          m'.now - (Machine.fed (ascii "+EVT:RXP2P:-112:1:1234\r")).now ≤ 120000) ∨
        (cstr m'.ret = ascii "NO_RX" ∧
          (consumed (Machine.fed (ascii "+EVT:RXP2P:-112:1:1234\r")) m').length <
            (ascii "+EVT:RX").length ∧
          1000 < m'.now - (Machine.fed (ascii "+EVT:RXP2P:-112:1:1234\r")).now) ∨
        (cstr m'.ret = ascii "FAILED_RX" ∧
          (ascii "+EVT:RX").length ≤
            (consumed (Machine.fed (ascii "+EVT:RXP2P:-112:1:1234\r")) m').length ∧
          120000 < m'.now - (Machine.fed (ascii "+EVT:RXP2P:-112:1:1234\r")).now))) ∧
    observeRx (recvRX 1000 (Machine.fed (ascii "+EVT:RXP2P:-112:1:1234\r"))) =
      some (ascii "+EVT:RXP2P:-112:1:1234\r", 920, []) :=
  ⟨recvRX_complete_line 1000 (Machine.fed (ascii "+EVT:RXP2P:-112:1:1234\r")) (ascii "+EVT:RX")
      (ascii "P2P:-112:1:1234") [] 13 (List.length_replicate 1024 0) (by decide) (by decide)
      (by decide) (by decide) (by decide) (by decide) (by decide) (by decide),
    by decide⟩

/-- Counterexample to C5 as stated: the stream NUL "+EVT:RXP2P:-112:1:1234\r"
contains the marker followed by a line terminator and is read whole within
1000 ms, yet `ret` ends as "NO_RX", the marker behind the NUL never being seen;
and on the stream "+EVT:RX", 1015 filler bytes, "\r" (1023 bytes, shorter than
the buffer) the second NUL written after the terminator falls on `ret[1024]`. -/
theorem recvRX_complete_line_counterexample :
    observeRx (recvRX 1000 (Machine.fed (0 :: ascii "+EVT:RXP2P:-112:1:1234\r"))) =
      some (ascii "NO_RX", 1020, []) ∧
    recvRX 60000 (Machine.fed (ascii "+EVT:RX" ++ List.replicate 1015 65 ++ [13])) =
      .error (.oob 1024) :=
  ⟨by decide,
    recvRX_marker_overrun 60000 _ 1015 0 13 [] (List.length_replicate 1024 0)
      (by
        show arriving 0 (ascii "+EVT:RX" ++ List.replicate 1015 65 ++ [13]) = _
        rw [arriving_append]
        rfl)
      (Nat.zero_le _) (Or.inr ⟨rfl, by decide⟩) (by decide)⟩

/-- C6 (recvRX without marker): for every timeout and every stream shorter than
the buffer, either `recvRX` returns, and then `ret` is "NO_RX" whenever "+EVT:RX"
does not occur among the bytes it read (none or some); or the stream has 1023
bytes among which "+EVT:RX" occurs, all of them were read, and the run ends in
a write to `ret[1024]`. -/
theorem recvRX_no_marker (timeout : Nat) (m : Machine) (hlen : m.ret.length = 1024)
    (hshort : m.rx.length < 1024) :
    (∃ m', recvRX timeout m = .ok m' ∧
      (¬ ascii "+EVT:RX" <:+: consumed m m' → cstr m'.ret = ascii "NO_RX")) ∨
    (recvRX timeout m = .error (.oob 1024) ∧ m.rx.length = 1023 ∧
      ascii "+EVT:RX" <:+: pending m) := by
  have hs := recvRX_sound timeout m hlen (by omega)
  match hres : recvRX timeout m, hs with
  | .error e, hs =>
    obtain ⟨he, hl, g, b, hg, hm, _⟩ := hs
    subst he
    refine Or.inr ⟨rfl, hl, ?_⟩
    rw [hg]
    exact occurrence_of_hasTok "+EVT:RX" (List.prefix_append g [b]) hm
  | .ok m', hs => exact Or.inl ⟨m', rfl, rxTop_no_marker hs⟩

/-- Witness of C6: the stream "hello" and the empty stream, read with a timeout
of 300 ms, both leave "NO_RX" in `ret`. -/
theorem recvRX_no_marker_witness :
    ((∃ m', recvRX 300 (Machine.fed (ascii "hello")) = .ok m' ∧
        (¬ ascii "+EVT:RX" <:+: consumed (Machine.fed (ascii "hello")) m' →
          cstr m'.ret = ascii "NO_RX")) ∨
      (recvRX 300 (Machine.fed (ascii "hello")) = .error (.oob 1024) ∧
        (Machine.fed (ascii "hello")).rx.length = 1023 ∧
        ascii "+EVT:RX" <:+: pending (Machine.fed (ascii "hello")))) ∧
    observeRx (recvRX 300 (Machine.fed (ascii "hello"))) = some (ascii "NO_RX", 320, []) ∧
    observeRx (recvRX 300 (Machine.fed [])) = some (ascii "NO_RX", 320, []) :=
  ⟨recvRX_no_marker 300 (Machine.fed (ascii "hello")) (List.length_replicate 1024 0) (by decide),
    by decide, by decide⟩

/-- C7, amended (recvRX line-completion budget): for every timeout and every
stream shorter than the buffer that consists of a prefix `Q` at whose last byte
"+EVT:RX" is recognised for the first time, followed by bytes none of which is a
line terminator, and in which "+EVT:RXP2P_RECEIVE_TIMEOUT" is never recognised:
`recvRX` returns; if the marker was read, `ret` is "FAILED_RX" and the call ends
at its first poll later than 120000 ms after its entry, at most 40 ms after the
larger of 120000 ms and the caller's timeout (so the 120 seconds count from the
entry, not from the marker); otherwise `ret` is "NO_RX". -/
theorem recvRX_eol_budget (timeout : Nat) (m : Machine) (Q rest : List Nat)
    (hlen : m.ret.length = 1024) (hshort : m.rx.length < 1024)
    (hstream : pending m = Q ++ rest)
    (hQ : hasTok (cstr Q) "+EVT:RX" = true)
    (hQmin : hasTok (cstr Q.dropLast) "+EVT:RX" = false)
    (hrest : ∀ b ∈ rest, isEol b = false)
    (hp2p : hasTok (cstr (pending m)) "+EVT:RXP2P_RECEIVE_TIMEOUT" = false) :
    ∃ m', recvRX timeout m = .ok m' ∧
      ((cstr m'.ret = ascii "FAILED_RX" ∧ Q.length ≤ (consumed m m').length ∧
          120000 < m'.now - m.now ∧ m'.now - m.now ≤ max 120000 timeout + 40) ∨
        (cstr m'.ret = ascii "NO_RX" ∧ (consumed m m').length < Q.length ∧
          timeout < m'.now - m.now)) := by
  have hs := recvRX_sound timeout m hlen (by omega)
  match hres : recvRX timeout m, hs with
  | .error e, hs =>
    exfalso
    obtain ⟨_, _, g, b, hg, hm, hb⟩ := hs
    have hpre : g ++ [b] <+: Q ++ rest := by rw [← hstream, hg]
    exact eol_after_marker_absurd hpre hm hb hQmin hrest
  | .ok m', hs => exact ⟨m', rfl, rxTop_failed hs Q rest hstream hQ hQmin hrest hp2p⟩

/-- Witness of C7: the stream "+EVT:RX:data" without line terminator, read with
a timeout of 1000 ms. -/
theorem recvRX_eol_budget_witness :
    ∃ m', recvRX 1000 (Machine.fed (ascii "+EVT:RX:data")) = .ok m' ∧
      ((cstr m'.ret = ascii "FAILED_RX" ∧
          (ascii "+EVT:RX").length ≤ (consumed (Machine.fed (ascii "+EVT:RX:data")) m').length ∧
          120000 < m'.now - (Machine.fed (ascii "+EVT:RX:data")).now ∧
          m'.now - (Machine.fed (ascii "+EVT:RX:data")).now ≤ max 120000 1000 + 40) ∨
        (cstr m'.ret = ascii "NO_RX" ∧
          (consumed (Machine.fed (ascii "+EVT:RX:data")) m').length < (ascii "+EVT:RX").length ∧
          1000 < m'.now - (Machine.fed (ascii "+EVT:RX:data")).now)) :=
  recvRX_eol_budget 1000 (Machine.fed (ascii "+EVT:RX:data")) (ascii "+EVT:RX") (ascii ":data")
    (List.length_replicate 1024 0) (by decide) (by decide) (by decide) (by decide) (by decide)
    (by decide)

/-- Counterexample to C7 as stated: with a caller timeout of 130000 ms and the
marker "+EVT:RX" arriving 125000 ms after entry, followed by nothing, the marker
is recognised no earlier than that, and `recvRX` ends with "FAILED_RX" at
125280 ms, right after recognising it, not 120 seconds later; on the stream
"+EVT:RXP2P_RECEIVE_TIMEOUT", in which "+EVT:RX" is recognised and no line
terminator follows, it ends after 1040 ms with the received text in `ret`; and
on "+EVT:RX" followed by 1017 bytes without line terminator it writes `ret[1024]`. -/
theorem recvRX_eol_budget_counterexample :
    observeRx (recvRX 130000 { Machine.boot with rx := arriving 125000 (ascii "+EVT:RX") }) =
      some (ascii "FAILED_RX", 125280, []) ∧
    observeRx (recvRX 5000 (Machine.fed (ascii "+EVT:RXP2P_RECEIVE_TIMEOUT"))) =
      some (ascii "+EVT:RXP2P_RECEIVE_TIMEOUT", 1040, []) ∧
    recvRX 5000 (Machine.fed (ascii "+EVT:RX" ++ List.replicate 1017 65)) =
      .error (.oob 1024) := by
  refine ⟨?_, by decide,
    recvRX_marker_overrun 5000 _ 1016 0 65 [] (List.length_replicate 1024 0)
      (by
        show arriving 0 (ascii "+EVT:RX" ++ List.replicate 1017 65) = _
        rw [filler_succ])
      (Nat.zero_le _) (Or.inl rfl) (by decide)⟩
  obtain ⟨m', hrun, hret, hnow, hrx⟩ := recvRX_marker_late 130000 6250
    { Machine.boot with rx := arriving 125000 (ascii "+EVT:RX") }
    (List.length_replicate 1024 0) (by decide) (by decide) (by decide)
  rw [hrun]
  show some (cstr m'.ret, m'.now, m'.rx) = _
  rw [hret, hnow, hrx]
  rfl

/-- C8 (transmit-confirmation chaining): for every timeout and every stream with
a prefix `P` at whose last byte `recvResponse` first recognises a sentinel (none
is recognised in `P` without its last byte), that sentinel being "+EVT:TX_DONE"
or "+EVT:SEND_CONFIRMED_OK": unless the timeout expires before `P` is read, in
which case false is returned, `recvResponse` stops reading at the end of `P`,
runs `recvRX(5000)` from the state `m1` reached there and returns true with the
state `recvRX` left; and if "+EVT:RX" does not occur among the bytes `recvRX`
read, `ret` is "NO_RX".  The only other runs are those with at least 1024 bytes
pending, which can end in a write outside `ret`. -/
theorem recvResponse_chain (timeout : Nat) (m : Machine) (P rest : List Nat)
    (hlen : m.ret.length = 1024)
    (hstream : pending m = P ++ rest)
    (hrec : verdictOf (cstr P) = .pendingRx)
    (hfirst : verdictOf (cstr P.dropLast) = .none) :
    (∃ r m', recvResponse timeout m = .ok (r, m') ∧
      ((r = true ∧ ∃ m1, m1.rx = m.rx.drop P.length ∧ Holds m1.ret P ∧
          m1 = { m with now := m1.now, rx := m1.rx, ret := m1.ret } ∧ m.now ≤ m1.now ∧
          recvRX 5000 m1 = .ok m' ∧
          (¬ ascii "+EVT:RX" <:+: consumed m1 m' → cstr m'.ret = ascii "NO_RX")) ∨
        (r = false ∧ (consumed m m').length < P.length ∧ timeout ≤ m'.now - m.now))) ∨
    (1024 ≤ m.rx.length ∧ Overruns (recvResponse timeout m)) := by
  rcases recvResponse_ok_or_overrun timeout m hlen with ⟨r, m', hres⟩ | h
  · left
    obtain ⟨k, hk, hq, hend, _⟩ := recvResponse_returns hlen hres
    have hs : RespTop timeout m (.ok (r, m')) := ⟨k, hk, hq, hend⟩
    refine ⟨r, m', hres, respTop_chain hs P rest hstream hrec ?_⟩
    intro g hg hne
    refine verdictOf_none_of_initial ?_ hfirst
    refine List.prefix_of_prefix_length_le hg (List.dropLast_prefix P) ?_
    have h1 := hg.length_le
    have h2 : g.length ≠ P.length := fun h => hne (hg.eq_of_length h)
    rw [List.length_dropLast]
    omega
  · exact Or.inr h

set_option maxRecDepth 100000 in
/-- Witness of C8: the stream "+EVT:TX_DONE\r\n" read with a timeout of 1000 ms;
the call returns true after `recvRX(5000)` has run, with "NO_RX" in `ret`.  On
"+EVT:SEND_CONFIRMED_OK\r\n" followed by a downlink event the call returns true
with the line of the downlink in `ret`. -/
theorem recvResponse_chain_witness :
    ((∃ r m', recvResponse 1000 (Machine.fed (ascii "+EVT:TX_DONE\r\n")) = .ok (r, m') ∧
        ((r = true ∧ ∃ m1, m1.rx = (Machine.fed (ascii "+EVT:TX_DONE\r\n")).rx.drop
              (ascii "+EVT:TX_DONE").length ∧
            Holds m1.ret (ascii "+EVT:TX_DONE") ∧
            m1 = { Machine.fed (ascii "+EVT:TX_DONE\r\n") with
              now := m1.now, rx := m1.rx, ret := m1.ret } ∧
            (Machine.fed (ascii "+EVT:TX_DONE\r\n")).now ≤ m1.now ∧
            recvRX 5000 m1 = .ok m' ∧
            (¬ ascii "+EVT:RX" <:+: consumed m1 m' → cstr m'.ret = ascii "NO_RX")) ∨
          (r = false ∧
            (consumed (Machine.fed (ascii "+EVT:TX_DONE\r\n")) m').length <
              (ascii "+EVT:TX_DONE").length ∧
            1000 ≤ m'.now - (Machine.fed (ascii "+EVT:TX_DONE\r\n")).now))) ∨
      (1024 ≤ (Machine.fed (ascii "+EVT:TX_DONE\r\n")).rx.length ∧
        Overruns (recvResponse 1000 (Machine.fed (ascii "+EVT:TX_DONE\r\n"))))) ∧
    observe (recvResponse 1000 (Machine.fed (ascii "+EVT:TX_DONE\r\n"))) =
      some (true, ascii "NO_RX", 5240, []) ∧
    observe (recvResponse 1000
        (Machine.fed (ascii "+EVT:SEND_CONFIRMED_OK\r\n+EVT:RX_1:-47:9:UNICAST:2:0102\r\n"))) =
      some (true, ascii "\r\n+EVT:RX_1:-47:9:UNICAST:2:0102\r", 1740, [(0, 10)]) :=
  ⟨recvResponse_chain 1000 (Machine.fed (ascii "+EVT:TX_DONE\r\n")) (ascii "+EVT:TX_DONE")
      (ascii "\r\n") (List.length_replicate 1024 0) (by decide) (by decide) (by decide),
    by decide, by decide⟩

/-- C9 (response buffer bound), the claim fails on the code: fed 1024 bytes that
hold no sentinel and no line terminator, each of `recvRX(60000)`,
`recvResponse(60000)` and `flushRX(60000)` writes `ret[1024]`, one past the end
of the 1024-byte buffer. -/
theorem ret_overflow :
    recvRX 60000 (Machine.fed (List.replicate 1024 65)) = .error (.oob 1024) ∧
    recvResponse 60000 (Machine.fed (List.replicate 1024 65)) = .error (.oob 1024) ∧
    flushRX 60000 (Machine.fed (List.replicate 1024 65)) = .error (.oob 1024) := by
  have h1 := recvRX_filler_overrun []
  have h2 := recvResponse_filler_overrun []
  have h3 := flushRX_filler_overrun []
  rw [List.append_nil] at h1 h2 h3
  exact ⟨h1, h2, h3⟩

set_option maxRecDepth 100000 in
/-- C10 (initOTAA sub-commands), the claim fails on the code: called with the
devEUI "AC1F09FFFE000001" and the different appEUI "AC1F09FFFE000002", the module
answering every sub-command with "OK", `initOTAA` returns true but the second
command line it transmits is "at+appeui=AC1F09FFFE000001", carrying the devEUI. -/
theorem initOTAA_appeui_carries_devEUI :
    observeTx (initOTAA (ascii "AC1F09FFFE000001") (ascii "AC1F09FFFE000002")
        (ascii "EFADFF0000004829ACF71E1A6E000000")
        { Machine.boot with
          rx := (arriving 1060 (ascii "OK\r\n") ++ arriving 2150 (ascii "OK\r\n") ++
            arriving 3240 (ascii "OK\r\n")) }) =
      some (true, ascii ("\r\nat+deveui=AC1F09FFFE000001\r\n" ++
        "\r\nat+appeui=AC1F09FFFE000001\r\n" ++
        "\r\nat+appkey=EFADFF0000004829ACF71E1A6E000000\r\n")) := by
  decide

/-- C11 (credential length rejection): whenever one of the three strings has the
wrong length (`initOTAA`: 16, 16 and 32 characters; `initABP`: 8, 32 and 32
characters), the operation returns false, has printed nothing to the module
link, and has neither read from the link nor let time pass. -/
theorem credential_length_rejection (x y z : List Nat) (m : Machine) :
    (¬ (x.length = 16 ∧ y.length = 16 ∧ z.length = 32) →
      ∃ m', initOTAA x y z m = .ok (false, m') ∧ m'.tx = m.tx ∧ m'.rx = m.rx ∧ m'.now = m.now) ∧
    (¬ (x.length = 8 ∧ y.length = 32 ∧ z.length = 32) →
      ∃ m', initABP x y z m = .ok (false, m') ∧ m'.tx = m.tx ∧ m'.rx = m.rx ∧ m'.now = m.now) := by
  constructor
  · intro h
    unfold initOTAA
    by_cases h1 : x.length = 16
    · by_cases h2 : y.length = 16
      · have h3 : ¬ z.length = 32 := fun h3 => h ⟨h1, h2, h3⟩
        rw [if_pos h1, if_pos h2, if_neg h3]
        exact ⟨_, rfl, rfl, rfl, rfl⟩
      · rw [if_pos h1, if_neg h2]
        exact ⟨_, rfl, rfl, rfl, rfl⟩
    · rw [if_neg h1]
      exact ⟨_, rfl, rfl, rfl, rfl⟩
  · intro h
    unfold initABP
    by_cases h1 : x.length = 8
    · by_cases h2 : y.length = 32
      · have h3 : ¬ z.length = 32 := fun h3 => h ⟨h1, h2, h3⟩
        rw [if_pos h1, if_pos h2, if_neg h3]
        exact ⟨_, rfl, rfl, rfl, rfl⟩
      · rw [if_pos h1, if_neg h2]
        exact ⟨_, rfl, rfl, rfl, rfl⟩
    · rw [if_neg h1]
      exact ⟨_, rfl, rfl, rfl, rfl⟩

/-- Witness of C11: a devEUI of 15 characters passed to `initOTAA`, and a devADDR
of 7 characters passed to `initABP`. -/
theorem credential_length_rejection_witness :
    (∃ m', initOTAA (ascii "AC1F09FFFE00000") (ascii "AC1F09FFFE000002")
        (ascii "EFADFF0000004829ACF71E1A6E000000") Machine.boot = .ok (false, m') ∧
      m'.tx = Machine.boot.tx ∧ m'.rx = Machine.boot.rx ∧ m'.now = Machine.boot.now) ∧
    (∃ m', initABP (ascii "0136008") (ascii "616a6b21d7fcb25012d62b38a5829725")
        (ascii "f55a71bcc94ec6498511007c64a06c02") Machine.boot = .ok (false, m') ∧
      m'.tx = Machine.boot.tx ∧ m'.rx = Machine.boot.rx ∧ m'.now = Machine.boot.now) :=
  ⟨(credential_length_rejection (ascii "AC1F09FFFE00000") (ascii "AC1F09FFFE000002")
      (ascii "EFADFF0000004829ACF71E1A6E000000") Machine.boot).1 (by decide),
    (credential_length_rejection (ascii "0136008") (ascii "616a6b21d7fcb25012d62b38a5829725")
      (ascii "f55a71bcc94ec6498511007c64a06c02") Machine.boot).2 (by decide)⟩

/-- C12, amended (validation is not atomic): when one of the three strings has
the wrong length, the operation returns false in the state in which the
arguments ahead of the first wrong one have been stored in their members and
nothing else has changed: the member of the wrong argument, those after it and
the three members of the other activation mode keep their values. -/
theorem credentials_stored_until_first_mismatch (x y z : List Nat) (m : Machine) :
    (¬ (x.length = 16 ∧ y.length = 16 ∧ z.length = 32) →
      initOTAA x y z m = .ok (false,
        if x.length ≠ 16 then m
        else if y.length ≠ 16 then { m with _devEUI := x }
        else { m with _devEUI := x, _appEUI := y })) ∧
    (¬ (x.length = 8 ∧ y.length = 32 ∧ z.length = 32) →
      initABP x y z m = .ok (false,
        if x.length ≠ 8 then m
        else if y.length ≠ 32 then { m with _devADDR := x }
        else { m with _devADDR := x, _nwksKEY := y })) := by
  constructor
  · intro h
    unfold initOTAA
    by_cases h1 : x.length = 16
    · by_cases h2 : y.length = 16
      · have h3 : ¬ z.length = 32 := fun h3 => h ⟨h1, h2, h3⟩
        simp [h1, h2, h3]
      · simp [h1, h2]
    · simp [h1]
  · intro h
    unfold initABP
    by_cases h1 : x.length = 8
    · by_cases h2 : y.length = 32
      · have h3 : ¬ z.length = 32 := fun h3 => h ⟨h1, h2, h3⟩
        simp [h1, h2, h3]
      · simp [h1, h2]
    · simp [h1]

/-- Witness of C12: `initOTAA` with an appKEY of 3 characters, and `initABP` with a
devADDR of 7 characters. -/
theorem credentials_stored_until_first_mismatch_witness :
    initOTAA (ascii "AC1F09FFFE000001") (ascii "AC1F09FFFE000002") (ascii "EFA") Machine.boot =
      .ok (false,
        if (ascii "AC1F09FFFE000001").length ≠ 16 then Machine.boot
        else if (ascii "AC1F09FFFE000002").length ≠ 16 then
          { Machine.boot with _devEUI := ascii "AC1F09FFFE000001" }
        else { Machine.boot with _devEUI := ascii "AC1F09FFFE000001",
                                 _appEUI := ascii "AC1F09FFFE000002" }) ∧
    initABP (ascii "0136008") (ascii "AC1F09FFFE000002") (ascii "EFA") Machine.boot =
      .ok (false,
        if (ascii "0136008").length ≠ 8 then Machine.boot
        else if (ascii "AC1F09FFFE000002").length ≠ 32 then
          { Machine.boot with _devADDR := ascii "0136008" }
        else { Machine.boot with _devADDR := ascii "0136008",
                                 _nwksKEY := ascii "AC1F09FFFE000002" }) :=
  ⟨(credentials_stored_until_first_mismatch (ascii "AC1F09FFFE000001") (ascii "AC1F09FFFE000002")
      (ascii "EFA") Machine.boot).1 (by decide),
    (credentials_stored_until_first_mismatch (ascii "0136008") (ascii "AC1F09FFFE000002")
      (ascii "EFA") Machine.boot).2 (by decide)⟩

/-- Counterexample to C12 as stated: `initOTAA` called on the freshly constructed
engine with a devEUI of 16 characters and an appEUI of 3 characters returns
false, and the member `_devEUI` no longer has its value from before the call;
likewise `_devADDR` after `initABP` with a wrong nwksKEY. -/
theorem credentials_stored_until_first_mismatch_counterexample :
    (initOTAA (ascii "AC1F09FFFE000001") (ascii "123")
        (ascii "EFADFF0000004829ACF71E1A6E000000") Machine.boot).toOption.map
          (fun r => (r.1, r.2._devEUI, decide (r.2._devEUI = Machine.boot._devEUI))) =
      some (false, ascii "AC1F09FFFE000001", false) ∧
    (initABP (ascii "01360085") (ascii "123")
        (ascii "f55a71bcc94ec6498511007c64a06c02") Machine.boot).toOption.map
          (fun r => (r.1, r.2._devADDR, decide (r.2._devADDR = Machine.boot._devADDR))) =
      some (false, ascii "01360085", false) := by
  decide

/-- C13 (stop at the first failing sub-command): `initOTAA` and `initABP` called
with strings of the right lengths send their three sub-commands in order, each
followed by a read of the response, and stop as `StopsAtFirstFailure` says: a
response that is no success is the last one read, no sub-command after it is
printed and the operation returns false; the operation returns true only after
all three were sent and answered with success.  The only other runs are those
with at least 1024 bytes pending, which can end in a write outside `ret`. -/
theorem credentials_stop_at_first_failure (x y z : List Nat) (m : Machine)
    (hlen : m.ret.length = 1024) :
    (x.length = 16 ∧ y.length = 16 ∧ z.length = 32 →
      StopsAtFirstFailure { m with _devEUI := x, _appEUI := y, _appKEY := z }
          [commandLine "at+deveui=" x, commandLine "at+appeui=" x, commandLine "at+appkey=" z]
          (initOTAA x y z m) ∨
        (1024 ≤ m.rx.length ∧ Overruns (initOTAA x y z m))) ∧
    (x.length = 8 ∧ y.length = 32 ∧ z.length = 32 →
      StopsAtFirstFailure { m with _devADDR := x, _nwksKEY := y, _appsKEY := z }
          [commandLine "at+devaddr=" x, commandLine "at+nwkskey=" y, commandLine "at+appskey=" z]
          (initABP x y z m) ∨
        (1024 ≤ m.rx.length ∧ Overruns (initABP x y z m))) := by
  constructor
  · rintro ⟨h1, h2, h3⟩
    unfold initOTAA
    rw [if_pos h1, if_pos h2, if_pos h3]
    exact three_steps (commandLine "at+deveui=" x) (fun s => commandLine "at+appeui=" s._devEUI)
      (fun s => commandLine "at+appkey=" s._appKEY)
      { m with _devEUI := x, _appEUI := y, _appKEY := z } hlen
      (fun a b f => by simp only [f.2.2.1]) (fun a b f => by simp only [f.2.2.2.2.2.1])
      (fun _ _ => rfl) (fun _ _ => rfl)
  · rintro ⟨h1, h2, h3⟩
    unfold initABP
    rw [if_pos h1, if_pos h2, if_pos h3]
    exact three_steps (commandLine "at+devaddr=" x) (fun s => commandLine "at+nwkskey=" s._nwksKEY)
      (fun s => commandLine "at+appskey=" s._appsKEY)
      { m with _devADDR := x, _nwksKEY := y, _appsKEY := z } hlen
      (fun a b f => by simp only [f.2.2.2.2.1]) (fun a b f => by simp only [f.2.2.2.2.2.2.1])
      (fun _ _ => rfl) (fun _ _ => rfl)

/-- Witness of C13: `initOTAA` and `initABP` with the credentials of the example
sketches, on the freshly constructed engine with an "OK" waiting on the link. -/
theorem credentials_stop_at_first_failure_witness :
    (StopsAtFirstFailure
        { Machine.fed (ascii "OK\r\n") with
          _devEUI := ascii "AC1F09FFFE000001", _appEUI := ascii "AC1F09FFFE000002",
          _appKEY := ascii "EFADFF0000004829ACF71E1A6E000000" }
        [commandLine "at+deveui=" (ascii "AC1F09FFFE000001"),
          commandLine "at+appeui=" (ascii "AC1F09FFFE000001"),
          commandLine "at+appkey=" (ascii "EFADFF0000004829ACF71E1A6E000000")]
        (initOTAA (ascii "AC1F09FFFE000001") (ascii "AC1F09FFFE000002")
          (ascii "EFADFF0000004829ACF71E1A6E000000") (Machine.fed (ascii "OK\r\n"))) ∨
      (1024 ≤ (Machine.fed (ascii "OK\r\n")).rx.length ∧
        Overruns (initOTAA (ascii "AC1F09FFFE000001") (ascii "AC1F09FFFE000002")
          (ascii "EFADFF0000004829ACF71E1A6E000000") (Machine.fed (ascii "OK\r\n"))))) ∧
    observeTx (initOTAA (ascii "AC1F09FFFE000001") (ascii "AC1F09FFFE000002")
        (ascii "EFADFF0000004829ACF71E1A6E000000")
        { Machine.boot with rx := arriving 1060 (ascii "AT_PARAM_ERROR\r\n") }) =
      some (false, ascii "\r\nat+deveui=AC1F09FFFE000001\r\n") :=
  ⟨(credentials_stop_at_first_failure (ascii "AC1F09FFFE000001") (ascii "AC1F09FFFE000002")
      (ascii "EFADFF0000004829ACF71E1A6E000000") (Machine.fed (ascii "OK\r\n"))
      (List.length_replicate 1024 0)).1 (by decide),
    by decide⟩

set_option maxRecDepth 100000 in
/-- C14 (range check of `setRegion`), the claim fails on the code: `setRegion(-1)`
is not rejected; the command line "at+band=-1" is printed to the module link,
and with the module answering "OK" the call returns true.  A region of 13 is
rejected without any output. -/
theorem setRegion_negative_is_sent :
    observeTx (setRegion (-1) { Machine.boot with rx := arriving 1060 (ascii "OK\r\n") }) =
      some (true, ascii "\r\nat+band=-1\r\n") ∧
    observeTx (setRegion 13 { Machine.boot with rx := arriving 1060 (ascii "OK\r\n") }) =
      some (false, []) := by
  decide

/-- C15 (range checks of the data rate and of the enumerated setters): for a
value outside the valid set (`setDataRate`: 0..15; `setClass`: 0, 1, 2;
`setJoinMode`, `setConfirmed`, `setWorkingMode`: 0, 1) the setter returns false
and leaves the engine and the module link as they were: nothing is printed. -/
theorem enumerated_setters_reject (v : Int) (m : Machine) :
    ((v < 0 ∨ 15 < v) → setDataRate v m = .ok (false, m)) ∧
    ((v ≠ 0 ∧ v ≠ 1 ∧ v ≠ 2) → setClass v m = .ok (false, m)) ∧
    ((v ≠ 0 ∧ v ≠ 1) → setJoinMode v m = .ok (false, m)) ∧
    ((v ≠ 0 ∧ v ≠ 1) → setConfirmed v m = .ok (false, m)) ∧
    ((v ≠ 0 ∧ v ≠ 1) → setWorkingMode v m = .ok (false, m)) := by
  refine ⟨?_, ?_, ?_, ?_, ?_⟩
  · intro h
    unfold setDataRate
    rw [if_pos (by omega)]
  · rintro ⟨h0, h1, h2⟩
    unfold setClass
    rw [if_neg h0, if_neg h1, if_neg h2]
  · rintro ⟨h0, h1⟩
    unfold setJoinMode
    rw [if_neg h0, if_neg h1]
  · rintro ⟨h0, h1⟩
    unfold setConfirmed
    rw [if_neg h0, if_neg h1]
  · rintro ⟨h0, h1⟩
    unfold setWorkingMode
    rw [if_neg h0, if_neg h1]

/-- Witness of C15: a data rate of 16, class 3, and mode 2 for the two-valued
setters, on an engine with a response already waiting on the link. -/
theorem enumerated_setters_reject_witness :
    setDataRate 16 (Machine.fed (ascii "OK\r\n")) = .ok (false, Machine.fed (ascii "OK\r\n")) ∧
    setClass 3 (Machine.fed (ascii "OK\r\n")) = .ok (false, Machine.fed (ascii "OK\r\n")) ∧
    setJoinMode 2 (Machine.fed (ascii "OK\r\n")) = .ok (false, Machine.fed (ascii "OK\r\n")) ∧
    setConfirmed (-1) (Machine.fed (ascii "OK\r\n")) = .ok (false, Machine.fed (ascii "OK\r\n")) ∧
    setWorkingMode 2 (Machine.fed (ascii "OK\r\n")) = .ok (false, Machine.fed (ascii "OK\r\n")) :=
  ⟨(enumerated_setters_reject 16 (Machine.fed (ascii "OK\r\n"))).1 (by decide),
    (enumerated_setters_reject 3 (Machine.fed (ascii "OK\r\n"))).2.1 (by decide),
    (enumerated_setters_reject 2 (Machine.fed (ascii "OK\r\n"))).2.2.1 (by decide),
    (enumerated_setters_reject (-1) (Machine.fed (ascii "OK\r\n"))).2.2.2.1 (by decide),
    (enumerated_setters_reject 2 (Machine.fed (ascii "OK\r\n"))).2.2.2.2 (by decide)⟩

set_option maxRecDepth 100000 in
/-- C16 (range checks of the low-power setters), the claim fails on the code:
`setLPM(-1)` and `setLPMLevel(-1)` are not rejected; the command lines
"at+lpm=-1" and "at+lpmlvl=-1" are printed to the module link, and with the
module answering "OK" the calls return true. -/
theorem low_power_negative_is_sent :
    observeTx (setLPM (-1) { Machine.boot with rx := arriving 1060 (ascii "OK\r\n") }) =
      some (true, ascii "\r\nat+lpm=-1\r\n") ∧
    observeTx (setLPMLevel (-1) { Machine.boot with rx := arriving 1060 (ascii "OK\r\n") }) =
      some (true, ascii "\r\nat+lpmlvl=-1\r\n") := by
  decide

/-- C17, amended (result of the set verbs): each set verb called with a valid
parameter sends its one command line and reads the response with
`recvResponse()`; it returns true exactly when "OK" occurs in the text left in
`ret`, and whenever it returns true the `recvResponse` run returned true.  The
only other runs are those with at least 1024 bytes pending, which can end in a
write outside `ret`. -/
theorem setter_result (v : Int) (m : Machine) (hlen : m.ret.length = 1024) :
    (0 ≤ v ∧ v ≤ 15 → SetterRun (commandInt "at+dr=" v) m (setDataRate v m)) ∧
    SetterRun (ascii "at+class=a\r\n") m (setClass 0 m) ∧
    SetterRun (ascii "at+class=b\r\n") m (setClass 1 m) ∧
    SetterRun (ascii "at+class=c\r\n") m (setClass 2 m) ∧
    (0 ≤ v ∧ v ≤ 12 → SetterRun (commandInt "at+band=" v) m (setRegion v m)) ∧
    SetterRun (commandInt "at+lpm=" 0) m (setLPM 0 m) ∧
    SetterRun (commandInt "at+lpm=" 1) m (setLPM 1 m) ∧
    SetterRun (commandInt "at+lpmlvl=" 1) m (setLPMLevel 1 m) ∧
    SetterRun (commandInt "at+lpmlvl=" 2) m (setLPMLevel 2 m) ∧
    SetterRun (ascii "at+nwm=0\r\n") m (setWorkingMode 0 m) ∧
    SetterRun (ascii "at+nwm=1\r\n") m (setWorkingMode 1 m) ∧
    SetterRun (ascii "at+njm=0\r\n") m (setJoinMode 0 m) ∧
    SetterRun (ascii "at+njm=1\r\n") m (setJoinMode 1 m) ∧
    SetterRun (ascii "at+cfm=0\r\n") m (setConfirmed 0 m) ∧
    SetterRun (ascii "at+cfm=1\r\n") m (setConfirmed 1 m) := by
  refine ⟨?_, ?_, ?_, ?_, ?_, ?_, ?_, ?_, ?_, ?_, ?_, ?_, ?_, ?_, ?_⟩
  · intro h
    unfold setDataRate
    rw [if_neg (by omega)]
    exact sendAndCheckOK_run _ m hlen
  · exact sendAndCheckOK_run _ m hlen
  · exact sendAndCheckOK_run _ m hlen
  · exact sendAndCheckOK_run _ m hlen
  · intro h
    unfold setRegion
    rw [if_neg (by omega)]
    exact sendAndCheckOK_run _ m hlen
  · exact sendAndCheckInitOK_run _ m hlen
  · exact sendAndCheckInitOK_run _ m hlen
  · exact sendAndCheckInitOK_run _ m hlen
  · exact sendAndCheckInitOK_run _ m hlen
  · exact sendAndCheckInitOK_run _ m hlen
  · exact sendAndCheckInitOK_run _ m hlen
  · exact sendAndCheckOK_run _ m hlen
  · exact sendAndCheckOK_run _ m hlen
  · exact sendAndCheckOK_run _ m hlen
  · exact sendAndCheckOK_run _ m hlen

/-- Witness of C17: `setDataRate(3)` and `setRegion(4)` on the freshly constructed
engine; with the module answering "OK" both return true. -/
theorem setter_result_witness :
    SetterRun (commandInt "at+dr=" 3) Machine.boot (setDataRate 3 Machine.boot) ∧
    SetterRun (commandInt "at+band=" 4) Machine.boot (setRegion 4 Machine.boot) ∧
    observeTx (setDataRate 3 { Machine.boot with rx := arriving 1060 (ascii "OK\r\n") }) =
      some (true, ascii "\r\nat+dr=3\r\n") :=
  ⟨(setter_result 3 Machine.boot (List.length_replicate 1024 0)).1 (by decide),
    (setter_result 4 Machine.boot (List.length_replicate 1024 0)).2.2.2.2.1 (by decide),
    by decide⟩

set_option maxRecDepth 100000 in
/-- Counterexample to C17 as stated: `setClass(0)` with the module answering
"+EVT:TXP2P DONE": the `recvResponse` run performed by the setter returns true,
the text in `ret` holds no "OK", and the setter returns false. -/
theorem setter_result_counterexample :
    observe (transact (ascii "at+class=a\r\n")
        { Machine.boot with rx := arriving 1060 (ascii "+EVT:TXP2P DONE\r\n") }) =
      some (true, ascii "+EVT:TXP2P DONE", 1350, [(1060, 13), (1060, 10)]) ∧
    observe (setClass 0 { Machine.boot with rx := arriving 1060 (ascii "+EVT:TXP2P DONE\r\n") }) =
      some (false, ascii "+EVT:TXP2P DONE", 1350, [(1060, 13), (1060, 10)]) :=
  ⟨by decide, by decide⟩

/-- C18 (getters on silence), the claim fails on the code: on the freshly
constructed engine with a link that delivers no byte, `getWorkingMode`,
`getJoinMode` and `getConfirmed` return 0, the value of a valid mode; the other
five getters return 255. -/
theorem silent_getters_return_zero :
    observeGet (getWorkingMode Machine.boot) = some 0 ∧
    observeGet (getJoinMode Machine.boot) = some 0 ∧
    observeGet (getConfirmed Machine.boot) = some 0 ∧
    observeGet (getLPM Machine.boot) = some 255 ∧
    observeGet (getLPMLevel Machine.boot) = some 255 ∧
    observeGet (getDataRate Machine.boot) = some 255 ∧
    observeGet (getClass Machine.boot) = some 255 ∧
    observeGet (getRegion Machine.boot) = some 255 :=
  getters_on_silent_link Machine.boot (List.length_replicate 1024 0) rfl

set_option maxRecDepth 100000 in
/-- C19 (result of `getLPMLevel`), the claim fails on the code: with the module
answering "AT+LPMLVL=2" and "OK", `getLPMLevel` returns 1, the value it also
returns for the answer "AT+LPMLVL=1". -/
theorem getLPMLevel_two_reads_one :
    observeGet (getLPMLevel
      { Machine.boot with rx := arriving 1060 (ascii "AT+LPMLVL=2\r\nOK\r\n") }) = some 1 ∧
    observeGet (getLPMLevel
      { Machine.boot with rx := arriving 1060 (ascii "AT+LPMLVL=1\r\nOK\r\n") }) = some 1 := by
  decide

set_option maxRecDepth 100000 in
/-- C20 (decimal getters), the claim fails on the code: the number after `=` is
narrowed to `uint8_t` ahead of the range test, so with the module answering
"AT+DR=256" `getDataRate` returns 0 and with "AT+BAND=260" `getRegion` returns
4, where the claim has 255; the answers "AT+DR=3" and "AT+DR=16" give 3 and 255. -/
theorem decimal_getters_wrap :
    observeGet (getDataRate
      { Machine.boot with rx := arriving 1060 (ascii "AT+DR=256\r\nOK\r\n") }) = some 0 ∧
    observeGet (getRegion
      { Machine.boot with rx := arriving 1060 (ascii "AT+BAND=260\r\nOK\r\n") }) = some 4 ∧
    observeGet (getDataRate
      { Machine.boot with rx := arriving 1060 (ascii "AT+DR=3\r\nOK\r\n") }) = some 3 ∧
    observeGet (getDataRate
      { Machine.boot with rx := arriving 1060 (ascii "AT+DR=16\r\nOK\r\n") }) = some 255 := by
  decide

/-- C21 (result of `getClass`): `getClass` sends its query, reads the response and
returns 0, 1 or 2 when the character right after the first `=` of the text in
`ret` is `A`, `B` or `C`, and 255 in every other case: no `=`, nothing after
it, or another character.  The only other runs are those with at least 1024
bytes pending, which can end in a write outside `ret`. -/
theorem getClass_result (m : Machine) (hlen : m.ret.length = 1024) :
    (∃ m' v, exchange (ascii "at+class=?\r\n") m = .ok m' ∧ getClass m = .ok (v, m') ∧
      (61 ∉ cstr m'.ret → v = 255) ∧
      (∀ pre, cstr m'.ret = pre ++ [61] → 61 ∉ pre → v = 255) ∧
      (∀ pre c rest, cstr m'.ret = pre ++ 61 :: c :: rest → 61 ∉ pre →
        (c = 65 → v = 0) ∧ (c = 66 → v = 1) ∧ (c = 67 → v = 2) ∧
        (c ≠ 65 → c ≠ 66 → c ≠ 67 → v = 255))) ∨
    (1024 ≤ m.rx.length ∧ Overruns (getClass m)) := by
  rcases exchange_cases (ascii "at+class=?\r\n") m hlen with
    ⟨a, r, m', _, _, he, _, _, _⟩ | ⟨hlong, i, hi, herr⟩
  · left
    have hg : getClass m =
        match strstrAt (cstr m'.ret) (ascii "=") with
        | some str_ptr =>
          if str_ptr.tail.headD 0 = 65 then .ok (0, m')
          else if str_ptr.tail.headD 0 = 66 then .ok (1, m')
          else if str_ptr.tail.headD 0 = 67 then .ok (2, m')
          else .ok (NO_RESPONSE, m')
        | none => .ok (NO_RESPONSE, m') := by
      unfold getClass
      rw [he]
    cases hs : strstrAt (cstr m'.ret) (ascii "=") with
    | none =>
      rw [hs] at hg
      refine ⟨m', 255, he, hg, fun _ => rfl, fun _ _ _ => rfl, ?_⟩
      intro pre c rest hc hpre
      rw [hc, strstrAt_equals_first pre _ hpre] at hs
      cases hs
    | some p =>
      rw [hs] at hg
      simp only at hg
      by_cases hA : p.tail.headD 0 = 65
      · rw [if_pos hA] at hg
        refine ⟨m', 0, he, hg, ?_, ?_, ?_⟩
        · intro hno
          rw [strstrAt_equals_none hno] at hs
          cases hs
        · intro pre hc hpre
          rw [hc, strstrAt_equals_first pre _ hpre] at hs
          cases hs
          simp at hA
        · intro pre c rest hc hpre
          rw [hc, strstrAt_equals_first pre _ hpre] at hs
          cases hs
          simp only [List.tail_cons, List.headD_cons] at hA
          exact ⟨fun _ => rfl, fun h => by omega, fun h => by omega, fun h => absurd hA h⟩
      · rw [if_neg hA] at hg
        by_cases hB : p.tail.headD 0 = 66
        · rw [if_pos hB] at hg
          refine ⟨m', 1, he, hg, ?_, ?_, ?_⟩
          · intro hno
            rw [strstrAt_equals_none hno] at hs
            cases hs
          · intro pre hc hpre
            rw [hc, strstrAt_equals_first pre _ hpre] at hs
            cases hs
            simp at hB
          · intro pre c rest hc hpre
            rw [hc, strstrAt_equals_first pre _ hpre] at hs
            cases hs
            simp only [List.tail_cons, List.headD_cons] at hB
            exact ⟨fun h => by omega, fun _ => rfl, fun h => by omega, fun _ h => absurd hB h⟩
        · rw [if_neg hB] at hg
          by_cases hC : p.tail.headD 0 = 67
          · rw [if_pos hC] at hg
            refine ⟨m', 2, he, hg, ?_, ?_, ?_⟩
            · intro hno
              rw [strstrAt_equals_none hno] at hs
              cases hs
            · intro pre hc hpre
              rw [hc, strstrAt_equals_first pre _ hpre] at hs
              cases hs
              simp at hC
            · intro pre c rest hc hpre
              rw [hc, strstrAt_equals_first pre _ hpre] at hs
              cases hs
              simp only [List.tail_cons, List.headD_cons] at hC
              exact ⟨fun h => by omega, fun h => by omega, fun _ => rfl,
                fun _ _ h => absurd hC h⟩
          · rw [if_neg hC] at hg
            refine ⟨m', 255, he, hg, fun _ => rfl, fun _ _ _ => rfl, ?_⟩
            intro pre c rest hc hpre
            rw [hc, strstrAt_equals_first pre _ hpre] at hs
            cases hs
            simp only [List.tail_cons, List.headD_cons] at hA hB hC
            exact ⟨fun h => absurd h hA, fun h => absurd h hB, fun h => absurd h hC,
              fun _ _ _ => rfl⟩
  · right
    refine ⟨hlong, i, hi, ?_⟩
    unfold getClass
    rw [herr]

set_option maxRecDepth 100000 in
/-- Witness of C21: on the freshly constructed engine, and with the module
answering "AT+CLASS=A", "AT+CLASS=B", "AT+CLASS=C" and "AT+CLASS=D". -/
theorem getClass_result_witness :
    ((∃ m' v, exchange (ascii "at+class=?\r\n") Machine.boot = .ok m' ∧
        getClass Machine.boot = .ok (v, m') ∧
        (61 ∉ cstr m'.ret → v = 255) ∧
        (∀ pre, cstr m'.ret = pre ++ [61] → 61 ∉ pre → v = 255) ∧
        (∀ pre c rest, cstr m'.ret = pre ++ 61 :: c :: rest → 61 ∉ pre →
          (c = 65 → v = 0) ∧ (c = 66 → v = 1) ∧ (c = 67 → v = 2) ∧
          (c ≠ 65 → c ≠ 66 → c ≠ 67 → v = 255))) ∨
      (1024 ≤ Machine.boot.rx.length ∧ Overruns (getClass Machine.boot))) ∧
    observeGet (getClass
      { Machine.boot with rx := arriving 1060 (ascii "AT+CLASS=A\r\nOK\r\n") }) = some 0 ∧
    observeGet (getClass
      { Machine.boot with rx := arriving 1060 (ascii "AT+CLASS=B\r\nOK\r\n") }) = some 1 ∧
    observeGet (getClass
      { Machine.boot with rx := arriving 1060 (ascii "AT+CLASS=C\r\nOK\r\n") }) = some 2 ∧
    observeGet (getClass
      { Machine.boot with rx := arriving 1060 (ascii "AT+CLASS=D\r\nOK\r\n") }) = some 255 :=
  ⟨getClass_result Machine.boot (List.length_replicate 1024 0),
    by decide, by decide, by decide, by decide⟩

/-- C22 (P2P settings round trip): for every `p2p_settings` value `s` whose fields
are in their documented ranges (the statement asks only `freq < 2147483648` and
the other five fields below 65536, which covers 150000000..960000000, 6..12,
0..9, 0..3, 2..65535 and 5..22), the command of `initP2P s` is "at+p2p=", the six
colon-separated fields and a line terminator, and a call of `initP2P s` that
returns, from any state `m0`, has printed to the module link the bare line
terminator and that command (the only other runs being those with at least
1024 bytes pending, which can end in a write outside `ret`); and when the
module answers the query "at+p2p=?" with "AT+P2P=", exactly those six fields and
"\r\nOK\r\n" (the answer arriving between one and nine seconds after the call,
that is after the second of flushing and inside the ten seconds of listening),
`getP2P` returns true and fills a structure equal to `s`, whatever the structure
held before. -/
theorem p2p_round_trip (s s0 : p2p_settings) (m0 m : Machine) (t : Nat)
    (hlen0 : m0.ret.length = 1024) (hlen : m.ret.length = 1024)
    (hfreq : s.freq < 2147483648) (hsf : s.sf < 65536) (hbw : s.bw < 65536)
    (hcr : s.cr < 65536) (hppl : s.ppl < 65536) (htxp : s.txp < 65536)
    (hrx : m.rx = arriving t (ascii "AT+P2P=" ++ p2pFields s ++ ascii "\r\nOK\r\n"))
    (ht : m.now + 1000 ≤ t ∧ t ≤ m.now + 9000) :
    commandP2P s = ascii "at+p2p=" ++ p2pFields s ++ ascii "\r\n" ∧
    ((∃ r m0', initP2P s m0 = .ok (r, m0') ∧
        m0'.tx = m0.tx ++ ascii "\r\n" ++ (ascii "at+p2p=" ++ p2pFields s ++ ascii "\r\n")) ∨
      (1024 ≤ m0.rx.length ∧ Overruns (initP2P s m0))) ∧
    ∃ m', getP2P s0 m = .ok (true, s, m') ∧
      m'.tx = m.tx ++ ascii "\r\n" ++ ascii "at+p2p=?\r\n" := by
  have hp := p2pFields_in_range s hfreq hsf hbw hcr hppl htxp
  obtain ⟨n1, d1⟩ := fmtInt_token s.freq
  obtain ⟨n2, d2⟩ := fmtInt_token s.sf
  obtain ⟨n3, d3⟩ := fmtInt_token s.bw
  obtain ⟨n4, d4⟩ := fmtInt_token s.cr
  obtain ⟨n5, d5⟩ := fmtInt_token s.ppl
  obtain ⟨n6, d6⟩ := fmtInt_token s.txp
  have l1 := fmtInt_length s.freq 10 (by decide) (by norm_num; omega)
  have l2 := fmtInt_length s.sf 5 (by decide) (by norm_num; omega)
  have l3 := fmtInt_length s.bw 5 (by decide) (by norm_num; omega)
  have l4 := fmtInt_length s.cr 5 (by decide) (by norm_num; omega)
  have l5 := fmtInt_length s.ppl 5 (by decide) (by norm_num; omega)
  have l6 := fmtInt_length s.txp 5 (by decide) (by norm_num; omega)
  have hflen : (p2pFields s).length ≤ 40 := by
    rw [hp]
    simp only [List.length_append, List.length_cons]
    omega
  have hfch : ∀ x ∈ p2pFields s, 48 ≤ x ∧ x ≤ 58 := by
    intro x hx
    rw [hp] at hx
    simp only [List.mem_append, List.mem_cons] at hx
    rcases hx with h | h | h | h | h | h | h | h | h | h | h
    · have := d1 x h; omega
    · omega
    · have := d2 x h; omega
    · omega
    · have := d3 x h; omega
    · omega
    · have := d4 x h; omega
    · omega
    · have := d5 x h; omega
    · omega
    · have := d6 x h; omega
  have hhead : ∀ x ∈ ascii "AT+P2P=", x ≠ 0 ∧ x ≠ 75 ∧ x ≠ 95 ∧ x ≠ 86 := by decide
  have htl : ∀ x ∈ ascii "\r\nO", x ≠ 0 ∧ x ≠ 75 ∧ x ≠ 95 ∧ x ≠ 86 := by decide
  have hg : ∀ x ∈ ascii "AT+P2P=" ++ p2pFields s ++ ascii "\r\nO",
      x ≠ 0 ∧ x ≠ 75 ∧ x ≠ 95 ∧ x ≠ 86 := by
    intro x hx
    rcases List.mem_append.mp hx with h | h
    · rcases List.mem_append.mp h with h | h
      · exact hhead x h
      · have := hfch x h; omega
    · exact htl x h
  have hglen : (ascii "AT+P2P=" ++ p2pFields s ++ ascii "\r\nO").length ≤ 50 := by
    rw [List.length_append, List.length_append]
    have h7 : (ascii "AT+P2P=").length = 7 := by decide
    have h3 : (ascii "\r\nO").length = 3 := by decide
    omega
  have hsplit : ascii "\r\nOK\r\n" = ascii "\r\nO" ++ 75 :: ascii "\r\n" := by decide
  have hrx2 : m.rx = arriving t
      ((ascii "AT+P2P=" ++ p2pFields s ++ ascii "\r\nO") ++ 75 :: ascii "\r\n") := by
    rw [hrx, hsplit, ← List.append_assoc]
  obtain ⟨r, now1, hH, hex⟩ := exchange_answer (ascii "at+p2p=?\r\n") m t
    (ascii "AT+P2P=" ++ p2pFields s ++ ascii "\r\nO") 75 (ascii "\r\n") hlen hrx2 ht.1
    (by omega) (by omega)
    (by
      intro a c hac _
      have h0 : 0 ∉ a := fun hm => (hg 0 (by rw [hac]; exact List.mem_append_left _ hm)).1 rfl
      rw [cstr_eq_self h0]
      exact verdictOf_unmarked a (fun x hx =>
        (hg x (by rw [hac]; exact List.mem_append_left _ hx)).2))
    (by
      have h0 : 0 ∉ (ascii "AT+P2P=" ++ p2pFields s ++ ascii "\r\nO") ++ [75] := by
        intro hm
        rcases List.mem_append.mp hm with h | h
        · exact (hg 0 h).1 rfl
        · simp at h
      rw [cstr_eq_self h0]
      refine verdictOf_ends_OK _ ?_ ?_
      · intro x hx
        rcases List.mem_append.mp hx with h | h
        · exact (hg x h).2.2.1
        · simp only [List.mem_singleton] at h
          omega
      · refine ⟨ascii "AT+P2P=" ++ p2pFields s ++ ascii "\r\n", [], ?_⟩
        have : ascii "\r\nO" = ascii "\r\n" ++ [79] := by decide
        rw [this]
        have h2 : ascii "OK" = [79, 75] := by decide
        rw [h2]
        simp only [List.append_assoc, List.append_nil, List.singleton_append])
  obtain ⟨tail, htail⟩ := hH.2
  have h6 : fmtInt (s.txp : Int) ++ ascii "\r\nOK" ≠ [] ∧
      ∀ x ∈ fmtInt (s.txp : Int) ++ ascii "\r\nOK", x ≠ 0 ∧ x ≠ 58 := by
    refine ⟨fun h => n6 (List.append_eq_nil.mp h).1, ?_⟩
    intro x hx
    rcases List.mem_append.mp hx with h | h
    · have := d6 x h; omega
    · have : ∀ y ∈ ascii "\r\nOK", y ≠ 0 ∧ y ≠ 58 := by decide
      exact this x h
  obtain ⟨r2, hget⟩ := getP2P_parse s0 m _ (fmtInt (s.freq : Int)) (fmtInt (s.sf : Int))
    (fmtInt (s.bw : Int)) (fmtInt (s.cr : Int)) (fmtInt (s.ppl : Int))
    (fmtInt (s.txp : Int) ++ ascii "\r\nOK") tail hex
    (by
      show r = _
      rw [htail, hp]
      have e1 : ascii "\r\nO" = [13, 10, 79] := by decide
      have e2 : ascii "\r\nOK" = [13, 10, 79, 75] := by decide
      rw [e1, e2]
      simp only [List.append_assoc, List.cons_append, List.nil_append])
    ⟨n1, fun x hx => by have := d1 x hx; omega⟩ ⟨n2, fun x hx => by have := d2 x hx; omega⟩
    ⟨n3, fun x hx => by have := d3 x hx; omega⟩ ⟨n4, fun x hx => by have := d4 x hx; omega⟩
    ⟨n5, fun x hx => by have := d5 x hx; omega⟩ h6
  have v1 : strtol (fmtInt (s.freq : Int)) 0 = s.freq := by
    have := strtol_fmtInt s.freq [] (by omega) (by simp)
    rwa [List.append_nil] at this
  have v2 : strtol (fmtInt (s.sf : Int)) 0 = s.sf := by
    have := strtol_fmtInt s.sf [] (by omega) (by simp)
    rwa [List.append_nil] at this
  have v3 : strtol (fmtInt (s.bw : Int)) 0 = s.bw := by
    have := strtol_fmtInt s.bw [] (by omega) (by simp)
    rwa [List.append_nil] at this
  have v4 : strtol (fmtInt (s.cr : Int)) 0 = s.cr := by
    have := strtol_fmtInt s.cr [] (by omega) (by simp)
    rwa [List.append_nil] at this
  have v5 : strtol (fmtInt (s.ppl : Int)) 0 = s.ppl := by
    have := strtol_fmtInt s.ppl [] (by omega) (by simp)
    rwa [List.append_nil] at this
  have v6 : strtol (fmtInt (s.txp : Int) ++ ascii "\r\nOK") 0 = s.txp :=
    strtol_fmtInt s.txp (ascii "\r\nOK") (by omega) (by decide)
  rw [v1, v2, v3, v4, v5, v6, toUint32_natCast _ (by omega), toUint16_natCast _ hsf,
    toUint16_natCast _ hbw, toUint16_natCast _ hcr, toUint16_natCast _ hppl,
    toUint16_natCast _ htxp] at hget
  have hcmd : commandP2P s = ascii "at+p2p=" ++ p2pFields s ++ ascii "\r\n" := by
    unfold commandP2P
    apply List.take_of_length_le
    rw [List.length_append, List.length_append]
    have h7 : (ascii "at+p2p=").length = 7 := by decide
    have h2 : (ascii "\r\n").length = 2 := by decide
    omega
  refine ⟨hcmd, ?_, _, hget, rfl⟩
  rcases sendAndCheckOK_wire (commandP2P s) m0 hlen0 with ⟨r, m0', hres, htx⟩ | h
  · exact Or.inl ⟨r, m0', hres, by rw [htx, hcmd]⟩
  · exact Or.inr h

set_option maxRecDepth 100000 in
/-- Witness of C22: the settings of the P2P example, freq=916100000, sf=7, bw=0,
cr=1, ppl=8, txp=22, read back into a zeroed structure; and one run in which the
module answers `initP2P` with "OK" and the query of the `getP2P` that follows
with the six fields. -/
theorem p2p_round_trip_witness :
    (commandP2P ⟨916100000, 7, 0, 1, 8, 22⟩ =
        ascii "at+p2p=" ++ p2pFields ⟨916100000, 7, 0, 1, 8, 22⟩ ++ ascii "\r\n" ∧
      ((∃ r m0', initP2P ⟨916100000, 7, 0, 1, 8, 22⟩
            { Machine.boot with rx := arriving 1060 (ascii "OK\r\n") } = .ok (r, m0') ∧
          m0'.tx = ({ Machine.boot with rx := arriving 1060 (ascii "OK\r\n") } : Machine).tx ++
            ascii "\r\n" ++
            (ascii "at+p2p=" ++ p2pFields ⟨916100000, 7, 0, 1, 8, 22⟩ ++ ascii "\r\n")) ∨
        (1024 ≤ ({ Machine.boot with rx := arriving 1060 (ascii "OK\r\n") } : Machine).rx.length ∧
          Overruns (initP2P ⟨916100000, 7, 0, 1, 8, 22⟩
            { Machine.boot with rx := arriving 1060 (ascii "OK\r\n") }))) ∧
      ∃ m', getP2P ⟨0, 0, 0, 0, 0, 0⟩
          { Machine.boot with
            rx := arriving 1060 (ascii "AT+P2P=916100000:7:0:1:8:22\r\nOK\r\n") } =
            .ok (true, ⟨916100000, 7, 0, 1, 8, 22⟩, m') ∧
        m'.tx = [] ++ ascii "\r\n" ++ ascii "at+p2p=?\r\n") ∧
    p2pFields ⟨916100000, 7, 0, 1, 8, 22⟩ = ascii "916100000:7:0:1:8:22" ∧
    observeTx (initP2P ⟨916100000, 7, 0, 1, 8, 22⟩
        { Machine.boot with
          rx := arriving 1060 (ascii "OK\r\n") ++
            arriving 2300 (ascii "AT+P2P=916100000:7:0:1:8:22\r\nOK\r\n") }) =
      some (true, ascii "\r\nat+p2p=916100000:7:0:1:8:22\r\n") ∧
    (initP2P ⟨916100000, 7, 0, 1, 8, 22⟩
        { Machine.boot with
          rx := arriving 1060 (ascii "OK\r\n") ++
            arriving 2300 (ascii "AT+P2P=916100000:7:0:1:8:22\r\nOK\r\n") }).toOption.bind
      (fun r => observeP2P (getP2P ⟨0, 0, 0, 0, 0, 0⟩ r.2)) =
      some (true, ⟨916100000, 7, 0, 1, 8, 22⟩) ∧
    observeP2P (getP2P ⟨0, 0, 0, 0, 0, 0⟩
      { Machine.boot with
        rx := arriving 1060 (ascii "AT+P2P=916100000:7:0:1:8:22\r\nOK\r\n") }) =
      some (true, ⟨916100000, 7, 0, 1, 8, 22⟩) :=
  ⟨p2p_round_trip ⟨916100000, 7, 0, 1, 8, 22⟩ ⟨0, 0, 0, 0, 0, 0⟩
      { Machine.boot with rx := arriving 1060 (ascii "OK\r\n") }
      { Machine.boot with
        rx := arriving 1060 (ascii "AT+P2P=916100000:7:0:1:8:22\r\nOK\r\n") } 1060
      (List.length_replicate 1024 0) (List.length_replicate 1024 0) (by decide) (by decide)
      (by decide) (by decide) (by decide) (by decide) (by decide) ⟨by decide, by decide⟩,
    by decide, by decide, by decide, by decide⟩

/-- C23 (capacity check of `byteArrayToAscii`), the claim fails on the code: for
every byte length `n + 1` the text capacity `2 (n + 1) - 1`, one character short
of the hex digits required, is accepted and the call returns true; the test is
`a_array_len < b_array_len * 2 - 1`.  Capacities of `2 (n + 1) - 2` and less
are rejected. -/
theorem byteArrayToAscii_accepts_short_text (b a : Mem) (n k : Nat) :
    (byteArrayToAscii b a (n + 1) (2 * n + 1)).1 = true ∧
    (byteArrayToAscii b a (n + 1) (2 * n - k)).1 = false := by
  constructor
  · unfold byteArrayToAscii
    rw [if_neg (by omega)]
  · unfold byteArrayToAscii
    rw [if_pos (by omega)]

/-- C24 (write bound of `byteArrayToAscii`), the claim fails on the code: called
with `n + 1` bytes and a text capacity of `2 (n + 1)`, the call returns true and
the cell `a_array[2 (n + 1)]`, at the index `a_array_len`, holds the NUL that
`sprintf` writes after the last pair of digits, whatever it held before; with
the capacity `2 (n + 1) - 1` the second digit of the last byte is written at
the index `a_array_len` as well. -/
theorem byteArrayToAscii_writes_past_capacity (b a : Mem) (n : Nat) :
    (byteArrayToAscii b a (n + 1) (2 * (n + 1))).1 = true ∧
    (byteArrayToAscii b a (n + 1) (2 * (n + 1))).2 (2 * (n + 1)) = 0 ∧
    (byteArrayToAscii b a (n + 1) (2 * n + 1)).1 = true ∧
    (byteArrayToAscii b a (n + 1) (2 * n + 1)).2 (2 * n + 1) = hexDigit (b n % 256 % 16) ∧
    (byteArrayToAscii b a (n + 1) (2 * n + 1)).2 (2 * n + 2) = 0 ∧
    (byteArrayToAscii (fun _ => 18) (fun _ => 255) 16 32).2.bytes 34 =
      ascii "12121212121212121212121212121212" ++ [0, 255] := by
  have e1 : byteArrayToAscii b a (n + 1) (2 * (n + 1)) =
      (true, byteArrayToAsciiLoop b (n + 1) 0 a) := by
    unfold byteArrayToAscii
    rw [if_neg (by omega)]
  have e2 : byteArrayToAscii b a (n + 1) (2 * n + 1) =
      (true, byteArrayToAsciiLoop b (n + 1) 0 a) := by
    unfold byteArrayToAscii
    rw [if_neg (by omega)]
  have hnul := byteArrayToAsciiLoop_nul b n 0 a
  have hdig := (byteArrayToAsciiLoop_digits b (n + 1) 0 a n (Nat.zero_le _) (by omega)).2
  rw [e1, e2]
  refine ⟨rfl, ?_, rfl, ?_, ?_, by decide⟩
  · rw [show 2 * (n + 1) = (0 + n + 1) * 2 by omega]
    exact hnul
  · rw [show 2 * n + 1 = n * 2 + 1 by omega]
    exact hdig
  · rw [show 2 * n + 2 = (0 + n + 1) * 2 by omega]
    exact hnul

/-- C25 (odd length in `asciiArrayToByte`): for every odd `a_array_len`, whatever
the capacity and the contents, the call returns false and the byte array is as
it was. -/
theorem asciiArrayToByte_odd_length (b a : Mem) (b_array_len a_array_len : Nat)
    (hodd : a_array_len % 2 = 1) :
    asciiArrayToByte b a b_array_len a_array_len = (false, b) := by
  unfold asciiArrayToByte
  rw [if_pos (by omega)]

/-- Witness of C25: a text of 3 characters. -/
theorem asciiArrayToByte_odd_length_witness :
    asciiArrayToByte (fun _ => 255) (fun i => (ascii "0A1").getD i 0) 16 3 =
      (false, fun _ => 255) :=
  asciiArrayToByte_odd_length (fun _ => 255) (fun i => (ascii "0A1").getD i 0) 16 3 (by decide)

/-- C26 (capacity check of `asciiArrayToByte`), the claim fails on the code: for
every even text length `2 (n + 1)` the byte capacity `n`, one byte short of the
`n + 1` bytes required, is accepted and the call returns true; the test is
`b_array_len < a_array_len / 2 - 1`.  Capacities of two bytes short and less
are rejected. -/
theorem asciiArrayToByte_accepts_short_array (b a : Mem) (n k : Nat) :
    (asciiArrayToByte b a n (2 * (n + 1))).1 = true ∧
    (asciiArrayToByte b a (n - k) (2 * (n + 2))).1 = false := by
  constructor
  · unfold asciiArrayToByte
    rw [if_neg (by omega), if_neg (by omega)]
  · unfold asciiArrayToByte
    rw [if_neg (by omega), if_pos (by omega)]

/-- C27 (output of `byteArrayToAscii`): for `n` bytes `0..255` and a text capacity
of at least `2n`, the call returns true, `a_array[2i]` and `a_array[2i+1]` are
the upper-case hexadecimal digits of the high and of the low nibble of `b[i]`
for each `i < n`, and a NUL follows the `2n` digits. -/
theorem byteArrayToAscii_output (b a : Mem) (n a_cap : Nat) (hbyte : ∀ i < n, b i < 256)
    (hcap : 2 * n ≤ a_cap) :
    (byteArrayToAscii b a n a_cap).1 = true ∧
    (∀ i < n,
      (byteArrayToAscii b a n a_cap).2 (2 * i) = (ascii "0123456789ABCDEF").getD (b i / 16) 0 ∧
      (byteArrayToAscii b a n a_cap).2 (2 * i + 1) =
        (ascii "0123456789ABCDEF").getD (b i % 16) 0) ∧
    (0 < n → (byteArrayToAscii b a n a_cap).2 (2 * n) = 0) := by
  have e1 : byteArrayToAscii b a n a_cap = (true, byteArrayToAsciiLoop b n 0 a) := by
    unfold byteArrayToAscii
    rw [if_neg (by omega)]
  rw [e1]
  refine ⟨rfl, ?_, ?_⟩
  · intro i hi
    obtain ⟨h0, h1⟩ := byteArrayToAsciiLoop_digits b n 0 a i (Nat.zero_le _) (by omega)
    have hb := hbyte i hi
    rw [Nat.mod_eq_of_lt hb] at h0 h1
    simp only []
    rw [show 2 * i = i * 2 by omega, h0, h1]
    exact ⟨hexDigit_upper _ (by omega), hexDigit_upper _ (by omega)⟩
  · intro hn
    obtain ⟨k, rfl⟩ : ∃ k, n = k + 1 := ⟨n - 1, by omega⟩
    have := byteArrayToAsciiLoop_nul b k 0 a
    simp only []
    rw [show 2 * (k + 1) = (0 + k + 1) * 2 by omega]
    exact this

/-- Witness of C27: the bytes 0, 1, ..., 15 with a text array of 34 characters
give "000102030405060708090A0B0C0D0E0F". -/
theorem byteArrayToAscii_output_witness :
    ((byteArrayToAscii (fun i => i) (fun _ => 255) 16 34).1 = true ∧
      (∀ i < 16,
        (byteArrayToAscii (fun i => i) (fun _ => 255) 16 34).2 (2 * i) =
          (ascii "0123456789ABCDEF").getD ((fun i => i) i / 16) 0 ∧
        (byteArrayToAscii (fun i => i) (fun _ => 255) 16 34).2 (2 * i + 1) =
          (ascii "0123456789ABCDEF").getD ((fun i => i) i % 16) 0) ∧
      (0 < 16 → (byteArrayToAscii (fun i => i) (fun _ => 255) 16 34).2 (2 * 16) = 0)) ∧
    cstr ((byteArrayToAscii (fun i => i) (fun _ => 255) 16 34).2.bytes 34) =
      ascii "000102030405060708090A0B0C0D0E0F" :=
  ⟨byteArrayToAscii_output (fun i => i) (fun _ => 255) 16 34
      (fun i hi => Nat.lt_trans hi (by decide)) (by decide),
    by decide⟩

/-- C28 (output of `asciiArrayToByte`): for a text of `2n` hexadecimal digits
(upper or lower case) and a byte capacity of at least `n`, the call with
`a_array_len = 2n` returns true and `b_array[i]` is 16 times the value of
`a_array[2i]` plus the value of `a_array[2i+1]` for each `i < n`.  The arrays are
the caller's memory as the function addresses it; what the loop, which runs
`a_array_len` times, writes from index `n` on is left open. -/
theorem asciiArrayToByte_output (b a : Mem) (n b_cap : Nat)
    (hhex : ∀ j < 2 * n, digitVal (a j) < 16) (hcap : n ≤ b_cap) :
    (asciiArrayToByte b a b_cap (2 * n)).1 = true ∧
    ∀ i < n, (asciiArrayToByte b a b_cap (2 * n)).2 i =
      16 * digitVal (a (2 * i)) + digitVal (a (2 * i + 1)) := by
  have e1 : asciiArrayToByte b a b_cap (2 * n) = (true, asciiArrayToByteLoop a (2 * n) 0 b) := by
    unfold asciiArrayToByte
    rw [if_neg (by omega), if_neg (by omega)]
  rw [e1]
  refine ⟨rfl, ?_⟩
  intro i hi
  simp only []
  rw [asciiArrayToByteLoop_value a (2 * n) 0 b i (Nat.zero_le _) (by omega)]
  unfold doublet
  rw [show i * 2 = 2 * i by omega]
  exact strtol_hex_pair _ _ (hhex _ (by omega)) (hhex _ (by omega))

set_option maxRecDepth 100000 in
/-- Witness of C28: the text "000102030405060708090A0B0C0D0E0F" decodes to the
bytes 0, 1, ..., 15. -/
theorem asciiArrayToByte_output_witness :
    ((asciiArrayToByte (fun _ => 255)
          (fun i => (ascii "000102030405060708090A0B0C0D0E0F").getD i 48) 16 (2 * 16)).1 = true ∧
      ∀ i < 16, (asciiArrayToByte (fun _ => 255)
          (fun i => (ascii "000102030405060708090A0B0C0D0E0F").getD i 48) 16 (2 * 16)).2 i =
        16 * digitVal ((fun i => (ascii "000102030405060708090A0B0C0D0E0F").getD i 48) (2 * i)) +
          digitVal ((fun i => (ascii "000102030405060708090A0B0C0D0E0F").getD i 48) (2 * i + 1))) ∧
    (asciiArrayToByte (fun _ => 255)
        (fun i => (ascii "000102030405060708090A0B0C0D0E0F").getD i 0) 16 32).2.bytes 16 =
      [0, 1, 2, 3, 4, 5, 6, 7, 8, 9, 10, 11, 12, 13, 14, 15] :=
  ⟨asciiArrayToByte_output (fun _ => 255)
      (fun i => (ascii "000102030405060708090A0B0C0D0E0F").getD i 48) 16 16
      (by decide) (by decide),
    by decide⟩

/-- C29 (sub-commands of `initABP`): for a devADDR of 8 characters and an nwksKEY
and appsKEY of 32 characters, when the module answers every sub-command with
"OK" (each response read leaves a text with "OK" in `ret`), `initABP` returns
true and what it has printed to the module is, in this order, "at+devaddr=",
"at+nwkskey=" and "at+appskey=", each with the argument of the same name and a
line terminator, each preceded by the bare line terminator of `sendRawCommand`. -/
theorem initABP_sub_commands (x y z : List Nat) (m m' : Machine) (hlen : m.ret.length = 1024)
    (hx : x.length = 8) (hy : y.length = 32) (hz : z.length = 32)
    (hnul : 0 ∉ x ∧ 0 ∉ y ∧ 0 ∉ z)
    (hans : answeredOK { m with _devADDR := x, _nwksKEY := y, _appsKEY := z }
      [ascii "at+devaddr=" ++ x ++ ascii "\r\n", ascii "at+nwkskey=" ++ y ++ ascii "\r\n",
        ascii "at+appskey=" ++ z ++ ascii "\r\n"] = some m') :
    initABP x y z m = .ok (true, m') ∧
    m'.tx = m.tx ++ ascii "\r\n" ++ (ascii "at+devaddr=" ++ x ++ ascii "\r\n") ++
      ascii "\r\n" ++ (ascii "at+nwkskey=" ++ y ++ ascii "\r\n") ++
      ascii "\r\n" ++ (ascii "at+appskey=" ++ z ++ ascii "\r\n") := by
  have hv1 : (ascii "at+devaddr=").length = 11 := by decide
  have hv2 : (ascii "at+nwkskey=").length = 11 := by decide
  have hv3 : (ascii "at+appskey=").length = 11 := by decide
  have c1 := commandLine_plain "at+devaddr=" x hnul.1 (by omega)
  have c2 := commandLine_plain "at+nwkskey=" y hnul.2.1 (by omega)
  have c3 := commandLine_plain "at+appskey=" z hnul.2.2 (by omega)
  rw [answeredOK] at hans
  cases h1 : exchange (ascii "at+devaddr=" ++ x ++ ascii "\r\n")
      { m with _devADDR := x, _nwksKEY := y, _appsKEY := z } with
  | error e => rw [h1] at hans; cases hans
  | ok m1 =>
    rw [h1] at hans
    simp only at hans
    by_cases ok1 : retHas m1 "OK" = true
    · rw [if_pos ok1, answeredOK] at hans
      have f1 := exchange_ok_frame (by exact hlen) h1
      have hl1 : m1.ret.length = 1024 := by rw [f1.ret_length]; exact hlen
      cases h2 : exchange (ascii "at+nwkskey=" ++ y ++ ascii "\r\n") m1 with
      | error e => rw [h2] at hans; cases hans
      | ok m2 =>
        rw [h2] at hans
        simp only at hans
        by_cases ok2 : retHas m2 "OK" = true
        · rw [if_pos ok2, answeredOK] at hans
          have f2 := exchange_ok_frame hl1 h2
          have hl2 : m2.ret.length = 1024 := by rw [f2.ret_length]; exact hl1
          cases h3 : exchange (ascii "at+appskey=" ++ z ++ ascii "\r\n") m2 with
          | error e => rw [h3] at hans; cases hans
          | ok m3 =>
            rw [h3] at hans
            simp only at hans
            by_cases ok3 : retHas m3 "OK" = true
            · rw [if_pos ok3, answeredOK] at hans
              cases hans
              have f3 := exchange_ok_frame hl2 h3
              have k1 : m1._nwksKEY = y := f1.2.2.2.2.1
              have k2 : m2._appsKEY = z := f2.2.2.2.2.2.2.1.trans f1.2.2.2.2.2.2.1
              constructor
              · unfold initABP
                rw [if_pos hx, if_pos hy, if_pos hz]
                simp only [c1, h1, ok1, if_true, k1, c2, h2, ok2, k2, c3, h3, ok3]
              · rw [f3.tx_eq]
                simp only
                rw [f2.tx_eq]
                simp only
                rw [f1.tx_eq]
            · rw [if_neg ok3] at hans; cases hans
        · rw [if_neg ok2] at hans; cases hans
    · rw [if_neg ok1] at hans; cases hans

set_option maxRecDepth 100000 in
/-- Witness of C29: the credentials of the header's usage example, the module
answering "OK" to each of the three sub-commands. -/
theorem initABP_sub_commands_witness :
    (∃ m', initABP (ascii "01360085") (ascii "616a6b21d7fcb25012d62b38a5829725")
        (ascii "f55a71bcc94ec6498511007c64a06c02")
        { Machine.boot with
          rx := (arriving 1060 (ascii "OK\r\n") ++ arriving 2150 (ascii "OK\r\n") ++
            arriving 3240 (ascii "OK\r\n")) } = .ok (true, m') ∧
      m'.tx = Machine.boot.tx ++ ascii "\r\n" ++
        (ascii "at+devaddr=" ++ ascii "01360085" ++ ascii "\r\n") ++
        ascii "\r\n" ++ (ascii "at+nwkskey=" ++ ascii "616a6b21d7fcb25012d62b38a5829725" ++
          ascii "\r\n") ++
        ascii "\r\n" ++ (ascii "at+appskey=" ++ ascii "f55a71bcc94ec6498511007c64a06c02" ++
          ascii "\r\n")) ∧
    observeTx (initABP (ascii "01360085") (ascii "616a6b21d7fcb25012d62b38a5829725")
        (ascii "f55a71bcc94ec6498511007c64a06c02")
        { Machine.boot with
          rx := (arriving 1060 (ascii "OK\r\n") ++ arriving 2150 (ascii "OK\r\n") ++
            arriving 3240 (ascii "OK\r\n")) }) =
      some (true, ascii ("\r\nat+devaddr=01360085\r\n" ++
        "\r\nat+nwkskey=616a6b21d7fcb25012d62b38a5829725\r\n" ++
        "\r\nat+appskey=f55a71bcc94ec6498511007c64a06c02\r\n")) :=
  ⟨⟨_, initABP_sub_commands (ascii "01360085") (ascii "616a6b21d7fcb25012d62b38a5829725")
      (ascii "f55a71bcc94ec6498511007c64a06c02")
      { Machine.boot with
        rx := (arriving 1060 (ascii "OK\r\n") ++ arriving 2150 (ascii "OK\r\n") ++
          arriving 3240 (ascii "OK\r\n")) }
      ((answeredOK
        { Machine.boot with
          rx := (arriving 1060 (ascii "OK\r\n") ++ arriving 2150 (ascii "OK\r\n") ++
            arriving 3240 (ascii "OK\r\n")),
          _devADDR := ascii "01360085", _nwksKEY := ascii "616a6b21d7fcb25012d62b38a5829725",
          _appsKEY := ascii "f55a71bcc94ec6498511007c64a06c02" }
        [ascii "at+devaddr=" ++ ascii "01360085" ++ ascii "\r\n",
          ascii "at+nwkskey=" ++ ascii "616a6b21d7fcb25012d62b38a5829725" ++ ascii "\r\n",
          ascii "at+appskey=" ++ ascii "f55a71bcc94ec6498511007c64a06c02" ++ ascii "\r\n"]).getD
        Machine.boot)
      (List.length_replicate 1024 0) (by decide) (by decide) (by decide)
      ⟨by decide, by decide, by decide⟩ (by decide)⟩,
    by decide⟩

set_option maxRecDepth 100000 in
/-- C30 (credential getters and the caller's array), the claim fails on the code:
the getters call `asciiArrayToByte` with the text length 16, 34 or 32, and its
loop runs that many times, so the cell at the index 16, 34 or 32 of the byte
array is set to 0 whatever it held.  With an array filled with 0xFF and the
minimal `array_len`, `getDevEUI(eui, 8)` leaves 0 in `eui[8..16]` and
`getAppKey(key, 16)` leaves 0 in `key[16..34]`. -/
theorem credential_getters_write_past_array :
    (∀ b a : Mem, (asciiArrayToByte b a 8 16).2 16 = 0 ∧ (asciiArrayToByte b a 16 34).2 34 = 0 ∧
      (asciiArrayToByte b a 16 32).2 32 = 0) ∧
    observeKey 18 (getDevEUI (fun _ => 255) 8
      { Machine.boot with rx := arriving 1060 (ascii "AT+DEVEUI=AC1F09FFFE000001\r\nOK\r\n") }) =
      some (true, [172, 31, 9, 255, 254, 0, 0, 1, 0, 0, 0, 0, 0, 0, 0, 0, 0, 255]) ∧
    observeKey 36 (getAppKey (fun _ => 255) 16
      { Machine.boot with
        rx := arriving 1060 (ascii "AT+APPKEY=EFADFF0000004829ACF71E1A6E000000\r\nOK\r\n") }) =
      some (true, [239, 173, 255, 0, 0, 0, 72, 41, 172, 247, 30, 26, 110, 0, 0, 0,
        0, 0, 0, 0, 0, 0, 0, 0, 0, 0, 0, 0, 0, 0, 0, 0, 0, 0, 0, 255]) := by
  refine ⟨?_, by decide, by decide⟩
  intro b a
  have e1 : asciiArrayToByte b a 8 16 = (true, asciiArrayToByteLoop a 16 0 b) := by
    unfold asciiArrayToByte
    rw [if_neg (by decide), if_neg (by decide)]
  have e2 : asciiArrayToByte b a 16 34 = (true, asciiArrayToByteLoop a 34 0 b) := by
    unfold asciiArrayToByte
    rw [if_neg (by decide), if_neg (by decide)]
  have e3 : asciiArrayToByte b a 16 32 = (true, asciiArrayToByteLoop a 32 0 b) := by
    unfold asciiArrayToByte
    rw [if_neg (by decide), if_neg (by decide)]
  rw [e1, e2, e3]
  exact ⟨asciiArrayToByteLoop_nul a 15 0 b, asciiArrayToByteLoop_nul a 33 0 b,
    asciiArrayToByteLoop_nul a 31 0 b⟩

/-- C31 (encoding of `initP2P`), the claim fails on the code: `initP2P` rejects
nothing and sends the one line built by its format, and for a frequency below
2147483648 and the five `uint16_t` fields the line is "at+p2p=" followed by the
six unsigned decimal values; but the frequency is printed with `%ld`, as a
32-bit `long`, so a frequency of `2147483648 + k` is sent as a minus sign
followed by `2147483648 - k`.  With freq = 3000000000 the line sent is
"at+p2p=-1294967296:7:0:1:8:22". -/
theorem initP2P_prints_freq_signed :
    (∀ (s : p2p_settings) (m : Machine), initP2P s m = sendAndCheckOK (commandP2P s) m) ∧
    (∀ s : p2p_settings,
      commandP2P ⟨s.freq % 2147483648, s.sf % 65536, s.bw % 65536, s.cr % 65536, s.ppl % 65536,
          s.txp % 65536⟩ =
        ascii "at+p2p=" ++ ascii (Nat.repr (s.freq % 2147483648)) ++ ascii ":" ++
          ascii (Nat.repr (s.sf % 65536)) ++ ascii ":" ++ ascii (Nat.repr (s.bw % 65536)) ++
          ascii ":" ++ ascii (Nat.repr (s.cr % 65536)) ++ ascii ":" ++
          ascii (Nat.repr (s.ppl % 65536)) ++ ascii ":" ++ ascii (Nat.repr (s.txp % 65536)) ++
          ascii "\r\n") ∧
    (∀ s : p2p_settings,
      commandP2P ⟨2147483648 + s.freq % 2147483648, s.sf % 65536, s.bw % 65536, s.cr % 65536,
          s.ppl % 65536, s.txp % 65536⟩ =
        ascii "at+p2p=" ++ (45 :: ascii (Nat.repr (2147483648 - s.freq % 2147483648))) ++
          ascii ":" ++ ascii (Nat.repr (s.sf % 65536)) ++ ascii ":" ++
          ascii (Nat.repr (s.bw % 65536)) ++ ascii ":" ++ ascii (Nat.repr (s.cr % 65536)) ++
          ascii ":" ++ ascii (Nat.repr (s.ppl % 65536)) ++ ascii ":" ++
          ascii (Nat.repr (s.txp % 65536)) ++ ascii "\r\n") ∧
    observeTx (initP2P ⟨3000000000, 7, 0, 1, 8, 22⟩
        { Machine.boot with rx := arriving 1060 (ascii "OK\r\n") }) =
      some (true, ascii "\r\n" ++ ascii "at+p2p=-1294967296:7:0:1:8:22\r\n") := by
  have hlen16 : ∀ n : Nat, (fmtInt ((n % 65536 % 65536 : Nat) : Int)).length ≤ 5 := by
    intro n
    exact fmtInt_length _ 5 (by decide) (by norm_num; omega)
  have hrep16 : ∀ n : Nat, fmtInt ((n % 65536 % 65536 : Nat) : Int) =
      ascii (Nat.repr (n % 65536)) := by
    intro n
    rw [Nat.mod_mod, fmtInt_repr]
  refine ⟨fun _ _ => rfl, ?_, ?_, by decide⟩
  · intro s
    have h1 : (fmtInt (asLong (s.freq % 2147483648))).length ≤ 11 := by
      rw [asLong_low]
      have := fmtInt_length (s.freq % 2147483648) 10 (by decide) (by norm_num; omega)
      omega
    have := commandP2P_fits _ _ _ _ _ _ h1 (hlen16 s.sf) (hlen16 s.bw) (hlen16 s.cr)
      (hlen16 s.ppl) (hlen16 s.txp)
    unfold commandP2P p2pFields
    simp only
    rw [this, asLong_low, fmtInt_repr, hrep16, hrep16, hrep16, hrep16, hrep16]
  · intro s
    have hpos : 0 < 2147483648 - s.freq % 2147483648 := by omega
    have h1 : (fmtInt (asLong (2147483648 + s.freq % 2147483648))).length ≤ 11 := by
      rw [asLong_high, fmtInt_neg_repr _ hpos, ← fmtInt_repr]
      have := fmtInt_length (2147483648 - s.freq % 2147483648) 10 (by decide)
        (by norm_num; omega)
      simp only [List.length_cons]
      omega
    have := commandP2P_fits _ _ _ _ _ _ h1 (hlen16 s.sf) (hlen16 s.bw) (hlen16 s.cr)
      (hlen16 s.ppl) (hlen16 s.txp)
    unfold commandP2P p2pFields
    simp only
    rw [this, asLong_high, fmtInt_neg_repr _ hpos, hrep16, hrep16, hrep16, hrep16, hrep16]

/-- C32, amended (radio receive timeout in `recvRX`): on every stream of at most
1022 bytes without NUL bytes `recvRX` returns, and when "+EVT:RXP2P_RECEIVE_TIMEOUT"
is among the bytes it read, then either the byte that completes the token for
the first time is the last byte read, so that the call did not wait for a line
terminator or for the caller's timeout, `ret` holds exactly the bytes read and
at most 120000 ms have passed; or the poll after that byte fell more than
120000 ms after the entry and `ret` is "FAILED_RX". -/
theorem recvRX_receive_timeout (timeout : Nat) (m : Machine) (hlen : m.ret.length = 1024)
    (hshort : m.rx.length ≤ 1022) (hnul : 0 ∉ pending m) :
    ∃ m', recvRX timeout m = .ok m' ∧
      (ascii "+EVT:RXP2P_RECEIVE_TIMEOUT" <:+: consumed m m' →
        (cstr m'.ret = consumed m m' ∧
            ascii "+EVT:RXP2P_RECEIVE_TIMEOUT" <:+ consumed m m' ∧
            ¬ ascii "+EVT:RXP2P_RECEIVE_TIMEOUT" <:+: (consumed m m').dropLast ∧
            m'.now - m.now ≤ 120000) ∨
          (cstr m'.ret = ascii "FAILED_RX" ∧ 120000 < m'.now - m.now)) := by
  have hs := recvRX_sound timeout m hlen (by omega)
  match hres : recvRX timeout m, hs with
  | .error e, hs =>
    obtain ⟨_, hl, _⟩ := hs
    omega
  | .ok m', hs =>
    refine ⟨m', rfl, ?_⟩
    intro htok
    have hcn : 0 ∉ consumed m m' := nul_free_initial (consumed_initial m m') hnul
    obtain ⟨_, _, _, _, hq, hend⟩ := hs
    cases hend with
    | noRx hmark _ _ _ =>
      exfalso
      have := hasTok_rx_of_p2p _ (hasTok_of_occurrence "+EVT:RXP2P_RECEIVE_TIMEOUT" hcn htok)
      rw [hmark] at this
      exact absurd this (by decide)
    | failedRx _ hlate _ hret =>
      obtain ⟨r, hr⟩ := hret
      exact Or.inr ⟨by rw [hr]; exact cstr_snprintfLit r _ (by decide), hlate⟩
    | done hstop hret hintime =>
      obtain ⟨g, b, hc, _⟩ := hstop
      left
      have hgn : 0 ∉ g := fun h0 => hcn (by rw [hc]; exact List.mem_append_left _ h0)
      have hng : ¬ ascii "+EVT:RXP2P_RECEIVE_TIMEOUT" <:+: g :=
        quietRx_no_token (hc ▸ hq) hgn
      refine ⟨by rw [hret.cstr_eq, cstr_eq_self hcn], ?_, ?_, hintime⟩
      · rw [hc] at htok ⊢
        exact suffix_of_infix_concat htok hng
      · rw [hc, List.dropLast_concat]
        exact hng

set_option maxRecDepth 100000 in
/-- Witness of C32: the stream "\r\n+EVT:RXP2P_RECEIVE_TIMEOUT\r\n" read with a
timeout of 5000 ms: the call returns after 1120 ms with the 28 bytes up to the
end of the token in `ret` and the line terminator unread. -/
theorem recvRX_receive_timeout_witness :
    (∃ m', recvRX 5000 (Machine.fed (ascii "\r\n+EVT:RXP2P_RECEIVE_TIMEOUT\r\n")) = .ok m' ∧
      (ascii "+EVT:RXP2P_RECEIVE_TIMEOUT" <:+:
          consumed (Machine.fed (ascii "\r\n+EVT:RXP2P_RECEIVE_TIMEOUT\r\n")) m' →
        (cstr m'.ret = consumed (Machine.fed (ascii "\r\n+EVT:RXP2P_RECEIVE_TIMEOUT\r\n")) m' ∧
            ascii "+EVT:RXP2P_RECEIVE_TIMEOUT" <:+
              consumed (Machine.fed (ascii "\r\n+EVT:RXP2P_RECEIVE_TIMEOUT\r\n")) m' ∧
            ¬ ascii "+EVT:RXP2P_RECEIVE_TIMEOUT" <:+:
              (consumed (Machine.fed (ascii "\r\n+EVT:RXP2P_RECEIVE_TIMEOUT\r\n")) m').dropLast ∧
            m'.now - (Machine.fed (ascii "\r\n+EVT:RXP2P_RECEIVE_TIMEOUT\r\n")).now ≤ 120000) ∨
          (cstr m'.ret = ascii "FAILED_RX" ∧
            120000 < m'.now - (Machine.fed (ascii "\r\n+EVT:RXP2P_RECEIVE_TIMEOUT\r\n")).now))) ∧
    observeRx (recvRX 5000 (Machine.fed (ascii "\r\n+EVT:RXP2P_RECEIVE_TIMEOUT\r\n"))) =
      some (ascii "\r\n+EVT:RXP2P_RECEIVE_TIMEOUT", 1120, [(0, 13), (0, 10)]) :=
  ⟨recvRX_receive_timeout 5000 (Machine.fed (ascii "\r\n+EVT:RXP2P_RECEIVE_TIMEOUT\r\n"))
      (List.length_replicate 1024 0) (by decide) (by decide),
    by decide⟩

set_option maxRecDepth 100000 in
/-- Counterexample to C32 as stated: on the stream NUL "+EVT:RXP2P_RECEIVE_TIMEOUT"
read with a timeout of 2000 ms all 27 bytes are read, the token among them, yet
the call does not stop at the byte that completes it: behind the NUL the token
is never seen, the call waits for the caller's timeout and leaves "NO_RX". -/
theorem recvRX_receive_timeout_counterexample :
    observeRx (recvRX 2000 (Machine.fed (0 :: ascii "+EVT:RXP2P_RECEIVE_TIMEOUT"))) =
      some (ascii "NO_RX", 2020, []) := by
  decide

/-- C33, amended (blocking bound): on every stream of at most 1022 bytes and for
every timeout `t`, `flushRX(t)` returns when less than `t + 20` ms have passed
since its entry; `recvResponse(t)` returns when less than `t + 20` ms have
passed, unless it recognised a transmit confirmation, which it does less than
`t` ms after its entry, the `recvRX(5000)` it then runs taking up to 120040 ms
more (up to 5040 ms when no "+EVT:RX" is among the bytes that one reads);
`recvRX(t)` returns when at most `t + 40` ms have passed if "+EVT:RX" is not among
the bytes it read, and otherwise when at most 40 ms more than the larger of `t`
and 120000 ms have passed. -/
theorem read_operations_blocking_bound (t : Nat) (m : Machine) (hlen : m.ret.length = 1024)
    (hshort : m.rx.length ≤ 1022) :
    (∃ m', flushRX t m = .ok m' ∧ m'.now - m.now < t + 20) ∧
    (∃ r m', recvResponse t m = .ok (r, m') ∧
      (m'.now - m.now < t + 20 ∨
        (r = true ∧ ∃ m1, (∃ tok ∈ pendingTokens, ascii tok <:+: consumed m m1) ∧
          m.now ≤ m1.now ∧ m1.now - m.now < t ∧ recvRX 5000 m1 = .ok m' ∧
          m'.now - m1.now ≤ 120040 ∧
          (¬ ascii "+EVT:RX" <:+: consumed m1 m' → m'.now - m1.now ≤ 5040)))) ∧
    (∃ m', recvRX t m = .ok m' ∧ m'.now - m.now ≤ max 120000 t + 40 ∧
      (¬ ascii "+EVT:RX" <:+: consumed m m' → m'.now - m.now ≤ t + 40)) := by
  refine ⟨flushRX_clock t m (by omega), ?_, ?_⟩
  · rcases recvResponse_ok_or_overrun t m hlen with ⟨r, m', hres⟩ | ⟨hlong, _⟩
    · refine ⟨r, m', hres, ?_⟩
      obtain ⟨k, hk, hq, hend, hcount, m1, h1, h2, h3, h4, h5⟩ := recvResponse_returns hlen hres
      rcases h5 with ⟨_, hm⟩ | ⟨hv, hearly, hrun⟩
      · left
        rw [hm]
        exact h3
      · right
        have hs := recvRX_sound 5000 m1 h4 (by rw [h1, List.length_drop]; omega)
        rw [hrun] at hs
        have hclock := rxTop_clock hs
        have hr : r = true := by
          cases hend with
          | timedOut hr hv' => rw [hv] at hv'; cases hv'
          | succeeded hr hv' => rw [hv] at hv'; cases hv'
          | failed hr hv' => rw [hv] at hv'; cases hv'
          | chained hr => exact hr
        refine ⟨hr, m1, ?_, h2, hearly, hrun, by have := hclock.1; omega, hclock.2⟩
        rw [consumed_of_drop m m1 k hk h1]
        rcases (verdictOf_tokens _).1 hv with h6 | h6
        · exact ⟨"+EVT:TX_DONE", by decide, occurrence_of_hasTok _ (List.prefix_refl _) h6⟩
        · exact ⟨"+EVT:SEND_CONFIRMED_OK", by decide,
            occurrence_of_hasTok _ (List.prefix_refl _) h6⟩
    · omega
  · have hs := recvRX_sound t m hlen (by omega)
    match hres : recvRX t m, hs with
    | .error e, hs =>
      obtain ⟨_, hl, _⟩ := hs
      omega
    | .ok m', hs =>
      exact ⟨m', rfl, rxTop_clock hs⟩

set_option maxRecDepth 100000 in
/-- Witness of C33: the stream "AT+VER" read with a timeout of 200 ms by each of
the three operations. -/
theorem read_operations_blocking_bound_witness :
    ((∃ m', flushRX 200 (Machine.fed (ascii "AT+VER")) = .ok m' ∧
        m'.now - (Machine.fed (ascii "AT+VER")).now < 200 + 20) ∧
      (∃ r m', recvResponse 200 (Machine.fed (ascii "AT+VER")) = .ok (r, m') ∧
        (m'.now - (Machine.fed (ascii "AT+VER")).now < 200 + 20 ∨
          (r = true ∧ ∃ m1,
            (∃ tok ∈ pendingTokens, ascii tok <:+: consumed (Machine.fed (ascii "AT+VER")) m1) ∧
            (Machine.fed (ascii "AT+VER")).now ≤ m1.now ∧
            m1.now - (Machine.fed (ascii "AT+VER")).now < 200 ∧ recvRX 5000 m1 = .ok m' ∧
            m'.now - m1.now ≤ 120040 ∧
            (¬ ascii "+EVT:RX" <:+: consumed m1 m' → m'.now - m1.now ≤ 5040)))) ∧
      (∃ m', recvRX 200 (Machine.fed (ascii "AT+VER")) = .ok m' ∧
        m'.now - (Machine.fed (ascii "AT+VER")).now ≤ max 120000 200 + 40 ∧
        (¬ ascii "+EVT:RX" <:+: consumed (Machine.fed (ascii "AT+VER")) m' →
          m'.now - (Machine.fed (ascii "AT+VER")).now ≤ 200 + 40))) ∧
    observe (recvResponse 200 (Machine.fed (ascii "AT+VER"))) =
      some (false, ascii "AT+VER", 200, []) ∧
    observeRx (recvRX 200 (Machine.fed (ascii "AT+VER"))) = some (ascii "NO_RX", 240, []) :=
  ⟨read_operations_blocking_bound 200 (Machine.fed (ascii "AT+VER"))
      (List.length_replicate 1024 0) (by decide),
    by decide, by decide⟩

set_option maxRecDepth 100000 in
/-- Counterexample to C33 as stated: `recvRX(1000)` fed "+EVT:RX" and nothing more
returns 120020 ms after its entry, with "FAILED_RX"; `recvRX(10)` fed "ab" returns
after 40 ms; `recvResponse(240)` fed "+EVT:TX_DONE\r\n" returns after 5240 ms,
having run `recvRX(5000)`; and `recvResponse(60000)` fed 1024 bytes "A" does not
return at all: it writes `ret[1024]`. -/
theorem read_operations_blocking_bound_counterexample :
    observeRx (recvRX 1000 (Machine.fed (ascii "+EVT:RX"))) =
      some (ascii "FAILED_RX", 120020, []) ∧
    observeRx (recvRX 10 (Machine.fed (ascii "ab"))) = some (ascii "NO_RX", 40, [(0, 98)]) ∧
    observe (recvResponse 240 (Machine.fed (ascii "+EVT:TX_DONE\r\n"))) =
      some (true, ascii "NO_RX", 5240, []) ∧
    recvResponse 60000 (Machine.fed (List.replicate 1024 65)) = .error (.oob 1024) := by
  refine ⟨?_, by decide, by decide, ?_⟩
  · obtain ⟨m', hrun, hret, hnow, hrx⟩ := recvRX_marker_stall 1000 0 5986
      (Machine.fed (ascii "+EVT:RX")) (List.length_replicate 1024 0) rfl (Nat.le_refl _)
      (by decide) (by decide)
    rw [hrun]
    show some (cstr m'.ret, m'.now, m'.rx) = _
    rw [hret, hnow, hrx]
    rfl
  · have := recvResponse_filler_overrun []
    rw [List.append_nil] at this
    exact this

/-- C34 (`recvResponse` reads the shortest prefix that holds a sentinel): on every
stream without NUL bytes, a call that returns has read a prefix of the stream;
and when what it read holds no transmit confirmation and holds "OK",
"+EVT:TXP2P DONE" or a failure token (the call returned because one of these was
recognised), then no shorter prefix of what it read holds a sentinel, `ret`
holds exactly the bytes read, carriage returns and line feeds among them, and
the value returned is true exactly when a success token is among them.  The
only other runs are those with at least 1024 bytes pending, which can end in a
write outside `ret`. -/
theorem recvResponse_consumes_shortest (timeout : Nat) (m : Machine)
    (hlen : m.ret.length = 1024) (hnul : 0 ∉ pending m) :
    (∃ r m', recvResponse timeout m = .ok (r, m') ∧ consumed m m' <+: pending m ∧
      ((∀ tok ∈ pendingTokens, ¬ ascii tok <:+: consumed m m') →
        (∃ tok ∈ successTokens ++ failureTokens, ascii tok <:+: consumed m m') →
        cstr m'.ret = consumed m m' ∧ Holds m'.ret (consumed m m') ∧
          (∀ p, p <+: consumed m m' → p ≠ consumed m m' →
            ∀ tok ∈ sentinels, ¬ ascii tok <:+: p) ∧
          (r = true ↔ ∃ tok ∈ successTokens, ascii tok <:+: consumed m m'))) ∨
    (1024 ≤ m.rx.length ∧ Overruns (recvResponse timeout m)) := by
  rcases recvResponse_ok_or_overrun timeout m hlen with ⟨r, m', hres⟩ | h
  · left
    refine ⟨r, m', hres, consumed_initial m m', ?_⟩
    intro hnopend hrec
    obtain ⟨k, hk, hq, hend, _, _⟩ := recvResponse_returns hlen hres
    have hgp : (m.rx.take k).map Prod.snd <+: pending m := (List.take_prefix _ _).map _
    have hgn : 0 ∉ (m.rx.take k).map Prod.snd := nul_free_initial hgp hnul
    have hfinal : ∀ (hv : verdictOf (cstr ((m.rx.take k).map Prod.snd)) ≠ .none)
        (hrx : m'.rx = m.rx.drop k) (hret : Holds m'.ret ((m.rx.take k).map Prod.snd))
        (hr : r = true ↔ verdictOf (cstr ((m.rx.take k).map Prod.snd)) = .success)
        (hnp : verdictOf (cstr ((m.rx.take k).map Prod.snd)) ≠ .pendingRx),
        cstr m'.ret = consumed m m' ∧ Holds m'.ret (consumed m m') ∧
          (∀ p, p <+: consumed m m' → p ≠ consumed m m' →
            ∀ tok ∈ sentinels, ¬ ascii tok <:+: p) ∧
          (r = true ↔ ∃ tok ∈ successTokens, ascii tok <:+: consumed m m') := by
      intro hv hrx hret hr hnp
      rw [consumed_of_drop m m' k hk hrx]
      refine ⟨by rw [hret.cstr_eq, cstr_eq_self hgn], hret, ?_, ?_⟩
      · intro p hp hne
        by_cases hnil : p = []
        · rw [hnil]
          exact sentinels_nonempty
        · exact no_sentinel_of_quiet (nul_free_initial hp hgn) (quietResp_initial hq hp hne hnil)
      · rw [hr]
        constructor
        · intro hs
          rcases (verdictOf_tokens _).2.1 hs with h1 | h1
          · exact ⟨"+EVT:TXP2P DONE", by decide,
              occurrence_of_hasTok _ (List.prefix_refl _) h1⟩
          · exact ⟨"OK", by decide, occurrence_of_hasTok _ (List.prefix_refl _) h1⟩
        · rintro ⟨tok, htok, hin⟩
          have hh : hasTok (cstr ((m.rx.take k).map Prod.snd)) tok = true :=
            hasTok_of_occurrence tok hgn hin
          cases hvv : verdictOf (cstr ((m.rx.take k).map Prod.snd)) with
          | success => rfl
          | none => exact absurd hvv hv
          | pendingRx => exact absurd hvv hnp
          | failure =>
            have := (verdictOf_tokens _).2.2 hvv
            simp only [successTokens, List.mem_cons, List.mem_singleton, List.not_mem_nil,
              or_false] at htok
            rcases htok with rfl | rfl
            · rw [this.1] at hh; exact absurd hh (by decide)
            · rw [this.2] at hh; exact absurd hh (by decide)
    cases hend with
    | timedOut hr hv hrx hsame hnow hlate hret =>
      exfalso
      obtain ⟨tok, htok, hin⟩ := hrec
      rw [consumed_of_drop m m' k hk hrx] at hin
      refine no_sentinel_of_quiet hgn hv tok ?_ hin
      simp only [List.mem_append] at htok
      simp only [sentinels, List.mem_append]
      rcases htok with h1 | h1
      · exact Or.inl (Or.inr h1)
      · exact Or.inr h1
    | succeeded hr hv hrx hsame hnow hret =>
      exact hfinal (by rw [hv]; decide) hrx hret (by rw [hr, hv]; simp) (by rw [hv]; decide)
    | failed hr hv hrx hsame hnow hret =>
      exact hfinal (by rw [hv]; decide) hrx hret (by rw [hr, hv]; simp) (by rw [hv]; decide)
    | chained hr hv m1 hrx hsame hnow hret hrun =>
      exfalso
      have hle := (frame_recvRX hret.1 hrun).rx_length_le
      have hc := consumed_chain m m1 m' k hk hrx hle
      rcases (verdictOf_tokens _).1 hv with h1 | h1
      · exact hnopend "+EVT:TX_DONE" (by decide)
          (occurrence_of_hasTok _ (hc ▸ List.prefix_append _ _) h1)
      · exact hnopend "+EVT:SEND_CONFIRMED_OK" (by decide)
          (occurrence_of_hasTok _ (hc ▸ List.prefix_append _ _) h1)
  · exact Or.inr h

set_option maxRecDepth 100000 in
/-- Witness of C34: the stream "\r\nAT_PARAM_ERROR\r\n" read with a timeout of
1000 ms: the call returns false with the sixteen bytes up to the end of the
token in `ret`, the leading "\r\n" among them, and leaves the last two unread;
and the stream "\r\nOK\r\n", of which "\r\nOK" is read. -/
theorem recvResponse_consumes_shortest_witness :
    ((∃ r m', recvResponse 1000 (Machine.fed (ascii "\r\nAT_PARAM_ERROR\r\n")) = .ok (r, m') ∧
        consumed (Machine.fed (ascii "\r\nAT_PARAM_ERROR\r\n")) m' <+:
          pending (Machine.fed (ascii "\r\nAT_PARAM_ERROR\r\n")) ∧
        ((∀ tok ∈ pendingTokens,
            ¬ ascii tok <:+: consumed (Machine.fed (ascii "\r\nAT_PARAM_ERROR\r\n")) m') →
          (∃ tok ∈ successTokens ++ failureTokens,
            ascii tok <:+: consumed (Machine.fed (ascii "\r\nAT_PARAM_ERROR\r\n")) m') →
          cstr m'.ret = consumed (Machine.fed (ascii "\r\nAT_PARAM_ERROR\r\n")) m' ∧
            Holds m'.ret (consumed (Machine.fed (ascii "\r\nAT_PARAM_ERROR\r\n")) m') ∧
            (∀ p, p <+: consumed (Machine.fed (ascii "\r\nAT_PARAM_ERROR\r\n")) m' →
              p ≠ consumed (Machine.fed (ascii "\r\nAT_PARAM_ERROR\r\n")) m' →
              ∀ tok ∈ sentinels, ¬ ascii tok <:+: p) ∧
            (r = true ↔ ∃ tok ∈ successTokens,
              ascii tok <:+: consumed (Machine.fed (ascii "\r\nAT_PARAM_ERROR\r\n")) m'))) ∨
      (1024 ≤ (Machine.fed (ascii "\r\nAT_PARAM_ERROR\r\n")).rx.length ∧
        Overruns (recvResponse 1000 (Machine.fed (ascii "\r\nAT_PARAM_ERROR\r\n"))))) ∧
    observe (recvResponse 1000 (Machine.fed (ascii "\r\nAT_PARAM_ERROR\r\n"))) =
      some (false, ascii "\r\nAT_PARAM_ERROR", 300, [(0, 13), (0, 10)]) ∧
    observe (recvResponse 1000 (Machine.fed (ascii "\r\nOK\r\n"))) =
      some (true, ascii "\r\nOK", 60, [(0, 13), (0, 10)]) :=
  ⟨recvResponse_consumes_shortest 1000 (Machine.fed (ascii "\r\nAT_PARAM_ERROR\r\n"))
      (List.length_replicate 1024 0) (by decide),
    by decide, by decide⟩

/-- C35 (wire bytes of a set verb): for each class 0, 1 and 2, what `setClass`
has printed to the module link when it returns is what was printed before, the
bare line terminator "\r\n" and the one line "at+class=a\r\n", "at+class=b\r\n" or
"at+class=c\r\n", and nothing else; for every data rate `r` in 0..15,
`setDataRate` has printed "\r\n" and "at+dr=", `r` in decimal and "\r\n".  The
only other runs are those with at least 1024 bytes pending, which can end in a
write outside `ret` while the response is read. -/
theorem set_verb_wire_bytes (m : Machine) (r : Nat) (hlen : m.ret.length = 1024)
    (hr : r ≤ 15) :
    ((∃ ok m', setClass 0 m = .ok (ok, m') ∧
        m'.tx = m.tx ++ ascii "\r\n" ++ ascii "at+class=a\r\n") ∨
      (1024 ≤ m.rx.length ∧ Overruns (setClass 0 m))) ∧
    ((∃ ok m', setClass 1 m = .ok (ok, m') ∧
        m'.tx = m.tx ++ ascii "\r\n" ++ ascii "at+class=b\r\n") ∨
      (1024 ≤ m.rx.length ∧ Overruns (setClass 1 m))) ∧
    ((∃ ok m', setClass 2 m = .ok (ok, m') ∧
        m'.tx = m.tx ++ ascii "\r\n" ++ ascii "at+class=c\r\n") ∨
      (1024 ≤ m.rx.length ∧ Overruns (setClass 2 m))) ∧
    ((∃ ok m', setDataRate r m = .ok (ok, m') ∧
        m'.tx = m.tx ++ ascii "\r\n" ++ (ascii "at+dr=" ++ ascii (Nat.repr r) ++ ascii "\r\n")) ∨
      (1024 ≤ m.rx.length ∧ Overruns (setDataRate r m))) := by
  refine ⟨?_, ?_, ?_, ?_⟩
  · exact sendAndCheckOK_wire (ascii "at+class=a\r\n") m hlen
  · exact sendAndCheckOK_wire (ascii "at+class=b\r\n") m hlen
  · exact sendAndCheckOK_wire (ascii "at+class=c\r\n") m hlen
  · have hd : setDataRate r m = sendAndCheckOK (commandInt "at+dr=" (r : Int)) m := by
      unfold setDataRate
      rw [if_neg (by omega)]
    rw [hd, commandInt_small "at+dr=" r (by omega) (by decide)]
    exact sendAndCheckOK_wire _ m hlen

set_option maxRecDepth 100000 in
/-- Witness of C35: the freshly constructed engine and the data rate 5; and the
runs of `setClass(1)` and `setDataRate(5)` with the module answering "OK". -/
theorem set_verb_wire_bytes_witness :
    (((∃ ok m', setClass 0 Machine.boot = .ok (ok, m') ∧
          m'.tx = Machine.boot.tx ++ ascii "\r\n" ++ ascii "at+class=a\r\n") ∨
        (1024 ≤ Machine.boot.rx.length ∧ Overruns (setClass 0 Machine.boot))) ∧
      ((∃ ok m', setClass 1 Machine.boot = .ok (ok, m') ∧
          m'.tx = Machine.boot.tx ++ ascii "\r\n" ++ ascii "at+class=b\r\n") ∨
        (1024 ≤ Machine.boot.rx.length ∧ Overruns (setClass 1 Machine.boot))) ∧
      ((∃ ok m', setClass 2 Machine.boot = .ok (ok, m') ∧
          m'.tx = Machine.boot.tx ++ ascii "\r\n" ++ ascii "at+class=c\r\n") ∨
        (1024 ≤ Machine.boot.rx.length ∧ Overruns (setClass 2 Machine.boot))) ∧
      ((∃ ok m', setDataRate (5 : Nat) Machine.boot = .ok (ok, m') ∧
          m'.tx = Machine.boot.tx ++ ascii "\r\n" ++
            (ascii "at+dr=" ++ ascii (Nat.repr 5) ++ ascii "\r\n")) ∨
        (1024 ≤ Machine.boot.rx.length ∧ Overruns (setDataRate (5 : Nat) Machine.boot)))) ∧
    observeTx (setClass 1 { Machine.boot with rx := arriving 1060 (ascii "OK\r\n") }) =
      some (true, ascii "\r\nat+class=b\r\n") ∧
    observeTx (setDataRate 5 { Machine.boot with rx := arriving 1060 (ascii "OK\r\n") }) =
      some (true, ascii "\r\nat+dr=5\r\n") :=
  ⟨set_verb_wire_bytes Machine.boot 5 (List.length_replicate 1024 0) (by decide),
    by decide, by decide⟩

/-- C36 (each read starts from an empty buffer): two calls of `recvResponse`, or
of `recvRX`, with the same timeout in states that differ only in the contents
of the 1024 cells of `ret` end alike: both return, with the same value, the
same text in `ret`, the same clock and the same bytes left on the link, or
both end in the same write outside `ret`. -/
theorem reads_start_from_empty_buffer (timeout : Nat) (m : Machine) (r1 r2 : List Nat)
    (h1 : r1.length = 1024) (h2 : r2.length = 1024) :
    (recvResponse timeout { m with ret := r1 }).map (fun p => (p.1, textOnly p.2)) =
      (recvResponse timeout { m with ret := r2 }).map (fun p => (p.1, textOnly p.2)) ∧
    (recvRX timeout { m with ret := r1 }).map textOnly =
      (recvRX timeout { m with ret := r2 }).map textOnly :=
  ⟨recvResponse_alike timeout m r1 r2 h1 h2, recvRX_alike timeout m r1 r2 h1 h2⟩

set_option maxRecDepth 100000 in
/-- Witness of C36: the stream "AT+VER=1\r\nOK\r\n" read with a timeout of 1000 ms
from a buffer of zeros and from a buffer that holds 1024 bytes "A": both calls
of `recvResponse` return true with "AT+VER=1\r\nOK" in `ret`. -/
theorem reads_start_from_empty_buffer_witness :
    ((recvResponse 1000
          { Machine.fed (ascii "AT+VER=1\r\nOK\r\n") with ret := List.replicate 1024 0 }).map
        (fun p => (p.1, textOnly p.2)) =
      (recvResponse 1000
          { Machine.fed (ascii "AT+VER=1\r\nOK\r\n") with ret := List.replicate 1024 65 }).map
        (fun p => (p.1, textOnly p.2)) ∧
      (recvRX 1000
          { Machine.fed (ascii "AT+VER=1\r\nOK\r\n") with ret := List.replicate 1024 0 }).map
        textOnly =
      (recvRX 1000
          { Machine.fed (ascii "AT+VER=1\r\nOK\r\n") with ret := List.replicate 1024 65 }).map
        textOnly) ∧
    observe (recvResponse 1000
        { Machine.fed (ascii "AT+VER=1\r\nOK\r\n") with ret := List.replicate 1024 65 }) =
      some (true, ascii "AT+VER=1\r\nOK", 220, [(0, 13), (0, 10)]) ∧
    observe (recvResponse 1000
        { Machine.fed (ascii "AT+VER=1\r\nOK\r\n") with ret := List.replicate 1024 0 }) =
      some (true, ascii "AT+VER=1\r\nOK", 220, [(0, 13), (0, 10)]) :=
  ⟨reads_start_from_empty_buffer 1000 (Machine.fed (ascii "AT+VER=1\r\nOK\r\n"))
      (List.replicate 1024 0) (List.replicate 1024 65) (List.length_replicate 1024 0)
      (List.length_replicate 1024 65),
    by decide, by decide⟩

/-- C37 (index bounds of `asciiArrayToByte`), the claim fails on the code: called
with a text of `2 (n + 1)` characters and a byte array of `n + 1` bytes, the
sizes that fit each other, the call returns true, the cell `b_array[2 (n + 1)]`
is set to 0 whatever it held, and the cell `b_array[2 n + 1]` holds the value
of the pair `a_array[4 n + 2]`, `a_array[4 n + 3]`: a write at an index from
`b_array_len` on and two reads at indices from `a_array_len` on.  For a text
of two characters and an array of one byte, the result depends on `a_array[2]`. -/
theorem asciiArrayToByte_indices_past_lengths :
    (∀ (b a : Mem) (n : Nat),
      (asciiArrayToByte b a (n + 1) (2 * (n + 1))).1 = true ∧
      (asciiArrayToByte b a (n + 1) (2 * (n + 1))).2 (2 * (n + 1)) = 0 ∧
      (asciiArrayToByte b a (n + 1) (2 * (n + 1))).2 (2 * n + 1) =
        toChar (strtol (cstr [a (4 * n + 2), a (4 * n + 3), 0]) 16)) ∧
    (asciiArrayToByte (fun _ => 255) (fun i => if i = 2 then 70 else 48) 1 2).2.bytes 4 =
      [0, 240, 0, 255] ∧
    (asciiArrayToByte (fun _ => 255) (fun _ => 48) 1 2).2.bytes 4 = [0, 0, 0, 255] ∧
    (asciiArrayToByte (fun _ => 255) (fun i => (ascii "000102030405060708090A0B0C0D0E0F").getD i 0)
        16 32).2.bytes 34 =
      [0, 1, 2, 3, 4, 5, 6, 7, 8, 9, 10, 11, 12, 13, 14, 15, 0, 0, 0, 0, 0, 0, 0, 0, 0, 0, 0, 0,
        0, 0, 0, 0, 0, 255] := by
  refine ⟨?_, by decide, by decide, by decide⟩
  intro b a n
  have e : asciiArrayToByte b a (n + 1) (2 * (n + 1)) =
      (true, asciiArrayToByteLoop a (2 * (n + 1)) 0 b) := by
    unfold asciiArrayToByte
    rw [if_neg (by omega), if_neg (by omega)]
  rw [e]
  refine ⟨rfl, ?_, ?_⟩
  · have := asciiArrayToByteLoop_nul a (2 * n + 1) 0 b
    have h1 : 2 * n + 1 + 1 = 2 * (n + 1) := by omega
    have h2 : 0 + (2 * n + 1) + 1 = 2 * (n + 1) := by omega
    rw [h1, h2] at this
    exact this
  · have := asciiArrayToByteLoop_value a (2 * (n + 1)) 0 b (2 * n + 1) (Nat.zero_le _) (by omega)
    show asciiArrayToByteLoop a (2 * (n + 1)) 0 b (2 * n + 1) = _
    rw [this]
    unfold doublet
    have h1 : (2 * n + 1) * 2 = 4 * n + 2 := by omega
    have h2 : (2 * n + 1) * 2 + 1 = 4 * n + 3 := by omega
    rw [h2, h1]

/-- C38, amended (read rate of `recvResponse`): `recvResponse` reads at most one
byte per poll of 20 ms, so a call with the timeout `t` that returns has read at
most `ceil(t / 20)` bytes in its own loop: either that bounds all it read, or a
prefix `P` of at most that many bytes ends in a transmit confirmation and the
rest was read by the `recvRX(5000)` run after it.  When no sentinel is complete
within the first `ceil(t / 20)` bytes of the stream, the call returns false on
its timeout, whether or not the bytes were all available at entry.  The only
other runs are those with at least 1024 bytes pending, which can end in a write
outside `ret`. -/
theorem recvResponse_read_rate (timeout : Nat) (m : Machine) (hlen : m.ret.length = 1024) :
    (∃ r m', recvResponse timeout m = .ok (r, m') ∧
      ((consumed m m').length ≤ (timeout + 19) / 20 ∨
        ∃ P, P <+: consumed m m' ∧ P.length ≤ (timeout + 19) / 20 ∧
          verdictOf (cstr P) = .pendingRx) ∧
      ((∀ p, p <+: pending m → p.length ≤ (timeout + 19) / 20 →
          ∀ tok ∈ sentinels, ¬ ascii tok <:+: p) →
        r = false ∧ timeout ≤ m'.now - m.now ∧
          (consumed m m').length ≤ (timeout + 19) / 20)) ∨
    (1024 ≤ m.rx.length ∧ Overruns (recvResponse timeout m)) := by
  rcases recvResponse_ok_or_overrun timeout m hlen with ⟨r, m', hres⟩ | h
  · left
    refine ⟨r, m', hres, ?_⟩
    obtain ⟨k, hk, hq, hend, hcount, _⟩ := recvResponse_returns hlen hres
    have hgp : (m.rx.take k).map Prod.snd <+: pending m := (List.take_prefix _ _).map _
    have hgl : ((m.rx.take k).map Prod.snd).length ≤ (timeout + 19) / 20 := by
      rw [List.length_map, List.length_take]
      omega
    have hdirect : m'.rx = m.rx.drop k → (consumed m m').length ≤ (timeout + 19) / 20 := by
      intro hrx
      rw [consumed_of_drop m m' k hk hrx]
      exact hgl
    have hsent : verdictOf (cstr ((m.rx.take k).map Prod.snd)) ≠ .none →
        ¬ ∀ p, p <+: pending m → p.length ≤ (timeout + 19) / 20 →
          ∀ tok ∈ sentinels, ¬ ascii tok <:+: p := by
      intro hv hno
      apply hv
      rw [verdictOf_none_iff]
      intro tok htok
      by_contra hc
      exact hno _ hgp hgl tok htok
        (occurrence_of_hasTok tok (List.prefix_refl _) (by simpa using hc))
    cases hend with
    | timedOut hr hv hrx hsame hnow hlate hret =>
      exact ⟨Or.inl (hdirect hrx), fun _ => ⟨hr, hlate, hdirect hrx⟩⟩
    | succeeded hr hv hrx hsame hnow hret =>
      exact ⟨Or.inl (hdirect hrx), fun hno => absurd hno (hsent (by rw [hv]; decide))⟩
    | failed hr hv hrx hsame hnow hret =>
      exact ⟨Or.inl (hdirect hrx), fun hno => absurd hno (hsent (by rw [hv]; decide))⟩
    | chained hr hv m1 hrx hsame hnow hret hrun =>
      have hle := (frame_recvRX hret.1 hrun).rx_length_le
      have hc := consumed_chain m m1 m' k hk hrx hle
      exact ⟨Or.inr ⟨_, hc ▸ List.prefix_append _ _, hgl, hv⟩,
        fun hno => absurd hno (hsent (by rw [hv]; decide))⟩
  · exact Or.inr h

set_option maxRecDepth 100000 in
/-- Witness of C38: twenty bytes "A" and then "OK", all waiting at entry, read
with a timeout of 200 ms: ten bytes are read and the call returns false. -/
theorem recvResponse_read_rate_witness :
    ((∃ r m', recvResponse 200 (Machine.fed (List.replicate 20 65 ++ ascii "OK")) = .ok (r, m') ∧
        ((consumed (Machine.fed (List.replicate 20 65 ++ ascii "OK")) m').length ≤
            (200 + 19) / 20 ∨
          ∃ P, P <+: consumed (Machine.fed (List.replicate 20 65 ++ ascii "OK")) m' ∧
            P.length ≤ (200 + 19) / 20 ∧ verdictOf (cstr P) = .pendingRx) ∧
        ((∀ p, p <+: pending (Machine.fed (List.replicate 20 65 ++ ascii "OK")) →
            p.length ≤ (200 + 19) / 20 → ∀ tok ∈ sentinels, ¬ ascii tok <:+: p) →
          r = false ∧
            200 ≤ m'.now - (Machine.fed (List.replicate 20 65 ++ ascii "OK")).now ∧
            (consumed (Machine.fed (List.replicate 20 65 ++ ascii "OK")) m').length ≤
              (200 + 19) / 20)) ∨
      (1024 ≤ (Machine.fed (List.replicate 20 65 ++ ascii "OK")).rx.length ∧
        Overruns (recvResponse 200 (Machine.fed (List.replicate 20 65 ++ ascii "OK"))))) ∧
    observe (recvResponse 200 (Machine.fed (List.replicate 20 65 ++ ascii "OK"))) =
      some (false, List.replicate 10 65, 200, arriving 0 (List.replicate 10 65 ++ ascii "OK")) :=
  ⟨recvResponse_read_rate 200 (Machine.fed (List.replicate 20 65 ++ ascii "OK"))
      (List.length_replicate 1024 0),
    by decide⟩

set_option maxRecDepth 100000 in
/-- Counterexample to C38 as stated: with a timeout of 240 ms, `ceil(240 / 20)`
is 12, yet on "+EVT:TX_DONE" followed by "+EVT:RX:1\r" the call reads all 22
bytes, the last ten in the `recvRX(5000)` it runs after the confirmation; and
on 3024 bytes "A" followed by "OK\r\n" read with a timeout of 60000 ms, the first
sentinel ends after the first 3000 bytes, yet the call does not return false:
it writes `ret[1024]`. -/
theorem recvResponse_read_rate_counterexample :
    observe (recvResponse 240 (Machine.fed (ascii "+EVT:TX_DONE" ++ ascii "+EVT:RX:1\r"))) =
      some (true, ascii "+EVT:RX:1\r", 620, []) ∧
    (ascii "+EVT:TX_DONE" ++ ascii "+EVT:RX:1\r").length = 22 ∧ (240 + 19) / 20 = 12 ∧
    recvResponse 60000
        (Machine.fed (List.replicate 1024 65 ++ (List.replicate 2000 65 ++ ascii "OK\r\n"))) =
      .error (.oob 1024) ∧
    (60000 + 19) / 20 = 3000 :=
  ⟨by decide, by decide, by decide, recvResponse_filler_overrun _, by decide⟩

set_option maxRecDepth 100000 in
/-- C39 (where `getP2P` parses), the claim fails on the code: the tokens are
taken from `ret + 7`, not from the place at which "AT+P2P=" was found.  With
the answer "\r\nAT+P2P=916100000:7:0:1:8:22\r\nOK" the first token is
"P=916100000", so `getP2P` returns true with freq = 0; with a text ahead of the
marker the fields are shifted. -/
theorem getP2P_parses_at_offset_seven :
    observeP2P (getP2P ⟨1, 2, 3, 4, 5, 6⟩
      { Machine.boot with
        rx := arriving 1060 (ascii "\r\nAT+P2P=916100000:7:0:1:8:22\r\nOK\r\n") }) =
      some (true, ⟨0, 7, 0, 1, 8, 22⟩) ∧
    observeP2P (getP2P ⟨1, 2, 3, 4, 5, 6⟩
      { Machine.boot with
        rx := arriving 1060
          (ascii "Current Work Mode: LoRaWAN. AT+P2P=916100000:7:0:1:8:22\r\nOK\r\n") }) =
      some (true, ⟨0, 0, 7, 0, 1, 8⟩) ∧
    observeP2P (getP2P ⟨1, 2, 3, 4, 5, 6⟩
      { Machine.boot with rx := arriving 1060 (ascii "AT+P2P=916100000:7:0:1:8:22\r\nOK\r\n") }) =
      some (true, ⟨916100000, 7, 0, 1, 8, 22⟩) := by
  refine ⟨by decide, by decide, by decide⟩

set_option maxRecDepth 100000 in
/-- C40 (`getP2P` and incomplete answers), the claim fails on the code: in every
run the value returned is the outcome of the test for "AT+P2P=" in `ret`, however
many fields follow.  With the answer "AT+P2P=916100000:7\r\nOK" `getP2P` returns
true with freq and sf assigned and the other four fields as they were; with
"AT+P2P=\r\nOK" it returns true with freq = 0 and five fields as they were. -/
theorem getP2P_true_on_partial_answer :
    (∀ (s : p2p_settings) (m : Machine),
      (getP2P s m).toOption.map (fun r => r.1) =
        (exchange (ascii "at+p2p=?\r\n") m).toOption.map (fun m1 => retHas m1 "AT+P2P=")) ∧
    observeP2P (getP2P ⟨1, 2, 3, 4, 5, 6⟩
      { Machine.boot with rx := arriving 1060 (ascii "AT+P2P=916100000:7\r\nOK\r\n") }) =
      some (true, ⟨916100000, 7, 3, 4, 5, 6⟩) ∧
    observeP2P (getP2P ⟨1, 2, 3, 4, 5, 6⟩
      { Machine.boot with rx := arriving 1060 (ascii "AT+P2P=\r\nOK\r\n") }) =
      some (true, ⟨0, 2, 3, 4, 5, 6⟩) := by
  refine ⟨?_, by decide, by decide⟩
  intro s m
  unfold getP2P
  cases hex : exchange (ascii "at+p2p=?\r\n") m with
  | error e => rfl
  | ok m1 =>
    have hr : (Except.ok m1 : Except Fault Machine).toOption.map
        (fun m1 => retHas m1 "AT+P2P=") = some (retHas m1 "AT+P2P=") := rfl
    rw [hr]
    simp only
    cases hh : retHas m1 "AT+P2P=" with
    | false => rfl
    | true =>
      simp only [if_true]
      repeat' split
      all_goals rfl

end RUI3
